import Mathlib

/-!
# TinyFS: a shallow embedding of `libDisk.c` and `libTinyFS.c`

The development models the emulated block device (`libDisk.c`) and the TinyFS
volume manager (`libTinyFS.c`) as pure functions over an explicit process state.

Modelling conventions.

* A byte is a natural number (values below 256 are meaningful), a buffer is a list
  of bytes, C `int` values are integers.  Four-byte integers are stored
  little-endian, as the `memcpy`/`uint32_t` stores of the source do on the
  targets the program is written for.
* A host file is kept as its sequence of complete 256-byte blocks followed by the
  bytes that do not fill a block; the host file system maps a path to its file.
  `readBlock` and `writeBlock` act on that content at once.  The C library keeps
  the block of the last `fwrite` of a stream in the buffer of the stream until the
  next `fseek`, `fclose` or `exit`, and no function of the two source files flushes
  or closes a stream; the model does not represent that buffer.  It is exact for
  what a handle reads after its own writes; what a second handle on the same file
  reads can differ from it in the block last written through the first handle.
* `malloc` succeeds for every non-negative request and fails for a negative
  element count (which converts to a request larger than the address space).
* A call either returns, or has undefined behaviour in C (an access outside an
  allocation, a null dereference), or never returns; see `Outcome`.
-/

namespace TinyFS

/-! ## Buffers and the codec primitives -/

/-- A buffer of bytes, for instance one `malloc(BLOCKSIZE)` allocation. -/
abbrev Block := List Nat

/-- Value of `BLOCKSIZE`. -/
def BLOCKSIZE : Nat := 256
/-- Value of `MAX_BYTES`. -/
def MAX_BYTES : Int := 2147483647
/-- Value of `USEABLE_DATA_SIZE`. -/
def USEABLE_DATA_SIZE : Nat := 250
/-- Value of `MAGIC_NUMBER`. -/
def MAGIC_NUMBER : Nat := 0x44
/-- Value of `BLOCK_NUMBER_OFFSET`. -/
def BLOCK_NUMBER_OFFSET : Nat := 0
/-- Value of `MAGIC_NUMBER_OFFSET`. -/
def MAGIC_NUMBER_OFFSET : Nat := 1
/-- Value of `TIMESTAMP_BUFFER_SIZE`. -/
def TIMESTAMP_BUFFER_SIZE : Nat := 25
/-- Value of `SUPER_BLOCK`. -/
def SUPER_BLOCK : Int := 0
/-- Value of `FB_OFFSET`. -/
def FB_OFFSET : Nat := 2
/-- Value of `IB_OFFSET`. -/
def IB_OFFSET : Nat := 6
/-- Value of `SUPER_MAX_NUM_FILES_OFFSET`. -/
def SUPER_MAX_NUM_FILES_OFFSET : Nat := 10
/-- Value of `INODE_BLOCK_TYPE`. -/
def INODE_BLOCK_TYPE : Nat := 2
/-- Value of `INODE_NEXT_INODE_OFFSET`. -/
def INODE_NEXT_INODE_OFFSET : Nat := 2
/-- Value of `INODE_FILE_SIZE_OFFSET`. -/
def INODE_FILE_SIZE_OFFSET : Nat := 6
/-- Value of `INODE_DATA_BLOCK_OFFSET`. -/
def INODE_DATA_BLOCK_OFFSET : Nat := 10
/-- Value of `INODE_FILE_NAME_OFFSET`. -/
def INODE_FILE_NAME_OFFSET : Nat := 14
/-- Value of `INODE_CR8_TIME_STAMP_OFFSET`. -/
def INODE_CR8_TIME_STAMP_OFFSET : Nat := 23
/-- Value of `INODE_MOD_TIME_STAMP_OFFSET`. -/
def INODE_MOD_TIME_STAMP_OFFSET : Nat := 48
/-- Value of `INODE_ACC_TIME_STAMP_OFFSET`. -/
def INODE_ACC_TIME_STAMP_OFFSET : Nat := 73
/-- Value of `FREE_BLOCK_TYPE`. -/
def FREE_BLOCK_TYPE : Nat := 4
/-- Value of `FREE_NEXT_BLOCK_OFFSET`. -/
def FREE_NEXT_BLOCK_OFFSET : Nat := 2
/-- Value of `DATA_BLOCK_TYPE`. -/
def DATA_BLOCK_TYPE : Nat := 3
/-- Value of `DATA_NEXT_BLOCK_OFFSET`. -/
def DATA_NEXT_BLOCK_OFFSET : Nat := 2
/-- Value of `DATA_BLOCK_DATA_OFFSET`. -/
def DATA_BLOCK_DATA_OFFSET : Nat := 6
/-- Value of `MAX_FILE_NAME_SIZE`. -/
def MAX_FILE_NAME_SIZE : Nat := 9

/-- Modelled from the spec: the header `tinyFS_errno.h` is not among the sources.
The spec only says that every failure is reported by a negative code and that
distinct codes distinguish error classes, so the codes are a parameter of the
model; `Errno.Negative` states what the spec says about them. -/
structure Errno where
  FS_CREATION_ERROR : Int
  FS_MOUNT_ERROR : Int
  FS_UNMOUNT_ERROR : Int
  FILE_OPEN_ERROR : Int
  FILE_CLOSE_ERROR : Int
  FILE_READ_ERROR : Int
  FILE_WRITE_ERROR : Int
  FILE_DELETE_ERROR : Int
  FILE_RENAME_ERROR : Int
  FILE_BAD_DESCRIPTOR : Int
  BLOCK_READ_ERROR : Int
  DEALLOCATION_ERROR : Int
  NO_SPACE_LEFT : Int
  MEM_ALLOC_FAILURE : Int

/-- Modelled from the spec: every error code of `tinyFS_errno.h` is negative. -/
def Errno.Negative (e : Errno) : Prop :=
  e.FS_CREATION_ERROR < 0 ∧ e.FS_MOUNT_ERROR < 0 ∧ e.FS_UNMOUNT_ERROR < 0 ∧
  e.FILE_OPEN_ERROR < 0 ∧ e.FILE_CLOSE_ERROR < 0 ∧ e.FILE_READ_ERROR < 0 ∧
  e.FILE_WRITE_ERROR < 0 ∧ e.FILE_DELETE_ERROR < 0 ∧ e.FILE_RENAME_ERROR < 0 ∧
  e.FILE_BAD_DESCRIPTOR < 0 ∧ e.BLOCK_READ_ERROR < 0 ∧ e.DEALLOCATION_ERROR < 0 ∧
  e.NO_SPACE_LEFT < 0 ∧ e.MEM_ALLOC_FAILURE < 0

instance (e : Errno) : Decidable e.Negative := by
  unfold Errno.Negative; infer_instance

/-- A sample assignment of error codes, all negative and pairwise distinct. -/
def sampleErrno : Errno :=
  { FS_CREATION_ERROR := -1, FS_MOUNT_ERROR := -2, FS_UNMOUNT_ERROR := -3,
    FILE_OPEN_ERROR := -4, FILE_CLOSE_ERROR := -5, FILE_READ_ERROR := -6,
    FILE_WRITE_ERROR := -7, FILE_DELETE_ERROR := -8, FILE_RENAME_ERROR := -9,
    FILE_BAD_DESCRIPTOR := -10, BLOCK_READ_ERROR := -11, DEALLOCATION_ERROR := -12,
    NO_SPACE_LEFT := -13, MEM_ALLOC_FAILURE := -14 }

/-- Result of a call: it returns `code` with payload `out` (the state after the
call, possibly with an output), or it has undefined behaviour in C, or it never
returns. -/
inductive Outcome (α : Type) where
  | ret (code : Int) (out : α)
  | undefined
  | diverge
deriving DecidableEq, Repr

/-- The return code of a call that returned. -/
def Outcome.code? {α : Type} : Outcome α → Option Int
  | .ret c _ => some c
  | .undefined => none
  | .diverge => none

/-- The payload of a call that returned. -/
def Outcome.out? {α : Type} : Outcome α → Option α
  | .ret _ o => some o
  | .undefined => none
  | .diverge => none

/-- The two's-complement value of an integer truncated to 32 bits. -/
def wrap32 (v : Int) : Int :=
  let m := v % 4294967296
  if 2147483648 ≤ m then m - 4294967296 else m

/-- The four bytes of a 32-bit integer, least significant first. -/
def intBytes (v : Int) : List Nat :=
  let u := (v % 4294967296).toNat
  [u % 256, u / 256 % 256, u / 65536 % 256, u / 16777216 % 256]

/-- The call `memcpy(dst + off, src, |src|)` on a buffer, for a source that fits. -/
def memcpy (dst : Block) (off : Nat) (src : List Nat) : Block :=
  dst.take off ++ src ++ dst.drop (off + src.length)

/-- The call `memset(dst + off, 0, n)` on a buffer. -/
def memsetZero (dst : Block) (off n : Nat) : Block :=
  memcpy dst off (List.replicate n 0)

/-- The bytes `buf[off .. off + n)`. -/
def slice (buf : Block) (off n : Nat) : List Nat :=
  (buf.drop off).take n

/-- Store of a 4-byte integer at `off`: `memcpy(buf + off, &v, sizeof(int))`. -/
def writeInt (buf : Block) (off : Nat) (v : Int) : Block :=
  memcpy buf off (intBytes v)

/-- Load of a 4-byte integer from `off`: `memcpy(&v, buf + off, sizeof(int))`.
A list entry stands for the byte it is congruent to modulo 256. -/
def readInt (buf : Block) (off : Nat) : Int :=
  wrap32 (Int.ofNat (buf.getD off 0 % 256 + 256 * (buf.getD (off + 1) 0 % 256)
    + 65536 * (buf.getD (off + 2) 0 % 256) + 16777216 * (buf.getD (off + 3) 0 % 256)))

/-- Store of one byte: `buf[off] = v`. -/
def setByte (buf : Block) (off : Nat) (v : Nat) : Block :=
  buf.set off v

/-- A buffer of `BLOCKSIZE` zero bytes (`memset(p, 0, BLOCKSIZE)`). -/
def zeroBlock : Block := List.replicate BLOCKSIZE 0

/-- The C string a `char *` argument points to: the bytes before the first zero
byte. -/
def cstr (name : List Nat) : List Nat := name.takeWhile (fun c => c != 0)

/-- The call `strlen(name)`. -/
def strlen (name : List Nat) : Nat := (cstr name).length

/-- The call `strcmp(fileName, name) == 0` where `fileName` is the local array of
`MAX_FILE_NAME_SIZE` bytes holding a copy of the name slot.  When the array holds
a terminator the result is defined: the bytes before it are compared with the
string `name`.  When it holds none, a difference inside the array still decides
the comparison; otherwise the comparison runs past the array and the result is
`none` (undefined behaviour). -/
def strcmpSlot (fileName : List Nat) (name : List Nat) : Option Bool :=
  let stored := cstr fileName
  if stored.length < fileName.length then some (decide (stored = cstr name))
  else if (cstr name).take fileName.length = fileName then none
  else some false

/-! ## The host file system and the block device registry (`libDisk.c`) -/

/-- A host file: its complete 256-byte blocks in order, then the trailing bytes
that do not fill a block. -/
structure HostFile where
  blocks : List Block
  rest : List Nat
deriving DecidableEq, Repr

/-- Length of a host file in bytes (what `ftell` reports at the end). -/
def HostFile.size (f : HostFile) : Int :=
  Int.ofNat (BLOCKSIZE * f.blocks.length + f.rest.length)

/-- Effect of `fseek(fp, bNum * BLOCKSIZE, SEEK_SET)` followed by a `fwrite` of one
block on the content that the stream reads back: the block replaces block `bNum`;
a write beyond the end of the file first extends the file with zero bytes.  The
buffer in which the C library holds the block until the next `fseek` on the
stream is not represented (see the conventions at the top). -/
def HostFile.write (f : HostFile) (bNum : Nat) (blk : Block) : HostFile :=
  if bNum < f.blocks.length then { blocks := f.blocks.set bNum blk, rest := f.rest }
  else if bNum = f.blocks.length then { blocks := f.blocks ++ [blk], rest := [] }
  else
    { blocks := f.blocks ++ [f.rest ++ List.replicate (BLOCKSIZE - f.rest.length) 0]
        ++ List.replicate (bNum - f.blocks.length - 1) zeroBlock ++ [blk],
      rest := [] }

/-- The struct `Disk` of `libDisk.h`.  The `FILE *` is represented by the path
it was opened on and by whether the stream can be read (`"r+"`) or not (`"w"`). -/
structure Disk where
  diskNumber : Int
  nBytes : Int
  filename : String
  readable : Bool
deriving DecidableEq, Repr

/-- The struct `fileDescriptorTableEntry` of `libTinyFS.h`. -/
structure fileDescriptorTableEntry where
  inodeNumber : Int
  filePointer : Int
deriving DecidableEq, Repr

/-- The state of the process: the host files, the globals of `libDisk.c`
(`diskCounter`, `diskListHead`) and the globals of `libTinyFS.c`
(`fileDescriptorTable`, where `none` is the null pointer, `activeDisk`,
`maxNumberOfFiles`).  `creatable` tells for which paths `fopen(path, "w")`
succeeds. -/
structure State where
  files : String → Option HostFile
  creatable : String → Bool
  diskCounter : Int
  diskListHead : List Disk
  fileDescriptorTable : Option (List (Option fileDescriptorTableEntry))
  activeDisk : Int
  maxNumberOfFiles : Int

/-- The state of a process that has just started: `diskCounter = 1`, no disk
open, no table, nothing mounted. -/
def initialState (files : String → Option HostFile) (creatable : String → Bool) : State :=
  { files := files, creatable := creatable, diskCounter := 1, diskListHead := [],
    fileDescriptorTable := none, activeDisk := 0, maxNumberOfFiles := 0 }

/-- The search loop shared by `closeDisk`, `readBlock` and `writeBlock`: the first
entry of the list whose `diskNumber` is `disk`. -/
def findDisk (l : List Disk) (disk : Int) : Option Disk :=
  l.find? (fun d => decide (d.diskNumber = disk))

/-- The function `openDisk` of `libDisk.c`. -/
def openDisk (filename : String) (nBytes : Int) (s : State) : Int × State :=
  if nBytes = 0 then
    match s.files filename with
    | none => (-1, s)
    | some f =>
      let fileSize := f.size
      if Int.tmod fileSize 256 ≠ 0 then (-1, s)
      else
        (s.diskCounter,
          { s with
            diskCounter := s.diskCounter + 1,
            diskListHead := { diskNumber := s.diskCounter, nBytes := fileSize,
                              filename := filename, readable := true } :: s.diskListHead })
  else if nBytes < 256 then (-1, s)
  else
    let nBytes1 := if Int.tmod nBytes 256 ≠ 0 then nBytes - Int.tmod nBytes 256 else nBytes
    if s.creatable filename = false then (-1, s)
    else
      let zeroed : HostFile :=
        { blocks := List.replicate (Int.tdiv nBytes1 256).toNat zeroBlock, rest := [] }
      (s.diskCounter,
        { s with
          files := fun p => if p = filename then some zeroed else s.files p,
          diskCounter := s.diskCounter + 1,
          diskListHead := { diskNumber := s.diskCounter, nBytes := nBytes1,
                            filename := filename, readable := false } :: s.diskListHead })

/-- The list of open disks without its first entry numbered `disk`. -/
def removeDisk (l : List Disk) (disk : Int) : List Disk :=
  match l with
  | [] => []
  | d :: ds => if d.diskNumber = disk then ds else d :: removeDisk ds disk

/-- The function `closeDisk` of `libDisk.c`. -/
def closeDisk (disk : Int) (s : State) : Int × State :=
  match findDisk s.diskListHead disk with
  | some _ => (0, { s with diskListHead := removeDisk s.diskListHead disk })
  | none => (-1, s)

/-- The function `readBlock` of `libDisk.c`: `some block` when it returns 0 and
has filled the buffer, `none` when it returns -1. -/
def readBlock (disk : Int) (bNum : Int) (s : State) : Option Block :=
  match findDisk s.diskListHead disk with
  | none => none
  | some d =>
    if bNum < 0 ∨ bNum ≥ Int.tdiv d.nBytes 256 then none
    else if d.readable = false then none
    else
      match s.files d.filename with
      | none => none
      | some f => f.blocks[bNum.toNat]?

/-- The function `writeBlock` of `libDisk.c`: the return value and the state
after the call.  The content of a file is kept once for all handles on it, so the
block is at once what every handle on the file reads; this is exact for the
handle that wrote it, and ahead of the C library for any other handle (see the
conventions at the top). -/
def writeBlock (disk : Int) (bNum : Int) (block : Block) (s : State) : Int × State :=
  match findDisk s.diskListHead disk with
  | none => (-1, s)
  | some d =>
    if bNum < 0 ∨ bNum ≥ Int.tdiv d.nBytes 256 then (-1, s)
    else
      match s.files d.filename with
      | none => (-1, s)
      | some f =>
        (0, { s with files := fun p =>
                if p = d.filename then some (f.write bNum.toNat block) else s.files p })

/-! ## The volume manager (`libTinyFS.c`) -/

/-- The buffer `timeStampBuffer` after `getTimestamp(timeStampBuffer, 25)`:
`clock i` is the byte the buffer holds at index `i` (the formatted local time,
its terminator, and whatever the allocation held behind it). -/
def getTimestamp (clock : Nat → Nat) : List Nat :=
  (List.range TIMESTAMP_BUFFER_SIZE).map clock

/-- A free block as `tfs_mkfs` writes it at index `i`: tag 4 and the index of the
next block, except for the last block, which gets tag 0 and next 0. -/
def mkfsBlock (totalBlocks i : Int) : Block :=
  writeInt
    (setByte (setByte zeroBlock BLOCK_NUMBER_OFFSET (if i < totalBlocks then 4 else 0))
      MAGIC_NUMBER_OFFSET MAGIC_NUMBER)
    2 (if i < totalBlocks then i + 1 else 0)

/-- The loop `for (i = 1; i <= totalBlocks; i++)` of `tfs_mkfs`; the first
argument counts the iterations that remain, the second is `i`. -/
def mkfsLoop (e : Errno) (diskID totalBlocks : Int) : Nat → Int → State → Int × State
  | 0, _, s => (1, s)
  | n + 1, i, s =>
    let r := writeBlock diskID i (mkfsBlock totalBlocks i) s
    if r.1 < 0 then (e.FS_CREATION_ERROR, r.2)
    else mkfsLoop e diskID totalBlocks n (i + 1) r.2

/-- The superblock `tfs_mkfs` writes. -/
def mkfsSuperBlock (fileLimit : Int) : Block :=
  writeInt
    (writeInt
      (setByte (setByte zeroBlock BLOCK_NUMBER_OFFSET 1) MAGIC_NUMBER_OFFSET MAGIC_NUMBER)
      2 2)
    SUPER_MAX_NUM_FILES_OFFSET fileLimit

/-- The function `tfs_mkfs`. -/
def tfs_mkfs (e : Errno) (filename : String) (nBytes : Int) (s : State) : Int × State :=
  if nBytes < 0 ∨ nBytes > MAX_BYTES then (e.FS_CREATION_ERROR, s)
  else
    let totalBlocks := Int.tdiv nBytes 256 - 1
    if totalBlocks < 3 then (e.FS_CREATION_ERROR, s)
    else
      let o := openDisk filename nBytes s
      let diskID := o.1
      if diskID < 0 then (e.FS_CREATION_ERROR, o.2)
      else
        let fileLimit := Int.tdiv totalBlocks 2
        if fileLimit < 1 then (e.FS_CREATION_ERROR, o.2)
        else
          let r := writeBlock diskID 0 (mkfsSuperBlock fileLimit) o.2
          if r.1 < 0 then (e.FS_CREATION_ERROR, r.2)
          else mkfsLoop e diskID totalBlocks totalBlocks.toNat 1 r.2

/-- The function `tfs_mount`.  The validation loop runs only while `readBlock`
fails; its body then inspects a buffer that was never filled. -/
def tfs_mount (e : Errno) (diskname : String) (s : State) : Outcome State :=
  if s.activeDisk ≠ 0 then .ret e.FS_MOUNT_ERROR s
  else
    let o := openDisk diskname 0 s
    let s1 : State := { o.2 with activeDisk := o.1 }
    if o.1 = -1 then .ret e.FS_MOUNT_ERROR { s1 with activeDisk := 0 }
    else
      match readBlock s1.activeDisk SUPER_BLOCK s1 with
      | none => .ret e.FS_MOUNT_ERROR s1
      | some superData =>
        let s2 : State :=
          { s1 with maxNumberOfFiles := readInt superData SUPER_MAX_NUM_FILES_OFFSET }
        match readBlock s2.activeDisk 0 s2 with
        | none => .undefined
        | some _ =>
          if s2.maxNumberOfFiles < 0 then
            .ret e.FS_MOUNT_ERROR { s2 with fileDescriptorTable := none }
          else
            let table : List (Option fileDescriptorTableEntry) :=
              List.replicate s2.maxNumberOfFiles.toNat none
            .ret s2.activeDisk { s2 with fileDescriptorTable := some table }

/-- The function `tfs_unmount`. -/
def tfs_unmount (e : Errno) (s : State) : Outcome State :=
  if s.activeDisk = 0 then .ret e.FS_UNMOUNT_ERROR s
  else
    let done : State := { s with activeDisk := 0, fileDescriptorTable := none }
    match s.fileDescriptorTable with
    | none => if s.maxNumberOfFiles ≤ 0 then .ret 1 done else .undefined
    | some t => if s.maxNumberOfFiles.toNat ≤ t.length then .ret 1 done else .undefined

/-- The read `fileDescriptorTable[fd]`: `none` when the access is undefined (null
table, index outside the allocation), otherwise the pointer stored in the slot. -/
def tableGet (t : Option (List (Option fileDescriptorTableEntry))) (fd : Int) :
    Option (Option fileDescriptorTableEntry) :=
  match t with
  | none => none
  | some l => if fd < 0 then none else l[fd.toNat]?

/-- The loop `while (fileDescriptorTable[currentFileDescriptor] != NULL)
currentFileDescriptor++`: the first empty slot, or `none` when the loop leaves the
allocation. -/
def firstEmpty : List (Option fileDescriptorTableEntry) → Option Nat
  | [] => none
  | none :: _ => some 0
  | some _ :: t => (firstEmpty t).map (fun i => i + 1)

/-- The loop of `tfs_openFile` that looks for an open descriptor on `inode` among
the first `maxNumberOfFiles` slots: `some true` when one is found, `some false`
when none is, `none` when the loop reads outside the table first. -/
def alreadyOpen (t : Option (List (Option fileDescriptorTableEntry)))
    (maxNumberOfFiles : Int) (inode : Int) : Option Bool :=
  let n := maxNumberOfFiles.toNat
  let l := t.getD []
  if (l.take n).any
      (fun x => match x with
        | some en => decide (en.inodeNumber = inode)
        | none => false) then some true
  else if l.length < n then none
  else if t.isNone ∧ 0 < n then none
  else some false

/-- Number of blocks of disk `disk` according to the registry (0 when unknown). -/
def diskBlocks (s : State) (disk : Int) : Nat :=
  match findDisk s.diskListHead disk with
  | none => 0
  | some d => (Int.tdiv d.nBytes 256).toNat

/-- How the inode search of `tfs_openFile` ends. -/
inductive Search where
  | found (inode : Int) (inodeBuffer : Block)
  | notFound
  | readError
  | undefined
  | diverge
deriving DecidableEq, Repr

/-- The loop `while (1)` of `tfs_openFile` that walks the inode list.  The first
argument bounds the number of iterations: the loop reads one block per iteration
and does not write, so a walk that is still running after more iterations than
the disk has blocks has come back to a block it has seen and never ends. -/
def searchInode (name : List Nat) (s : State) : Nat → Int → Search
  | 0, _ => .diverge
  | fuel + 1, inodeCurrent =>
    match readBlock s.activeDisk inodeCurrent s with
    | none => .readError
    | some inodeBuffer =>
      match strcmpSlot (slice inodeBuffer INODE_FILE_NAME_OFFSET MAX_FILE_NAME_SIZE) name with
      | none => .undefined
      | some true => .found inodeCurrent inodeBuffer
      | some false =>
        if inodeBuffer.getD INODE_NEXT_INODE_OFFSET 0 % 256 = 0 then .notFound
        else searchInode name s fuel (readInt inodeBuffer INODE_NEXT_INODE_OFFSET)

/-- The branch of `tfs_openFile` taken when the name is found in inode
`inodeCurrent`. -/
def openExisting (e : Errno) (clock : Nat → Nat) (inodeCurrent : Int) (inodeBuffer : Block)
    (s : State) : Outcome State :=
  match alreadyOpen s.fileDescriptorTable s.maxNumberOfFiles inodeCurrent with
  | none => .undefined
  | some true => .ret e.FILE_OPEN_ERROR s
  | some false =>
    match s.fileDescriptorTable with
    | none => .undefined
    | some t =>
      match firstEmpty t with
      | none => .undefined
      | some fd =>
        let newEntry : fileDescriptorTableEntry :=
          { inodeNumber := inodeCurrent, filePointer := 0 }
        let s1 : State := { s with fileDescriptorTable := some (t.set fd (some newEntry)) }
        let buf := memcpy (memsetZero inodeBuffer INODE_ACC_TIME_STAMP_OFFSET TIMESTAMP_BUFFER_SIZE)
          INODE_ACC_TIME_STAMP_OFFSET (getTimestamp clock)
        let w := writeBlock s1.activeDisk inodeCurrent buf s1
        if w.1 < 0 then .ret e.FILE_OPEN_ERROR w.2
        else .ret (Int.ofNat fd) w.2

/-- The inode block `tfs_openFile` builds in the buffer of the free block it
takes. -/
def newInode (freeBlockData : Block) (inodeHead : Int) (name : List Nat) (clock : Nat → Nat) :
    Block :=
  let b0 := setByte (setByte freeBlockData BLOCK_NUMBER_OFFSET INODE_BLOCK_TYPE)
    MAGIC_NUMBER_OFFSET MAGIC_NUMBER
  let b1 := writeInt b0 INODE_NEXT_INODE_OFFSET inodeHead
  let b2 := writeInt (writeInt b1 INODE_FILE_SIZE_OFFSET 0) INODE_DATA_BLOCK_OFFSET 0
  let b3 := memcpy (memsetZero b2 INODE_FILE_NAME_OFFSET MAX_FILE_NAME_SIZE)
    INODE_FILE_NAME_OFFSET (cstr name)
  memcpy
    (memcpy (memcpy b3 INODE_CR8_TIME_STAMP_OFFSET (getTimestamp clock))
      INODE_MOD_TIME_STAMP_OFFSET (getTimestamp clock))
    INODE_ACC_TIME_STAMP_OFFSET (getTimestamp clock)

/-- The branch of `tfs_openFile` that creates the file, entered with the
superblock read at the start of the call. -/
def openCreate (e : Errno) (name : List Nat) (clock : Nat → Nat) (superData : Block)
    (s : State) : Outcome State :=
  let freeBlockHead := readInt superData FB_OFFSET
  if freeBlockHead = 0 then .ret e.NO_SPACE_LEFT s
  else
    match readBlock s.activeDisk freeBlockHead s with
    | none => .ret e.FILE_OPEN_ERROR s
    | some freeBlockData =>
      let nextFreeBlock := readInt freeBlockData FREE_NEXT_BLOCK_OFFSET
      let super1 := writeInt superData FB_OFFSET nextFreeBlock
      let inodeHead := readInt super1 IB_OFFSET
      let super2 := writeInt super1 IB_OFFSET freeBlockHead
      if BLOCKSIZE < INODE_FILE_NAME_OFFSET + strlen name then .undefined
      else
        let inode := newInode freeBlockData inodeHead name clock
        let w1 := writeBlock s.activeDisk SUPER_BLOCK super2 s
        if w1.1 < 0 then .ret e.FILE_OPEN_ERROR w1.2
        else
          let w2 := writeBlock s.activeDisk freeBlockHead inode w1.2
          if w2.1 < 0 then .ret e.FILE_OPEN_ERROR w2.2
          else
            match w2.2.fileDescriptorTable with
            | none => .undefined
            | some t =>
              match firstEmpty t with
              | none => .undefined
              | some fd =>
                let newEntry : fileDescriptorTableEntry :=
                  { inodeNumber := freeBlockHead, filePointer := 0 }
                .ret (Int.ofNat fd)
                  { w2.2 with fileDescriptorTable := some (t.set fd (some newEntry)) }

/-- The function `tfs_openFile`; `clock` is what `getTimestamp` delivers during
the call. -/
def tfs_openFile (e : Errno) (name : List Nat) (clock : Nat → Nat) (s : State) :
    Outcome State :=
  match readBlock s.activeDisk SUPER_BLOCK s with
  | none => .ret e.FILE_OPEN_ERROR s
  | some superData =>
    let inodeHead := readInt superData IB_OFFSET
    if inodeHead ≠ 0 then
      match searchInode name s (diskBlocks s s.activeDisk + 1) inodeHead with
      | .found inodeCurrent inodeBuffer => openExisting e clock inodeCurrent inodeBuffer s
      | .readError => .ret e.FILE_OPEN_ERROR s
      | .undefined => .undefined
      | .diverge => .diverge
      | .notFound => openCreate e name clock superData s
    else openCreate e name clock superData s

/-- The function `tfs_closeFile`. -/
def tfs_closeFile (e : Errno) (fd : Int) (s : State) : Outcome State :=
  match tableGet s.fileDescriptorTable fd with
  | none => .undefined
  | some none => .ret e.FILE_BAD_DESCRIPTOR s
  | some (some _) =>
    if s.activeDisk = 0 then .ret e.FILE_CLOSE_ERROR s
    else if fd < 0 ∨ fd ≥ s.maxNumberOfFiles then .ret e.FILE_BAD_DESCRIPTOR s
    else
      let table := s.fileDescriptorTable.map (fun t => t.set fd.toNat none)
      .ret 1 { s with fileDescriptorTable := table }

/-- The function `deallocateBlock`. -/
def deallocateBlock (e : Errno) (blockNum : Int) (s : State) : Int × State :=
  match readBlock s.activeDisk blockNum s with
  | none => (e.DEALLOCATION_ERROR, s)
  | some _ =>
    let data := setByte (setByte zeroBlock BLOCK_NUMBER_OFFSET FREE_BLOCK_TYPE)
      MAGIC_NUMBER_OFFSET MAGIC_NUMBER
    match readBlock s.activeDisk SUPER_BLOCK s with
    | none => (e.DEALLOCATION_ERROR, s)
    | some superData =>
      let freeBlockHead := readInt superData FB_OFFSET
      let data1 := writeInt data FREE_NEXT_BLOCK_OFFSET freeBlockHead
      let super1 := writeInt superData FB_OFFSET blockNum
      let w1 := writeBlock s.activeDisk SUPER_BLOCK super1 s
      if w1.1 < 0 then (e.DEALLOCATION_ERROR, w1.2)
      else
        let w2 := writeBlock s.activeDisk blockNum data1 w1.2
        if w2.1 < 0 then (e.DEALLOCATION_ERROR, w2.2) else (1, w2.2)

/-- The deallocation loop of `tfs_writeFile`
(`for (i = 0; i < blocksToDeallocate; i++)`): the first argument counts the
iterations that remain, the second is `dataBlock`.  The result is the code of an
early `return`, if any, and the state. -/
def freeLoop (e : Errno) : Nat → Int → State → Option Int × State
  | 0, _, s => (none, s)
  | n + 1, dataBlock, s =>
    match readBlock s.activeDisk dataBlock s with
    | none => (some e.FILE_READ_ERROR, s)
    | some dataBuffer =>
      let nextBlock := readInt dataBuffer DATA_NEXT_BLOCK_OFFSET
      let d := deallocateBlock e dataBlock s
      if d.1 < 0 then (some e.DEALLOCATION_ERROR, d.2)
      else freeLoop e n nextBlock d.2

/-- How the allocation loop of `tfs_writeFile` ends: by an early `return`, by
undefined behaviour (the copy reads past the caller's buffer), or by leaving the
loop with the values of `freeBlock`, `blocksNeeded` and `remainingBytes`. -/
inductive Alloc where
  | early (code : Int) (s : State)
  | undefined
  | done (freeBlock : Int) (blocksNeeded : Nat) (remainingBytes : Int) (s : State)

/-- The loop `while (blocksNeeded != 0)` of `tfs_writeFile` for a positive
`blocksNeeded`, which is the first argument. -/
def allocLoop (e : Errno) (buffer : List Nat) :
    Nat → (freeBlock : Int) → (bufferPointer : Nat) → (remainingBytes : Int) → State → Alloc
  | 0, freeBlock, _, remainingBytes, s => .done freeBlock 0 remainingBytes s
  | n + 1, freeBlock, bufferPointer, remainingBytes, s =>
    match readBlock s.activeDisk freeBlock s with
    | none => .early e.FILE_READ_ERROR s
    | some freeBuffer0 =>
      let freeBuffer1 := setByte freeBuffer0 BLOCK_NUMBER_OFFSET DATA_BLOCK_TYPE
      let writeBufferSize : Int :=
        if remainingBytes ≥ 250 then 250 else remainingBytes
      if writeBufferSize < 0 ∨ Int.ofNat buffer.length < Int.ofNat bufferPointer + writeBufferSize
      then .undefined
      else
        let freeBuffer2 := memcpy freeBuffer1 DATA_BLOCK_DATA_OFFSET
          (slice buffer bufferPointer writeBufferSize.toNat)
        let dataBlock := freeBlock
        let freeBlock1 := readInt freeBuffer2 FREE_NEXT_BLOCK_OFFSET
        let freeBuffer3 :=
          if n = 0 then writeInt freeBuffer2 DATA_NEXT_BLOCK_OFFSET 0 else freeBuffer2
        let w := writeBlock s.activeDisk dataBlock freeBuffer3 s
        if w.1 < 0 then .early e.FILE_WRITE_ERROR w.2
        else if freeBlock1 = 0 ∧ n ≠ 0 then
          .done freeBlock1 n (remainingBytes - writeBufferSize) w.2
        else
          allocLoop e buffer n freeBlock1 (bufferPointer + writeBufferSize.toNat)
            (remainingBytes - writeBufferSize) w.2

/-- The assignment `fileDescriptorTable[fd]->filePointer = p`. -/
def setFilePointer (s : State) (fd : Int) (p : Int) : State :=
  let table := s.fileDescriptorTable.map (fun t =>
    t.set fd.toNat ((t.getD fd.toNat none).map (fun en => { en with filePointer := p })))
  { s with fileDescriptorTable := table }

/-- The end of `tfs_writeFile`, from the update of the superblock on. -/
def writeFinish (e : Errno) (fd : Int) (size : Int) (clock : Nat → Nat)
    (fileInode : Int) (superData inodeBuffer : Block) (dataExtentHead : Int)
    (freeBlock : Int) (blocksNeeded : Nat) (remainingBytes : Int) (s : State) :
    Outcome State :=
  let super1 := writeInt superData FB_OFFSET freeBlock
  let w1 := writeBlock s.activeDisk SUPER_BLOCK super1 s
  if w1.1 < 0 then .ret e.FILE_WRITE_ERROR w1.2
  else
    let finalSize := size - remainingBytes
    let inode1 := writeInt (writeInt inodeBuffer INODE_FILE_SIZE_OFFSET finalSize)
      INODE_DATA_BLOCK_OFFSET dataExtentHead
    let inode2 := memcpy inode1 INODE_MOD_TIME_STAMP_OFFSET (getTimestamp clock)
    let w2 := writeBlock s.activeDisk fileInode inode2 w1.2
    if w2.1 < 0 then .ret e.FILE_WRITE_ERROR w2.2
    else
      let s3 := setFilePointer w2.2 fd 0
      if 0 < blocksNeeded then .ret e.FILE_WRITE_ERROR s3 else .ret 1 s3

/-- The part of `tfs_writeFile` that allocates the new data blocks and finishes
the call, entered after the old blocks are deallocated.  The superblock in
`superData` is the one read at the start of the call. -/
def writeAlloc (e : Errno) (fd : Int) (buffer : List Nat) (size : Int) (clock : Nat → Nat)
    (fileInode : Int) (superData inodeBuffer : Block) (blocksNeeded : Int) (s : State) :
    Outcome State :=
  let freeBlock := readInt superData FB_OFFSET
  let dataExtentHead := freeBlock
  if blocksNeeded < 0 then
    match readBlock s.activeDisk freeBlock s with
    | none => .ret e.FILE_READ_ERROR s
    | some _ => .undefined
  else
    match allocLoop e buffer blocksNeeded.toNat freeBlock 0 size s with
    | .early code s1 => .ret code s1
    | .undefined => .undefined
    | .done freeBlock1 blocksLeft remainingBytes s1 =>
      writeFinish e fd size clock fileInode superData inodeBuffer dataExtentHead
        freeBlock1 blocksLeft remainingBytes s1

/-- The part of `tfs_writeFile` that follows the reads of the superblock and of
the inode: the block counts, the deallocation of the old data blocks, then
`writeAlloc`. -/
def writeBody (e : Errno) (fd : Int) (buffer : List Nat) (size : Int) (clock : Nat → Nat)
    (fileInode : Int) (superData inodeBuffer : Block) (s : State) : Outcome State :=
  let currentFileSize := readInt inodeBuffer INODE_FILE_SIZE_OFFSET
  let dataBlock := readInt inodeBuffer INODE_DATA_BLOCK_OFFSET
  let extra : Int := if Int.tmod size 250 > 0 then 1 else 0
  let blocksNeeded := Int.tdiv size 250 + extra
  let blocksToDeallocate := Int.tdiv currentFileSize 250 + extra
  let f := if currentFileSize ≠ 0 then freeLoop e blocksToDeallocate.toNat dataBlock s
           else (none, s)
  match f.1 with
  | some code => .ret code f.2
  | none =>
    writeAlloc e fd buffer size clock fileInode superData inodeBuffer blocksNeeded f.2

/-- The function `tfs_writeFile`; `buffer` is the memory `buffer` points to and
`size` the third argument. -/
def tfs_writeFile (e : Errno) (fd : Int) (buffer : List Nat) (size : Int)
    (clock : Nat → Nat) (s : State) : Outcome State :=
  if s.activeDisk = 0 then .ret e.FS_MOUNT_ERROR s
  else
    match tableGet s.fileDescriptorTable fd with
    | none => .undefined
    | some none => .ret e.FILE_BAD_DESCRIPTOR s
    | some (some fileDescriptorEntry) =>
      let fileInode := fileDescriptorEntry.inodeNumber
      match readBlock s.activeDisk SUPER_BLOCK s with
      | none => .ret e.FILE_READ_ERROR s
      | some superData =>
        match readBlock s.activeDisk fileInode s with
        | none => .ret e.FILE_READ_ERROR s
        | some inodeBuffer =>
          writeBody e fd buffer size clock fileInode superData inodeBuffer s

/-- The function `tfs_seek`. -/
def tfs_seek (e : Errno) (fd : Int) (offset : Int) (s : State) : Outcome State :=
  if s.activeDisk = 0 then .ret e.FS_MOUNT_ERROR s
  else
    match tableGet s.fileDescriptorTable fd with
    | none => .undefined
    | some none => .ret e.FILE_BAD_DESCRIPTOR s
    | some (some en) =>
      let newFilePointer := wrap32 (en.filePointer + offset)
      .ret newFilePointer (setFilePointer s fd newFilePointer)

/-- The loop `while (blockNumber != 0)` of `tfs_readByte` for a non-negative
`blockNumber` (the first argument): follow that many next pointers from the
block in the buffer; `none` when a read fails. -/
def followData (s : State) : Nat → Block → Option Block
  | 0, blockData => some blockData
  | n + 1, blockData =>
    match readBlock s.activeDisk (readInt blockData DATA_NEXT_BLOCK_OFFSET) s with
    | none => none
    | some next => followData s n next

/-- The part of `tfs_readByte` that follows the read of the inode: the bounds
check, the walk to the data block, the delivery of the byte, the advance of the
file pointer through `tfs_seek(fd, 1)` and the update of the inode. -/
def readByteAt (e : Errno) (fd : Int) (clock : Nat → Nat) (fileInode filePointer : Int)
    (inodeBuffer : Block) (s : State) : Outcome (Option Nat × State) :=
  let currentFileSize := readInt inodeBuffer INODE_FILE_SIZE_OFFSET
  let dataBlock := readInt inodeBuffer INODE_DATA_BLOCK_OFFSET
  if filePointer ≥ currentFileSize then .ret e.BLOCK_READ_ERROR (none, s)
  else
    let blockNumber := Int.tdiv filePointer 250
    let byteNumber := Int.tmod filePointer 250
    match readBlock s.activeDisk dataBlock s with
    | none => .ret e.FILE_READ_ERROR (none, s)
    | some blockData0 =>
      if blockNumber < 0 then
        match followData s (diskBlocks s s.activeDisk + 1) blockData0 with
        | none => .ret e.FILE_READ_ERROR (none, s)
        | some _ => .undefined
      else
        match followData s blockNumber.toNat blockData0 with
        | none => .ret e.FILE_READ_ERROR (none, s)
        | some blockData =>
          if Int.ofNat DATA_BLOCK_DATA_OFFSET + byteNumber < 0 then .undefined
          else
            let byte := blockData.getD (Int.ofNat DATA_BLOCK_DATA_OFFSET + byteNumber).toNat 0
            let s1 := setFilePointer s fd (wrap32 (filePointer + 1))
            let inode1 := memcpy inodeBuffer INODE_ACC_TIME_STAMP_OFFSET (getTimestamp clock)
            let w := writeBlock s1.activeDisk fileInode inode1 s1
            if w.1 < 0 then .ret e.FILE_WRITE_ERROR (some byte, w.2)
            else .ret 1 (some byte, w.2)

/-- The function `tfs_readByte`.  The payload of the result is the byte stored
through `buffer` (if any) and the state.  For a negative `blockNumber` the loop
counts down until a read fails; when none fails within more hops than the disk
has blocks none ever does, and the counter overflows. -/
def tfs_readByte (e : Errno) (fd : Int) (clock : Nat → Nat) (s : State) :
    Outcome (Option Nat × State) :=
  if s.activeDisk = 0 then .ret e.FS_MOUNT_ERROR (none, s)
  else
    match tableGet s.fileDescriptorTable fd with
    | none => .undefined
    | some none => .ret e.FILE_BAD_DESCRIPTOR (none, s)
    | some (some en) =>
      match readBlock s.activeDisk en.inodeNumber s with
      | none => .ret e.FILE_READ_ERROR (none, s)
      | some inodeBuffer => readByteAt e fd clock en.inodeNumber en.filePointer inodeBuffer s

/-- How the walk of `tfs_deleteFile` to the inode in front of `inodeToDelete`
ends: it stands on `currentInode`, whose block is in the buffer and whose next
pointer is `inodeToDelete`; or a read fails; or it never ends. -/
inductive Walk where
  | reached (currentInode : Int) (currentInodeBuffer : Block)
  | readError
  | diverge
deriving DecidableEq, Repr

/-- The loop `while (nextInode != inodeToDelete)` of `tfs_deleteFile`.  The loop
only reads, and what it does next depends on `nextInode` alone; the first argument
bounds the number of reads, and after more successful reads than the disk has
blocks some value of `nextInode` has come back, so the loop never ends. -/
def findPrevious (s : State) (inodeToDelete : Int) : Nat → Int → Block → Int → Walk
  | 0, currentInode, currentInodeBuffer, nextInode =>
    if nextInode = inodeToDelete then .reached currentInode currentInodeBuffer else .diverge
  | fuel + 1, currentInode, currentInodeBuffer, nextInode =>
    if nextInode = inodeToDelete then .reached currentInode currentInodeBuffer
    else
      match readBlock s.activeDisk nextInode s with
      | none => .readError
      | some b => findPrevious s inodeToDelete fuel nextInode b (readInt b INODE_NEXT_INODE_OFFSET)

/-- How the loop of `tfs_deleteFile` that frees the data blocks ends. -/
inductive Freed where
  | done (s : State)
  | readError (s : State)
  | diverge

/-- The loop `while (1)` of `tfs_deleteFile` that frees the data blocks, entered
with a non-zero `dataBlockPointer`; the result of `deallocateBlock` is ignored, as
in the source.  Each iteration reads the next pointer of the block and then makes
the block the head of the free list, so the loop reverses the chain in place onto
the free list.  On a chain that ends it runs once per block; when the chain runs
into itself the loop comes back over the pointers it has turned and goes on along
the former free list.  The first argument bounds the iterations: `tfs_deleteFile`
passes twice the number of blocks plus two, which a run that ends does not
exceed; a run that exceeds the bound is reported as never ending. -/
def freeData (e : Errno) : Nat → Int → State → Freed
  | 0, _, _ => .diverge
  | fuel + 1, dataBlockPointer, s =>
    match readBlock s.activeDisk dataBlockPointer s with
    | none => .readError s
    | some dataBlock =>
      let nextDataBlockPointer := readInt dataBlock DATA_NEXT_BLOCK_OFFSET
      let s1 := (deallocateBlock e dataBlockPointer s).2
      if nextDataBlockPointer = 0 then .done s1
      else freeData e fuel nextDataBlockPointer s1

/-- The second half of `tfs_deleteFile`, from the comment "Free all data blocks
associated with the inode" on: the data blocks, then the inode, go back to the
free list and the descriptor is closed; the results of `deallocateBlock` and of
`tfs_closeFile` are ignored. -/
def deleteData (e : Errno) (fd : Int) (inodeToDelete : Int) (s : State) : Outcome State :=
  match readBlock s.activeDisk inodeToDelete s with
  | none => .ret e.FILE_DELETE_ERROR s
  | some currentInodeBuffer =>
    let dataBlockPointer := readInt currentInodeBuffer INODE_DATA_BLOCK_OFFSET
    let r :=
      if dataBlockPointer ≠ 0 then
        freeData e (2 * diskBlocks s s.activeDisk + 2) dataBlockPointer s
      else .done s
    match r with
    | .readError s1 => .ret e.FILE_DELETE_ERROR s1
    | .diverge => .diverge
    | .done s1 =>
      let s2 := (deallocateBlock e inodeToDelete s1).2
      match tfs_closeFile e fd s2 with
      | .ret _ s3 => .ret 1 s3
      | .undefined => .undefined
      | .diverge => .diverge

/-- The branch of `tfs_deleteFile` taken when the inode to delete is not the head
of the inode list: find the inode in front of it and make it skip the inode. -/
def deleteUnlink (e : Errno) (fd : Int) (inodeToDelete currentInode : Int)
    (currentInodeBuffer : Block) (s : State) : Outcome State :=
  let nextInode := readInt currentInodeBuffer INODE_NEXT_INODE_OFFSET
  match findPrevious s inodeToDelete (diskBlocks s s.activeDisk + 1) currentInode
      currentInodeBuffer nextInode with
  | .readError => .ret e.FILE_DELETE_ERROR s
  | .diverge => .diverge
  | .reached currentInode1 currentInodeBuffer1 =>
    match readBlock s.activeDisk inodeToDelete s with
    | none => .ret e.FILE_DELETE_ERROR s
    | some nextinodeBuffer =>
      let inodeAfterToDelete := readInt nextinodeBuffer INODE_NEXT_INODE_OFFSET
      let buf := writeInt currentInodeBuffer1 INODE_NEXT_INODE_OFFSET inodeAfterToDelete
      let w := writeBlock s.activeDisk currentInode1 buf s
      if w.1 < 0 then .ret e.FILE_DELETE_ERROR w.2
      else deleteData e fd inodeToDelete w.2

/-- The function `tfs_deleteFile`. -/
def tfs_deleteFile (e : Errno) (fd : Int) (s : State) : Outcome State :=
  match tableGet s.fileDescriptorTable fd with
  | none => .undefined
  | some none => .ret e.FILE_BAD_DESCRIPTOR s
  | some (some en) =>
    let inodeToDelete := en.inodeNumber
    match readBlock s.activeDisk SUPER_BLOCK s with
    | none => .ret e.FILE_DELETE_ERROR s
    | some superData =>
      let currentInode := readInt superData IB_OFFSET
      match readBlock s.activeDisk currentInode s with
      | none => .ret e.FILE_DELETE_ERROR s
      | some currentInodeBuffer =>
        if currentInode = inodeToDelete then
          let super1 := memcpy superData IB_OFFSET
            (slice currentInodeBuffer INODE_NEXT_INODE_OFFSET 4)
          let w := writeBlock s.activeDisk SUPER_BLOCK super1 s
          if w.1 < 0 then .ret e.FILE_DELETE_ERROR w.2
          else deleteData e fd inodeToDelete w.2
        else deleteUnlink e fd inodeToDelete currentInode currentInodeBuffer s

/-- The loop `while (inodeIndex != 0)` of `tfs_readdir`; the last argument is the
list of names printed so far.  `printf("%s\n", fileName)` prints the bytes of the
9-byte array up to its terminator; an array without a terminator is read past its
end.  The loop only reads and its next step depends on `inodeIndex` alone, so a
walk that is still running after more reads than the disk has blocks never
ends. -/
def readdirLoop (e : Errno) (s : State) :
    Nat → Int → List (List Nat) → Outcome (List (List Nat))
  | 0, _, _ => .diverge
  | fuel + 1, inodeIndex, printed =>
    if inodeIndex = 0 then .ret 1 printed
    else
      match readBlock s.activeDisk inodeIndex s with
      | none => .ret e.FILE_READ_ERROR printed
      | some inodeBuffer =>
        let fileName := slice inodeBuffer INODE_FILE_NAME_OFFSET MAX_FILE_NAME_SIZE
        if (cstr fileName).length < fileName.length then
          readdirLoop e s fuel (readInt inodeBuffer INODE_NEXT_INODE_OFFSET)
            (printed ++ [cstr fileName])
        else .undefined

/-- The function `tfs_readdir`.  It changes no state; the payload of the result
is the list of the file names it prints, in order. -/
def tfs_readdir (e : Errno) (s : State) : Outcome (List (List Nat)) :=
  if s.activeDisk = 0 then .ret e.FS_MOUNT_ERROR []
  else
    match readBlock s.activeDisk SUPER_BLOCK s with
    | none => .ret e.FILE_READ_ERROR []
    | some superBlockData =>
      readdirLoop e s (diskBlocks s s.activeDisk + 1) (readInt superBlockData IB_OFFSET) []

/-- The function `tfs_rename`; `newName` is the memory `newName` points to and
`clock` what `getTimestamp` delivers during the call. -/
def tfs_rename (e : Errno) (fd : Int) (newName : List Nat) (clock : Nat → Nat) (s : State) :
    Outcome State :=
  if strlen newName ≥ MAX_FILE_NAME_SIZE then .ret e.FILE_RENAME_ERROR s
  else if s.activeDisk = 0 then .ret e.FS_MOUNT_ERROR s
  else
    match tableGet s.fileDescriptorTable fd with
    | none => .undefined
    | some none => .ret e.FILE_BAD_DESCRIPTOR s
    | some (some descriptorEntry) =>
      let inodeIndex := descriptorEntry.inodeNumber
      match readBlock s.activeDisk inodeIndex s with
      | none => .ret e.FILE_READ_ERROR s
      | some inodeBuffer =>
        let named := memcpy (memsetZero inodeBuffer INODE_FILE_NAME_OFFSET MAX_FILE_NAME_SIZE)
          INODE_FILE_NAME_OFFSET (cstr newName)
        let stamped := memcpy named INODE_MOD_TIME_STAMP_OFFSET (getTimestamp clock)
        let w := writeBlock s.activeDisk inodeIndex stamped s
        if w.1 < 0 then .ret e.FILE_WRITE_ERROR w.2 else .ret 1 w.2

/-- The call `printf("%s", buf)` on an array: the bytes before the first zero
byte; `none` when the array holds no zero byte, so that the read runs past its
end. -/
def printedString (buf : List Nat) : Option (List Nat) :=
  if (cstr buf).length < buf.length then some (cstr buf) else none

/-- The five values `tfs_readFileInfo` prints. -/
structure FileInfo where
  fileName : List Nat
  fileSize : Int
  created : List Nat
  modified : List Nat
  accessed : List Nat
deriving DecidableEq, Repr

/-- The function `tfs_readFileInfo`.  The payload of the result is what the call
prints (if it gets that far) and the state after the call. -/
def tfs_readFileInfo (e : Errno) (fd : Int) (s : State) : Outcome (Option FileInfo × State) :=
  match tableGet s.fileDescriptorTable fd with
  | none => .undefined
  | some none => .ret e.FILE_OPEN_ERROR (none, s)
  | some (some en) =>
    match readBlock s.activeDisk en.inodeNumber s with
    | none => .ret e.FILE_READ_ERROR (none, s)
    | some inodeBuffer =>
      let fileName := slice inodeBuffer INODE_FILE_NAME_OFFSET MAX_FILE_NAME_SIZE
      let fileSize := readInt inodeBuffer INODE_FILE_SIZE_OFFSET
      let created := slice inodeBuffer INODE_CR8_TIME_STAMP_OFFSET TIMESTAMP_BUFFER_SIZE
      let modified := slice inodeBuffer INODE_MOD_TIME_STAMP_OFFSET TIMESTAMP_BUFFER_SIZE
      let accessed := slice inodeBuffer INODE_ACC_TIME_STAMP_OFFSET TIMESTAMP_BUFFER_SIZE
      match printedString fileName, printedString created, printedString modified,
          printedString accessed with
      | some n, some c, some m, some a =>
        .ret 1 (some { fileName := n, fileSize := fileSize, created := c, modified := m,
                       accessed := a }, s)
      | _, _, _, _ => .undefined

/-! ## Notions used to state the properties -/

/-- The state in which the host file at `path` holds `f`, everything else as in
`s`. -/
def setFile (s : State) (path : String) (f : HostFile) : State :=
  { s with files := fun p => if p = path then some f else s.files p }

/-- The backing file a successful `tfs_mkfs(filename, nBytes)` leaves: the
superblock, then the blocks 1 to `nBytes / 256 - 1` as the formatting loop writes
them. -/
def mkfsImage (nBytes : Int) : HostFile :=
  let totalBlocks := nBytes / 256 - 1
  { blocks := mkfsSuperBlock (totalBlocks / 2) ::
      (List.range totalBlocks.toNat).map (fun j => mkfsBlock totalBlocks (Int.ofNat j + 1)),
    rest := [] }

/-- The state a successful `tfs_mkfs(filename, nBytes)` leaves: the backing file
is formatted and the disk the call opened is still registered. -/
def afterMkfs (s : State) (filename : String) (nBytes : Int) : State :=
  { s with
    files := fun p => if p = filename then some (mkfsImage nBytes) else s.files p,
    diskCounter := s.diskCounter + 1,
    diskListHead := { diskNumber := s.diskCounter, nBytes := nBytes - nBytes % 256,
                      filename := filename, readable := false } :: s.diskListHead }

/-- A process that has just started on a host without files, where every path can
be created. -/
def freshProcess : State := initialState (fun _ => none) (fun _ => true)

/-- The state a successful `tfs_mount(path)` leaves when the backing file has
`size` bytes and its superblock records `maxFiles`: a new readable disk is
registered and active, and the descriptor table has `maxFiles` empty slots. -/
def afterMount (s : State) (path : String) (size maxFiles : Int) : State :=
  { s with
    diskCounter := s.diskCounter + 1,
    diskListHead := { diskNumber := s.diskCounter, nBytes := size,
                      filename := path, readable := true } :: s.diskListHead,
    activeDisk := s.diskCounter,
    maxNumberOfFiles := maxFiles,
    fileDescriptorTable := some (List.replicate maxFiles.toNat none) }

/-- The state after `tfs_mkfs(path, nBytes)` and `tfs_mount(path)` have both
succeeded from state `s`. -/
def freshVolume (s : State) (path : String) (nBytes : Int) : State :=
  afterMount (afterMkfs s path nBytes) path (256 * (nBytes / 256)) ((nBytes / 256 - 1) / 2)

/-- A superblock as `tfs_mkfs` writes it for a four-block volume, with its type
tag replaced by 9 and its magic byte by 0x45. -/
def corruptSuperBlock : Block :=
  setByte (setByte (mkfsSuperBlock 1) BLOCK_NUMBER_OFFSET 9) MAGIC_NUMBER_OFFSET 0x45

/-- A freshly started process on a host whose file `bad.dsk` is a four-block
volume with the corrupt superblock `corruptSuperBlock`. -/
def corruptHost : State :=
  initialState
    (fun p => if p = "bad.dsk" then
      some { blocks := [corruptSuperBlock, mkfsBlock 3 1, mkfsBlock 3 2, mkfsBlock 3 3],
             rest := [] }
      else none)
    (fun _ => true)

/-- The state `tfs_unmount` leaves when it succeeds. -/
def afterUnmount (s : State) : State :=
  { s with activeDisk := 0, fileDescriptorTable := none }

/-- The inode list as the sequence of block numbers and blocks met by following
the 4-byte next-inode field from block `i` until it is 0; `none` when a block
cannot be read or the walk does not end within the given number of steps. -/
def inodeChain (s : State) : Nat → Int → Option (List (Int × Block))
  | 0, _ => none
  | fuel + 1, i =>
    if i = 0 then some []
    else
      match readBlock s.activeDisk i s with
      | none => none
      | some b =>
        (inodeChain s fuel (readInt b INODE_NEXT_INODE_OFFSET)).map (fun l => (i, b) :: l)

/-- The inode list of the mounted volume, from the inode-list head of the
superblock.  A list without a cycle visits every block at most once, so the bound
on the walk excludes no well-formed list. -/
def inodeList (s : State) : Option (List (Int × Block)) :=
  match readBlock s.activeDisk SUPER_BLOCK s with
  | none => none
  | some sb => inodeChain s (diskBlocks s s.activeDisk + 1) (readInt sb IB_OFFSET)

/-- The free list of the mounted volume as the sequence of block numbers and
blocks met by following the next-free field from block `i` until it is 0. -/
def freeChain (s : State) : Nat → Int → Option (List (Int × Block))
  | 0, _ => none
  | fuel + 1, i =>
    if i = 0 then some []
    else
      match readBlock s.activeDisk i s with
      | none => none
      | some b =>
        (freeChain s fuel (readInt b FREE_NEXT_BLOCK_OFFSET)).map (fun l => (i, b) :: l)

/-- The free list of the mounted volume, from the free-list head of the
superblock. -/
def freeList (s : State) : Option (List (Int × Block)) :=
  match readBlock s.activeDisk SUPER_BLOCK s with
  | none => none
  | some sb => freeChain s (diskBlocks s s.activeDisk + 1) (readInt sb FB_OFFSET)

/-- The name slot of an inode block. -/
def nameSlot (b : Block) : List Nat := slice b INODE_FILE_NAME_OFFSET MAX_FILE_NAME_SIZE

/-- A sample reading of the clock: the buffer `getTimestamp` fills holds the
characters `2024-06-03 11:44:48`, the terminator and zero bytes. -/
def sampleClock : Nat → Nat := fun i =>
  [50, 48, 50, 52, 45, 48, 54, 45, 48, 51, 32, 49, 49, 58, 52, 52, 58, 52, 56].getD i 0

/-- The state a call leaves, for a call that returned (the process state
`freshProcess` otherwise). -/
def stateOf (o : Outcome State) : State :=
  match o with
  | .ret _ s => s
  | .undefined => freshProcess
  | .diverge => freshProcess

/-- A four-block volume `t.dsk`, formatted and mounted by a fresh process. -/
def smallVolume : State := freshVolume freshProcess "t.dsk" 1024

/-- The four-block volume after `tfs_openFile("a")`. -/
def smallVolumeA : State := stateOf (tfs_openFile sampleErrno [97] sampleClock smallVolume)

/-- The four-block volume after `tfs_openFile("a")` and a write of two bytes to the
file, which takes the last block of the free list. -/
def smallVolumeFull : State :=
  stateOf (tfs_writeFile sampleErrno 0 [104, 105] 2 sampleClock smallVolumeA)

/-- The superblock `tfs_openFile` writes when it creates a file: the free-list head
becomes the next pointer of the block taken, the inode-list head the block taken. -/
def createdSuper (sb fb : Block) : Block :=
  writeInt (writeInt sb FB_OFFSET (readInt fb FREE_NEXT_BLOCK_OFFSET)) IB_OFFSET
    (readInt sb FB_OFFSET)

/-- The state `tfs_openFile` leaves when it creates a file in the free block `fb`
at the head of the free list and binds descriptor `fd` to it. -/
def createdState (s : State) (sb fb : Block) (name : List Nat) (clock : Nat → Nat)
    (t : List (Option fileDescriptorTableEntry)) (fd : Nat) : State :=
  let w1 := writeBlock s.activeDisk SUPER_BLOCK (createdSuper sb fb) s
  let w2 := writeBlock s.activeDisk (readInt sb FB_OFFSET)
    (newInode fb (readInt sb IB_OFFSET) name clock) w1.2
  let newEntry : fileDescriptorTableEntry :=
    { inodeNumber := readInt sb FB_OFFSET, filePointer := 0 }
  { w2.2 with fileDescriptorTable := some (t.set fd (some newEntry)) }

/-- A run of `tfs_openFile` on the names of a list, in order: the return codes
(`none` for a call that did not return) and the state after the last call. -/
def openAll (e : Errno) (clock : Nat → Nat) : List (List Nat) → State → List (Option Int) × State
  | [], s => ([], s)
  | name :: names, s =>
    let o := tfs_openFile e name clock s
    let r := openAll e clock names (stateOf o)
    (o.code? :: r.1, r.2)

/-- The names `file1`, ..., `file8` of the demo driver, as C strings. -/
def demoNames : List (List Nat) :=
  [[102, 105, 108, 101, 49], [102, 105, 108, 101, 50], [102, 105, 108, 101, 51],
   [102, 105, 108, 101, 52], [102, 105, 108, 101, 53], [102, 105, 108, 101, 54],
   [102, 105, 108, 101, 55], [102, 105, 108, 101, 56]]

/-- The volume of the demo driver: `tfs_mkfs("test.dsk", 10240)` and
`tfs_mount("test.dsk")` run by a fresh process. -/
def demoVolume : State :=
  stateOf (tfs_mount sampleErrno "test.dsk" (tfs_mkfs sampleErrno "test.dsk" 10240 freshProcess).2)

/-- The free-list head recorded in the superblock of the mounted volume. -/
def freeHead (s : State) : Option Int :=
  (readBlock s.activeDisk SUPER_BLOCK s).map (fun sb => readInt sb FB_OFFSET)

/-- The inode-list head recorded in the superblock of the mounted volume. -/
def inodeHead (s : State) : Option Int :=
  (readBlock s.activeDisk SUPER_BLOCK s).map (fun sb => readInt sb IB_OFFSET)

/-- A well-formed empty volume of 259 blocks whose free list is
256, 257, 258, 1, 2, ..., 255: every block but the superblock is free, the
inode list is empty, the superblock records 129 files. -/
def wrapImage : HostFile :=
  { blocks := [writeInt (mkfsSuperBlock 129) FB_OFFSET 256]
      ++ (List.range 255).map (fun j => mkfsBlock 255 (Int.ofNat j + 1))
      ++ [mkfsBlock 259 256, mkfsBlock 259 257,
          writeInt (mkfsBlock 259 258) FREE_NEXT_BLOCK_OFFSET 1],
    rest := [] }

/-- A fresh process on a host whose file `wrap.dsk` is `wrapImage`. -/
def wrapHost : State :=
  initialState (fun p => if p = "wrap.dsk" then some wrapImage else none) (fun _ => true)

/-- The volume `wrap.dsk`, mounted. -/
def wrapVolume : State := stateOf (tfs_mount sampleErrno "wrap.dsk" wrapHost)

/-- The volume `wrap.dsk` after `tfs_openFile("x")`. -/
def wrapX : State := stateOf (tfs_openFile sampleErrno [120] sampleClock wrapVolume)

/-- The volume `wrap.dsk` after `tfs_openFile("x")` and `tfs_openFile("y")`. -/
def wrapXY : State := stateOf (tfs_openFile sampleErrno [121] sampleClock wrapX)

/-- The volume `wrap.dsk` after `tfs_openFile("x")`, `tfs_openFile("y")` and
`tfs_closeFile` of the descriptor of `x`. -/
def wrapXYclosed : State := stateOf (tfs_closeFile sampleErrno 0 wrapXY)

/-- The block numbers of the inode list and the string each inode stores. -/
def inodeNames (s : State) : Option (List (Int × List Nat)) :=
  (inodeList s).map (fun l => l.map (fun p => (p.1, cstr (nameSlot p.2))))

/-- The inode numbers the occupied slots of the descriptor table are bound to. -/
def openInodes (s : State) : List Int :=
  (s.fileDescriptorTable.getD []).filterMap (fun x => x.map (fun en => en.inodeNumber))

/-- A run of `tfs_openFile` calls, each with its name and its clock reading, all
of which return (with a descriptor or with an error code): the state after the
last call; `none` when some call does not return. -/
def runOpens (e : Errno) : List (List Nat × (Nat → Nat)) → State → Option State
  | [], s => some s
  | op :: ops, s =>
    match tfs_openFile e op.1 op.2 s with
    | .ret _ s1 => runOpens e ops s1
    | .undefined => none
    | .diverge => none

/-- The bytes delivered by `n` successive calls of `tfs_readByte(fd)`, the call
number `j` under the clock reading `clocks j`, when each call returns 1 and stores
a byte; `none` otherwise.  The second argument numbers the first call. -/
def readBytes (e : Errno) (fd : Int) (clocks : Nat → Nat → Nat) :
    Nat → Nat → State → Option (List Nat × State)
  | 0, _, s => some ([], s)
  | n + 1, j, s =>
    match tfs_readByte e fd (clocks j) s with
    | .ret c (some b, s1) =>
      if c = 1 then (readBytes e fd clocks n (j + 1) s1).map (fun r => (b :: r.1, r.2))
      else none
    | .ret _ (none, _) => none
    | .undefined => none
    | .diverge => none

/-- Number of inodes in the inode list of the mounted volume (0 when the list
cannot be walked). -/
def inodeCount (s : State) : Nat := ((inodeList s).map List.length).getD 0

/-- Block `i` of disk `a` is readable, has 256 bytes and its next field points to
`i + 1`, or holds 0 when `i` is the last of the `n` blocks: a block of the free
list as `tfs_mkfs` chains it. -/
def FreeAt (a : Int) (n : Nat) (s : State) (i : Nat) : Prop :=
  ∃ b, readBlock a (Int.ofNat i) s = some b ∧ b.length = 256 ∧
    readInt b FREE_NEXT_BLOCK_OFFSET = (if i + 1 < n then Int.ofNat (i + 1) else 0)

/-- Block `i` of disk `a` is readable, has 256 bytes, records file size 0 and its
next-inode field points to `i - 1`, or holds 0 when `i = 2`: an inode of a file
without data in a list that grew from block 2 upwards. -/
def InodeAt (a : Int) (s : State) (i : Nat) : Prop :=
  ∃ b, readBlock a (Int.ofNat i) s = some b ∧ b.length = 256 ∧
    readInt b INODE_FILE_SIZE_OFFSET = 0 ∧
    readInt b INODE_NEXT_INODE_OFFSET = (if i = 2 then 0 else Int.ofNat i - 1)

/-- The shape of a volume of `n` blocks, formatted by `tfs_mkfs` and mounted as
disk `a`, on which only `tfs_openFile` has run and has created `k` files: the
inodes are the blocks 2 to `k + 1`, the free list is `k + 2, ..., n - 1`, and every
descriptor is bound to one of the inodes. -/
structure OpenInv (a : Int) (n k : Nat) (s : State) : Prop where
  active : s.activeDisk = a
  active_ne : a ≠ 0
  blocks : diskBlocks s a = n
  bound : k + 2 ≤ n
  small : n ≤ 8388607
  super : ∃ sb, readBlock a SUPER_BLOCK s = some sb ∧ sb.length = 256 ∧
    readInt sb FB_OFFSET = (if k + 2 < n then Int.ofNat (k + 2) else 0) ∧
    readInt sb IB_OFFSET = (if k = 0 then 0 else Int.ofNat (k + 1))
  inodes : ∀ i, 2 ≤ i → i < k + 2 → InodeAt a s i
  frees : ∀ i, k + 2 ≤ i → i < n → FreeAt a n s i
  table : ∃ t, s.fileDescriptorTable = some t ∧
    ∀ en, some en ∈ t → 2 ≤ en.inodeNumber ∧ en.inodeNumber < Int.ofNat (k + 2)

/-- Block `base + q` of disk `a` is the data block number `q` of a file of `m`
blocks holding the bytes `B`, laid out from block `base` on: it is readable, has
256 bytes, its next field points to the following block (0 in the last block),
and its payload starts with the bytes `B[250 q ..]`. -/
def DataAt (a : Int) (s : State) (B : List Nat) (base m q : Nat) : Prop :=
  ∃ b, readBlock a (Int.ofNat (base + q)) s = some b ∧ b.length = 256 ∧
    readInt b DATA_NEXT_BLOCK_OFFSET = (if q + 1 = m then 0 else Int.ofNat (base + q + 1)) ∧
    ∀ r, r < 250 → 250 * q + r < B.length →
      b.getD (DATA_BLOCK_DATA_OFFSET + r) 0 = B.getD (250 * q + r) 0

/-- The state in which `tfs_readByte(fd)` calls read the bytes `B` back: disk `a`
is mounted, descriptor `fd` is bound to inode `i` with file pointer `p`, the inode
records the size of `B` and the data head `base`, and the `m` blocks from `base`
on hold `B`. -/
structure ReadInv (a fd : Int) (i : Nat) (B : List Nat) (base m : Nat) (p : Int) (s : State) :
    Prop where
  active : s.activeDisk = a
  active_ne : a ≠ 0
  entry : tableGet s.fileDescriptorTable fd =
    some (some { inodeNumber := Int.ofNat i, filePointer := p })
  inode : ∃ ib, readBlock a (Int.ofNat i) s = some ib ∧ ib.length = 256 ∧
    readInt ib INODE_FILE_SIZE_OFFSET = Int.ofNat B.length ∧
    (0 < m → readInt ib INODE_DATA_BLOCK_OFFSET = Int.ofNat base)
  data : ∀ q, q < m → DataAt a s B base m q
  apart : i < base
  small : B.length < 2147483648

/-- The demo volume after the eight calls `tfs_openFile("file1")`, ...,
`tfs_openFile("file8")` of the demo driver: descriptors 0 to 7 are bound to the
inodes in blocks 2 to 9 and the free list starts at block 10. -/
def demoOpened : State := (openAll sampleErrno sampleClock demoNames demoVolume).2

/-- The 169 bytes the demo driver writes to `file4`. -/
def btcwhitepaper : List Nat :=
  [65, 32, 112, 117, 114, 101, 108, 121, 32, 112, 101, 101, 114, 45, 116, 111, 45, 112, 101,
   101, 114, 32, 118, 101, 114, 115, 105, 111, 110, 32, 111, 102, 32, 101, 108, 101, 99, 116,
   114, 111, 110, 105, 99, 32, 99, 97, 115, 104, 32, 119, 111, 117, 108, 100, 32, 97, 108, 108,
   111, 119, 32, 111, 110, 108, 105, 110, 101, 32, 112, 97, 121, 109, 101, 110, 116, 115, 32,
   116, 111, 32, 98, 101, 32, 115, 101, 110, 116, 32, 100, 105, 114, 101, 99, 116, 108, 121,
   32, 102, 114, 111, 109, 32, 111, 110, 101, 32, 112, 97, 114, 116, 121, 32, 116, 111, 32, 97,
   110, 111, 116, 104, 101, 114, 32, 119, 105, 116, 104, 111, 117, 116, 32, 103, 111, 105, 110,
   103, 32, 116, 104, 114, 111, 117, 103, 104, 32, 97, 32, 102, 105, 110, 97, 110, 99, 105, 97,
   108, 32, 105, 110, 115, 116, 105, 116, 117, 116, 105, 111, 110, 46]

/-- The demo volume after the eight opens and `tfs_writeFile(fd4, btcwhitepaper, 169)`:
the file of descriptor 3 holds one data block, block 10. -/
def demoWritten : State :=
  stateOf (tfs_writeFile sampleErrno 3 btcwhitepaper 169 sampleClock demoOpened)

/-- The demo volume after the eight opens, the write of 169 bytes to `file4` and
`tfs_writeFile(fd4, "abc", 3)`. -/
def demoRewritten : State :=
  stateOf (tfs_writeFile sampleErrno 3 [97, 98, 99] 3 sampleClock demoWritten)

/-- The type tag (byte 0) of block `b` of the mounted volume. -/
def blockTag (s : State) (b : Int) : Option Nat :=
  (readBlock s.activeDisk b s).map (fun blk => blk.getD BLOCK_NUMBER_OFFSET 0)

/-- The block numbers of the free list of the mounted volume, in order from the
free-list head of the superblock. -/
def freeBlocks (s : State) : Option (List Int) :=
  (freeList s).map (fun l => l.map (fun p => p.1))

/-- The block of inode `i` of the mounted volume, decoded: file size, data head. -/
def inodeSizeAndData (s : State) (i : Int) : Option (Int × Int) :=
  (readBlock s.activeDisk i s).map
    (fun b => (readInt b INODE_FILE_SIZE_OFFSET, readInt b INODE_DATA_BLOCK_OFFSET))

/-- The data chain of a file as the sequence of block numbers met by following the
next-block field from block `i` until it is 0. -/
def dataChain (s : State) : Nat → Int → Option (List Int)
  | 0, _ => none
  | fuel + 1, i =>
    if i = 0 then some []
    else
      match readBlock s.activeDisk i s with
      | none => none
      | some b => (dataChain s fuel (readInt b DATA_NEXT_BLOCK_OFFSET)).map (fun l => i :: l)

/-- The data blocks of the file whose inode is block `i`, from the data head the
inode records. -/
def dataBlocks (s : State) (i : Int) : Option (List Int) :=
  match readBlock s.activeDisk i s with
  | none => none
  | some b => dataChain s (diskBlocks s s.activeDisk + 1) (readInt b INODE_DATA_BLOCK_OFFSET)

/-- A five-block volume `t.dsk` (1280 bytes, two descriptor slots), formatted and
mounted by a fresh process: blocks 2, 3 and 4 are free. -/
def fiveVolume : State := freshVolume freshProcess "t.dsk" 1280

/-- The five-block volume after `tfs_openFile("a")` and `tfs_openFile("b")`: the
inodes are blocks 2 and 3, descriptors 0 and 1, and block 4 is free. -/
def fiveVolumeAB : State :=
  stateOf (tfs_openFile sampleErrno [98] sampleClock
    (stateOf (tfs_openFile sampleErrno [97] sampleClock fiveVolume)))

/-- The five-block volume after the two opens and a write of two bytes to `a`,
which takes block 4: the free list is empty and `b` holds no data. -/
def fiveVolumeFull : State :=
  stateOf (tfs_writeFile sampleErrno 0 [104, 105] 2 sampleClock fiveVolumeAB)

/-- The file pointer of descriptor `fd`. -/
def filePointerOf (s : State) (fd : Int) : Option Int :=
  match tableGet s.fileDescriptorTable fd with
  | some (some en) => some en.filePointer
  | _ => none

/-- The name `abcdefghi` (nine characters) as a C string. -/
def nineChars : List Nat := [97, 98, 99, 100, 101, 102, 103, 104, 105, 0]

/-- The name `mainfile.txt` of the demo driver as a C string. -/
def mainfileTxt : List Nat := [109, 97, 105, 110, 102, 105, 108, 101, 46, 116, 120, 116, 0]

/-- The name `main.c` of the demo driver as a C string. -/
def mainC : List Nat := [109, 97, 105, 110, 46, 99, 0]

/-- The demo volume after the eight opens and `tfs_deleteFile(fd1)`. -/
def demoDeleted : State := stateOf (tfs_deleteFile sampleErrno 0 demoOpened)

/-- A later reading of the clock than `sampleClock`: `2024-06-03 11:45:10`. -/
def laterClock : Nat → Nat := fun i =>
  [50, 48, 50, 52, 45, 48, 54, 45, 48, 51, 32, 49, 49, 58, 52, 53, 58, 49, 48].getD i 0

/-- The accessed-timestamp slot of block `i` of the mounted volume. -/
def accessedSlot (s : State) (i : Int) : Option (List Nat) :=
  (readBlock s.activeDisk i s).map
    (fun b => slice b INODE_ACC_TIME_STAMP_OFFSET TIMESTAMP_BUFFER_SIZE)

/-- The four-block volume after `tfs_openFile("a")` and `tfs_writeFile(0, buffer, 0)`. -/
def smallVolumeZero : State :=
  stateOf (tfs_writeFile sampleErrno 0 [] 0 sampleClock smallVolumeA)

/-- The four-block volume after `tfs_openFile("a")`, `tfs_writeFile(0, buffer, 0)`
and `tfs_deleteFile(0)`. -/
def smallVolumeZeroDeleted : State := stateOf (tfs_deleteFile sampleErrno 0 smallVolumeZero)

/-- The next pointer (bytes 2 to 5) of block `b` of the mounted volume. -/
def nextOf (s : State) (b : Int) : Option Int :=
  (readBlock s.activeDisk b s).map (fun blk => readInt blk FREE_NEXT_BLOCK_OFFSET)

/-- The four-block volume after `tfs_openFile("a")`, `tfs_closeFile(0)` and
`tfs_openFile("b")`. -/
def smallVolumeTwoFiles : State :=
  stateOf (tfs_openFile sampleErrno [98] sampleClock
    (stateOf (tfs_closeFile sampleErrno 0 smallVolumeA)))

/-- The maximum number of files recorded in the superblock of the mounted volume. -/
def maxFilesOf (s : State) : Option Int :=
  (readBlock s.activeDisk SUPER_BLOCK s).map (fun sb => readInt sb SUPER_MAX_NUM_FILES_OFFSET)

/-- A fresh process on a host whose file `e.dsk` exists and is empty. -/
def emptyFileHost : State :=
  initialState (fun p => if p = "e.dsk" then some { blocks := [], rest := [] } else none)
    (fun _ => true)

/-- The five-block volume after `tfs_openFile("a")` and a write of 13 bytes to it
(data block 3; block 4 is free). -/
def fiveVolumeThirteen : State :=
  stateOf (tfs_writeFile sampleErrno 0 (List.replicate 13 120) 13 sampleClock
    (stateOf (tfs_openFile sampleErrno [97] sampleClock fiveVolume)))

/-- The five-block volume after `tfs_openFile("a")`, a write of 13 bytes and a
write of 250 bytes to the same file. -/
def fiveVolumeRewritten : State :=
  stateOf (tfs_writeFile sampleErrno 0 (List.replicate 250 121) 250 sampleClock
    fiveVolumeThirteen)

/-- The five-block volume after `tfs_openFile("a")` (descriptor 0, inode 2),
`tfs_writeFile(0, buffer, 0)`, `tfs_openFile("b")` (descriptor 1, inode 3) and
`tfs_deleteFile(0)`. -/
def fiveVolumeShared : State :=
  stateOf (tfs_deleteFile sampleErrno 0
    (stateOf (tfs_openFile sampleErrno [98] sampleClock
      (stateOf (tfs_writeFile sampleErrno 0 [] 0 sampleClock
        (stateOf (tfs_openFile sampleErrno [97] sampleClock fiveVolume)))))))

/-- The state `fiveVolumeShared` after `tfs_writeFile(1, "hi", 2)` and
`tfs_openFile("d")`. -/
def fiveVolumeTwice : State :=
  stateOf (tfs_openFile sampleErrno [100] sampleClock
    (stateOf (tfs_writeFile sampleErrno 1 [104, 105] 2 sampleClock fiveVolumeShared)))

/-- The five-block volume after `tfs_openFile("a")`: inode 2, descriptor 0, free
blocks 3 and 4. -/
def fiveVolumeA : State :=
  stateOf (tfs_openFile sampleErrno [97] sampleClock fiveVolume)

/-- Block `fl[q]` of disk `a` is data block number `q` of a file of `n` blocks that
holds the bytes `B` in the blocks `fl[0], ..., fl[n - 1]`: it is readable, has 256
bytes, is typed data with the magic byte, its next field points to `fl[q + 1]` (0
in the last block), and its payload starts with the bytes `B[250 q ..]`. -/
def DataBlockIs (a : Int) (s : State) (B : List Nat) (fl : List Int) (n q : Nat) : Prop :=
  ∃ b, readBlock a (fl.getD q 0) s = some b ∧ b.length = 256 ∧
    b.getD BLOCK_NUMBER_OFFSET 0 = DATA_BLOCK_TYPE ∧
    b.getD MAGIC_NUMBER_OFFSET 0 = MAGIC_NUMBER ∧
    readInt b DATA_NEXT_BLOCK_OFFSET = (if q + 1 = n then 0 else fl.getD (q + 1) 0) ∧
    ∀ r, r < 250 → 250 * q + r < B.length →
      b.getD (DATA_BLOCK_DATA_OFFSET + r) 0 = B.getD (250 * q + r) 0

/-- Number of blocks reachable from the free-list head of the superblock. -/
def freeCount (s : State) : Option Nat := (freeList s).map List.length

/-- Number of blocks reachable through the inodes of the list `l`: every inode
block and the blocks of its data chain; `none` when a data chain cannot be
walked. -/
def countBlocks (s : State) : List (Int × Block) → Option Nat
  | [] => some 0
  | p :: l =>
    match dataBlocks s p.1, countBlocks s l with
    | some d, some c => some (1 + d.length + c)
    | _, _ => none

/-- Number of inode and data blocks reachable through the inode list of the
mounted volume. -/
def usedBlocks (s : State) : Option Nat := (inodeList s).bind (countBlocks s)

/-- A call of one of the functions that open, close, write, delete or rename a
file, with its arguments and, where the function reads the clock, the clock
reading.  `tfs_writeFile` is called with the length of the buffer as its size. -/
inductive Call where
  | openFile (name : List Nat) (clock : Nat → Nat)
  | closeFile (fd : Int)
  | writeFile (fd : Int) (buffer : List Nat) (clock : Nat → Nat)
  | deleteFile (fd : Int)
  | rename (fd : Int) (newName : List Nat) (clock : Nat → Nat)

/-- The call `c` made in state `s`. -/
def runCall (e : Errno) : Call → State → Outcome State
  | .openFile name clock, s => tfs_openFile e name clock s
  | .closeFile fd, s => tfs_closeFile e fd s
  | .writeFile fd buffer clock, s =>
    tfs_writeFile e fd buffer (Int.ofNat buffer.length) clock s
  | .deleteFile fd, s => tfs_deleteFile e fd s
  | .rename fd newName clock, s => tfs_rename e fd newName clock s

/-- A `tfs_writeFile(fd, buffer, size)` in state `s` on a descriptor that is not
open, or the first write to a file: the inode of the descriptor records size 0
and `size` is at least 1 (and fits a C `int`). -/
def admittedWrite (s : State) (fd : Int) (size : Nat) : Bool :=
  match tableGet s.fileDescriptorTable fd with
  | none => false
  | some none => true
  | some (some en) =>
    match inodeSizeAndData s en.inodeNumber with
    | some p => decide (p.1 = 0 ∧ 1 ≤ size ∧ size ≤ 2147483647)
    | none => false

/-- Every call is admitted except a `tfs_writeFile` for which `admittedWrite` is
false: a write to a file whose inode records a size other than 0, or a write of
size 0. -/
def admitted : Call → State → Bool
  | .writeFile fd buffer _, s => admittedWrite s fd buffer.length
  | _, _ => true

/-- A sequence of calls, each of which is admitted and returns (with success or
with an error code): the state after the last call; `none` when some call is not
admitted or does not return. -/
def runCalls (e : Errno) : List Call → State → Option State
  | [], s => some s
  | c :: cs, s =>
    if admitted c s then
      match runCall e c s with
      | .ret _ s1 => runCalls e cs s1
      | .undefined => none
      | .diverge => none
    else none

/-- The blocks `l` of disk `a` form a list that starts at `h` and ends at 0: every
block is readable, has 256 bytes and satisfies `P`, and the 4-byte field at `off`
of each block holds the number of the next one. -/
def Linked (a : Int) (s : State) (off : Nat) (P : Block → Prop) : Int → List Int → Prop
  | h, [] => h = 0
  | h, x :: l => h = x ∧ x ≠ 0 ∧ ∃ b, readBlock a x s = some b ∧ b.length = 256 ∧ P b ∧
      Linked a s off P (readInt b off) l

/-- The shape of a mounted volume of `n` blocks: the free list is `fl`, the files
are `fs`, each given by its inode block and the blocks of its data chain, in the
order of the inode list; no block is on two lists or twice on one, the lists and
the blocks 0 and 1 make up the volume, an inode that records size 0 has no data
block, and the occupied slots of the descriptor table are bound to different
inodes of the list. -/
structure VolInv (a : Int) (n : Nat) (fl : List Int) (fs : List (Int × List Int))
    (s : State) : Prop where
  active : s.activeDisk = a
  active_ne : a ≠ 0
  blocks : diskBlocks s a = n
  super : ∃ sb, readBlock a SUPER_BLOCK s = some sb ∧ sb.length = 256 ∧
    Linked a s FREE_NEXT_BLOCK_OFFSET (fun _ => True) (readInt sb FB_OFFSET) fl ∧
    Linked a s INODE_NEXT_INODE_OFFSET (fun _ => True) (readInt sb IB_OFFSET)
      (fs.map Prod.fst)
  data : ∀ p ∈ fs, ∃ xb, readBlock a p.1 s = some xb ∧
    Linked a s DATA_NEXT_BLOCK_OFFSET (fun _ => True)
      (readInt xb INODE_DATA_BLOCK_OFFSET) p.2 ∧
    (readInt xb INODE_FILE_SIZE_OFFSET = 0 → p.2 = [])
  nodup : (fl ++ fs.map Prod.fst ++ (fs.map Prod.snd).flatten).Nodup
  count : fl.length + fs.length + (fs.map Prod.snd).flatten.length + 2 = n
  table : ∃ t, s.fileDescriptorTable = some t ∧ s.maxNumberOfFiles = Int.ofNat t.length ∧
    (∀ (i : Nat) (en : fileDescriptorTableEntry), t[i]? = some (some en) →
      en.inodeNumber ∈ fs.map Prod.fst) ∧
    ∀ (i j : Nat) (en1 en2 : fileDescriptorTableEntry),
      t[i]? = some (some en1) → t[j]? = some (some en2) →
      en1.inodeNumber = en2.inodeNumber → i = j

/-- A sample sequence of calls: open `a`, write 251 bytes to it, delete it, open
`d`, write one byte to it, rename it to `c` and close it. -/
def sampleCalls : List Call :=
  [.openFile [97] sampleClock, .writeFile 0 (List.replicate 251 120) sampleClock,
   .deleteFile 0, .openFile [100] laterClock, .writeFile 0 [100] laterClock,
   .rename 0 [99] laterClock, .closeFile 0]

/-- The five-block volume after the calls `sampleCalls`. -/
def fiveVolumeCalls : State := (runCalls sampleErrno sampleCalls fiveVolume).getD freshProcess

/-- The blocks met in a host file by following the 4-byte next field at offset 2
from block `i` until it is 0; `none` when a block is missing or the walk does not
end within the given number of steps. -/
def fileChain (f : HostFile) : Nat → Int → Option (List Int)
  | 0, _ => none
  | fuel + 1, i =>
    if i = 0 then some []
    else if i < 0 then none
    else
      match f.blocks[i.toNat]? with
      | none => none
      | some b => (fileChain f fuel (readInt b FREE_NEXT_BLOCK_OFFSET)).map (fun l => i :: l)

/-- The free list stored in a host file: the walk from the free-list head of
block 0. -/
def fileFreeList (f : HostFile) : Option (List Int) :=
  match f.blocks[0]? with
  | none => none
  | some sb => fileChain f (f.blocks.length + 1) (readInt sb FB_OFFSET)

/-- The state after `tfs_mount("e.dsk")` has failed on the host `emptyFileHost`. -/
def emptyMountFailed : State := stateOf (tfs_mount sampleErrno "e.dsk" emptyFileHost)

/-- Every block of the backing file of disk `a` has 256 bytes. -/
def blocksSized (s : State) (a : Int) : Bool :=
  match findDisk s.diskListHead a with
  | none => true
  | some d =>
    match s.files d.filename with
    | none => true
    | some f => f.blocks.all (fun b => decide (b.length = 256))

/-- The block numbers of the inode list of the mounted volume, in order from the
inode-list head of the superblock. -/
def inodeBlocks (s : State) : Option (List Int) :=
  (inodeList s).map (fun l => l.map (fun p => p.1))

/-- The block `deallocateBlock` writes into the block it frees: zero bytes, type
tag 4, the magic byte, and `next` in the next-free field. -/
def freedBlock (next : Int) : Block :=
  writeInt (setByte (setByte zeroBlock BLOCK_NUMBER_OFFSET FREE_BLOCK_TYPE)
    MAGIC_NUMBER_OFFSET MAGIC_NUMBER) FREE_NEXT_BLOCK_OFFSET next

/-- The demo volume after the eight opens and a write of 251 bytes to `file4`
(descriptor 3, inode 5): the file holds the data blocks 10 and 11. -/
def demoTwoBlocks : State :=
  stateOf (tfs_writeFile sampleErrno 3 (List.replicate 251 120) 251 sampleClock demoOpened)

/-! ## End of the definitions -/

/-! ## Lemmas on the codec primitives -/

theorem getElem?_memcpy (dst : Block) (off : Nat) (src : List Nat) (i : Nat)
    (hoff : off ≤ dst.length) :
    (memcpy dst off src)[i]? =
      if i < off then dst[i]? else if i < off + src.length then src[i - off]? else dst[i]? := by
  unfold memcpy
  have htake : (dst.take off).length = off := by simp [List.length_take, hoff]
  by_cases h1 : i < off
  · rw [if_pos h1, List.append_assoc, List.getElem?_append_left (by omega),
      List.getElem?_take_of_lt h1]
  · rw [if_neg h1, List.append_assoc, List.getElem?_append_right (by omega), htake]
    by_cases h2 : i < off + src.length
    · rw [if_pos h2, List.getElem?_append_left (by omega)]
    · rw [if_neg h2, List.getElem?_append_right (by omega), List.getElem?_drop]
      congr 1
      omega

theorem getD_memcpy (dst : Block) (off : Nat) (src : List Nat) (i : Nat)
    (hoff : off ≤ dst.length) :
    (memcpy dst off src).getD i 0 =
      if i < off then dst.getD i 0 else if i < off + src.length then src.getD (i - off) 0
      else dst.getD i 0 := by
  simp only [List.getD_eq_getElem?_getD, getElem?_memcpy dst off src i hoff]
  split_ifs <;> rfl

theorem length_memcpy (dst : Block) (off : Nat) (src : List Nat)
    (h : off + src.length ≤ dst.length) : (memcpy dst off src).length = dst.length := by
  unfold memcpy
  simp only [List.length_append, List.length_take, List.length_drop]
  omega

theorem length_intBytes (v : Int) : (intBytes v).length = 4 := rfl

theorem length_writeInt (buf : Block) (off : Nat) (v : Int) (h : off + 4 ≤ buf.length) :
    (writeInt buf off v).length = buf.length :=
  length_memcpy buf off (intBytes v) h

theorem length_setByte (buf : Block) (off v : Nat) : (setByte buf off v).length = buf.length := by
  simp [setByte]

theorem length_memsetZero (buf : Block) (off n : Nat) (h : off + n ≤ buf.length) :
    (memsetZero buf off n).length = buf.length := by
  unfold memsetZero
  exact length_memcpy _ _ _ (by simpa using h)

theorem length_getTimestamp (clock : Nat → Nat) : (getTimestamp clock).length = 25 := by
  simp only [getTimestamp, TIMESTAMP_BUFFER_SIZE, List.length_map, List.length_range]

theorem length_zeroBlock : zeroBlock.length = 256 := by
  unfold zeroBlock BLOCKSIZE
  exact List.length_replicate _ _

theorem getD_setByte (buf : Block) (off v i : Nat) :
    (setByte buf off v).getD i 0 =
      if i = off ∧ off < buf.length then v else buf.getD i 0 := by
  simp only [setByte, List.getD_eq_getElem?_getD, List.getElem?_set]
  by_cases h : off = i
  · subst h
    by_cases h2 : off < buf.length
    · simp [h2]
    · simp [h2, List.getElem?_eq_none (Nat.le_of_not_lt h2)]
  · have h3 : ¬ (i = off ∧ off < buf.length) := fun hx => h hx.1.symm
    simp [h, h3]

theorem wrap32_of_range (v : Int) (h1 : -2147483648 ≤ v) (h2 : v < 2147483648) :
    wrap32 v = v := by
  unfold wrap32
  simp only
  split_ifs <;> omega

theorem wrap32_range (v : Int) : -2147483648 ≤ wrap32 v ∧ wrap32 v < 2147483648 := by
  unfold wrap32
  simp only
  split_ifs <;> omega

theorem readInt_range (buf : Block) (off : Nat) :
    -2147483648 ≤ readInt buf off ∧ readInt buf off < 2147483648 :=
  wrap32_range _

theorem readInt_congr (b b1 : Block) (off off1 : Nat)
    (h : ∀ i, i < 4 → b.getD (off + i) 0 = b1.getD (off1 + i) 0) :
    readInt b off = readInt b1 off1 := by
  unfold readInt
  have h0 := h 0 (by omega)
  have h1 := h 1 (by omega)
  have h2 := h 2 (by omega)
  have h3 := h 3 (by omega)
  simp only [Nat.add_zero] at h0
  rw [h0, h1, h2, h3]

theorem decode_intBytes (v : Int) :
    wrap32 (Int.ofNat ((intBytes v).getD 0 0 % 256 + 256 * ((intBytes v).getD 1 0 % 256)
      + 65536 * ((intBytes v).getD 2 0 % 256) + 16777216 * ((intBytes v).getD 3 0 % 256)))
      = wrap32 v := by
  have hu : (intBytes v).getD 0 0 % 256 + 256 * ((intBytes v).getD 1 0 % 256)
      + 65536 * ((intBytes v).getD 2 0 % 256) + 16777216 * ((intBytes v).getD 3 0 % 256)
      = (v % 4294967296).toNat := by
    simp only [intBytes, List.getD_cons_zero, List.getD_cons_succ]
    have : (v % 4294967296).toNat < 4294967296 := by omega
    omega
  rw [hu]
  unfold wrap32
  have : Int.ofNat (v % 4294967296).toNat = v % 4294967296 := by
    simp only [Int.ofNat_eq_coe]
    omega
  rw [this]
  simp only
  have h2 : v % 4294967296 % 4294967296 = v % 4294967296 := by omega
  rw [h2]

theorem readInt_writeInt_same (buf : Block) (off : Nat) (v : Int) (h : off ≤ buf.length) :
    readInt (writeInt buf off v) off = wrap32 v := by
  rw [← decode_intBytes v]
  unfold readInt writeInt
  have e0 := getD_memcpy buf off (intBytes v) off h
  have e1 := getD_memcpy buf off (intBytes v) (off + 1) h
  have e2 := getD_memcpy buf off (intBytes v) (off + 2) h
  have e3 := getD_memcpy buf off (intBytes v) (off + 3) h
  simp only [length_intBytes] at e0 e1 e2 e3
  rw [e0, e1, e2, e3]
  have a0 : ¬ off < off := by omega
  have a1 : ¬ off + 1 < off := by omega
  have a2 : ¬ off + 2 < off := by omega
  have a3 : ¬ off + 3 < off := by omega
  have c0 : off < off + 4 := by omega
  have c1 : off + 1 < off + 4 := by omega
  have c2 : off + 2 < off + 4 := by omega
  have c3 : off + 3 < off + 4 := by omega
  simp only [if_neg a0, if_neg a1, if_neg a2, if_neg a3, if_pos c0, if_pos c1, if_pos c2,
    if_pos c3, Nat.sub_self, Nat.add_sub_cancel_left]

theorem readInt_memcpy_disjoint (buf : Block) (off : Nat) (src : List Nat) (off1 : Nat)
    (h : off ≤ buf.length) (hd : off1 + 4 ≤ off ∨ off + src.length ≤ off1) :
    readInt (memcpy buf off src) off1 = readInt buf off1 := by
  apply readInt_congr
  intro i hi
  rw [getD_memcpy buf off src (off1 + i) h]
  split_ifs with h1 h2
  · rfl
  · omega
  · rfl

theorem readInt_writeInt_disjoint (buf : Block) (off : Nat) (v : Int) (off1 : Nat)
    (h : off ≤ buf.length) (hd : off1 + 4 ≤ off ∨ off + 4 ≤ off1) :
    readInt (writeInt buf off v) off1 = readInt buf off1 :=
  readInt_memcpy_disjoint buf off (intBytes v) off1 h (by simpa [length_intBytes] using hd)

theorem readInt_setByte_disjoint (buf : Block) (off v off1 : Nat)
    (hd : off < off1 ∨ off1 + 4 ≤ off) :
    readInt (setByte buf off v) off1 = readInt buf off1 := by
  apply readInt_congr
  intro i hi
  rw [getD_setByte]
  have : ¬ (off1 + i = off ∧ off < buf.length) := by omega
  rw [if_neg this]

/-! ## Lemmas on the block device -/

theorem writeBlock_activeDisk (disk bNum : Int) (blk : Block) (s : State) :
    (writeBlock disk bNum blk s).2.activeDisk = s.activeDisk := by
  unfold writeBlock
  split
  · rfl
  · split
    · rfl
    · split <;> rfl

theorem writeBlock_table (disk bNum : Int) (blk : Block) (s : State) :
    (writeBlock disk bNum blk s).2.fileDescriptorTable = s.fileDescriptorTable := by
  unfold writeBlock
  split
  · rfl
  · split
    · rfl
    · split <;> rfl

theorem writeBlock_maxFiles (disk bNum : Int) (blk : Block) (s : State) :
    (writeBlock disk bNum blk s).2.maxNumberOfFiles = s.maxNumberOfFiles := by
  unfold writeBlock
  split
  · rfl
  · split
    · rfl
    · split <;> rfl

theorem writeBlock_diskList (disk bNum : Int) (blk : Block) (s : State) :
    (writeBlock disk bNum blk s).2.diskListHead = s.diskListHead := by
  unfold writeBlock
  split
  · rfl
  · split
    · rfl
    · split <;> rfl

theorem writeBlock_diskCounter (disk bNum : Int) (blk : Block) (s : State) :
    (writeBlock disk bNum blk s).2.diskCounter = s.diskCounter := by
  unfold writeBlock
  split
  · rfl
  · split
    · rfl
    · split <;> rfl

theorem diskBlocks_writeBlock (disk bNum : Int) (blk : Block) (s : State) (k : Int) :
    diskBlocks (writeBlock disk bNum blk s).2 k = diskBlocks s k := by
  unfold diskBlocks
  rw [writeBlock_diskList]

/-- What a successful `readBlock` tells about the registry and the host file. -/
theorem readBlock_some (disk b : Int) (s : State) (x : Block)
    (h : readBlock disk b s = some x) :
    ∃ d f, findDisk s.diskListHead disk = some d ∧ 0 ≤ b ∧ b < Int.tdiv d.nBytes 256 ∧
      d.readable = true ∧ s.files d.filename = some f ∧ f.blocks[b.toNat]? = some x := by
  unfold readBlock at h
  split at h
  · exact absurd h (by simp)
  · rename_i d hd
    split at h
    · exact absurd h (by simp)
    · rename_i hb
      split at h
      · exact absurd h (by simp)
      · rename_i hr
        split at h
        · exact absurd h (by simp)
        · rename_i f hf
          refine ⟨d, f, hd, ?_, ?_, ?_, hf, h⟩
          · omega
          · omega
          · simpa using hr

theorem getElem?_write (f : HostFile) (b : Nat) (blk : Block) (i : Nat)
    (hb : b < f.blocks.length) :
    (f.write b blk).blocks[i]? = if i = b then some blk else f.blocks[i]? := by
  unfold HostFile.write
  rw [if_pos hb]
  simp only [List.getElem?_set]
  by_cases h : b = i
  · subst h
    simp [hb]
  · have h2 : ¬ i = b := fun hx => h hx.symm
    simp [h, h2]

theorem length_write (f : HostFile) (b : Nat) (blk : Block) (hb : b < f.blocks.length) :
    (f.write b blk).blocks.length = f.blocks.length := by
  unfold HostFile.write
  rw [if_pos hb]
  simp

/-- A write to a block that can be read succeeds. -/
theorem writeBlock_fst_of_read (disk b : Int) (s : State) (x blk : Block)
    (h : readBlock disk b s = some x) : (writeBlock disk b blk s).1 = 0 := by
  obtain ⟨d, f, hd, h0, h1, _, hf, _⟩ := readBlock_some disk b s x h
  unfold writeBlock
  rw [hd]
  simp only
  have hb : ¬ (b < 0 ∨ b ≥ Int.tdiv d.nBytes 256) := by omega
  rw [if_neg hb, hf]

/-- Reading after a write to a readable block: the written block at its index,
the former contents elsewhere. -/
theorem readBlock_writeBlock (disk b b1 : Int) (s : State) (x blk : Block)
    (h : readBlock disk b s = some x) :
    readBlock disk b1 (writeBlock disk b blk s).2 =
      if b1 = b then some blk else readBlock disk b1 s := by
  obtain ⟨d, f, hd, h0, h1, hr, hf, hx⟩ := readBlock_some disk b s x h
  have hlen : b.toNat < f.blocks.length := by
    by_contra hc
    rw [List.getElem?_eq_none (by omega)] at hx
    exact absurd hx (by simp)
  have hb : ¬ (b < 0 ∨ b ≥ Int.tdiv d.nBytes 256) := by omega
  have hw : (writeBlock disk b blk s).2 =
      { s with files := fun p =>
          if p = d.filename then some (f.write b.toNat blk) else s.files p } := by
    unfold writeBlock
    rw [hd]
    simp only
    rw [if_neg hb, hf]
  rw [hw]
  unfold readBlock
  simp only [hd]
  by_cases hb1 : b1 < 0 ∨ b1 ≥ Int.tdiv d.nBytes 256
  · rw [if_pos hb1, if_pos hb1]
    have : ¬ b1 = b := by omega
    rw [if_neg this]
  · rw [if_neg hb1, if_neg hb1]
    have hr2 : ¬ (d.readable = false) := by simp [hr]
    rw [if_neg hr2, if_neg hr2]
    simp only [if_true, hf]
    rw [getElem?_write f b.toNat blk b1.toNat hlen]
    by_cases hbb : b1 = b
    · subst hbb
      simp
    · have : ¬ b1.toNat = b.toNat := by omega
      rw [if_neg this, if_neg hbb]

theorem readBlock_writeBlock_same (disk b : Int) (s : State) (x blk : Block)
    (h : readBlock disk b s = some x) :
    readBlock disk b (writeBlock disk b blk s).2 = some blk := by
  rw [readBlock_writeBlock disk b b s x blk h, if_pos rfl]

theorem readBlock_writeBlock_ne (disk b b1 : Int) (s : State) (x blk : Block)
    (h : readBlock disk b s = some x) (hne : b1 ≠ b) :
    readBlock disk b1 (writeBlock disk b blk s).2 = readBlock disk b1 s := by
  rw [readBlock_writeBlock disk b b1 s x blk h, if_neg hne]

/-- The function `readBlock` only looks at the registry and the host files. -/
theorem readBlock_congr (disk b : Int) (s s1 : State)
    (hl : s1.diskListHead = s.diskListHead) (hf : s1.files = s.files) :
    readBlock disk b s1 = readBlock disk b s := by
  unfold readBlock
  rw [hl, hf]

/-! ## Formatting: `tfs_mkfs` -/

theorem writeBlock_eq_setFile (disk b : Int) (blk : Block) (s : State) (d : Disk) (f : HostFile)
    (hd : findDisk s.diskListHead disk = some d) (h0 : 0 ≤ b)
    (h1 : b < Int.tdiv d.nBytes 256) (hf : s.files d.filename = some f) :
    writeBlock disk b blk s = (0, setFile s d.filename (f.write b.toNat blk)) := by
  unfold writeBlock
  rw [hd]
  simp only
  have hb : ¬ (b < 0 ∨ b ≥ Int.tdiv d.nBytes 256) := by omega
  rw [if_neg hb, hf]
  rfl

theorem set_append_length (pre : List Block) (x y : Block) (post : List Block) :
    (pre ++ x :: post).set pre.length y = pre ++ y :: post := by
  induction pre with
  | nil => rfl
  | cons a t ih => simp [List.set, ih]

theorem setFile_setFile (s : State) (path : String) (f g : HostFile) :
    setFile (setFile s path f) path g = setFile s path g := by
  unfold setFile
  simp only
  congr 1
  funext p
  by_cases h : p = path <;> simp [h]

theorem mkfsLoop_spec (e : Errno) (diskID T : Int) (d : Disk) (hT : 0 ≤ T)
    (hn : Int.tdiv d.nBytes 256 = T + 1) :
    ∀ (m i : Nat) (s : State) (pre : List Block),
      findDisk s.diskListHead diskID = some d →
      i + m = T.toNat + 1 →
      s.files d.filename = some { blocks := pre ++ List.replicate m zeroBlock, rest := [] } →
      pre.length = i →
      mkfsLoop e diskID T m (Int.ofNat i) s =
        (1, setFile s d.filename
          { blocks := pre ++ (List.range m).map (fun j => mkfsBlock T (Int.ofNat i + Int.ofNat j)),
            rest := [] }) := by
  intro m
  induction m with
  | zero =>
    intro i s pre _ _ hf _
    simp only [mkfsLoop, List.range_zero, List.map_nil, List.append_nil]
    simp only [List.replicate_zero, List.append_nil] at hf
    unfold setFile
    congr 1
    have : (fun p => if p = d.filename then some { blocks := pre, rest := [] } else s.files p)
        = s.files := by
      funext p
      by_cases h : p = d.filename
      · simp [h, hf]
      · simp [h]
    rw [this]
  | succ m ih =>
    intro i s pre hd him hf hlen
    have hi0 : (0 : Int) ≤ Int.ofNat i := Int.ofNat_nonneg i
    have hi1 : Int.ofNat i < Int.tdiv d.nBytes 256 := by
      rw [hn]
      simp only [Int.ofNat_eq_coe]
      omega
    have hw := writeBlock_eq_setFile diskID (Int.ofNat i) (mkfsBlock T (Int.ofNat i)) s d _ hd hi0 hi1 hf
    have hwr : ({ blocks := pre ++ List.replicate (m + 1) zeroBlock, rest := [] } : HostFile).write
        (Int.ofNat i).toNat (mkfsBlock T (Int.ofNat i)) =
        { blocks := (pre ++ [mkfsBlock T (Int.ofNat i)]) ++ List.replicate m zeroBlock,
          rest := [] } := by
      unfold HostFile.write
      have hlt : (Int.ofNat i).toNat < (pre ++ List.replicate (m + 1) zeroBlock).length := by
        simp only [Int.ofNat_eq_coe, Int.toNat_ofNat, List.length_append, List.length_replicate]
        omega
      rw [if_pos hlt]
      have : (Int.ofNat i).toNat = pre.length := by
        simp only [Int.ofNat_eq_coe, Int.toNat_ofNat]
        omega
      rw [this, List.replicate_succ, set_append_length]
      simp
    rw [hwr] at hw
    unfold mkfsLoop
    simp only [hw]
    have hneg : ¬ ((0 : Int) < 0) := by omega
    rw [if_neg hneg]
    have hd2 : findDisk (setFile s d.filename
        { blocks := (pre ++ [mkfsBlock T (Int.ofNat i)]) ++ List.replicate m zeroBlock,
          rest := [] }).diskListHead diskID = some d := hd
    have hf2 : (setFile s d.filename
        { blocks := (pre ++ [mkfsBlock T (Int.ofNat i)]) ++ List.replicate m zeroBlock,
          rest := [] }).files d.filename =
        some { blocks := (pre ++ [mkfsBlock T (Int.ofNat i)]) ++ List.replicate m zeroBlock,
               rest := [] } := by
      simp [setFile]
    have hcast : Int.ofNat i + 1 = Int.ofNat (i + 1) := by simp
    rw [hcast]
    rw [ih (i + 1) _ (pre ++ [mkfsBlock T (Int.ofNat i)]) hd2 (by omega) hf2 (by simp [hlen])]
    rw [setFile_setFile]
    congr 3
    rw [List.range_succ_eq_map, List.map_cons, List.map_map, List.append_assoc]
    simp only [List.singleton_append, Int.ofNat_eq_coe, Nat.cast_zero, add_zero]
    congr 2
    apply List.map_congr_left
    intro j _
    simp only [Function.comp, Nat.cast_succ, Nat.cast_add, Nat.cast_one]
    congr 1
    omega

theorem findDisk_cons_self (d : Disk) (l : List Disk) :
    findDisk (d :: l) d.diskNumber = some d := by
  simp [findDisk, List.find?_cons]

theorem tdiv_256 (a : Int) (h : 0 ≤ a) : Int.tdiv a 256 = a / 256 :=
  Int.tdiv_eq_ediv h (by omega)

theorem tmod_256 (a : Int) (h : 0 ≤ a) : Int.tmod a 256 = a % 256 :=
  Int.tmod_eq_emod h (by omega)

theorem openDisk_create (filename : String) (nBytes : Int) (s : State)
    (h1 : 256 ≤ nBytes) (hcr : s.creatable filename = true) :
    openDisk filename nBytes s =
      (s.diskCounter,
        { s with
          files := fun p => if p = filename then
            some { blocks := List.replicate (nBytes / 256).toNat zeroBlock, rest := [] }
            else s.files p,
          diskCounter := s.diskCounter + 1,
          diskListHead := { diskNumber := s.diskCounter, nBytes := nBytes - nBytes % 256,
                            filename := filename, readable := false } :: s.diskListHead }) := by
  unfold openDisk
  have hz : ¬ nBytes = 0 := by omega
  have hlt : ¬ nBytes < 256 := by omega
  have hcr2 : ¬ (s.creatable filename = false) := by simp [hcr]
  rw [if_neg hz, if_neg hlt]
  simp only
  rw [if_neg hcr2, tmod_256 nBytes (by omega)]
  have hn1 : (if nBytes % 256 ≠ 0 then nBytes - nBytes % 256 else nBytes)
      = nBytes - nBytes % 256 := by
    split_ifs with h
    · rfl
    · simp only [ne_eq, not_not] at h
      omega
  rw [hn1, tdiv_256 _ (by omega)]
  have hn2 : (nBytes - nBytes % 256) / 256 = nBytes / 256 := by omega
  rw [hn2]

/-- A size between 1024 and `MAX_BYTES` is formatted: `tfs_mkfs` returns 1 and
leaves the state `afterMkfs`. -/
theorem tfs_mkfs_ok (e : Errno) (filename : String) (nBytes : Int) (s : State)
    (hc : 0 ≤ s.diskCounter) (h1 : 1024 ≤ nBytes) (h2 : nBytes ≤ MAX_BYTES)
    (hcr : s.creatable filename = true) :
    tfs_mkfs e filename nBytes s = (1, afterMkfs s filename nBytes) := by
  unfold tfs_mkfs
  have hr : ¬ (nBytes < 0 ∨ nBytes > MAX_BYTES) := by omega
  rw [if_neg hr]
  simp only
  rw [tdiv_256 nBytes (by omega)]
  have hT : ¬ (nBytes / 256 - 1 < 3) := by omega
  rw [if_neg hT, openDisk_create filename nBytes s (by omega) hcr]
  simp only
  have hid : ¬ (s.diskCounter < 0) := by omega
  rw [if_neg hid, Int.tdiv_eq_ediv (by omega) (by omega)]
  have hfl : ¬ ((nBytes / 256 - 1) / 2 < 1) := by omega
  rw [if_neg hfl]
  -- the state after `openDisk`
  generalize hs1 : ({ s with
      files := fun p => if p = filename then
        some { blocks := List.replicate (nBytes / 256).toNat zeroBlock, rest := [] }
        else s.files p,
      diskCounter := s.diskCounter + 1,
      diskListHead := { diskNumber := s.diskCounter, nBytes := nBytes - nBytes % 256,
                        filename := filename, readable := false } :: s.diskListHead } : State) = s1
  have hd1 : findDisk s1.diskListHead s.diskCounter =
      some { diskNumber := s.diskCounter, nBytes := nBytes - nBytes % 256,
             filename := filename, readable := false } := by
    rw [← hs1]
    exact findDisk_cons_self
      { diskNumber := s.diskCounter, nBytes := nBytes - nBytes % 256,
        filename := filename, readable := false } s.diskListHead
  have hnb : Int.tdiv (nBytes - nBytes % 256) 256 = (nBytes / 256 - 1) + 1 := by
    rw [tdiv_256 _ (by omega)]
    omega
  have hsplit : (nBytes / 256).toNat = (nBytes / 256 - 1).toNat + 1 := by omega
  have hf1 : s1.files filename =
      some { blocks := [] ++ List.replicate ((nBytes / 256 - 1).toNat + 1) zeroBlock,
             rest := [] } := by
    rw [← hs1]
    simp only [if_true, hsplit, List.nil_append]
  have hw0 := writeBlock_eq_setFile s.diskCounter 0 (mkfsSuperBlock ((nBytes / 256 - 1) / 2)) s1
    _ _ hd1 (le_refl 0) (by rw [hnb]; omega) hf1
  have hwr : ({ blocks := [] ++ List.replicate ((nBytes / 256 - 1).toNat + 1) zeroBlock,
                rest := [] } : HostFile).write (0 : Int).toNat
        (mkfsSuperBlock ((nBytes / 256 - 1) / 2)) =
      { blocks := [mkfsSuperBlock ((nBytes / 256 - 1) / 2)]
          ++ List.replicate (nBytes / 256 - 1).toNat zeroBlock, rest := [] } := by
    unfold HostFile.write
    have hlt : (0 : Int).toNat <
        ([] ++ List.replicate ((nBytes / 256 - 1).toNat + 1) zeroBlock).length := by
      simp only [List.nil_append, List.length_replicate, Int.toNat_zero]
      omega
    rw [if_pos hlt]
    rfl
  rw [hwr] at hw0
  rw [hw0]
  simp only
  have hneg : ¬ ((0 : Int) < 0) := by omega
  rw [if_neg hneg]
  have hloop := mkfsLoop_spec e s.diskCounter (nBytes / 256 - 1)
    { diskNumber := s.diskCounter, nBytes := nBytes - nBytes % 256,
      filename := filename, readable := false } (by omega) hnb
    (nBytes / 256 - 1).toNat 1
    (setFile s1 filename
      { blocks := [mkfsSuperBlock ((nBytes / 256 - 1) / 2)]
          ++ List.replicate (nBytes / 256 - 1).toNat zeroBlock, rest := [] })
    [mkfsSuperBlock ((nBytes / 256 - 1) / 2)] hd1 (by omega) (by simp [setFile]) rfl
  have hone : Int.ofNat 1 = 1 := rfl
  rw [hone] at hloop
  rw [hloop, setFile_setFile]
  congr 1
  rw [← hs1]
  unfold setFile afterMkfs mkfsImage
  simp only
  congr 1
  funext p
  by_cases hp : p = filename
  · simp only [hp, if_true, List.singleton_append]
    congr 3
    apply List.map_congr_left
    intro j _
    congr 1
    simp only [Int.ofNat_eq_coe]
    omega
  · simp [hp]

theorem tfs_mkfs_cases (e : Errno) (filename : String) (nBytes : Int) (s : State) :
    (tfs_mkfs e filename nBytes s).1 = e.FS_CREATION_ERROR ∨
      (1024 ≤ nBytes ∧ nBytes ≤ MAX_BYTES ∧ 0 ≤ s.diskCounter ∧ s.creatable filename = true) := by
  by_cases hr : nBytes < 0 ∨ nBytes > MAX_BYTES
  · left
    unfold tfs_mkfs
    rw [if_pos hr]
  · by_cases hT : nBytes / 256 - 1 < 3
    · left
      unfold tfs_mkfs
      rw [if_neg hr]
      simp only
      rw [tdiv_256 nBytes (by omega), if_pos hT]
    · by_cases hcr : s.creatable filename = true
      · by_cases hc : 0 ≤ s.diskCounter
        · right
          exact ⟨by omega, by omega, hc, hcr⟩
        · left
          unfold tfs_mkfs
          rw [if_neg hr]
          simp only
          rw [tdiv_256 nBytes (by omega), if_neg hT,
            openDisk_create filename nBytes s (by omega) hcr]
          simp only
          rw [if_pos (by omega)]
      · left
        have ho : openDisk filename nBytes s = (-1, s) := by
          unfold openDisk
          have hz : ¬ nBytes = 0 := by omega
          have hlt : ¬ nBytes < 256 := by omega
          have hcr2 : s.creatable filename = false := by simpa using hcr
          rw [if_neg hz, if_neg hlt]
          simp only
          rw [if_pos hcr2]
        unfold tfs_mkfs
        rw [if_neg hr]
        simp only
        rw [tdiv_256 nBytes (by omega), if_neg hT, ho]
        simp

set_option maxRecDepth 8000 in
theorem mkfsSuperBlock_eq (k : Int) :
    mkfsSuperBlock k =
      [1, 0x44] ++ intBytes 2 ++ intBytes 0 ++ intBytes k ++ List.replicate 242 0 := by
  rfl

theorem length_mkfsSuperBlock (k : Int) : (mkfsSuperBlock k).length = 256 := by
  rw [mkfsSuperBlock_eq]
  simp only [List.length_append, List.length_replicate, length_intBytes, List.length_cons,
    List.length_nil]

theorem length_mkfsBlock (T i : Int) : (mkfsBlock T i).length = 256 := by
  unfold mkfsBlock
  rw [length_writeInt _ _ _ (by simp [length_setByte, length_zeroBlock]), length_setByte,
    length_setByte, length_zeroBlock]

theorem getD_zeroBlock (i : Nat) : zeroBlock.getD i 0 = 0 := by
  unfold zeroBlock
  rw [List.getD_eq_getElem?_getD, List.getElem?_replicate]
  split_ifs <;> rfl

theorem readInt_zeroBlock (off : Nat) : readInt zeroBlock off = 0 := by
  unfold readInt
  simp only [getD_zeroBlock]
  rfl

theorem readInt_mkfsSuperBlock (k : Int) (h0 : 0 ≤ k) (h1 : k < 2147483648) :
    readInt (mkfsSuperBlock k) FB_OFFSET = 2 ∧ readInt (mkfsSuperBlock k) IB_OFFSET = 0 ∧
      readInt (mkfsSuperBlock k) SUPER_MAX_NUM_FILES_OFFSET = k := by
  have hl0 : (setByte (setByte zeroBlock BLOCK_NUMBER_OFFSET 1) MAGIC_NUMBER_OFFSET
      MAGIC_NUMBER).length = 256 := by
    rw [length_setByte, length_setByte, length_zeroBlock]
  have hl1 : (writeInt (setByte (setByte zeroBlock BLOCK_NUMBER_OFFSET 1) MAGIC_NUMBER_OFFSET
      MAGIC_NUMBER) 2 2).length = 256 := by
    rw [length_writeInt _ _ _ (by omega), hl0]
  unfold mkfsSuperBlock FB_OFFSET IB_OFFSET SUPER_MAX_NUM_FILES_OFFSET
  refine ⟨?_, ?_, ?_⟩
  · rw [readInt_writeInt_disjoint _ _ _ _ (by omega) (by omega),
      readInt_writeInt_same _ _ _ (by omega)]
    rfl
  · rw [readInt_writeInt_disjoint _ _ _ _ (by omega) (by omega),
      readInt_writeInt_disjoint _ _ _ _ (by omega) (by omega)]
    unfold BLOCK_NUMBER_OFFSET MAGIC_NUMBER_OFFSET
    rw [readInt_setByte_disjoint _ _ _ _ (by omega), readInt_setByte_disjoint _ _ _ _ (by omega),
      readInt_zeroBlock]
  · rw [readInt_writeInt_same _ _ _ (by omega)]
    exact wrap32_of_range k (by omega) h1

/-- C2: whenever `tfs_mkfs` does not reject the size it returns 1 and block 0 of the
backing file is the superblock: byte 0 is 1, byte 1 is 0x44, the free-list head 2 is
stored little-endian at offset 2, the inode-list head 0 at offset 6,
`maxFiles = (nBytes / 256 - 1) / 2` at offset 10, and every other byte is zero; for
`nBytes = 10240` the recorded maximum is 19. -/
theorem tfs_mkfs_writes_superblock (e : Errno) (filename : String) (nBytes : Int) (s : State)
    (hacc : (tfs_mkfs e filename nBytes s).1 ≠ e.FS_CREATION_ERROR) :
    (tfs_mkfs e filename nBytes s).1 = 1 ∧
    ∃ f sb, (tfs_mkfs e filename nBytes s).2.files filename = some f ∧
      f.blocks[0]? = some sb ∧
      sb = [1, 0x44] ++ intBytes 2 ++ intBytes 0 ++ intBytes ((nBytes / 256 - 1) / 2)
        ++ List.replicate 242 0 ∧
      intBytes 2 = [2, 0, 0, 0] ∧ intBytes 0 = [0, 0, 0, 0] ∧
      readInt sb FB_OFFSET = 2 ∧ readInt sb IB_OFFSET = 0 ∧
      readInt sb SUPER_MAX_NUM_FILES_OFFSET = (nBytes / 256 - 1) / 2 ∧
      (nBytes = 10240 → readInt sb SUPER_MAX_NUM_FILES_OFFSET = 19) := by
  rcases tfs_mkfs_cases e filename nBytes s with herr | ⟨h1, h2, hc, hcr⟩
  · exact absurd herr hacc
  · rw [tfs_mkfs_ok e filename nBytes s hc h1 h2 hcr]
    have hM : MAX_BYTES = 2147483647 := rfl
    rw [hM] at h2
    obtain ⟨r1, r2, r3⟩ := readInt_mkfsSuperBlock ((nBytes / 256 - 1) / 2) (by omega) (by omega)
    refine ⟨rfl, mkfsImage nBytes, mkfsSuperBlock ((nBytes / 256 - 1) / 2), ?_, ?_, ?_, rfl, rfl,
      r1, r2, r3, ?_⟩
    · simp [afterMkfs]
    · simp [mkfsImage]
    · exact mkfsSuperBlock_eq _
    · intro h
      rw [r3, h]
      rfl

theorem tfs_mkfs_writes_superblock_witness :
    (tfs_mkfs sampleErrno "t.dsk" 10240 freshProcess).1 = 1 ∧
    ∃ f sb, (tfs_mkfs sampleErrno "t.dsk" 10240 freshProcess).2.files "t.dsk" = some f ∧
      f.blocks[0]? = some sb ∧
      sb = [1, 0x44] ++ intBytes 2 ++ intBytes 0 ++ intBytes (((10240 : Int) / 256 - 1) / 2)
        ++ List.replicate 242 0 ∧
      intBytes 2 = [2, 0, 0, 0] ∧ intBytes 0 = [0, 0, 0, 0] ∧
      readInt sb FB_OFFSET = 2 ∧ readInt sb IB_OFFSET = 0 ∧
      readInt sb SUPER_MAX_NUM_FILES_OFFSET = ((10240 : Int) / 256 - 1) / 2 ∧
      ((10240 : Int) = 10240 → readInt sb SUPER_MAX_NUM_FILES_OFFSET = 19) :=
  tfs_mkfs_writes_superblock sampleErrno "t.dsk" 10240 freshProcess (by
    rw [tfs_mkfs_ok sampleErrno "t.dsk" 10240 freshProcess (by decide) (by decide) (by decide)
      (by rfl)]
    decide)

theorem tfs_mkfs_reject (e : Errno) (filename : String) (nBytes : Int) (s : State)
    (h : nBytes < 1024 ∨ MAX_BYTES < nBytes) :
    tfs_mkfs e filename nBytes s = (e.FS_CREATION_ERROR, s) := by
  unfold tfs_mkfs
  by_cases hr : nBytes < 0 ∨ nBytes > MAX_BYTES
  · rw [if_pos hr]
  · rw [if_neg hr]
    simp only
    rw [tdiv_256 nBytes (by omega)]
    have hT : nBytes / 256 - 1 < 3 := by
      have : ¬ MAX_BYTES < nBytes := by omega
      omega
    rw [if_pos hT]

/-- C3 (as the code has it): when the backing file can be created, `tfs_mkfs`
returns 1 exactly for the sizes whose rounding down to a multiple of 256 lies in
`[4 * 256, MAX_BYTES]`, and rejects every other size with the negative creation
error, leaving the state untouched; 1024 bytes (four blocks) are accepted, 1023
and 768 (three blocks) are rejected. -/
theorem tfs_mkfs_accepts_iff (e : Errno) (he : e.Negative) (filename : String) (nBytes : Int)
    (s : State) (hc : 0 ≤ s.diskCounter) (hcr : s.creatable filename = true) :
    ((tfs_mkfs e filename nBytes s).1 = 1 ↔
      (4 * 256 ≤ nBytes - nBytes % 256 ∧ nBytes - nBytes % 256 ≤ MAX_BYTES ∧ nBytes ≤ MAX_BYTES)) ∧
    (¬ (4 * 256 ≤ nBytes - nBytes % 256 ∧ nBytes - nBytes % 256 ≤ MAX_BYTES ∧ nBytes ≤ MAX_BYTES) →
      tfs_mkfs e filename nBytes s = (e.FS_CREATION_ERROR, s) ∧ e.FS_CREATION_ERROR < 0) ∧
    (tfs_mkfs e filename 1024 s).1 = 1 ∧
    (tfs_mkfs e filename 1023 s).1 = e.FS_CREATION_ERROR ∧
    (tfs_mkfs e filename 768 s).1 = e.FS_CREATION_ERROR := by
  have hneg : e.FS_CREATION_ERROR < 0 := he.1
  have hM : MAX_BYTES = 2147483647 := rfl
  refine ⟨⟨?_, ?_⟩, ?_, ?_, ?_, ?_⟩
  · intro h1
    by_contra hcon
    have hrej := tfs_mkfs_reject e filename nBytes s (by omega)
    rw [hrej] at h1
    simp only at h1
    omega
  · intro hin
    rw [tfs_mkfs_ok e filename nBytes s hc (by omega) (by omega) hcr]
  · intro hout
    exact ⟨tfs_mkfs_reject e filename nBytes s (by omega), hneg⟩
  · rw [tfs_mkfs_ok e filename 1024 s hc (by omega) (by omega) hcr]
  · rw [tfs_mkfs_reject e filename 1023 s (by omega)]
  · rw [tfs_mkfs_reject e filename 768 s (by omega)]

theorem tfs_mkfs_accepts_iff_witness :
    ((tfs_mkfs sampleErrno "t.dsk" 10240 freshProcess).1 = 1 ↔
      (4 * 256 ≤ (10240 : Int) - 10240 % 256 ∧ (10240 : Int) - 10240 % 256 ≤ MAX_BYTES ∧
        10240 ≤ MAX_BYTES)) ∧
    (¬ (4 * 256 ≤ (10240 : Int) - 10240 % 256 ∧ (10240 : Int) - 10240 % 256 ≤ MAX_BYTES ∧
        10240 ≤ MAX_BYTES) →
      tfs_mkfs sampleErrno "t.dsk" 10240 freshProcess = (sampleErrno.FS_CREATION_ERROR, freshProcess)
        ∧ sampleErrno.FS_CREATION_ERROR < 0) ∧
    (tfs_mkfs sampleErrno "t.dsk" 1024 freshProcess).1 = 1 ∧
    (tfs_mkfs sampleErrno "t.dsk" 1023 freshProcess).1 = sampleErrno.FS_CREATION_ERROR ∧
    (tfs_mkfs sampleErrno "t.dsk" 768 freshProcess).1 = sampleErrno.FS_CREATION_ERROR :=
  tfs_mkfs_accepts_iff sampleErrno (by decide) "t.dsk" 10240 freshProcess (by decide) (by rfl)

/-- C3, counterexample: a size of 768 bytes (three blocks) lies in
`[3 * 256, MAX_BYTES]`, the backing file can be created, and `tfs_mkfs` rejects it
with the negative creation error, changing nothing. -/
theorem tfs_mkfs_rejects_three_blocks :
    3 * 256 ≤ (768 : Int) - 768 % 256 ∧ (768 : Int) ≤ MAX_BYTES ∧
    freshProcess.creatable "t.dsk" = true ∧
    (tfs_mkfs sampleErrno "t.dsk" 768 freshProcess).1 = sampleErrno.FS_CREATION_ERROR ∧
    (tfs_mkfs sampleErrno "t.dsk" 768 freshProcess).1 < 0 ∧
    (tfs_mkfs sampleErrno "t.dsk" 768 freshProcess).2.files "t.dsk" = none := by
  decide

/-! ## Mounting and unmounting -/

theorem openDisk_zero_files (path : String) (s : State) :
    (openDisk path 0 s).2.files = s.files := by
  unfold openDisk
  rw [if_pos rfl]
  split
  · rfl
  · simp only
    split <;> rfl

theorem openDisk_existing (path : String) (s : State) (f : HostFile)
    (hf : s.files path = some f) (hal : Int.tmod f.size 256 = 0) :
    openDisk path 0 s =
      (s.diskCounter,
        { s with
          diskCounter := s.diskCounter + 1,
          diskListHead := { diskNumber := s.diskCounter, nBytes := f.size,
                            filename := path, readable := true } :: s.diskListHead }) := by
  unfold openDisk
  rw [if_pos rfl, hf]
  simp only
  rw [if_neg (by simp [hal])]

theorem readBlock_eq (disk b : Int) (s : State) (d : Disk) (f : HostFile)
    (hd : findDisk s.diskListHead disk = some d) (h0 : 0 ≤ b)
    (h1 : b < Int.tdiv d.nBytes 256) (hr : d.readable = true)
    (hf : s.files d.filename = some f) :
    readBlock disk b s = f.blocks[b.toNat]? := by
  unfold readBlock
  rw [hd]
  simp only
  have hb : ¬ (b < 0 ∨ b ≥ Int.tdiv d.nBytes 256) := by omega
  rw [if_neg hb, if_neg (by simp [hr]), hf]

theorem size_nonneg (f : HostFile) : 0 ≤ f.size := by
  unfold HostFile.size
  exact Int.ofNat_nonneg _

theorem tfs_mount_ok (e : Errno) (path : String) (s : State) (f : HostFile) (sb : Block)
    (hact : s.activeDisk = 0) (hf : s.files path = some f) (hal : Int.tmod f.size 256 = 0)
    (hc : s.diskCounter ≠ -1) (hsb : f.blocks[0]? = some sb)
    (hmax : 0 ≤ readInt sb SUPER_MAX_NUM_FILES_OFFSET) :
    tfs_mount e path s =
      .ret s.diskCounter (afterMount s path f.size (readInt sb SUPER_MAX_NUM_FILES_OFFSET)) := by
  have hlen : 0 < f.blocks.length := by
    by_contra hcon
    rw [List.getElem?_eq_none (by omega)] at hsb
    exact absurd hsb (by simp)
  have hsz : 256 ≤ f.size := by
    unfold HostFile.size BLOCKSIZE
    simp only [Int.ofNat_eq_coe]
    omega
  have hnb : (0 : Int) < Int.tdiv f.size 256 := by
    rw [tdiv_256 _ (by omega)]
    omega
  unfold tfs_mount
  rw [if_neg (by simp [hact]), openDisk_existing path s f hf hal]
  dsimp only
  rw [if_neg hc]
  have hrd : ∀ m : Int, readBlock s.diskCounter SUPER_BLOCK
      ({ s with
          diskCounter := s.diskCounter + 1,
          diskListHead := { diskNumber := s.diskCounter, nBytes := f.size,
                            filename := path, readable := true } :: s.diskListHead,
          activeDisk := s.diskCounter, maxNumberOfFiles := m } : State) = some sb := by
    intro m
    have key := readBlock_eq s.diskCounter SUPER_BLOCK
      ({ s with
          diskCounter := s.diskCounter + 1,
          diskListHead := { diskNumber := s.diskCounter, nBytes := f.size,
                            filename := path, readable := true } :: s.diskListHead,
          activeDisk := s.diskCounter, maxNumberOfFiles := m } : State)
      { diskNumber := s.diskCounter, nBytes := f.size, filename := path, readable := true } f
      (findDisk_cons_self
        { diskNumber := s.diskCounter, nBytes := f.size, filename := path, readable := true }
        s.diskListHead)
      (le_refl _) hnb rfl hf
    exact key.trans hsb
  have hrd0 := hrd s.maxNumberOfFiles
  have hrd1 := hrd (readInt sb SUPER_MAX_NUM_FILES_OFFSET)
  simp only [SUPER_BLOCK] at hrd0 hrd1 ⊢
  rw [hrd0]
  simp only
  rw [hrd1]
  simp only
  rw [if_neg (by omega)]
  rfl

theorem tfs_mount_total (e : Errno) (path : String) (s : State) :
    ∃ c s1, tfs_mount e path s = .ret c s1 ∧ s1.files = s.files ∧
      (c = e.FS_MOUNT_ERROR ∨ (c = s.diskCounter ∧ s1.activeDisk = c)) := by
  unfold tfs_mount
  by_cases hact : s.activeDisk ≠ 0
  · rw [if_pos hact]
    exact ⟨_, _, rfl, rfl, Or.inl rfl⟩
  · rw [if_neg hact]
    dsimp only
    have hfiles := openDisk_zero_files path s
    by_cases ho : (openDisk path 0 s).1 = -1
    · rw [if_pos ho]
      exact ⟨_, _, rfl, hfiles, Or.inl rfl⟩
    · rw [if_neg ho]
      split
      · exact ⟨_, _, rfl, hfiles, Or.inl rfl⟩
      · rename_i superData hsup
        have hsame : readBlock (openDisk path 0 s).1 0
            ({ (openDisk path 0 s).2 with
                activeDisk := (openDisk path 0 s).1,
                maxNumberOfFiles := readInt superData SUPER_MAX_NUM_FILES_OFFSET } : State)
            = some superData := by
          rw [← hsup]
          exact readBlock_congr _ _ _ _ rfl rfl
        rw [hsame]
        dsimp only
        have hfst : (openDisk path 0 s).1 = s.diskCounter := by
          unfold openDisk at ho ⊢
          rw [if_pos rfl] at ho ⊢
          split
          · rename_i hnone
            rw [hnone] at ho
            exact absurd rfl ho
          · rename_i f hsome
            rw [hsome] at ho
            simp only at ho ⊢
            split
            · rename_i hmis
              rw [if_pos hmis] at ho
              exact absurd rfl ho
            · rfl
        split
        · exact ⟨_, _, rfl, hfiles, Or.inl rfl⟩
        · exact ⟨_, _, rfl, hfiles, Or.inr ⟨hfst, rfl⟩⟩

theorem tfs_unmount_cases (e : Errno) (s : State) (c : Int) (s1 : State)
    (h : tfs_unmount e s = .ret c s1) :
    (s.activeDisk = 0 ∧ c = e.FS_UNMOUNT_ERROR ∧ s1 = s) ∨
      (s.activeDisk ≠ 0 ∧ c = 1 ∧
        s1 = { s with activeDisk := 0, fileDescriptorTable := none }) := by
  unfold tfs_unmount at h
  split at h
  · rename_i hact
    injection h with hc hs
    exact Or.inl ⟨hact, hc.symm, hs.symm⟩
  · rename_i hact
    simp only at h
    split at h
    · split at h
      · injection h with hc hs
        exact Or.inr ⟨hact, hc.symm, hs.symm⟩
      · exact absurd h (by simp)
    · split at h
      · injection h with hc hs
        exact Or.inr ⟨hact, hc.symm, hs.symm⟩
      · exact absurd h (by simp)

theorem tfs_unmount_ok (e : Errno) (s : State) (t : List (Option fileDescriptorTableEntry))
    (hact : s.activeDisk ≠ 0) (ht : s.fileDescriptorTable = some t)
    (hlen : s.maxNumberOfFiles.toNat ≤ t.length) :
    tfs_unmount e s = .ret 1 { s with activeDisk := 0, fileDescriptorTable := none } := by
  unfold tfs_unmount
  rw [if_neg hact]
  simp only
  rw [ht]
  simp only
  rw [if_pos hlen]

theorem size_mkfsImage (nBytes : Int) (h1 : 1024 ≤ nBytes) :
    (mkfsImage nBytes).size = 256 * (nBytes / 256) := by
  unfold HostFile.size mkfsImage BLOCKSIZE
  simp only [List.length_cons, List.length_map, List.length_range, List.length_nil,
    Int.ofNat_eq_coe]
  omega

theorem tfs_mount_after_mkfs (e : Errno) (path : String) (nBytes : Int) (s : State)
    (hc : 0 ≤ s.diskCounter) (hact : s.activeDisk = 0)
    (h1 : 1024 ≤ nBytes) (h2 : nBytes ≤ MAX_BYTES) :
    tfs_mount e path (afterMkfs s path nBytes) =
      .ret (s.diskCounter + 1) (freshVolume s path nBytes) := by
  have hM : MAX_BYTES = 2147483647 := rfl
  rw [hM] at h2
  obtain ⟨_, _, r3⟩ := readInt_mkfsSuperBlock ((nBytes / 256 - 1) / 2) (by omega) (by omega)
  have hsz := size_mkfsImage nBytes h1
  have hmount := tfs_mount_ok e path (afterMkfs s path nBytes) (mkfsImage nBytes)
    (mkfsSuperBlock ((nBytes / 256 - 1) / 2)) hact (by simp [afterMkfs])
    (by rw [hsz, tmod_256 _ (by omega)]; omega)
    (by simp only [afterMkfs]; omega) (by simp [mkfsImage]) (by rw [r3]; omega)
  rw [hmount, r3, hsz]
  rfl

/-- C4, the code at the failing input: block 0 of `bad.dsk` carries type tag 9 and
magic byte 0x45, and `tfs_mount` still returns the disk handle 1 (not a negative
code) and leaves that disk mounted. -/
theorem tfs_mount_accepts_corrupt_superblock :
    corruptSuperBlock.getD BLOCK_NUMBER_OFFSET 0 = 9 ∧
    corruptSuperBlock.getD MAGIC_NUMBER_OFFSET 0 = 0x45 ∧
    (corruptHost.files "bad.dsk").map (fun f => f.blocks[0]?) = some (some corruptSuperBlock) ∧
    ∃ st, tfs_mount sampleErrno "bad.dsk" corruptHost = .ret 1 st ∧ st.activeDisk = 1 ∧
      (∃ t, st.fileDescriptorTable = some t) := by
  have hsb : readInt corruptSuperBlock SUPER_MAX_NUM_FILES_OFFSET = 1 := by
    unfold corruptSuperBlock SUPER_MAX_NUM_FILES_OFFSET BLOCK_NUMBER_OFFSET MAGIC_NUMBER_OFFSET
    rw [readInt_setByte_disjoint _ _ _ _ (by omega), readInt_setByte_disjoint _ _ _ _ (by omega)]
    exact (readInt_mkfsSuperBlock 1 (by omega) (by omega)).2.2
  have hm := tfs_mount_ok sampleErrno "bad.dsk" corruptHost
    { blocks := [corruptSuperBlock, mkfsBlock 3 1, mkfsBlock 3 2, mkfsBlock 3 3], rest := [] }
    corruptSuperBlock rfl (by simp [corruptHost, initialState]) (by decide) (by decide) rfl
    (by rw [hsb]; decide)
  refine ⟨?_, ?_, ?_, ?_⟩
  · unfold corruptSuperBlock
    rw [getD_setByte, getD_setByte]
    simp [BLOCK_NUMBER_OFFSET, MAGIC_NUMBER_OFFSET, length_mkfsSuperBlock]
  · unfold corruptSuperBlock
    rw [getD_setByte]
    simp [BLOCK_NUMBER_OFFSET, MAGIC_NUMBER_OFFSET, length_setByte, length_mkfsSuperBlock]
  · simp [corruptHost, initialState]
  · rw [hm]
    exact ⟨_, rfl, rfl, _, rfl⟩

theorem tfs_unmount_freshVolume (e : Errno) (path : String) (nBytes : Int) (s : State)
    (hc : 0 ≤ s.diskCounter) :
    tfs_unmount e (freshVolume s path nBytes) = .ret 1 (afterUnmount (freshVolume s path nBytes)) := by
  have h := tfs_unmount_ok e (freshVolume s path nBytes)
    (List.replicate ((nBytes / 256 - 1) / 2).toNat none)
    (by simp only [freshVolume, afterMount, afterMkfs]; omega) rfl
    (by simp [freshVolume, afterMount])
  rw [h]
  rfl

/-- C6, the code at the failing input: after `tfs_mkfs`, `tfs_mount` (which returns
handle 2) and a `tfs_unmount` that returns 1, handle 2 is still present in the
registry and `readBlock` on it succeeds, returning the superblock: `tfs_unmount`
has not closed the backing file. -/
theorem tfs_unmount_leaves_handle_registered :
    ∃ s2 s3,
      tfs_mount sampleErrno "t.dsk" (tfs_mkfs sampleErrno "t.dsk" 1024 freshProcess).2 = .ret 2 s2 ∧
      tfs_unmount sampleErrno s2 = .ret 1 s3 ∧
      (findDisk s3.diskListHead 2).isSome = true ∧
      readBlock 2 0 s3 = some (mkfsSuperBlock 1) := by
  rw [tfs_mkfs_ok sampleErrno "t.dsk" 1024 freshProcess (by decide) (by decide) (by decide) rfl]
  refine ⟨freshVolume freshProcess "t.dsk" 1024,
    afterUnmount (freshVolume freshProcess "t.dsk" 1024),
    tfs_mount_after_mkfs sampleErrno "t.dsk" 1024 freshProcess (by decide) rfl (by decide)
      (by decide),
    tfs_unmount_freshVolume sampleErrno "t.dsk" 1024 freshProcess (by decide),
    ?_, ?_⟩
  · rfl
  · have key := readBlock_eq 2 0 (afterUnmount (freshVolume freshProcess "t.dsk" 1024))
      { diskNumber := 2, nBytes := 1024, filename := "t.dsk", readable := true }
      (mkfsImage 1024) rfl (by decide) (by decide) rfl
      (by simp [afterUnmount, freshVolume, afterMount, afterMkfs])
    rw [key]
    rfl

/-! ## Opening files -/

theorem getElem?_slice (b : Block) (off n i : Nat) :
    (slice b off n)[i]? = if i < n then b[off + i]? else none := by
  unfold slice
  rw [List.getElem?_take, List.getElem?_drop]

theorem length_slice (b : Block) (off n : Nat) (h : off + n ≤ b.length) :
    (slice b off n).length = n := by
  unfold slice
  rw [List.length_take, List.length_drop]
  omega

theorem slice_memcpy_same (dst : Block) (off : Nat) (src : List Nat) (h : off ≤ dst.length) :
    slice (memcpy dst off src) off src.length = src := by
  apply List.ext_getElem?
  intro i
  rw [getElem?_slice, getElem?_memcpy dst off src (off + i) h]
  by_cases hi : i < src.length
  · rw [if_pos hi, if_neg (by omega), if_pos (by omega)]
    congr 1
    omega
  · rw [if_neg hi, List.getElem?_eq_none (by omega)]

theorem slice_memcpy_disjoint (dst : Block) (off : Nat) (src : List Nat) (off1 n : Nat)
    (h : off ≤ dst.length) (hd : off1 + n ≤ off ∨ off + src.length ≤ off1) :
    slice (memcpy dst off src) off1 n = slice dst off1 n := by
  apply List.ext_getElem?
  intro i
  rw [getElem?_slice, getElem?_slice, getElem?_memcpy dst off src (off1 + i) h]
  by_cases hi : i < n
  · rw [if_pos hi, if_pos hi]
    split_ifs with h1 h2
    · rfl
    · omega
    · rfl
  · rw [if_neg hi, if_neg hi]

theorem getD_memcpy_disjoint (dst : Block) (off : Nat) (src : List Nat) (i : Nat)
    (h : off ≤ dst.length) (hd : i < off ∨ off + src.length ≤ i) :
    (memcpy dst off src).getD i 0 = dst.getD i 0 := by
  rw [getD_memcpy dst off src i h]
  split_ifs with h1 h2
  · rfl
  · omega
  · rfl

theorem readInt_ne_zero_of_low (b : Block) (off : Nat) (h : b.getD off 0 % 256 ≠ 0) :
    readInt b off ≠ 0 := by
  unfold readInt wrap32
  simp only [Int.ofNat_eq_coe]
  split_ifs <;> omega

theorem searchInode_notFound (name : List Nat) (s : State) :
    ∀ (fuel : Nat) (i : Int) (l : List (Int × Block)),
      inodeChain s fuel i = some l → i ≠ 0 →
      (∀ p ∈ l, strcmpSlot (nameSlot p.2) name = some false) →
      searchInode name s fuel i = .notFound := by
  intro fuel
  induction fuel with
  | zero =>
    intro i l h
    exact absurd h (by simp [inodeChain])
  | succ fuel ih =>
    intro i l h hi hnot
    unfold inodeChain at h
    rw [if_neg hi] at h
    unfold searchInode
    cases hrd : readBlock s.activeDisk i s with
    | none =>
      rw [hrd] at h
      exact absurd h (by simp)
    | some b =>
      rw [hrd] at h
      simp only at h ⊢
      cases hrest : inodeChain s fuel (readInt b INODE_NEXT_INODE_OFFSET) with
      | none =>
        rw [hrest] at h
        exact absurd h (by simp)
      | some l1 =>
        rw [hrest] at h
        simp only [Option.map_some', Option.some.injEq] at h
        subst h
        have hhead := hnot (i, b) (List.mem_cons_self _ _)
        simp only [nameSlot] at hhead
        rw [hhead]
        simp only
        by_cases hlow : b.getD INODE_NEXT_INODE_OFFSET 0 % 256 = 0
        · rw [if_pos hlow]
        · rw [if_neg hlow]
          exact ih _ l1 hrest (readInt_ne_zero_of_low b _ hlow)
            (fun p hp => hnot p (List.mem_cons_of_mem _ hp))

/-- When the name is in no inode of the inode list `tfs_openFile` goes on to the
creation branch. -/
theorem tfs_openFile_eq_openCreate (e : Errno) (name : List Nat) (clock : Nat → Nat) (s : State)
    (sb : Block) (l : List (Int × Block))
    (hsb : readBlock s.activeDisk SUPER_BLOCK s = some sb)
    (hl : inodeList s = some l)
    (hnot : ∀ p ∈ l, strcmpSlot (nameSlot p.2) name = some false) :
    tfs_openFile e name clock s = openCreate e name clock sb s := by
  unfold tfs_openFile
  rw [hsb]
  simp only
  by_cases hhead : readInt sb IB_OFFSET ≠ 0
  · rw [if_pos hhead]
    unfold inodeList at hl
    rw [hsb] at hl
    simp only at hl
    rw [searchInode_notFound name s _ _ l hl hhead hnot]
  · rw [if_neg hhead]

/-- C10: when the name is in no inode of the inode list and the free-list head of
the superblock is 0, `tfs_openFile` returns the no-space code, which is negative,
and the state after the call (every disk block, the descriptor table) is the
state before it. -/
theorem tfs_openFile_no_space (e : Errno) (he : e.Negative) (name : List Nat)
    (clock : Nat → Nat) (s : State) (sb : Block) (l : List (Int × Block))
    (hsb : readBlock s.activeDisk SUPER_BLOCK s = some sb)
    (hl : inodeList s = some l)
    (hnot : ∀ p ∈ l, strcmpSlot (nameSlot p.2) name = some false)
    (hfree : readInt sb FB_OFFSET = 0) :
    tfs_openFile e name clock s = .ret e.NO_SPACE_LEFT s ∧ e.NO_SPACE_LEFT < 0 := by
  refine ⟨?_, he.2.2.2.2.2.2.2.2.2.2.2.2.1⟩
  rw [tfs_openFile_eq_openCreate e name clock s sb l hsb hl hnot]
  unfold openCreate
  simp only
  rw [if_pos hfree]

set_option maxRecDepth 100000 in
theorem tfs_openFile_no_space_witness :
    tfs_openFile sampleErrno [98] sampleClock smallVolumeFull =
      .ret sampleErrno.NO_SPACE_LEFT smallVolumeFull ∧ sampleErrno.NO_SPACE_LEFT < 0 :=
  tfs_openFile_no_space sampleErrno (by decide) [98] sampleClock smallVolumeFull
    ((readBlock smallVolumeFull.activeDisk SUPER_BLOCK smallVolumeFull).getD [])
    ((inodeList smallVolumeFull).getD [])
    (by decide!) (by decide!) (by decide!) (by decide!)

theorem getD_writeInt_disjoint (buf : Block) (off : Nat) (v : Int) (i : Nat)
    (h : off ≤ buf.length) (hd : i < off ∨ off + 4 ≤ i) :
    (writeInt buf off v).getD i 0 = buf.getD i 0 :=
  getD_memcpy_disjoint buf off (intBytes v) i h (by simpa [length_intBytes] using hd)

theorem slice_writeInt_disjoint (buf : Block) (off : Nat) (v : Int) (off1 n : Nat)
    (h : off ≤ buf.length) (hd : off1 + n ≤ off ∨ off + 4 ≤ off1) :
    slice (writeInt buf off v) off1 n = slice buf off1 n :=
  slice_memcpy_disjoint buf off (intBytes v) off1 n h (by simpa [length_intBytes] using hd)

/-- The header of the inode block `tfs_openFile` builds: what the buffer holds
before the name and the timestamps are copied in. -/
theorem newInode_shape (fb : Block) (h : Int) (name : List Nat) (clock : Nat → Nat)
    (hfb : fb.length = 256) :
    ∃ b2 : Block, b2.length = 256 ∧
      newInode fb h name clock =
        memcpy (memcpy (memcpy (memcpy (memsetZero b2 14 9) 14 (cstr name))
          23 (getTimestamp clock)) 48 (getTimestamp clock)) 73 (getTimestamp clock) ∧
      b2.getD 0 0 = 2 ∧ b2.getD 1 0 = 0x44 ∧ readInt b2 2 = wrap32 h ∧ readInt b2 6 = 0 ∧
      readInt b2 10 = 0 := by
  have l0 : (setByte (setByte fb 0 2) 1 0x44).length = 256 := by
    rw [length_setByte, length_setByte, hfb]
  have l1 : (writeInt (setByte (setByte fb 0 2) 1 0x44) 2 h).length = 256 := by
    rw [length_writeInt _ _ _ (by omega), l0]
  have l2a : (writeInt (writeInt (setByte (setByte fb 0 2) 1 0x44) 2 h) 6 0).length = 256 := by
    rw [length_writeInt _ _ _ (by omega), l1]
  have l2 : (writeInt (writeInt (writeInt (setByte (setByte fb 0 2) 1 0x44) 2 h) 6 0)
      10 0).length = 256 := by
    rw [length_writeInt _ _ _ (by omega), l2a]
  refine ⟨writeInt (writeInt (writeInt (setByte (setByte fb 0 2) 1 0x44) 2 h) 6 0) 10 0,
    l2, rfl, ?_, ?_, ?_, ?_, ?_⟩
  · rw [getD_writeInt_disjoint _ _ _ _ (by omega) (by omega),
      getD_writeInt_disjoint _ _ _ _ (by omega) (by omega),
      getD_writeInt_disjoint _ _ _ _ (by omega) (by omega), getD_setByte, getD_setByte]
    simp [hfb]
  · rw [getD_writeInt_disjoint _ _ _ _ (by omega) (by omega),
      getD_writeInt_disjoint _ _ _ _ (by omega) (by omega),
      getD_writeInt_disjoint _ _ _ _ (by omega) (by omega), getD_setByte]
    simp [hfb, length_setByte]
  · rw [readInt_writeInt_disjoint _ _ _ _ (by omega) (by omega),
      readInt_writeInt_disjoint _ _ _ _ (by omega) (by omega),
      readInt_writeInt_same _ _ _ (by omega)]
  · rw [readInt_writeInt_disjoint _ _ _ _ (by omega) (by omega),
      readInt_writeInt_same _ _ _ (by omega)]
    rfl
  · rw [readInt_writeInt_same _ _ _ (by omega)]
    rfl

theorem length_named (b2 : Block) (name : List Nat) (hb2 : b2.length = 256)
    (hname : 14 + (cstr name).length ≤ 256) :
    (memcpy (memsetZero b2 14 9) 14 (cstr name)).length = 256 := by
  rw [length_memcpy _ _ _ (by rw [length_memsetZero _ _ _ (by omega)]; omega),
    length_memsetZero _ _ _ (by omega), hb2]

/-- The name slot after `memset` and the copy of the name. -/
theorem slice_named (b2 : Block) (name : List Nat) (hb2 : b2.length = 256)
    (h9 : (cstr name).length ≤ 9) :
    slice (memcpy (memsetZero b2 14 9) 14 (cstr name)) 14 9 =
      cstr name ++ List.replicate (9 - (cstr name).length) 0 := by
  have lz : (memsetZero b2 14 9).length = 256 := by
    rw [length_memsetZero _ _ _ (by omega), hb2]
  apply List.ext_getElem?
  intro i
  rw [getElem?_slice, getElem?_memcpy _ _ _ _ (by omega)]
  unfold memsetZero
  rw [getElem?_memcpy _ _ _ _ (by omega)]
  simp only [List.length_replicate]
  by_cases hi : i < 9
  · rw [if_pos hi, if_neg (by omega)]
    by_cases hin : i < (cstr name).length
    · rw [if_pos (by omega), List.getElem?_append_left hin]
      congr 1
      omega
    · rw [if_neg (by omega), if_neg (by omega), if_pos (by omega),
        List.getElem?_append_right (by omega), List.getElem?_replicate,
        List.getElem?_replicate, if_pos (by omega), if_pos (by omega)]
  · rw [if_neg hi, List.getElem?_eq_none (by
      simp only [List.length_append, List.length_replicate]
      omega)]

/-- The fields of the inode block `tfs_openFile` builds, for a name that fits in
the block. -/
theorem newInode_fields (fb : Block) (h : Int) (name : List Nat) (clock : Nat → Nat)
    (hfb : fb.length = 256) (hname : 14 + strlen name ≤ 256) :
    (newInode fb h name clock).length = 256 ∧
    (newInode fb h name clock).getD 0 0 = 2 ∧
    (newInode fb h name clock).getD 1 0 = 0x44 ∧
    readInt (newInode fb h name clock) INODE_NEXT_INODE_OFFSET = wrap32 h ∧
    readInt (newInode fb h name clock) INODE_FILE_SIZE_OFFSET = 0 ∧
    readInt (newInode fb h name clock) INODE_DATA_BLOCK_OFFSET = 0 := by
  unfold strlen at hname
  have hts := length_getTimestamp clock
  obtain ⟨b2, l2, hnew, g0, g1, r2, r6, r10⟩ := newInode_shape fb h name clock hfb
  have l3 := length_named b2 name l2 hname
  have l4 : (memcpy (memcpy (memsetZero b2 14 9) 14 (cstr name)) 23
      (getTimestamp clock)).length = 256 := by
    rw [length_memcpy _ _ _ (by omega), l3]
  have l5 : (memcpy (memcpy (memcpy (memsetZero b2 14 9) 14 (cstr name)) 23
      (getTimestamp clock)) 48 (getTimestamp clock)).length = 256 := by
    rw [length_memcpy _ _ _ (by omega), l4]
  have lz : (memsetZero b2 14 9).length = 256 := by
    rw [length_memsetZero _ _ _ (by omega), l2]
  have low : ∀ i, i < 14 → (newInode fb h name clock).getD i 0 = b2.getD i 0 := by
    intro i hi
    rw [hnew, getD_memcpy_disjoint _ _ _ _ (by omega) (by omega),
      getD_memcpy_disjoint _ _ _ _ (by omega) (by omega),
      getD_memcpy_disjoint _ _ _ _ (by omega) (by omega),
      getD_memcpy_disjoint _ _ _ _ (by omega) (by omega)]
    unfold memsetZero
    rw [getD_memcpy_disjoint _ _ _ _ (by omega) (by omega)]
  have lowInt : ∀ off, off + 4 ≤ 14 →
      readInt (newInode fb h name clock) off = readInt b2 off := by
    intro off hoff
    apply readInt_congr
    intro i hi
    exact low (off + i) (by omega)
  refine ⟨?_, ?_, ?_, ?_, ?_, ?_⟩
  · rw [hnew, length_memcpy _ _ _ (by omega), l5]
  · rw [low 0 (by omega), g0]
  · rw [low 1 (by omega), g1]
  · rw [INODE_NEXT_INODE_OFFSET, lowInt 2 (by omega), r2]
  · rw [INODE_FILE_SIZE_OFFSET, lowInt 6 (by omega), r6]
  · rw [INODE_DATA_BLOCK_OFFSET, lowInt 10 (by omega), r10]

/-- The name slot and the three timestamps of the inode block `tfs_openFile`
builds, for a name of at most 9 characters. -/
theorem newInode_name_times (fb : Block) (h : Int) (name : List Nat) (clock : Nat → Nat)
    (hfb : fb.length = 256) (h9 : strlen name ≤ 9) :
    nameSlot (newInode fb h name clock) = cstr name ++ List.replicate (9 - strlen name) 0 ∧
    slice (newInode fb h name clock) INODE_CR8_TIME_STAMP_OFFSET 25 = getTimestamp clock ∧
    slice (newInode fb h name clock) INODE_MOD_TIME_STAMP_OFFSET 25 = getTimestamp clock ∧
    slice (newInode fb h name clock) INODE_ACC_TIME_STAMP_OFFSET 25 = getTimestamp clock := by
  unfold strlen at h9
  have hts := length_getTimestamp clock
  obtain ⟨b2, l2, hnew, _⟩ := newInode_shape fb h name clock hfb
  have l3 := length_named b2 name l2 (by omega)
  have l4 : (memcpy (memcpy (memsetZero b2 14 9) 14 (cstr name)) 23
      (getTimestamp clock)).length = 256 := by
    rw [length_memcpy _ _ _ (by omega), l3]
  have l5 : (memcpy (memcpy (memcpy (memsetZero b2 14 9) 14 (cstr name)) 23
      (getTimestamp clock)) 48 (getTimestamp clock)).length = 256 := by
    rw [length_memcpy _ _ _ (by omega), l4]
  rw [hnew]
  unfold nameSlot strlen INODE_FILE_NAME_OFFSET MAX_FILE_NAME_SIZE INODE_CR8_TIME_STAMP_OFFSET
    INODE_MOD_TIME_STAMP_OFFSET INODE_ACC_TIME_STAMP_OFFSET
  refine ⟨?_, ?_, ?_, ?_⟩
  · rw [slice_memcpy_disjoint _ _ _ _ _ (by omega) (by omega),
      slice_memcpy_disjoint _ _ _ _ _ (by omega) (by omega),
      slice_memcpy_disjoint _ _ _ _ _ (by omega) (by omega)]
    exact slice_named b2 name l2 h9
  · rw [slice_memcpy_disjoint _ _ _ _ _ (by omega) (by omega),
      slice_memcpy_disjoint _ _ _ _ _ (by omega) (by omega)]
    have := slice_memcpy_same (memcpy (memsetZero b2 14 9) 14 (cstr name)) 23
      (getTimestamp clock) (by omega)
    rw [hts] at this
    exact this
  · rw [slice_memcpy_disjoint _ _ _ _ _ (by omega) (by omega)]
    have := slice_memcpy_same (memcpy (memcpy (memsetZero b2 14 9) 14 (cstr name)) 23
      (getTimestamp clock)) 48 (getTimestamp clock) (by omega)
    rw [hts] at this
    exact this
  · have := slice_memcpy_same (memcpy (memcpy (memcpy (memsetZero b2 14 9) 14 (cstr name)) 23
      (getTimestamp clock)) 48 (getTimestamp clock)) 73 (getTimestamp clock) (by omega)
    rw [hts] at this
    exact this

theorem openCreate_ok (e : Errno) (name : List Nat) (clock : Nat → Nat) (s : State)
    (sb fb : Block) (t : List (Option fileDescriptorTableEntry)) (fd : Nat)
    (hsb : readBlock s.activeDisk SUPER_BLOCK s = some sb) (hsbl : sb.length = 256)
    (hf : readInt sb FB_OFFSET ≠ 0)
    (hfb : readBlock s.activeDisk (readInt sb FB_OFFSET) s = some fb)
    (hname : 14 + strlen name ≤ 256)
    (ht : s.fileDescriptorTable = some t) (hfd : firstEmpty t = some fd) :
    openCreate e name clock sb s = .ret (Int.ofNat fd) (createdState s sb fb name clock t fd) := by
  have hw1 := writeBlock_fst_of_read s.activeDisk SUPER_BLOCK s sb (createdSuper sb fb) hsb
  have hne : readInt sb FB_OFFSET ≠ SUPER_BLOCK := hf
  have hfb1 : readBlock s.activeDisk (readInt sb FB_OFFSET)
      (writeBlock s.activeDisk SUPER_BLOCK (createdSuper sb fb) s).2 = some fb := by
    rw [readBlock_writeBlock_ne _ _ _ _ sb _ hsb hne, hfb]
  have hw2 := writeBlock_fst_of_read s.activeDisk (readInt sb FB_OFFSET) _ fb
    (newInode fb (readInt sb IB_OFFSET) name clock) hfb1
  have hhead : readInt (writeInt sb FB_OFFSET (readInt fb FREE_NEXT_BLOCK_OFFSET)) IB_OFFSET
      = readInt sb IB_OFFSET := by
    unfold FB_OFFSET IB_OFFSET
    exact readInt_writeInt_disjoint _ _ _ _ (by omega) (by omega)
  unfold openCreate
  simp only
  rw [if_neg hf, hfb]
  simp only
  have hbig : ¬ (BLOCKSIZE < INODE_FILE_NAME_OFFSET + strlen name) := by
    unfold BLOCKSIZE INODE_FILE_NAME_OFFSET
    omega
  rw [if_neg hbig, hhead]
  unfold createdSuper at hw1 hw2
  rw [if_neg (by rw [hw1]; decide), if_neg (by rw [hw2]; decide)]
  rw [writeBlock_table, writeBlock_table, ht]
  simp only
  rw [hfd]
  rfl

theorem createdState_reads (s : State) (sb fb : Block) (name : List Nat) (clock : Nat → Nat)
    (t : List (Option fileDescriptorTableEntry)) (fd : Nat)
    (hsb : readBlock s.activeDisk SUPER_BLOCK s = some sb)
    (hf : readInt sb FB_OFFSET ≠ 0)
    (hfb : readBlock s.activeDisk (readInt sb FB_OFFSET) s = some fb) :
    (createdState s sb fb name clock t fd).activeDisk = s.activeDisk ∧
    (createdState s sb fb name clock t fd).maxNumberOfFiles = s.maxNumberOfFiles ∧
    (createdState s sb fb name clock t fd).diskListHead = s.diskListHead ∧
    (createdState s sb fb name clock t fd).fileDescriptorTable =
      some (t.set fd (some { inodeNumber := readInt sb FB_OFFSET, filePointer := 0 })) ∧
    ∀ b, readBlock s.activeDisk b (createdState s sb fb name clock t fd) =
      if b = readInt sb FB_OFFSET then some (newInode fb (readInt sb IB_OFFSET) name clock)
      else if b = SUPER_BLOCK then some (createdSuper sb fb)
      else readBlock s.activeDisk b s := by
  have hne : readInt sb FB_OFFSET ≠ SUPER_BLOCK := hf
  have hfb1 : readBlock s.activeDisk (readInt sb FB_OFFSET)
      (writeBlock s.activeDisk SUPER_BLOCK (createdSuper sb fb) s).2 = some fb := by
    rw [readBlock_writeBlock_ne _ _ _ _ sb _ hsb hne, hfb]
  refine ⟨?_, ?_, ?_, rfl, ?_⟩
  · simp only [createdState, writeBlock_activeDisk]
  · simp only [createdState, writeBlock_maxFiles]
  · simp only [createdState, writeBlock_diskList]
  · intro b
    have hcongr : readBlock s.activeDisk b (createdState s sb fb name clock t fd) =
        readBlock s.activeDisk b
          (writeBlock s.activeDisk (readInt sb FB_OFFSET)
            (newInode fb (readInt sb IB_OFFSET) name clock)
            (writeBlock s.activeDisk SUPER_BLOCK (createdSuper sb fb) s).2).2 :=
      readBlock_congr _ _ _ _ rfl rfl
    rw [hcongr, readBlock_writeBlock _ _ _ _ fb _ hfb1]
    by_cases h1 : b = readInt sb FB_OFFSET
    · rw [if_pos h1, if_pos h1]
    · rw [if_neg h1, if_neg h1, readBlock_writeBlock _ _ _ _ sb _ hsb]

theorem length_cstr_le (l : List Nat) : (cstr l).length ≤ l.length := by
  unfold cstr
  induction l with
  | nil => simp
  | cons a t ih =>
    simp only [List.takeWhile_cons]
    split
    · simp only [List.length_cons]
      omega
    · simp

/-- A name of at most 8 characters compares unequal to every 9-byte slot that
stores another string. -/
theorem strcmpSlot_false (slot name : List Nat) (hslot : slot.length = 9)
    (hname : strlen name ≤ 8) (hne : cstr slot ≠ cstr name) :
    strcmpSlot slot name = some false := by
  unfold strlen at hname
  unfold strcmpSlot
  simp only
  by_cases h : (cstr slot).length < slot.length
  · rw [if_pos h]
    simp [hne]
  · rw [if_neg h]
    have hneq : ¬ (List.take slot.length (cstr name) = slot) := by
      intro hcon
      have := congrArg List.length hcon
      rw [List.length_take] at this
      omega
    rw [if_neg hneq]

set_option maxRecDepth 100000 in
/-- C7: on a mounted volume whose blocks have 256 bytes, for a name of at most 8
characters that no inode of the inode list stores, when the free list is not empty
(head `f`, readable) and the descriptor table has an empty slot (the first one is
`fd`), `tfs_openFile` returns `fd`, bound to block `f` with file pointer 0; block
`f` becomes an inode (tag 2, magic 0x44, next = the former inode-list head, size 0,
data head 0, name slot = the name padded with zero bytes to 9 bytes, the three
timestamps = the time of the call); the superblock gets free-list head = the former
next of `f` and inode-list head = `f`; no other block changes.  On the demo volume
(10240 bytes), opening `file1` to `file8` returns 0 to 7, leaves 8 inodes in the
list and moves the free-list head from 2 to 10. -/
theorem tfs_openFile_creates (e : Errno) (name : List Nat) (clock : Nat → Nat) (s : State)
    (sb fb : Block) (l : List (Int × Block)) (t : List (Option fileDescriptorTableEntry))
    (fd : Nat)
    (hsb : readBlock s.activeDisk SUPER_BLOCK s = some sb) (hsbl : sb.length = 256)
    (hl : inodeList s = some l)
    (hnot : ∀ p ∈ l, p.2.length = 256 ∧ cstr (nameSlot p.2) ≠ cstr name)
    (hname : strlen name ≤ 8)
    (hf : readInt sb FB_OFFSET ≠ 0)
    (hfb : readBlock s.activeDisk (readInt sb FB_OFFSET) s = some fb) (hfbl : fb.length = 256)
    (ht : s.fileDescriptorTable = some t) (hfd : firstEmpty t = some fd) :
    (∃ s1 ib sb1,
      tfs_openFile e name clock s = .ret (Int.ofNat fd) s1 ∧
      s1.activeDisk = s.activeDisk ∧
      readBlock s1.activeDisk (readInt sb FB_OFFSET) s1 = some ib ∧
      ib.getD BLOCK_NUMBER_OFFSET 0 = INODE_BLOCK_TYPE ∧
      ib.getD MAGIC_NUMBER_OFFSET 0 = MAGIC_NUMBER ∧
      readInt ib INODE_NEXT_INODE_OFFSET = readInt sb IB_OFFSET ∧
      readInt ib INODE_FILE_SIZE_OFFSET = 0 ∧
      readInt ib INODE_DATA_BLOCK_OFFSET = 0 ∧
      nameSlot ib = cstr name ++ List.replicate (9 - strlen name) 0 ∧
      slice ib INODE_CR8_TIME_STAMP_OFFSET 25 = getTimestamp clock ∧
      slice ib INODE_MOD_TIME_STAMP_OFFSET 25 = getTimestamp clock ∧
      slice ib INODE_ACC_TIME_STAMP_OFFSET 25 = getTimestamp clock ∧
      readBlock s1.activeDisk SUPER_BLOCK s1 = some sb1 ∧
      readInt sb1 FB_OFFSET = readInt fb FREE_NEXT_BLOCK_OFFSET ∧
      readInt sb1 IB_OFFSET = readInt sb FB_OFFSET ∧
      (∀ i, i < 2 ∨ 10 ≤ i → sb1.getD i 0 = sb.getD i 0) ∧
      (∀ b, b ≠ SUPER_BLOCK → b ≠ readInt sb FB_OFFSET →
        readBlock s1.activeDisk b s1 = readBlock s.activeDisk b s) ∧
      s1.fileDescriptorTable =
        some (t.set fd (some { inodeNumber := readInt sb FB_OFFSET, filePointer := 0 })) ∧
      tableGet s1.fileDescriptorTable (Int.ofNat fd) =
        some (some { inodeNumber := readInt sb FB_OFFSET, filePointer := 0 })) ∧
    ((openAll sampleErrno sampleClock demoNames demoVolume).1 =
        [some 0, some 1, some 2, some 3, some 4, some 5, some 6, some 7] ∧
      (inodeList demoVolume).map List.length = some 0 ∧
      (inodeList (openAll sampleErrno sampleClock demoNames demoVolume).2).map List.length
        = some 8 ∧
      freeHead demoVolume = some 2 ∧
      freeHead (openAll sampleErrno sampleClock demoNames demoVolume).2 = some 10) := by
  refine ⟨?_, by decide!⟩
  have hstr : ∀ p ∈ l, strcmpSlot (nameSlot p.2) name = some false := by
    intro p hp
    obtain ⟨hlen, hne⟩ := hnot p hp
    exact strcmpSlot_false _ _
      (length_slice _ _ _ (by
        simp only [INODE_FILE_NAME_OFFSET, MAX_FILE_NAME_SIZE]
        omega))
      hname hne
  have hopen := tfs_openFile_eq_openCreate e name clock s sb l hsb hl hstr
  have hcreate := openCreate_ok e name clock s sb fb t fd hsb hsbl hf hfb (by omega) ht hfd
  obtain ⟨ha, _, _, htab, hrd⟩ := createdState_reads s sb fb name clock t fd hsb hf hfb
  obtain ⟨_, g0, g1, r2, r6, r10⟩ :=
    newInode_fields fb (readInt sb IB_OFFSET) name clock hfbl (by omega)
  obtain ⟨hslot, t1, t2, t3⟩ :=
    newInode_name_times fb (readInt sb IB_OFFSET) name clock hfbl (by omega)
  have hwrap : wrap32 (readInt sb IB_OFFSET) = readInt sb IB_OFFSET :=
    wrap32_of_range _ (readInt_range _ _).1 (readInt_range _ _).2
  have hfempty : ∀ (t : List (Option fileDescriptorTableEntry)) (fd : Nat),
      firstEmpty t = some fd → fd < t.length := by
    intro t
    induction t with
    | nil => intro fd h; exact absurd h (by simp [firstEmpty])
    | cons a t ih =>
      intro fd h
      cases a with
      | none =>
        simp only [firstEmpty, Option.some.injEq] at h
        subst h
        simp
      | some en =>
        simp only [firstEmpty, Option.map_eq_some'] at h
        obtain ⟨i, hi, hfd⟩ := h
        subst hfd
        have := ih i hi
        simp only [List.length_cons]
        omega
  refine ⟨createdState s sb fb name clock t fd,
    newInode fb (readInt sb IB_OFFSET) name clock, createdSuper sb fb, ?_, ha, ?_, g0, g1, ?_,
    r6, r10, hslot, t1, t2, t3, ?_, ?_, ?_, ?_, ?_, htab, ?_⟩
  · rw [hopen, hcreate]
  · rw [ha, hrd, if_pos rfl]
  · rw [r2, hwrap]
  · rw [ha, hrd, if_neg (fun h => hf h.symm), if_pos rfl]
  · unfold createdSuper FB_OFFSET IB_OFFSET
    rw [readInt_writeInt_disjoint _ _ _ _ (by rw [length_writeInt _ _ _ (by omega)]; omega)
      (by omega), readInt_writeInt_same _ _ _ (by omega)]
    exact wrap32_of_range _ (readInt_range _ _).1 (readInt_range _ _).2
  · unfold createdSuper FB_OFFSET IB_OFFSET
    rw [readInt_writeInt_same _ _ _ (by rw [length_writeInt _ _ _ (by omega)]; omega)]
    exact wrap32_of_range _ (readInt_range _ _).1 (readInt_range _ _).2
  · intro i hi
    unfold createdSuper FB_OFFSET IB_OFFSET
    rw [getD_writeInt_disjoint _ _ _ _ (by rw [length_writeInt _ _ _ (by omega)]; omega)
      (by omega), getD_writeInt_disjoint _ _ _ _ (by omega) (by omega)]
  · intro b hb0 hbf
    rw [ha, hrd, if_neg hbf, if_neg hb0]
  · rw [htab]
    unfold tableGet
    simp only
    rw [if_neg (by simp)]
    simp only [Int.ofNat_eq_coe, Int.toNat_ofNat]
    rw [List.getElem?_set_self (hfempty t fd hfd)]

set_option maxRecDepth 100000 in
/-- C8, the code at the failing input: on the mounted volume `wrap.dsk` the inode
list is 257 (`y`), 256 (`x`), the free list starts at 258, and no descriptor is
bound to inode 256.  `tfs_openFile("x")` does not bind a descriptor to inode 256:
it takes block 258 from the free list, makes it a second inode named `x` at the
head of the inode list, and returns a descriptor bound to block 258. -/
theorem tfs_openFile_misses_inode_behind_256 :
    inodeNames wrapXYclosed = some [(257, [121]), (256, [120])] ∧
    openInodes wrapXYclosed = [257] ∧
    freeHead wrapXYclosed = some 258 ∧
    (tfs_openFile sampleErrno [120] sampleClock wrapXYclosed).code? = some 0 ∧
    tableGet (stateOf (tfs_openFile sampleErrno [120] sampleClock wrapXYclosed)).fileDescriptorTable
      0 = some (some { inodeNumber := 258, filePointer := 0 }) ∧
    freeHead (stateOf (tfs_openFile sampleErrno [120] sampleClock wrapXYclosed)) = some 1 ∧
    inodeNames (stateOf (tfs_openFile sampleErrno [120] sampleClock wrapXYclosed)) =
      some [(258, [120]), (257, [121]), (256, [120])] := by
  decide!

set_option maxRecDepth 100000 in
/-- C9, the code at the failing input: on the mounted empty volume `wrap.dsk`,
`tfs_openFile("x")` returns descriptor 0 (inode 256), `tfs_openFile("y")` returns
descriptor 1 (inode 257), descriptor 0 is neither closed nor deleted, and a second
`tfs_openFile("x")` returns descriptor 2 instead of a negative code, after taking
block 258 from the free list for a second inode named `x`. -/
theorem tfs_openFile_twice_succeeds :
    (inodeList wrapVolume).map List.length = some 0 ∧
    (tfs_openFile sampleErrno [120] sampleClock wrapVolume).code? = some 0 ∧
    (tfs_openFile sampleErrno [121] sampleClock wrapX).code? = some 1 ∧
    tableGet wrapXY.fileDescriptorTable 0 = some (some { inodeNumber := 256, filePointer := 0 }) ∧
    freeHead wrapXY = some 258 ∧
    (tfs_openFile sampleErrno [120] sampleClock wrapXY).code? = some 2 ∧
    openInodes (stateOf (tfs_openFile sampleErrno [120] sampleClock wrapXY)) = [256, 257, 258] ∧
    freeHead (stateOf (tfs_openFile sampleErrno [120] sampleClock wrapXY)) = some 1 := by
  decide!

set_option maxRecDepth 100000 in
theorem tfs_openFile_creates_witness :
    freeHead smallVolume = some 2 ∧
    (tfs_openFile sampleErrno [97] sampleClock smallVolume).code? = some 0 ∧
    freeHead (stateOf (tfs_openFile sampleErrno [97] sampleClock smallVolume)) = some 3 ∧
    inodeHead (stateOf (tfs_openFile sampleErrno [97] sampleClock smallVolume)) = some 2 := by
  obtain ⟨⟨s1, ib, sb1, h, ha, _, _, _, _, _, _, _, _, _, _, hsb1, hfree, hhead, _⟩, _⟩ :=
    tfs_openFile_creates sampleErrno [97] sampleClock smallVolume
      ((readBlock smallVolume.activeDisk SUPER_BLOCK smallVolume).getD [])
      ((readBlock smallVolume.activeDisk 2 smallVolume).getD [])
      [] [none] 0
      (by decide!) (by decide!) (by decide!) (by decide!) (by decide!) (by decide!) (by decide!)
      (by decide!) (by decide!) (by decide!)
  rw [h]
  refine ⟨by decide!, rfl, ?_, ?_⟩
  · unfold freeHead stateOf
    simp only
    rw [hsb1, Option.map_some', hfree]
    decide!
  · unfold inodeHead stateOf
    simp only
    rw [hsb1, Option.map_some', hhead]
    decide!

/-! ## The round trip of `tfs_writeFile` and `tfs_readByte` -/

theorem readInt_mkfsBlock (T i : Int) (hi : 0 ≤ i) (hT : T < 2147483647) :
    readInt (mkfsBlock T i) FREE_NEXT_BLOCK_OFFSET = (if i < T then i + 1 else 0) := by
  unfold mkfsBlock FREE_NEXT_BLOCK_OFFSET
  rw [readInt_writeInt_same _ _ _ (by
    rw [length_setByte, length_setByte, length_zeroBlock]
    omega)]
  apply wrap32_of_range
  · split_ifs <;> omega
  · split_ifs <;> omega

theorem readBlock_freshVolume (s0 : State) (path : String) (nBytes : Int) (b : Int)
    (h1 : 1024 ≤ nBytes) :
    readBlock (s0.diskCounter + 1) b (freshVolume s0 path nBytes) =
      if b < 0 ∨ b ≥ nBytes / 256 then none
      else (mkfsImage nBytes).blocks[b.toNat]? := by
  have hd : findDisk (freshVolume s0 path nBytes).diskListHead (s0.diskCounter + 1) =
      some { diskNumber := s0.diskCounter + 1, nBytes := 256 * (nBytes / 256),
             filename := path, readable := true } := by
    exact findDisk_cons_self
      { diskNumber := s0.diskCounter + 1, nBytes := 256 * (nBytes / 256),
        filename := path, readable := true } _
  have hf : (freshVolume s0 path nBytes).files path = some (mkfsImage nBytes) := by
    simp [freshVolume, afterMount, afterMkfs]
  unfold readBlock
  rw [hd]
  simp only
  rw [tdiv_256 _ (by omega)]
  have hq : 256 * (nBytes / 256) / 256 = nBytes / 256 := by omega
  rw [hq, hf]
  simp

theorem getElem?_mkfsImage (nBytes : Int) (i : Nat) (h1 : 1024 ≤ nBytes) (hi0 : 1 ≤ i)
    (hi : Int.ofNat i < nBytes / 256) :
    (mkfsImage nBytes).blocks[i]? = some (mkfsBlock (nBytes / 256 - 1) (Int.ofNat i)) := by
  unfold mkfsImage
  simp only
  obtain ⟨j, rfl⟩ : ∃ j, i = j + 1 := ⟨i - 1, by omega⟩
  simp only [Int.ofNat_eq_coe] at hi
  rw [List.getElem?_cons_succ, List.getElem?_map, List.getElem?_range (by omega)]
  simp

theorem openInv_freshVolume (s0 : State) (path : String) (nBytes : Int)
    (hc : 0 ≤ s0.diskCounter) (h1 : 1024 ≤ nBytes) (h2 : nBytes ≤ MAX_BYTES) :
    OpenInv (s0.diskCounter + 1) (nBytes / 256).toNat 0 (freshVolume s0 path nBytes) := by
  have hM : MAX_BYTES = 2147483647 := rfl
  rw [hM] at h2
  have hrd := readBlock_freshVolume s0 path nBytes
  refine ⟨rfl, by omega, ?_, by omega, by omega, ?_, ?_, ?_, ?_⟩
  · unfold diskBlocks
    have hd : findDisk (freshVolume s0 path nBytes).diskListHead (s0.diskCounter + 1) =
        some { diskNumber := s0.diskCounter + 1, nBytes := 256 * (nBytes / 256),
               filename := path, readable := true } := by
      exact findDisk_cons_self
        { diskNumber := s0.diskCounter + 1, nBytes := 256 * (nBytes / 256),
          filename := path, readable := true } _
    rw [hd]
    simp only
    rw [tdiv_256 _ (by omega)]
    congr 1
    omega
  · obtain ⟨r1, r2, _⟩ := readInt_mkfsSuperBlock ((nBytes / 256 - 1) / 2) (by omega) (by omega)
    refine ⟨mkfsSuperBlock ((nBytes / 256 - 1) / 2), ?_, length_mkfsSuperBlock _, ?_, ?_⟩
    · rw [hrd SUPER_BLOCK h1, if_neg (by simp only [SUPER_BLOCK]; omega)]
      simp [mkfsImage, SUPER_BLOCK]
    · rw [r1, if_pos (by omega)]
      rfl
    · rw [r2, if_pos rfl]
  · intro i hi2 hik
    omega
  · intro i hik hin
    refine ⟨mkfsBlock (nBytes / 256 - 1) (Int.ofNat i), ?_, length_mkfsBlock _ _, ?_⟩
    · rw [hrd (Int.ofNat i) h1, if_neg (by simp only [Int.ofNat_eq_coe]; omega)]
      simp only [Int.ofNat_eq_coe, Int.toNat_ofNat]
      exact getElem?_mkfsImage nBytes i h1 (by omega) (by simp only [Int.ofNat_eq_coe]; omega)
    · rw [readInt_mkfsBlock _ _ (by simp) (by omega)]
      simp only [Int.ofNat_eq_coe]
      by_cases hlast : i + 1 < (nBytes / 256).toNat
      · rw [if_pos hlast, if_pos (by omega)]
        simp
      · rw [if_neg hlast, if_neg (by omega)]
  · refine ⟨List.replicate ((nBytes / 256 - 1) / 2).toNat none, rfl, ?_⟩
    intro en hen
    rw [List.mem_replicate] at hen
    exact absurd hen.2 (by simp)

theorem searchInode_found_inv (name : List Nat) (s : State) (a : Int) (n k : Nat)
    (hinv : OpenInv a n k s) :
    ∀ (fuel i0 : Nat), 2 ≤ i0 → i0 < k + 2 → ∀ (i : Int) (buf : Block),
      searchInode name s fuel (Int.ofNat i0) = .found i buf →
      ∃ j, i = Int.ofNat j ∧ 2 ≤ j ∧ j < k + 2 ∧ readBlock a i s = some buf := by
  intro fuel
  induction fuel with
  | zero =>
    intro i0 _ _ i buf h
    exact absurd h (by simp [searchInode])
  | succ fuel ih =>
    intro i0 h2 hk i buf h
    obtain ⟨b, hb, hlen, _, hnext⟩ := hinv.inodes i0 h2 hk
    unfold searchInode at h
    rw [hinv.active, hb] at h
    simp only at h
    cases hcmp : strcmpSlot (slice b INODE_FILE_NAME_OFFSET MAX_FILE_NAME_SIZE) name with
    | none =>
      rw [hcmp] at h
      exact absurd h (by simp)
    | some r =>
      rw [hcmp] at h
      cases r with
      | true =>
        simp only [Search.found.injEq] at h
        obtain ⟨hi, hbuf⟩ := h
        subst hi
        subst hbuf
        exact ⟨i0, rfl, h2, hk, hb⟩
      | false =>
        simp only at h
        by_cases hlow : b.getD INODE_NEXT_INODE_OFFSET 0 % 256 = 0
        · rw [if_pos hlow] at h
          exact absurd h (by simp)
        · rw [if_neg hlow] at h
          have hne := readInt_ne_zero_of_low b _ hlow
          rw [hnext] at hne h
          have hi2 : ¬ i0 = 2 := by
            intro hcon
            rw [if_pos hcon] at hne
            exact hne rfl
          rw [if_neg hi2] at h
          have hcast : Int.ofNat i0 - 1 = Int.ofNat (i0 - 1) := by
            simp only [Int.ofNat_eq_coe]
            omega
          rw [hcast] at h
          exact ih (i0 - 1) (by omega) (by omega) i buf h

theorem length_stamp (buf : Block) (clock : Nat → Nat) (hlen : buf.length = 256) :
    (memcpy (memsetZero buf INODE_ACC_TIME_STAMP_OFFSET TIMESTAMP_BUFFER_SIZE)
      INODE_ACC_TIME_STAMP_OFFSET (getTimestamp clock)).length = 256 := by
  unfold INODE_ACC_TIME_STAMP_OFFSET TIMESTAMP_BUFFER_SIZE
  rw [length_memcpy _ _ _ (by
    rw [length_memsetZero _ _ _ (by omega), length_getTimestamp]
    omega), length_memsetZero _ _ _ (by omega), hlen]

theorem readInt_stamp (buf : Block) (clock : Nat → Nat) (off : Nat) (hlen : buf.length = 256)
    (hoff : off + 4 ≤ 73) :
    readInt (memcpy (memsetZero buf INODE_ACC_TIME_STAMP_OFFSET TIMESTAMP_BUFFER_SIZE)
      INODE_ACC_TIME_STAMP_OFFSET (getTimestamp clock)) off = readInt buf off := by
  unfold INODE_ACC_TIME_STAMP_OFFSET TIMESTAMP_BUFFER_SIZE
  rw [readInt_memcpy_disjoint _ _ _ _ (by
    rw [length_memsetZero _ _ _ (by omega)]
    omega) (by omega)]
  unfold memsetZero
  rw [readInt_memcpy_disjoint _ _ _ _ (by omega) (by omega)]

theorem openExisting_inv (e : Errno) (clock : Nat → Nat) (s s1 : State) (a : Int) (n k : Nat)
    (hinv : OpenInv a n k s) (j : Nat) (buf : Block) (c : Int)
    (h2 : 2 ≤ j) (hk : j < k + 2) (hbuf : readBlock a (Int.ofNat j) s = some buf)
    (h : openExisting e clock (Int.ofNat j) buf s = .ret c s1) :
    OpenInv a n k s1 := by
  unfold openExisting at h
  cases hao : alreadyOpen s.fileDescriptorTable s.maxNumberOfFiles (Int.ofNat j) with
  | none =>
    rw [hao] at h
    exact absurd h (by simp)
  | some r =>
    rw [hao] at h
    cases r with
    | true =>
      simp only [Outcome.ret.injEq] at h
      rw [← h.2]
      exact hinv
    | false =>
      simp only at h
      obtain ⟨t, ht, hmem⟩ := hinv.table
      rw [ht] at h
      simp only at h
      cases hfe : firstEmpty t with
      | none =>
        rw [hfe] at h
        exact absurd h (by simp)
      | some fd =>
        rw [hfe] at h
        simp only at h
        -- the state before the write of the inode
        generalize htab : (some (t.set fd (some { inodeNumber := Int.ofNat j, filePointer := 0 }))
          : Option (List (Option fileDescriptorTableEntry))) = tab at h
        generalize hs1 : ({ s with fileDescriptorTable := tab } : State) = sT at h
        have hTa : sT.activeDisk = a := by rw [← hs1]; exact hinv.active
        have hrdT : ∀ b, readBlock a b sT = readBlock a b s := by
          intro b
          rw [← hs1]
          exact readBlock_congr _ _ _ _ rfl rfl
        generalize hbuf1 : memcpy (memsetZero buf INODE_ACC_TIME_STAMP_OFFSET TIMESTAMP_BUFFER_SIZE)
          INODE_ACC_TIME_STAMP_OFFSET (getTimestamp clock) = buf1 at h
        obtain ⟨b0, hb0, hlen0, hsz0, hnx0⟩ := hinv.inodes j h2 hk
        have hb0buf : b0 = buf := by
          rw [hbuf] at hb0
          exact (Option.some.inj hb0).symm
        subst hb0buf
        have hs1eq : s1 = (writeBlock a (Int.ofNat j) buf1 sT).2 := by
          rw [hinv.active] at h
          split at h
          · simp only [Outcome.ret.injEq] at h
            exact h.2.symm
          · simp only [Outcome.ret.injEq] at h
            exact h.2.symm
        have hrdj : readBlock a (Int.ofNat j) sT = some b0 := by rw [hrdT, hbuf]
        have hrd : ∀ b, readBlock a b s1 =
            if b = Int.ofNat j then some buf1 else readBlock a b s := by
          intro b
          rw [hs1eq, readBlock_writeBlock _ _ _ _ b0 _ hrdj, hrdT]
        refine ⟨?_, hinv.active_ne, ?_, hinv.bound, hinv.small, ?_, ?_, ?_, ?_⟩
        · rw [hs1eq, writeBlock_activeDisk, hTa]
        · rw [hs1eq, diskBlocks_writeBlock, ← hs1]
          exact hinv.blocks
        · obtain ⟨sb, hsb, hrest⟩ := hinv.super
          refine ⟨sb, ?_, hrest⟩
          rw [hrd, if_neg (by simp only [SUPER_BLOCK, Int.ofNat_eq_coe]; omega), hsb]
        · intro i hi2 hik
          by_cases hij : i = j
          · subst hij
            refine ⟨buf1, ?_, ?_, ?_, ?_⟩
            · rw [hrd, if_pos rfl]
            · rw [← hbuf1]
              exact length_stamp b0 clock hlen0
            · rw [← hbuf1, INODE_FILE_SIZE_OFFSET, readInt_stamp b0 clock 6 hlen0 (by omega)]
              exact hsz0
            · rw [← hbuf1, INODE_NEXT_INODE_OFFSET, readInt_stamp b0 clock 2 hlen0 (by omega)]
              exact hnx0
          · obtain ⟨b, hb, hrest⟩ := hinv.inodes i hi2 hik
            refine ⟨b, ?_, hrest⟩
            rw [hrd, if_neg (by simp only [Int.ofNat_eq_coe]; omega), hb]
        · intro i hik hin
          obtain ⟨b, hb, hrest⟩ := hinv.frees i hik hin
          refine ⟨b, ?_, hrest⟩
          rw [hrd, if_neg (by simp only [Int.ofNat_eq_coe]; omega), hb]
        · refine ⟨t.set fd (some { inodeNumber := Int.ofNat j, filePointer := 0 }), ?_, ?_⟩
          · rw [hs1eq, writeBlock_table, ← hs1, ← htab]
          · intro en hen
            rcases List.mem_or_eq_of_mem_set hen with hold | hnew
            · exact hmem en hold
            · simp only [Option.some.injEq] at hnew
              subst hnew
              simp only [Int.ofNat_eq_coe]
              omega

theorem openCreate_cases (e : Errno) (name : List Nat) (clock : Nat → Nat) (s : State)
    (sb fb : Block) (t : List (Option fileDescriptorTableEntry))
    (hsb : readBlock s.activeDisk SUPER_BLOCK s = some sb) (hsbl : sb.length = 256)
    (hf : readInt sb FB_OFFSET ≠ 0)
    (hfb : readBlock s.activeDisk (readInt sb FB_OFFSET) s = some fb)
    (ht : s.fileDescriptorTable = some t) :
    openCreate e name clock sb s =
      if BLOCKSIZE < INODE_FILE_NAME_OFFSET + strlen name then .undefined
      else
        match firstEmpty t with
        | none => .undefined
        | some fd => .ret (Int.ofNat fd) (createdState s sb fb name clock t fd) := by
  have hw1 := writeBlock_fst_of_read s.activeDisk SUPER_BLOCK s sb (createdSuper sb fb) hsb
  have hne : readInt sb FB_OFFSET ≠ SUPER_BLOCK := hf
  have hfb1 : readBlock s.activeDisk (readInt sb FB_OFFSET)
      (writeBlock s.activeDisk SUPER_BLOCK (createdSuper sb fb) s).2 = some fb := by
    rw [readBlock_writeBlock_ne _ _ _ _ sb _ hsb hne, hfb]
  have hw2 := writeBlock_fst_of_read s.activeDisk (readInt sb FB_OFFSET) _ fb
    (newInode fb (readInt sb IB_OFFSET) name clock) hfb1
  have hhead : readInt (writeInt sb FB_OFFSET (readInt fb FREE_NEXT_BLOCK_OFFSET)) IB_OFFSET
      = readInt sb IB_OFFSET := by
    unfold FB_OFFSET IB_OFFSET
    exact readInt_writeInt_disjoint _ _ _ _ (by omega) (by omega)
  unfold openCreate
  simp only
  rw [if_neg hf, hfb]
  simp only
  by_cases hbig : BLOCKSIZE < INODE_FILE_NAME_OFFSET + strlen name
  · rw [if_pos hbig, if_pos hbig]
  · rw [if_neg hbig, if_neg hbig, hhead]
    unfold createdSuper at hw1 hw2
    rw [if_neg (by rw [hw1]; decide), if_neg (by rw [hw2]; decide)]
    rw [writeBlock_table, writeBlock_table, ht]
    simp only
    cases hfe : firstEmpty t with
    | none => rfl
    | some fd => rfl

theorem openCreate_inv (e : Errno) (name : List Nat) (clock : Nat → Nat) (s s1 : State)
    (a : Int) (n k : Nat) (hinv : OpenInv a n k s) (sb : Block) (c : Int)
    (hsb : readBlock a SUPER_BLOCK s = some sb)
    (h : openCreate e name clock sb s = .ret c s1) :
    OpenInv a n k s1 ∨ OpenInv a n (k + 1) s1 := by
  obtain ⟨sb0, hsb0, hsbl, hfree, hhead⟩ := hinv.super
  have hsame : sb0 = sb := by
    rw [hsb] at hsb0
    exact (Option.some.inj hsb0).symm
  subst hsame
  by_cases hfull : k + 2 < n
  · right
    rw [if_pos hfull] at hfree
    have hf : readInt sb0 FB_OFFSET ≠ 0 := by
      rw [hfree]
      simp only [Int.ofNat_eq_coe]
      omega
    obtain ⟨fb, hfb, hfbl, hfnext⟩ := hinv.frees (k + 2) (le_refl _) hfull
    obtain ⟨t, ht, hmem⟩ := hinv.table
    have hsbA : readBlock s.activeDisk SUPER_BLOCK s = some sb0 := by rw [hinv.active, hsb]
    have hfbA : readBlock s.activeDisk (readInt sb0 FB_OFFSET) s = some fb := by
      rw [hinv.active, hfree, hfb]
    rw [openCreate_cases e name clock s sb0 fb t hsbA hsbl hf hfbA ht] at h
    by_cases hbig : BLOCKSIZE < INODE_FILE_NAME_OFFSET + strlen name
    · rw [if_pos hbig] at h
      exact absurd h (by simp)
    · rw [if_neg hbig] at h
      cases hfe : firstEmpty t with
      | none =>
        rw [hfe] at h
        exact absurd h (by simp)
      | some fd =>
        rw [hfe] at h
        simp only [Outcome.ret.injEq] at h
        obtain ⟨_, hs1⟩ := h
        subst hs1
        obtain ⟨ha, _, hdl, htab, hrd⟩ := createdState_reads s sb0 fb name clock t fd hsbA hf hfbA
        rw [hinv.active] at hrd
        unfold BLOCKSIZE INODE_FILE_NAME_OFFSET at hbig
        obtain ⟨il, _, _, ir2, ir6, _⟩ :=
          newInode_fields fb (readInt sb0 IB_OFFSET) name clock hfbl (by omega)
        have hwrap : wrap32 (readInt sb0 IB_OFFSET) = readInt sb0 IB_OFFSET :=
          wrap32_of_range _ (readInt_range _ _).1 (readInt_range _ _).2
        refine ⟨?_, hinv.active_ne, ?_, by omega, hinv.small, ?_, ?_, ?_, ?_⟩
        · rw [ha, hinv.active]
        · unfold diskBlocks
          rw [hdl]
          exact hinv.blocks
        · refine ⟨createdSuper sb0 fb, ?_, ?_, ?_, ?_⟩
          · rw [hrd, if_neg (by rw [hfree]; simp only [SUPER_BLOCK, Int.ofNat_eq_coe]; omega),
              if_pos rfl]
          · unfold createdSuper FB_OFFSET IB_OFFSET
            rw [length_writeInt _ _ _ (by rw [length_writeInt _ _ _ (by omega)]; omega),
              length_writeInt _ _ _ (by omega), hsbl]
          · unfold createdSuper
            unfold FB_OFFSET IB_OFFSET FREE_NEXT_BLOCK_OFFSET at *
            rw [readInt_writeInt_disjoint _ _ _ _
              (by rw [length_writeInt _ _ _ (by omega)]; omega) (by omega),
              readInt_writeInt_same _ _ _ (by omega),
              wrap32_of_range _ (readInt_range _ _).1 (readInt_range _ _).2, hfnext]
          · unfold createdSuper
            unfold FB_OFFSET IB_OFFSET at *
            rw [readInt_writeInt_same _ _ _ (by rw [length_writeInt _ _ _ (by omega)]; omega),
              wrap32_of_range _ (readInt_range _ _).1 (readInt_range _ _).2, hfree,
              if_neg (by omega)]
        · intro i hi2 hik
          by_cases hnew : i = k + 2
          · subst hnew
            refine ⟨newInode fb (readInt sb0 IB_OFFSET) name clock, ?_, il, ir6, ?_⟩
            · rw [hrd, hfree, if_pos rfl]
            · rw [ir2, hwrap, hhead]
              by_cases hk0 : k = 0
              · subst hk0
                simp
              · rw [if_neg hk0, if_neg (by omega)]
                simp only [Int.ofNat_eq_coe]
                omega
          · obtain ⟨b, hb, hrest⟩ := hinv.inodes i hi2 (by omega)
            refine ⟨b, ?_, hrest⟩
            rw [hrd, hfree, if_neg (by simp only [Int.ofNat_eq_coe]; omega),
              if_neg (by simp only [SUPER_BLOCK, Int.ofNat_eq_coe]; omega), hb]
        · intro i hik hin
          obtain ⟨b, hb, hrest⟩ := hinv.frees i (by omega) hin
          refine ⟨b, ?_, hrest⟩
          rw [hrd, hfree, if_neg (by simp only [Int.ofNat_eq_coe]; omega),
            if_neg (by simp only [SUPER_BLOCK, Int.ofNat_eq_coe]; omega), hb]
        · refine ⟨_, htab, ?_⟩
          intro en hen
          rcases List.mem_or_eq_of_mem_set hen with hold | hnew
          · have := hmem en hold
            simp only [Int.ofNat_eq_coe] at this ⊢
            omega
          · simp only [Option.some.injEq] at hnew
            subst hnew
            rw [hfree]
            simp only [Int.ofNat_eq_coe]
            omega
  · left
    rw [if_neg hfull] at hfree
    unfold openCreate at h
    simp only at h
    rw [if_pos hfree] at h
    simp only [Outcome.ret.injEq] at h
    rw [← h.2]
    exact hinv

theorem tfs_openFile_inv (e : Errno) (name : List Nat) (clock : Nat → Nat) (s s1 : State)
    (a : Int) (n k : Nat) (hinv : OpenInv a n k s) (c : Int)
    (h : tfs_openFile e name clock s = .ret c s1) :
    OpenInv a n k s1 ∨ OpenInv a n (k + 1) s1 := by
  obtain ⟨sb, hsb, hsbl, hfree, hhead⟩ := hinv.super
  unfold tfs_openFile at h
  rw [hinv.active, hsb] at h
  simp only at h
  by_cases hne : readInt sb IB_OFFSET ≠ 0
  · rw [if_pos hne] at h
    have hk : k ≠ 0 := by
      intro hk0
      rw [if_pos hk0] at hhead
      exact hne hhead
    rw [if_neg hk] at hhead
    rw [hhead] at h
    cases hsearch : searchInode name s (diskBlocks s a + 1) (Int.ofNat (k + 1)) with
    | found i buf =>
      rw [hsearch] at h
      simp only at h
      obtain ⟨j, hij, hj2, hjk, hbuf⟩ :=
        searchInode_found_inv name s a n k hinv _ (k + 1) (by omega) (by omega) i buf hsearch
      subst hij
      exact Or.inl (openExisting_inv e clock s s1 a n k hinv j buf c hj2 hjk hbuf h)
    | notFound =>
      rw [hsearch] at h
      simp only at h
      exact openCreate_inv e name clock s s1 a n k hinv sb c hsb h
    | readError =>
      rw [hsearch] at h
      simp only [Outcome.ret.injEq] at h
      rw [← h.2]
      exact Or.inl hinv
    | undefined =>
      rw [hsearch] at h
      exact absurd h (by simp)
    | diverge =>
      rw [hsearch] at h
      exact absurd h (by simp)
  · rw [if_neg hne] at h
    exact openCreate_inv e name clock s s1 a n k hinv sb c hsb h

theorem runOpens_inv (e : Errno) (a : Int) (n : Nat) :
    ∀ (ops : List (List Nat × (Nat → Nat))) (s s1 : State) (k : Nat),
      OpenInv a n k s → runOpens e ops s = some s1 → ∃ k1, OpenInv a n k1 s1 := by
  intro ops
  induction ops with
  | nil =>
    intro s s1 k hinv h
    simp only [runOpens, Option.some.injEq] at h
    subst h
    exact ⟨k, hinv⟩
  | cons op ops ih =>
    intro s s1 k hinv h
    unfold runOpens at h
    cases hop : tfs_openFile e op.1 op.2 s with
    | ret c s2 =>
      rw [hop] at h
      simp only at h
      rcases tfs_openFile_inv e op.1 op.2 s s2 a n k hinv c hop with h1 | h1
      · exact ih s2 s1 k h1 h
      · exact ih s2 s1 (k + 1) h1 h
    | undefined =>
      rw [hop] at h
      exact absurd h (by simp)
    | diverge =>
      rw [hop] at h
      exact absurd h (by simp)

theorem inodeChain_inv (s : State) (a : Int) (n k : Nat) (hinv : OpenInv a n k s) :
    ∀ (j : Nat), j ≤ k → ∀ fuel, j + 1 ≤ fuel →
      ∃ l, inodeChain s fuel (if j = 0 then 0 else Int.ofNat (j + 1)) = some l ∧
        l.length = j := by
  intro j
  induction j with
  | zero =>
    intro _ fuel hfuel
    obtain ⟨f, rfl⟩ : ∃ f, fuel = f + 1 := ⟨fuel - 1, by omega⟩
    exact ⟨[], by simp [inodeChain], rfl⟩
  | succ j ih =>
    intro hjk fuel hfuel
    obtain ⟨f, rfl⟩ : ∃ f, fuel = f + 1 := ⟨fuel - 1, by omega⟩
    obtain ⟨b, hb, _, _, hnext⟩ := hinv.inodes (j + 2) (by omega) (by omega)
    obtain ⟨l, hl, hlen⟩ := ih (by omega) f (by omega)
    have hnext1 : readInt b INODE_NEXT_INODE_OFFSET = (if j = 0 then 0 else Int.ofNat (j + 1)) := by
      rw [hnext]
      by_cases hj : j = 0
      · subst hj
        simp
      · rw [if_neg (by omega), if_neg hj]
        simp only [Int.ofNat_eq_coe]
        omega
    refine ⟨(Int.ofNat (j + 2), b) :: l, ?_, by simp [hlen]⟩
    rw [if_neg (by omega)]
    unfold inodeChain
    rw [if_neg (by simp only [Int.ofNat_eq_coe]; omega), hinv.active, hb]
    simp only
    rw [hnext1, hl]
    rfl

theorem inodeCount_inv (s : State) (a : Int) (n k : Nat) (hinv : OpenInv a n k s) :
    inodeCount s = k := by
  obtain ⟨sb, hsb, _, _, hhead⟩ := hinv.super
  obtain ⟨l, hl, hlen⟩ := inodeChain_inv s a n k hinv k (le_refl _) (n + 1)
    (by have := hinv.bound; omega)
  unfold inodeCount inodeList
  rw [hinv.active, hsb]
  simp only
  rw [hinv.blocks, hhead]
  by_cases hk : k = 0
  · subst hk
    simp only [if_true] at hl ⊢
    rw [hl]
    simp [hlen]
  · rw [if_neg hk] at hl ⊢
    rw [hl]
    simp [hlen]

theorem getD_slice (b : List Nat) (off n i : Nat) (hi : i < n) :
    (slice b off n).getD i 0 = b.getD (off + i) 0 := by
  rw [List.getD_eq_getElem?_getD, List.getD_eq_getElem?_getD, getElem?_slice, if_pos hi]

theorem length_slice_le (b : List Nat) (off n : Nat) : (slice b off n).length ≤ n := by
  unfold slice
  rw [List.length_take]
  omega

/-- One data block as the allocation loop of `tfs_writeFile` writes it. -/
theorem dataBlock_fields (b0 : Block) (B : List Nat) (p w : Nat) (hlen : b0.length = 256)
    (hw : w ≤ 250) (hpw : p + w ≤ B.length) :
    (memcpy (setByte b0 BLOCK_NUMBER_OFFSET DATA_BLOCK_TYPE) DATA_BLOCK_DATA_OFFSET
      (slice B p w)).length = 256 ∧
    readInt (memcpy (setByte b0 BLOCK_NUMBER_OFFSET DATA_BLOCK_TYPE) DATA_BLOCK_DATA_OFFSET
      (slice B p w)) 2 = readInt b0 2 ∧
    ∀ r, r < w →
      (memcpy (setByte b0 BLOCK_NUMBER_OFFSET DATA_BLOCK_TYPE) DATA_BLOCK_DATA_OFFSET
        (slice B p w)).getD (6 + r) 0 = B.getD (p + r) 0 := by
  have hsl : (slice B p w).length = w := length_slice B p w hpw
  have hl1 : (setByte b0 BLOCK_NUMBER_OFFSET DATA_BLOCK_TYPE).length = 256 := by
    rw [length_setByte, hlen]
  unfold DATA_BLOCK_DATA_OFFSET
  refine ⟨?_, ?_, ?_⟩
  · rw [length_memcpy _ _ _ (by omega), hl1]
  · rw [readInt_memcpy_disjoint _ _ _ _ (by omega) (by omega)]
    unfold BLOCK_NUMBER_OFFSET
    rw [readInt_setByte_disjoint _ _ _ _ (by omega)]
  · intro r hr
    rw [getD_memcpy _ _ _ _ (by omega), if_neg (by omega), if_pos (by omega)]
    have : 6 + r - 6 = r := by omega
    rw [this, getD_slice _ _ _ _ hr]

theorem allocLoop_spec (e : Errno) (B : List Nat) (a : Int) (n base m : Nat)
    (hbase : 1 ≤ base) (hm : base + m ≤ n)
    (hL1 : B.length ≤ 250 * m) (hL0 : 250 * m < B.length + 250) :
    ∀ (r j : Nat) (s : State), j + r = m → s.activeDisk = a →
      (∀ i, base + j ≤ i → i < n → FreeAt a n s i) →
      (∀ q, q < j → DataAt a s B base m q) →
      ∃ s1, allocLoop e B r (if base + j < n then Int.ofNat (base + j) else 0)
          (min (250 * j) B.length) (Int.ofNat (B.length - 250 * j)) s =
          .done (if base + m < n then Int.ofNat (base + m) else 0) 0 0 s1 ∧
        s1.activeDisk = a ∧ s1.fileDescriptorTable = s.fileDescriptorTable ∧
        diskBlocks s1 a = diskBlocks s a ∧
        (∀ b : Int, (∀ q, j ≤ q → q < m → b ≠ Int.ofNat (base + q)) →
          readBlock a b s1 = readBlock a b s) ∧
        (∀ q, q < m → DataAt a s1 B base m q) := by
  intro r
  induction r with
  | zero =>
    intro j s hj ha _ hdata
    have hjm : j = m := by omega
    subst hjm
    refine ⟨s, ?_, ha, rfl, rfl, fun _ _ => rfl, hdata⟩
    unfold allocLoop
    have : B.length - 250 * j = 0 := by omega
    rw [this]
    rfl
  | succ r ih =>
    intro j s hj ha hfree hdata
    have hjn : base + j < n := by omega
    obtain ⟨b0, hb0, hlen0, hnext0⟩ := hfree (base + j) (le_refl _) hjn
    -- the number of bytes this iteration copies
    have hposrem : 250 * j < B.length := by omega
    generalize hw : min 250 (B.length - 250 * j) = w
    have hw250 : w ≤ 250 := by omega
    have hwrem : w ≤ B.length - 250 * j := by omega
    have hwbs : (if Int.ofNat (B.length - 250 * j) ≥ 250 then (250 : Int)
        else Int.ofNat (B.length - 250 * j)) = Int.ofNat w := by
      simp only [Int.ofNat_eq_coe]
      split_ifs <;> omega
    have hmin : min (250 * j) B.length = 250 * j := by omega
    obtain ⟨dl, dnext, dpay⟩ := dataBlock_fields b0 B (250 * j) w hlen0 hw250 (by omega)
    generalize hbuf2 : memcpy (setByte b0 BLOCK_NUMBER_OFFSET DATA_BLOCK_TYPE)
      DATA_BLOCK_DATA_OFFSET (slice B (250 * j) w) = buf2 at dl dnext dpay
    generalize hbuf3 : (if r = 0 then writeInt buf2 DATA_NEXT_BLOCK_OFFSET 0 else buf2) = buf3
    have hl3 : buf3.length = 256 := by
      rw [← hbuf3]
      split_ifs
      · rw [length_writeInt _ _ _ (by unfold DATA_NEXT_BLOCK_OFFSET; omega), dl]
      · exact dl
    have hnext3 : readInt buf3 DATA_NEXT_BLOCK_OFFSET =
        (if j + 1 = m then 0 else Int.ofNat (base + j + 1)) := by
      rw [← hbuf3]
      unfold DATA_NEXT_BLOCK_OFFSET
      by_cases hr : r = 0
      · rw [if_pos hr, if_pos (by omega), readInt_writeInt_same _ _ _ (by omega)]
        rfl
      · rw [if_neg hr, if_neg (by omega), dnext]
        unfold FREE_NEXT_BLOCK_OFFSET at hnext0
        rw [hnext0, if_pos (by omega)]
    have hpay3 : ∀ x, x < w → buf3.getD (6 + x) 0 = B.getD (250 * j + x) 0 := by
      intro x hx
      rw [← hbuf3]
      by_cases hr : r = 0
      · rw [if_pos hr]
        unfold DATA_NEXT_BLOCK_OFFSET
        rw [getD_writeInt_disjoint _ _ _ _ (by omega) (by omega)]
        exact dpay x hx
      · rw [if_neg hr]
        exact dpay x hx
    -- the write of the block
    have hwr := writeBlock_fst_of_read a (Int.ofNat (base + j)) s b0 buf3 hb0
    have hrd := fun b1 => readBlock_writeBlock a (Int.ofNat (base + j)) b1 s b0 buf3 hb0
    generalize hs2 : (writeBlock a (Int.ofNat (base + j)) buf3 s).2 = s2 at hrd
    have hs2a : s2.activeDisk = a := by rw [← hs2, writeBlock_activeDisk, ha]
    have hfree2 : ∀ i, base + (j + 1) ≤ i → i < n → FreeAt a n s2 i := by
      intro i hi hin
      obtain ⟨b, hb, hrest⟩ := hfree i (by omega) hin
      refine ⟨b, ?_, hrest⟩
      rw [hrd, if_neg (by simp only [Int.ofNat_eq_coe]; omega), hb]
    have hdata2 : ∀ q, q < j + 1 → DataAt a s2 B base m q := by
      intro q hq
      by_cases hqj : q = j
      · subst hqj
        refine ⟨buf3, ?_, hl3, hnext3, ?_⟩
        · rw [hrd, if_pos rfl]
        · intro x hx hxb
          unfold DATA_BLOCK_DATA_OFFSET
          exact hpay3 x (by omega)
      · obtain ⟨b, hb, hrest⟩ := hdata q (by omega)
        refine ⟨b, ?_, hrest⟩
        rw [hrd, if_neg (by simp only [Int.ofNat_eq_coe]; omega), hb]
    obtain ⟨s1, hloop, h1a, h1t, h1d, h1f, h1data⟩ := ih (j + 1) s2 (by omega) hs2a hfree2 hdata2
    refine ⟨s1, ?_, h1a, ?_, ?_, ?_, h1data⟩
    · unfold allocLoop
      rw [if_pos hjn, ha, hb0]
      simp only
      rw [hwbs]
      have hchk : ¬ (Int.ofNat w < 0 ∨
          Int.ofNat B.length < Int.ofNat (min (250 * j) B.length) + Int.ofNat w) := by
        rw [hmin]
        simp only [Int.ofNat_eq_coe]
        omega
      rw [if_neg hchk, hmin]
      simp only [Int.ofNat_eq_coe, Int.toNat_ofNat]
      rw [hbuf2]
      unfold FREE_NEXT_BLOCK_OFFSET at hnext0 ⊢
      rw [dnext, hnext0, hbuf3]
      simp only [Int.ofNat_eq_coe] at hwr hs2
      rw [hs2, if_neg (by rw [hwr]; decide)]
      have hnobreak : ¬ ((if base + j + 1 < n then Int.ofNat (base + j + 1) else 0) = 0
          ∧ r ≠ 0) := by
        intro hcon
        obtain ⟨h0, hr⟩ := hcon
        rw [if_pos (by omega)] at h0
        simp only [Int.ofNat_eq_coe] at h0
        omega
      rw [if_neg hnobreak]
      have e1 : 250 * j + w = min (250 * (j + 1)) B.length := by omega
      have e2 : ((B.length - 250 * j : Nat) : Int) - (w : Int) =
          ((B.length - 250 * (j + 1) : Nat) : Int) := by
        omega
      have e3 : base + j + 1 = base + (j + 1) := by omega
      rw [e1, e3]
      simp only [Int.ofNat_eq_coe] at hloop ⊢
      rw [e2]
      exact hloop
    · rw [h1t, ← hs2, writeBlock_table]
    · rw [h1d, ← hs2, diskBlocks_writeBlock]
    · intro b hb
      rw [h1f b (fun q hq1 hq2 => hb q (by omega) hq2), hrd,
        if_neg (hb j (le_refl _) (by omega))]

theorem tableGet_some (t : Option (List (Option fileDescriptorTableEntry))) (fd : Int)
    (en : fileDescriptorTableEntry) (h : tableGet t fd = some (some en)) :
    ∃ l, t = some l ∧ 0 ≤ fd ∧ l[fd.toNat]? = some (some en) := by
  unfold tableGet at h
  cases t with
  | none => exact absurd h (by simp)
  | some l =>
    simp only at h
    by_cases hneg : fd < 0
    · rw [if_pos hneg] at h
      exact absurd h (by simp)
    · rw [if_neg hneg] at h
      exact ⟨l, rfl, by omega, h⟩

theorem tableGet_setFilePointer (s : State) (fd : Int) (en : fileDescriptorTableEntry) (p : Int)
    (h : tableGet s.fileDescriptorTable fd = some (some en)) :
    tableGet (setFilePointer s fd p).fileDescriptorTable fd =
      some (some { inodeNumber := en.inodeNumber, filePointer := p }) := by
  obtain ⟨l, hl, h0, hget⟩ := tableGet_some _ _ _ h
  have hlt : fd.toNat < l.length := by
    by_contra hcon
    rw [List.getElem?_eq_none (by omega)] at hget
    exact absurd hget (by simp)
  unfold setFilePointer tableGet
  simp only
  rw [hl]
  simp only [Option.map_some']
  rw [if_neg (by omega), List.getElem?_set_self (by omega), List.getD_eq_getElem?_getD, hget]
  rfl

theorem readBlock_setFilePointer (a b : Int) (s : State) (fd p : Int) :
    readBlock a b (setFilePointer s fd p) = readBlock a b s :=
  readBlock_congr _ _ _ _ rfl rfl

theorem tdiv_nonneg_eq (x y : Int) (hx : 0 ≤ x) (hy : 0 ≤ y) : Int.tdiv x y = x / y :=
  Int.tdiv_eq_ediv hx hy

theorem tmod_nonneg_eq (x y : Int) (hx : 0 ≤ x) (hy : 0 ≤ y) : Int.tmod x y = x % y :=
  Int.tmod_eq_emod hx hy

theorem blocksNeeded_spec (L : Nat) :
    ∃ m : Nat, Int.tdiv (Int.ofNat L) 250 + (if Int.tmod (Int.ofNat L) 250 > 0 then 1 else 0)
        = Int.ofNat m ∧ L ≤ 250 * m ∧ 250 * m < L + 250 := by
  have hnn : (0 : Int) ≤ Int.ofNat L := by simp
  rw [tdiv_nonneg_eq _ 250 hnn (by omega), tmod_nonneg_eq _ 250 hnn (by omega)]
  simp only [Int.ofNat_eq_coe]
  by_cases h : (L : Int) % 250 > 0
  · rw [if_pos h]
    exact ⟨L / 250 + 1, by push_cast; omega, by omega, by omega⟩
  · rw [if_neg h]
    exact ⟨L / 250, by push_cast; omega, by omega, by omega⟩

/-! ## Writing, seeking and reading back -/

theorem writeFinish_fields (ib : Block) (L head : Int) (clock : Nat → Nat) (hlen : ib.length = 256)
    (hL0 : 0 ≤ L) (hL1 : L < 2147483648) (hh0 : 0 ≤ head) (hh1 : head < 2147483648) :
    (memcpy (writeInt (writeInt ib INODE_FILE_SIZE_OFFSET L) INODE_DATA_BLOCK_OFFSET head)
      INODE_MOD_TIME_STAMP_OFFSET (getTimestamp clock)).length = 256 ∧
    readInt (memcpy (writeInt (writeInt ib INODE_FILE_SIZE_OFFSET L) INODE_DATA_BLOCK_OFFSET head)
      INODE_MOD_TIME_STAMP_OFFSET (getTimestamp clock)) INODE_FILE_SIZE_OFFSET = L ∧
    readInt (memcpy (writeInt (writeInt ib INODE_FILE_SIZE_OFFSET L) INODE_DATA_BLOCK_OFFSET head)
      INODE_MOD_TIME_STAMP_OFFSET (getTimestamp clock)) INODE_DATA_BLOCK_OFFSET = head := by
  have hts := length_getTimestamp clock
  unfold INODE_FILE_SIZE_OFFSET INODE_DATA_BLOCK_OFFSET INODE_MOD_TIME_STAMP_OFFSET
  have l1 : (writeInt ib 6 L).length = 256 := by rw [length_writeInt _ _ _ (by omega), hlen]
  have l2 : (writeInt (writeInt ib 6 L) 10 head).length = 256 := by
    rw [length_writeInt _ _ _ (by omega), l1]
  refine ⟨?_, ?_, ?_⟩
  · rw [length_memcpy _ _ _ (by omega), l2]
  · rw [readInt_memcpy_disjoint _ _ _ _ (by omega) (by omega),
      readInt_writeInt_disjoint _ _ _ _ (by omega) (by omega),
      readInt_writeInt_same _ _ _ (by omega)]
    exact wrap32_of_range _ (by omega) hL1
  · rw [readInt_memcpy_disjoint _ _ _ _ (by omega) (by omega),
      readInt_writeInt_same _ _ _ (by omega)]
    exact wrap32_of_range _ (by omega) hh1

theorem writeFinish_spec (e : Errno) (fd : Int) (L : Int) (clock : Nat → Nat) (i : Nat)
    (sb ib : Block) (head fb : Int) (s1 : State) (a : Int)
    (ha : s1.activeDisk = a) (hi : 0 < i)
    (hsb : readBlock a SUPER_BLOCK s1 = some sb)
    (hib : readBlock a (Int.ofNat i) s1 = some ib) :
    ∃ s3, writeFinish e fd L clock (Int.ofNat i) sb ib head fb 0 0 s1 = .ret 1 s3 ∧
      s3.activeDisk = a ∧
      s3.fileDescriptorTable = (setFilePointer s1 fd 0).fileDescriptorTable ∧
      ∀ b, readBlock a b s3 =
        if b = Int.ofNat i then
          some (memcpy (writeInt (writeInt ib INODE_FILE_SIZE_OFFSET (L - 0))
            INODE_DATA_BLOCK_OFFSET head) INODE_MOD_TIME_STAMP_OFFSET (getTimestamp clock))
        else if b = SUPER_BLOCK then some (writeInt sb FB_OFFSET fb)
        else readBlock a b s1 := by
  have hw1 := writeBlock_fst_of_read a SUPER_BLOCK s1 sb (writeInt sb FB_OFFSET fb) hsb
  have hrd1 := fun b => readBlock_writeBlock a SUPER_BLOCK b s1 sb (writeInt sb FB_OFFSET fb) hsb
  generalize hs2 : (writeBlock a SUPER_BLOCK (writeInt sb FB_OFFSET fb) s1).2 = s2 at hrd1
  have hib2 : readBlock a (Int.ofNat i) s2 = some ib := by
    rw [hrd1, if_neg (by simp only [SUPER_BLOCK, Int.ofNat_eq_coe]; omega), hib]
  generalize hinode : memcpy (writeInt (writeInt ib INODE_FILE_SIZE_OFFSET (L - 0))
    INODE_DATA_BLOCK_OFFSET head) INODE_MOD_TIME_STAMP_OFFSET (getTimestamp clock) = inode2
  have hw2 := writeBlock_fst_of_read a (Int.ofNat i) s2 ib inode2 hib2
  have hrd2 := fun b => readBlock_writeBlock a (Int.ofNat i) b s2 ib inode2 hib2
  generalize hs3 : (writeBlock a (Int.ofNat i) inode2 s2).2 = s3 at hrd2
  have hs2a : s2.activeDisk = a := by rw [← hs2, writeBlock_activeDisk, ha]
  refine ⟨setFilePointer s3 fd 0, ?_, ?_, ?_, ?_⟩
  · unfold writeFinish
    simp only
    rw [ha, hs2, if_neg (by rw [hw1]; decide), hinode, hs3, if_neg (by rw [hw2]; decide),
      if_neg (by omega)]
  · show s3.activeDisk = a
    rw [← hs3, writeBlock_activeDisk, hs2a]
  · unfold setFilePointer
    simp only
    rw [← hs3, writeBlock_table, ← hs2, writeBlock_table]
  · intro b
    rw [readBlock_setFilePointer, hrd2, hrd1]

theorem tfs_writeFile_spec (e : Errno) (B : List Nat) (clock : Nat → Nat) (s : State) (a : Int)
    (n k : Nat) (fd : Int) (en : fileDescriptorTableEntry) (hinv : OpenInv a n k s)
    (hfd : tableGet s.fileDescriptorTable fd = some (some en))
    (hB : B.length ≤ 250 * (n - 2 - k)) :
    ∃ s1 i m, tfs_writeFile e fd B (Int.ofNat B.length) clock s = .ret 1 s1 ∧
      B.length ≤ 250 * m ∧ ReadInv a fd i B (k + 2) m 0 s1 := by
  obtain ⟨t, ht, hmem⟩ := hinv.table
  obtain ⟨l, hl, hfd0, hget⟩ := tableGet_some _ _ _ hfd
  have htl : t = l := by
    rw [ht] at hl
    exact Option.some.inj hl
  subst htl
  have hen := hmem en (List.getElem?_mem hget)
  obtain ⟨i, hi⟩ : ∃ i : Nat, en.inodeNumber = Int.ofNat i := ⟨en.inodeNumber.toNat, by
    simp only [Int.ofNat_eq_coe]
    omega⟩
  have hi2 : 2 ≤ i := by
    have := hen.1
    rw [hi] at this
    simp only [Int.ofNat_eq_coe] at this
    omega
  have hik : i < k + 2 := by
    have := hen.2
    rw [hi] at this
    simp only [Int.ofNat_eq_coe] at this
    omega
  obtain ⟨sb, hsb, hsbl, hfree, _⟩ := hinv.super
  obtain ⟨ib, hib, hibl, hsize, _⟩ := hinv.inodes i hi2 hik
  obtain ⟨m, hm, hL1, hL0⟩ := blocksNeeded_spec B.length
  have hbound := hinv.bound
  have hsmall := hinv.small
  have hmn : k + 2 + m ≤ n := by omega
  obtain ⟨s1, hloop, h1a, h1t, h1d, h1f, h1data⟩ :=
    allocLoop_spec e B a n (k + 2) m (by omega) hmn hL1 hL0 m 0 s (by omega) hinv.active
      (fun i hi hin => hinv.frees i (by omega) hin) (fun q hq => absurd hq (by omega))
  -- reads of the superblock and of the inode after the loop
  have hsb1 : readBlock a SUPER_BLOCK s1 = some sb := by
    rw [h1f SUPER_BLOCK (fun q _ _ => by simp only [SUPER_BLOCK, Int.ofNat_eq_coe]; omega), hsb]
  have hib1 : readBlock a (Int.ofNat i) s1 = some ib := by
    rw [h1f (Int.ofNat i) (fun q _ _ => by simp only [Int.ofNat_eq_coe]; omega), hib]
  have hM : s1.activeDisk = a := h1a
  obtain ⟨s3, hfin, h3a, h3t, h3rd⟩ := writeFinish_spec e fd (Int.ofNat B.length) clock i sb ib
    (readInt sb FB_OFFSET) (if k + 2 + m < n then Int.ofNat (k + 2 + m) else 0) s1 a h1a
    (by omega) hsb1 hib1
  have hfd1 : tableGet s1.fileDescriptorTable fd = some (some en) := by rw [h1t]; exact hfd
  obtain ⟨fl, fr6, fr10⟩ := writeFinish_fields ib (Int.ofNat B.length - 0) (readInt sb FB_OFFSET)
    clock hibl (by simp) (by simp only [Int.ofNat_eq_coe]; omega) (by
      rw [hfree]
      simp only [Int.ofNat_eq_coe]
      split_ifs <;> omega) (readInt_range _ _).2
  refine ⟨s3, i, m, ?_, hL1, ?_⟩
  · simp only [Nat.add_zero, Nat.mul_zero, Nat.zero_min, Nat.sub_zero] at hloop
    rw [hfree] at hfin
    generalize Int.ofNat B.length = L at hm hloop hfin ⊢
    unfold tfs_writeFile
    rw [if_neg (by rw [hinv.active]; exact hinv.active_ne), hfd]
    simp only
    rw [hinv.active, hsb]
    simp only
    rw [hi, hib]
    simp only
    unfold writeBody
    simp only
    rw [hsize, hm]
    simp only [ne_eq, not_true_eq_false, if_false]
    unfold writeAlloc
    simp only
    rw [if_neg (by simp)]
    simp only [Int.ofNat_eq_coe, Int.toNat_ofNat]
    rw [hfree]
    simp only [Int.ofNat_eq_coe] at hloop hfin ⊢
    rw [hloop]
    simp only
    exact hfin
  · refine ⟨h3a, hinv.active_ne, ?_, ?_, ?_, hik, by omega⟩
    · rw [h3t]
      have := tableGet_setFilePointer s1 fd en 0 hfd1
      rw [hi] at this
      exact this
    · refine ⟨_, ?_, fl, ?_, ?_⟩
      · rw [h3rd, if_pos rfl]
      · rw [fr6]
        simp
      · intro hm0
        rw [fr10, hfree, if_pos (by omega)]
    · intro q hq
      obtain ⟨b, hb, hrest⟩ := h1data q hq
      refine ⟨b, ?_, hrest⟩
      rw [h3rd, if_neg (by simp only [Int.ofNat_eq_coe]; omega),
        if_neg (by simp only [SUPER_BLOCK, Int.ofNat_eq_coe]; omega), hb]

theorem tfs_seek_zero (e : Errno) (a fd : Int) (i : Nat) (B : List Nat) (base m : Nat) (s : State)
    (h : ReadInv a fd i B base m 0 s) :
    ∃ s1, tfs_seek e fd 0 s = .ret 0 s1 ∧ ReadInv a fd i B base m 0 s1 := by
  refine ⟨setFilePointer s fd 0, ?_, ?_⟩
  · unfold tfs_seek
    rw [if_neg (by rw [h.active]; exact h.active_ne), h.entry]
    rfl
  · refine ⟨h.active, h.active_ne, ?_, ?_, ?_, h.apart, h.small⟩
    · exact tableGet_setFilePointer s fd _ 0 h.entry
    · obtain ⟨ib, hib, hrest⟩ := h.inode
      exact ⟨ib, by rw [readBlock_setFilePointer, hib], hrest⟩
    · intro q hq
      obtain ⟨b, hb, hrest⟩ := h.data q hq
      exact ⟨b, by rw [readBlock_setFilePointer, hb], hrest⟩

theorem followData_spec (a : Int) (s : State) (B : List Nat) (base m : Nat)
    (ha : s.activeDisk = a) (hdata : ∀ q, q < m → DataAt a s B base m q) :
    ∀ (h q0 : Nat) (b : Block), q0 + h < m →
      readBlock a (Int.ofNat (base + q0)) s = some b →
      ∃ b1, followData s h b = some b1 ∧
        readBlock a (Int.ofNat (base + q0 + h)) s = some b1 := by
  intro h
  induction h with
  | zero =>
    intro q0 b _ hb
    exact ⟨b, rfl, hb⟩
  | succ h ih =>
    intro q0 b hq hb
    obtain ⟨b0, hb0, _, hnext, _⟩ := hdata q0 (by omega)
    have hsame : b0 = b := by
      rw [hb] at hb0
      exact (Option.some.inj hb0).symm
    subst hsame
    rw [if_neg (by omega)] at hnext
    obtain ⟨bn, hbn, _⟩ := hdata (q0 + 1) (by omega)
    have hbn1 : readBlock a (Int.ofNat (base + q0 + 1)) s = some bn := hbn
    obtain ⟨b1, hf, hr⟩ := ih (q0 + 1) bn (by omega) hbn
    refine ⟨b1, ?_, ?_⟩
    · unfold followData
      rw [ha, hnext, hbn1]
      exact hf
    · have e1 : base + q0 + (h + 1) = base + (q0 + 1) + h := by omega
      rw [e1]
      exact hr

theorem tfs_readByte_step (e : Errno) (clock : Nat → Nat) (a fd : Int) (i : Nat) (B : List Nat)
    (base m j : Nat) (s : State) (hm : B.length ≤ 250 * m)
    (h : ReadInv a fd i B base m (Int.ofNat j) s) (hj : j < B.length) :
    ∃ s1, tfs_readByte e fd clock s = .ret 1 (some (B.getD j 0), s1) ∧
      ReadInv a fd i B base m (Int.ofNat (j + 1)) s1 := by
  obtain ⟨ib, hib, hibl, hsize, hhead⟩ := h.inode
  have hsmall := h.small
  have hapart := h.apart
  have hm0 : 0 < m := by omega
  have hq : j / 250 < m := by omega
  obtain ⟨b0, hb0, _⟩ := h.data 0 hm0
  obtain ⟨b1, hfollow, hb1⟩ := followData_spec a s B base m h.active h.data (j / 250) 0 b0
    (by omega) hb0
  obtain ⟨bq, hbq, _, _, hpay⟩ := h.data (j / 250) hq
  have hsame : bq = b1 := by
    have e1 : base + 0 + j / 250 = base + j / 250 := by omega
    rw [e1, hbq] at hb1
    exact Option.some.inj hb1
  subst hsame
  have hbyte := hpay (j % 250) (Nat.mod_lt _ (by omega)) (by omega)
  have e2 : 250 * (j / 250) + j % 250 = j := Nat.div_add_mod j 250
  rw [e2] at hbyte
  -- the update of the inode
  generalize hinode : memcpy ib INODE_ACC_TIME_STAMP_OFFSET (getTimestamp clock) = inode1
  have hl1 : inode1.length = 256 := by
    rw [← hinode]
    unfold INODE_ACC_TIME_STAMP_OFFSET
    rw [length_memcpy _ _ _ (by rw [length_getTimestamp]; omega), hibl]
  have hr6 : readInt inode1 INODE_FILE_SIZE_OFFSET = readInt ib INODE_FILE_SIZE_OFFSET := by
    rw [← hinode]
    unfold INODE_ACC_TIME_STAMP_OFFSET INODE_FILE_SIZE_OFFSET
    exact readInt_memcpy_disjoint _ _ _ _ (by omega) (by omega)
  have hr10 : readInt inode1 INODE_DATA_BLOCK_OFFSET = readInt ib INODE_DATA_BLOCK_OFFSET := by
    rw [← hinode]
    unfold INODE_ACC_TIME_STAMP_OFFSET INODE_DATA_BLOCK_OFFSET
    exact readInt_memcpy_disjoint _ _ _ _ (by omega) (by omega)
  have hwrapj : wrap32 (Int.ofNat j + 1) = Int.ofNat (j + 1) := by
    rw [wrap32_of_range _ (by simp only [Int.ofNat_eq_coe]; omega)
      (by simp only [Int.ofNat_eq_coe]; omega)]
    simp
  generalize hsP : setFilePointer s fd (wrap32 (Int.ofNat j + 1)) = sP
  have hPa : sP.activeDisk = a := by rw [← hsP]; exact h.active
  have hibP : readBlock a (Int.ofNat i) sP = some ib := by
    rw [← hsP, readBlock_setFilePointer, hib]
  have hw := writeBlock_fst_of_read a (Int.ofNat i) sP ib inode1 hibP
  have hrd := fun b => readBlock_writeBlock a (Int.ofNat i) b sP ib inode1 hibP
  generalize hs1 : (writeBlock a (Int.ofNat i) inode1 sP).2 = s1 at hrd
  refine ⟨s1, ?_, ?_⟩
  · have hdiv : Int.tdiv (Int.ofNat j) 250 = Int.ofNat (j / 250) := by
      rw [tdiv_nonneg_eq _ 250 (by simp) (by omega)]
      simp
    have hmod : Int.tmod (Int.ofNat j) 250 = Int.ofNat (j % 250) := by
      rw [tmod_nonneg_eq _ 250 (by simp) (by omega)]
      simp
    have hb0A : readBlock a (Int.ofNat base) s = some b0 := hb0
    have hge : ¬ (Int.ofNat j ≥ Int.ofNat B.length) := by
      simp only [Int.ofNat_eq_coe]
      omega
    have hentry := h.entry
    have hact := h.active
    have hne := h.active_ne
    clear h hwrapj
    generalize Int.ofNat j = p at hdiv hmod hge hsP hentry
    unfold tfs_readByte
    rw [if_neg (by rw [hact]; exact hne), hentry]
    simp only
    rw [hact, hib]
    simp only
    unfold readByteAt
    simp only
    rw [hsize, if_neg hge, hhead hm0, hact, hb0A]
    simp only
    rw [hdiv, hmod, if_neg (by simp only [Int.ofNat_eq_coe]; omega)]
    simp only [Int.ofNat_eq_coe, Int.toNat_ofNat]
    rw [hfollow]
    simp only
    have hidx : ¬ ((DATA_BLOCK_DATA_OFFSET : Int) + ((j % 250 : Nat) : Int) < 0) := by omega
    simp only [Int.ofNat_eq_coe] at hs1 hw
    rw [if_neg hidx, hsP, hPa, hinode, hs1, if_neg (by rw [hw]; decide)]
    have hto : ((DATA_BLOCK_DATA_OFFSET : Int) + ((j % 250 : Nat) : Int)).toNat
        = DATA_BLOCK_DATA_OFFSET + j % 250 := by omega
    rw [hto, hbyte]
  · refine ⟨?_, h.active_ne, ?_, ?_, ?_, hapart, hsmall⟩
    · rw [← hs1, writeBlock_activeDisk, hPa]
    · rw [← hs1, writeBlock_table, ← hsP, hwrapj]
      exact tableGet_setFilePointer s fd _ _ h.entry
    · refine ⟨inode1, ?_, hl1, ?_, ?_⟩
      · rw [hrd, if_pos rfl]
      · rw [hr6, hsize]
      · intro hm1
        rw [hr10, hhead hm1]
    · intro q hq1
      obtain ⟨b, hb, hrest⟩ := h.data q hq1
      refine ⟨b, ?_, hrest⟩
      rw [hrd, if_neg (by simp only [Int.ofNat_eq_coe]; omega), ← hsP,
        readBlock_setFilePointer, hb]

theorem readBytes_spec (e : Errno) (clocks : Nat → Nat → Nat) (a fd : Int) (i : Nat)
    (B : List Nat) (base m : Nat) (hm : B.length ≤ 250 * m) :
    ∀ (r j : Nat) (s : State), j + r = B.length →
      ReadInv a fd i B base m (Int.ofNat j) s →
      ∃ s1, readBytes e fd clocks r j s = some (B.drop j, s1) := by
  intro r
  induction r with
  | zero =>
    intro j s hj _
    refine ⟨s, ?_⟩
    rw [List.drop_of_length_le (by omega)]
    rfl
  | succ r ih =>
    intro j s hj hinv
    obtain ⟨s1, hread, hinv1⟩ := tfs_readByte_step e (clocks j) a fd i B base m j s hm hinv
      (by omega)
    obtain ⟨s2, hrest⟩ := ih (j + 1) s1 (by omega) hinv1
    refine ⟨s2, ?_⟩
    unfold readBytes
    rw [hread]
    simp only [if_true]
    rw [hrest]
    have hdrop : B.drop j = B.getD j 0 :: B.drop (j + 1) := by
      have hlt : j < B.length := by omega
      rw [List.drop_eq_getElem_cons hlt, List.getD_eq_getElem?_getD,
        List.getElem?_eq_getElem hlt]
      rfl
    rw [hdrop]
    rfl

/-- C1: on a volume produced by `tfs_mkfs` and `tfs_mount` (called with no volume
mounted) on which only `tfs_openFile` has been called, for every open descriptor
`fd` and every byte sequence `B` of at most 250·(totalBlocks − 2 − number of
inodes) bytes, `tfs_writeFile(fd, B, |B|)` returns 1, then `tfs_seek(fd, 0)`
returns 0, and then `|B|` calls of `tfs_readByte(fd)` each return 1 and deliver
the bytes of `B` in order. -/
theorem tfs_write_seek_read_round_trip (e : Errno) (he : e.Negative) (path : String)
    (nBytes : Int) (s0 sA sB s : State) (d : Int) (ops : List (List Nat × (Nat → Nat)))
    (fd : Int) (en : fileDescriptorTableEntry) (B : List Nat) (clockW : Nat → Nat)
    (clocks : Nat → Nat → Nat)
    (hact : s0.activeDisk = 0)
    (hmk : tfs_mkfs e path nBytes s0 = (1, sA))
    (hmt : tfs_mount e path sA = .ret d sB)
    (hops : runOpens e ops sB = some s)
    (hfd : tableGet s.fileDescriptorTable fd = some (some en))
    (hB : B.length ≤ 250 * ((nBytes / 256).toNat - 2 - inodeCount s)) :
    ∃ s1 s2 s3, tfs_writeFile e fd B (Int.ofNat B.length) clockW s = .ret 1 s1 ∧
      tfs_seek e fd 0 s1 = .ret 0 s2 ∧
      readBytes e fd clocks B.length 0 s2 = some (B, s3) := by
  have hcases := tfs_mkfs_cases e path nBytes s0
  rw [hmk] at hcases
  rcases hcases with hbad | ⟨h1, h2, hc, hcr⟩
  · have := he.1
    simp only at hbad
    omega
  · have hok := tfs_mkfs_ok e path nBytes s0 hc h1 h2 hcr
    rw [hmk] at hok
    have hsA : sA = afterMkfs s0 path nBytes := (Prod.mk.inj hok).2
    subst hsA
    rw [tfs_mount_after_mkfs e path nBytes s0 hc hact h1 h2] at hmt
    have hsB : freshVolume s0 path nBytes = sB := by
      injection hmt
    subst hsB
    have hinv0 := openInv_freshVolume s0 path nBytes hc h1 h2
    obtain ⟨k, hinv⟩ := runOpens_inv e _ _ ops _ s 0 hinv0 hops
    rw [inodeCount_inv s _ _ k hinv] at hB
    obtain ⟨s1, i, m, hwrite, hm, hr1⟩ := tfs_writeFile_spec e B clockW s _ _ k fd en hinv hfd hB
    obtain ⟨s2, hseek, hr2⟩ := tfs_seek_zero e _ fd i B (k + 2) m s1 hr1
    obtain ⟨s3, hread⟩ := readBytes_spec e clocks _ fd i B (k + 2) m hm B.length 0 s2
      (by omega) hr2
    exact ⟨s1, s2, s3, hwrite, hseek, hread⟩

set_option maxRecDepth 100000 in
theorem tfs_write_seek_read_round_trip_witness :
    ∃ s1 s2 s3,
      tfs_writeFile sampleErrno 0 [104, 105] (Int.ofNat [104, 105].length) sampleClock
        smallVolumeA = .ret 1 s1 ∧
      tfs_seek sampleErrno 0 0 s1 = .ret 0 s2 ∧
      readBytes sampleErrno 0 (fun _ => sampleClock) [104, 105].length 0 s2 =
        some ([104, 105], s3) :=
  tfs_write_seek_read_round_trip sampleErrno (by decide) "t.dsk" 1024 freshProcess
    (afterMkfs freshProcess "t.dsk" 1024) smallVolume smallVolumeA 2
    [([97], sampleClock)] 0 { inodeNumber := 2, filePointer := 0 } [104, 105] sampleClock
    (fun _ => sampleClock) rfl
    (tfs_mkfs_ok sampleErrno "t.dsk" 1024 freshProcess (by decide) (by decide) (by decide) rfl)
    (tfs_mount_after_mkfs sampleErrno "t.dsk" 1024 freshProcess (by decide) rfl (by decide)
      (by decide))
    rfl (by decide!) (by decide!)

/-! ## Long names and the descriptor table (`tfs_openFile`, `tfs_closeFile`) -/

/-- C11, the code at the failing input: on the fresh four-block volume,
`tfs_openFile("abcdefghi")` (nine characters) returns descriptor 0 instead of a
negative code and creates an inode in block 2: the free-list head moves from 2 to
3, the inode list holds block 2, and the 9-byte name slot holds the nine
characters with no zero byte. -/
theorem tfs_openFile_accepts_nine_chars :
    strlen nineChars = 9 ∧
    freeHead smallVolume = some 2 ∧
    (inodeList smallVolume).map List.length = some 0 ∧
    (tfs_openFile sampleErrno nineChars sampleClock smallVolume).code? = some 0 ∧
    freeHead (stateOf (tfs_openFile sampleErrno nineChars sampleClock smallVolume)) = some 3 ∧
    (inodeList (stateOf (tfs_openFile sampleErrno nineChars sampleClock smallVolume))).map
      (fun l => l.map (fun p => (p.1, nameSlot p.2))) =
      some [(2, [97, 98, 99, 100, 101, 102, 103, 104, 105])] ∧
    (0 : Nat) ∉ [97, 98, 99, 100, 101, 102, 103, 104, 105] := by
  decide!

set_option maxRecDepth 100000 in
/-- C13, the code at the failing inputs: with no disk mounted the descriptor table
is the null pointer, and `tfs_closeFile` reads `fileDescriptorTable[fd]` before it
tests `activeDisk`, so the call has undefined behaviour instead of returning a
negative code (in a fresh process, and after `tfs_unmount`); with a disk mounted
and `fd = maxFiles` the same read lies outside the table, before the range of `fd`
is tested. -/
theorem tfs_closeFile_reads_table_first :
    freshProcess.activeDisk = 0 ∧ freshProcess.fileDescriptorTable = none ∧
    tfs_closeFile sampleErrno 0 freshProcess = .undefined ∧
    (afterUnmount smallVolumeA).activeDisk = 0 ∧
    tfs_closeFile sampleErrno 0 (afterUnmount smallVolumeA) = .undefined ∧
    smallVolumeA.activeDisk = 2 ∧ smallVolumeA.maxNumberOfFiles = 1 ∧
    smallVolumeA.fileDescriptorTable = some [some { inodeNumber := 2, filePointer := 0 }] ∧
    tfs_closeFile sampleErrno 1 smallVolumeA = .undefined ∧
    tfs_closeFile sampleErrno (-1) smallVolumeA = .undefined :=
  ⟨rfl, rfl, rfl, rfl, rfl, by decide!, by decide!, by decide!, rfl, rfl⟩

/-! ## The descriptor returned by `tfs_openFile` -/

theorem firstEmpty_spec : ∀ (t : List (Option fileDescriptorTableEntry)) (fd : Nat),
    firstEmpty t = some fd →
      t[fd]? = some none ∧ ∀ i, i < fd → ∃ en, t[i]? = some (some en) := by
  intro t
  induction t with
  | nil => intro fd h; exact absurd h (by simp [firstEmpty])
  | cons a t ih =>
    intro fd h
    cases a with
    | none =>
      simp only [firstEmpty, Option.some.injEq] at h
      subst h
      exact ⟨by simp, fun i hi => absurd hi (by omega)⟩
    | some en =>
      simp only [firstEmpty, Option.map_eq_some'] at h
      obtain ⟨k, hk, hfd⟩ := h
      subst hfd
      obtain ⟨h1, h2⟩ := ih k hk
      refine ⟨by simpa using h1, ?_⟩
      intro i hi
      cases i with
      | zero => exact ⟨en, by simp⟩
      | succ j =>
        obtain ⟨en1, hen1⟩ := h2 j (by omega)
        exact ⟨en1, by simpa using hen1⟩

theorem firstEmpty_of_lowest : ∀ (t : List (Option fileDescriptorTableEntry)) (k : Nat),
    t[k]? = some none → (∀ i, i < k → ∃ en, t[i]? = some (some en)) →
      firstEmpty t = some k := by
  intro t
  induction t with
  | nil => intro k h _; exact absurd h (by simp)
  | cons a t ih =>
    intro k h hlow
    cases k with
    | zero =>
      simp only [List.getElem?_cons_zero, Option.some.injEq] at h
      subst h
      rfl
    | succ j =>
      obtain ⟨en, hen⟩ := hlow 0 (by omega)
      simp only [List.getElem?_cons_zero, Option.some.injEq] at hen
      subst hen
      have hj : t[j]? = some none := by simpa using h
      have := ih j hj (fun i hi => by
        obtain ⟨en1, hen1⟩ := hlow (i + 1) (by omega)
        exact ⟨en1, by simpa using hen1⟩)
      simp only [firstEmpty, this, Option.map_some']

theorem openExisting_code (e : Errno) (he : e.Negative) (clock : Nat → Nat) (i : Int)
    (buf : Block) (s s1 : State) (c : Int)
    (h : openExisting e clock i buf s = .ret c s1) (hc : 0 ≤ c) :
    ∃ t fd, s.fileDescriptorTable = some t ∧ firstEmpty t = some fd ∧ c = Int.ofNat fd := by
  have hneg : e.FILE_OPEN_ERROR < 0 := he.2.2.2.1
  unfold openExisting at h
  split at h
  · exact absurd h (by simp)
  · simp only [Outcome.ret.injEq] at h
    omega
  · split at h
    · exact absurd h (by simp)
    · rename_i t ht
      split at h
      · exact absurd h (by simp)
      · rename_i fd hfd
        simp only at h
        split at h
        · simp only [Outcome.ret.injEq] at h
          omega
        · simp only [Outcome.ret.injEq] at h
          exact ⟨t, fd, ht, hfd, h.1.symm⟩

theorem openCreate_code (e : Errno) (he : e.Negative) (name : List Nat) (clock : Nat → Nat)
    (sb : Block) (s s1 : State) (c : Int)
    (h : openCreate e name clock sb s = .ret c s1) (hc : 0 ≤ c) :
    ∃ t fd, s.fileDescriptorTable = some t ∧ firstEmpty t = some fd ∧ c = Int.ofNat fd := by
  have hneg : e.FILE_OPEN_ERROR < 0 := he.2.2.2.1
  have hneg2 : e.NO_SPACE_LEFT < 0 := he.2.2.2.2.2.2.2.2.2.2.2.2.1
  unfold openCreate at h
  simp only at h
  split at h
  · simp only [Outcome.ret.injEq] at h
    omega
  · split at h
    · simp only [Outcome.ret.injEq] at h
      omega
    · split at h
      · exact absurd h (by simp)
      · split at h
        · simp only [Outcome.ret.injEq] at h
          omega
        · split at h
          · simp only [Outcome.ret.injEq] at h
            omega
          · split at h
            · exact absurd h (by simp)
            · rename_i t ht
              split at h
              · exact absurd h (by simp)
              · rename_i fd hfd
                simp only [Outcome.ret.injEq] at h
                rw [writeBlock_table, writeBlock_table] at ht
                exact ⟨t, fd, ht, hfd, h.1.symm⟩

theorem tfs_openFile_code (e : Errno) (he : e.Negative) (name : List Nat) (clock : Nat → Nat)
    (s s1 : State) (c : Int)
    (h : tfs_openFile e name clock s = .ret c s1) (hc : 0 ≤ c) :
    ∃ t fd, s.fileDescriptorTable = some t ∧ firstEmpty t = some fd ∧ c = Int.ofNat fd := by
  have hneg : e.FILE_OPEN_ERROR < 0 := he.2.2.2.1
  unfold tfs_openFile at h
  split at h
  · simp only [Outcome.ret.injEq] at h
    omega
  · simp only at h
    split at h
    · split at h
      · exact openExisting_code e he clock _ _ s s1 c h hc
      · simp only [Outcome.ret.injEq] at h
        omega
      · exact absurd h (by simp)
      · exact absurd h (by simp)
      · exact openCreate_code e he name clock _ s s1 c h hc
    · exact openCreate_code e he name clock _ s s1 c h hc

/-! ## What `tfs_deleteFile` does to the descriptor table -/

theorem deallocateBlock_globals (e : Errno) (b : Int) (s : State) :
    (deallocateBlock e b s).2.fileDescriptorTable = s.fileDescriptorTable ∧
    (deallocateBlock e b s).2.activeDisk = s.activeDisk ∧
    (deallocateBlock e b s).2.maxNumberOfFiles = s.maxNumberOfFiles := by
  unfold deallocateBlock
  split
  · exact ⟨rfl, rfl, rfl⟩
  · simp only
    split
    · exact ⟨rfl, rfl, rfl⟩
    · split
      · exact ⟨writeBlock_table _ _ _ _, writeBlock_activeDisk _ _ _ _, writeBlock_maxFiles _ _ _ _⟩
      · split
        · refine ⟨?_, ?_, ?_⟩
          · rw [writeBlock_table, writeBlock_table]
          · rw [writeBlock_activeDisk, writeBlock_activeDisk]
          · rw [writeBlock_maxFiles, writeBlock_maxFiles]
        · refine ⟨?_, ?_, ?_⟩
          · rw [writeBlock_table, writeBlock_table]
          · rw [writeBlock_activeDisk, writeBlock_activeDisk]
          · rw [writeBlock_maxFiles, writeBlock_maxFiles]

theorem freeData_globals (e : Errno) : ∀ (fuel : Nat) (p : Int) (s s1 : State),
    freeData e fuel p s = .done s1 →
      s1.fileDescriptorTable = s.fileDescriptorTable ∧ s1.activeDisk = s.activeDisk ∧
      s1.maxNumberOfFiles = s.maxNumberOfFiles := by
  intro fuel
  induction fuel with
  | zero => intro p s s1 h; exact absurd h (by simp [freeData])
  | succ fuel ih =>
    intro p s s1 h
    unfold freeData at h
    split at h
    · exact absurd h (by simp)
    · simp only at h
      obtain ⟨g1, g2, g3⟩ := deallocateBlock_globals e p s
      split at h
      · simp only [Freed.done.injEq] at h
        subst h
        exact ⟨g1, g2, g3⟩
      · obtain ⟨f1, f2, f3⟩ := ih _ _ _ h
        exact ⟨f1.trans g1, f2.trans g2, f3.trans g3⟩

theorem tfs_closeFile_ok (e : Errno) (fd : Int) (s : State)
    (t : List (Option fileDescriptorTableEntry)) (en : fileDescriptorTableEntry)
    (hact : s.activeDisk ≠ 0) (ht : s.fileDescriptorTable = some t)
    (hen : tableGet (some t) fd = some (some en)) (hmax : fd < s.maxNumberOfFiles) :
    tfs_closeFile e fd s =
      .ret 1 { s with fileDescriptorTable := some (t.set fd.toNat none) } := by
  obtain ⟨l, hl, hfd0, _⟩ := tableGet_some _ _ _ hen
  unfold tfs_closeFile
  rw [ht, hen]
  simp only
  rw [if_neg hact, if_neg (by omega)]
  simp only [Option.map_some']

theorem deleteData_table (e : Errno) (he : e.Negative) (fd i : Int) (s s1 : State)
    (t : List (Option fileDescriptorTableEntry)) (en : fileDescriptorTableEntry)
    (hact : s.activeDisk ≠ 0) (ht : s.fileDescriptorTable = some t)
    (hen : tableGet (some t) fd = some (some en)) (hmax : fd < s.maxNumberOfFiles)
    (h : deleteData e fd i s = .ret 1 s1) :
    s1.fileDescriptorTable = some (t.set fd.toNat none) := by
  have hneg : e.FILE_DELETE_ERROR < 0 := he.2.2.2.2.2.2.2.1
  unfold deleteData at h
  split at h
  · simp only [Outcome.ret.injEq] at h
    omega
  · simp only at h
    split at h
    · simp only [Outcome.ret.injEq] at h
      omega
    · exact absurd h (by simp)
    · rename_i sD hD
      have hg : sD.fileDescriptorTable = s.fileDescriptorTable ∧ sD.activeDisk = s.activeDisk ∧
          sD.maxNumberOfFiles = s.maxNumberOfFiles := by
        split at hD
        · exact freeData_globals e _ _ _ _ hD
        · simp only [Freed.done.injEq] at hD
          subst hD
          exact ⟨rfl, rfl, rfl⟩
      obtain ⟨g1, g2, g3⟩ := deallocateBlock_globals e i sD
      rw [tfs_closeFile_ok e fd _ t en (by rw [g2, hg.2.1]; exact hact)
        (by rw [g1, hg.1, ht]) hen (by rw [g3, hg.2.2]; exact hmax)] at h
      simp only [Outcome.ret.injEq, true_and] at h
      subst h
      rfl

theorem tfs_deleteFile_table (e : Errno) (he : e.Negative) (fd : Int) (s s1 : State)
    (t : List (Option fileDescriptorTableEntry))
    (hact : s.activeDisk ≠ 0) (ht : s.fileDescriptorTable = some t)
    (hmax : s.maxNumberOfFiles = Int.ofNat t.length)
    (h : tfs_deleteFile e fd s = .ret 1 s1) :
    0 ≤ fd ∧ fd.toNat < t.length ∧ s1.fileDescriptorTable = some (t.set fd.toNat none) := by
  have hneg : e.FILE_DELETE_ERROR < 0 := he.2.2.2.2.2.2.2.1
  have hneg2 : e.FILE_BAD_DESCRIPTOR < 0 := he.2.2.2.2.2.2.2.2.2.1
  unfold tfs_deleteFile at h
  split at h
  · exact absurd h (by simp)
  · simp only [Outcome.ret.injEq] at h
    omega
  · rename_i en hen
    rw [ht] at hen
    obtain ⟨l, hl, hfd0, hget⟩ := tableGet_some _ _ _ hen
    have hlt : fd.toNat < t.length := by
      have hl2 := Option.some.inj hl
      subst hl2
      by_contra hcon
      rw [List.getElem?_eq_none (by omega)] at hget
      exact absurd hget (by simp)
    have hmax2 : fd < s.maxNumberOfFiles := by
      rw [hmax]
      simp only [Int.ofNat_eq_coe]
      omega
    refine ⟨hfd0, hlt, ?_⟩
    simp only at h
    split at h
    · simp only [Outcome.ret.injEq] at h
      omega
    · split at h
      · simp only [Outcome.ret.injEq] at h
        omega
      · split at h
        · split at h
          · simp only [Outcome.ret.injEq] at h
            omega
          · exact deleteData_table e he fd _ _ s1 t en
              (by rw [writeBlock_activeDisk]; exact hact) (by rw [writeBlock_table]; exact ht) hen
              (by rw [writeBlock_maxFiles]; exact hmax2) h
        · unfold deleteUnlink at h
          simp only at h
          split at h
          · simp only [Outcome.ret.injEq] at h
            omega
          · exact absurd h (by simp)
          · split at h
            · simp only [Outcome.ret.injEq] at h
              omega
            · split at h
              · simp only [Outcome.ret.injEq] at h
                omega
              · exact deleteData_table e he fd _ _ s1 t en
                  (by rw [writeBlock_activeDisk]; exact hact) (by rw [writeBlock_table]; exact ht)
                  hen (by rw [writeBlock_maxFiles]; exact hmax2) h

/-- C12: a call of `tfs_openFile` that returns a descriptor (a code `c ≥ 0`) returns
the smallest index whose slot of the descriptor table is empty when the call is
made: slot `c` is empty and every slot below it is occupied.  Consequently, when
the call is made in the state a successful `tfs_deleteFile(fd0)` has left, and no
slot below `fd0` was empty before the deletion (on a mounted volume whose table has
`maxNumberOfFiles` slots), the descriptor returned is `fd0` again. -/
theorem tfs_openFile_lowest_empty_slot (e : Errno) (he : e.Negative) (name : List Nat)
    (clock : Nat → Nat) (s s1 : State) (c : Int)
    (h : tfs_openFile e name clock s = .ret c s1) (hc : 0 ≤ c) :
    (∃ t fd, s.fileDescriptorTable = some t ∧ c = Int.ofNat fd ∧ t[fd]? = some none ∧
      ∀ i, i < fd → ∃ en, t[i]? = some (some en)) ∧
    (∀ (s0 : State) (t0 : List (Option fileDescriptorTableEntry)) (fd0 : Int),
      s0.activeDisk ≠ 0 → s0.fileDescriptorTable = some t0 →
      s0.maxNumberOfFiles = Int.ofNat t0.length →
      (∀ i, i < fd0.toNat → ∃ en, t0[i]? = some (some en)) →
      tfs_deleteFile e fd0 s0 = .ret 1 s → c = fd0) := by
  obtain ⟨t, fd, ht, hfe, hcfd⟩ := tfs_openFile_code e he name clock s s1 c h hc
  obtain ⟨hslot, hlow⟩ := firstEmpty_spec t fd hfe
  refine ⟨⟨t, fd, ht, hcfd, hslot, hlow⟩, ?_⟩
  intro s0 t0 fd0 hact ht0 hmax hocc hdel
  obtain ⟨hfd0, hlt, htab⟩ := tfs_deleteFile_table e he fd0 s0 s t0 hact ht0 hmax hdel
  rw [ht] at htab
  have htt := Option.some.inj htab
  subst htt
  have hk : firstEmpty (t0.set fd0.toNat none) = some fd0.toNat := by
    apply firstEmpty_of_lowest
    · rw [List.getElem?_set_self (by simpa using hlt)]
    · intro i hi
      obtain ⟨en, hen⟩ := hocc i hi
      exact ⟨en, by rw [List.getElem?_set_ne (by omega)]; exact hen⟩
  rw [hk] at hfe
  have := Option.some.inj hfe
  rw [hcfd, ← this]
  simp only [Int.ofNat_eq_coe]
  omega

set_option maxRecDepth 100000 in
theorem tfs_openFile_lowest_empty_slot_witness :
    (tfs_deleteFile sampleErrno 0 demoOpened).code? = some 1 ∧
    (tfs_openFile sampleErrno [102, 105, 108, 101, 49] sampleClock demoDeleted).code? = some 0 ∧
    ((∃ t fd, demoDeleted.fileDescriptorTable = some t ∧ (0 : Int) = Int.ofNat fd ∧
        t[fd]? = some none ∧ ∀ i, i < fd → ∃ en, t[i]? = some (some en)) ∧
      (∀ (s0 : State) (t0 : List (Option fileDescriptorTableEntry)) (fd0 : Int),
        s0.activeDisk ≠ 0 → s0.fileDescriptorTable = some t0 →
        s0.maxNumberOfFiles = Int.ofNat t0.length →
        (∀ i, i < fd0.toNat → ∃ en, t0[i]? = some (some en)) →
        tfs_deleteFile sampleErrno fd0 s0 = .ret 1 demoDeleted → (0 : Int) = fd0)) :=
  ⟨by decide!, by decide!,
    tfs_openFile_lowest_empty_slot sampleErrno (by decide) [102, 105, 108, 101, 49] sampleClock
      demoDeleted
      (stateOf (tfs_openFile sampleErrno [102, 105, 108, 101, 49] sampleClock demoDeleted)) 0
      rfl (by decide)⟩

/-! ## Writing without enough free blocks, rewriting, negative file pointers -/

set_option maxRecDepth 100000 in
/-- C14, the code at the failing input: on the five-block volume the free list is
empty (free-list head 0) and the file `b` of descriptor 1 holds no data.
`tfs_writeFile(1, "hi", 2)` needs one block; it returns 1 instead of a negative
code, leaves the superblock as it was, and records size 2 in the inode with data
head 0, so the inode records two bytes while the data chain of the file holds no
block. -/
theorem tfs_writeFile_empty_free_list_returns_one :
    freeHead fiveVolumeFull = some 0 ∧
    freeBlocks fiveVolumeFull = some [] ∧
    tableGet fiveVolumeFull.fileDescriptorTable 1 =
      some (some { inodeNumber := 3, filePointer := 0 }) ∧
    inodeSizeAndData fiveVolumeFull 3 = some (0, 0) ∧
    (tfs_writeFile sampleErrno 1 [104, 105] 2 sampleClock fiveVolumeFull).code? = some 1 ∧
    inodeSizeAndData
      (stateOf (tfs_writeFile sampleErrno 1 [104, 105] 2 sampleClock fiveVolumeFull)) 3 =
      some (2, 0) ∧
    dataBlocks
      (stateOf (tfs_writeFile sampleErrno 1 [104, 105] 2 sampleClock fiveVolumeFull)) 3 =
      some [] ∧
    readBlock 2 0 (stateOf (tfs_writeFile sampleErrno 1 [104, 105] 2 sampleClock fiveVolumeFull)) =
      readBlock 2 0 fiveVolumeFull := by
  decide!

set_option maxRecDepth 100000 in
/-- C15, the code at the failing input: on the demo volume after the eight opens,
`tfs_writeFile(fd4, btcwhitepaper, 169)` puts the data in block 10 (free list 11,
..., 39).  `tfs_writeFile(fd4, "abc", 3)` then returns 1; block 10 is typed free
(tag 4) and its next pointer is 11, but block 11 is the new data block of the
file and the free list that starts at the superblock's free-list head is 12, ...,
39: block 10 is not on it. -/
theorem tfs_writeFile_rewrite_leaks_block :
    btcwhitepaper.length = 169 ∧
    (tfs_writeFile sampleErrno 3 btcwhitepaper 169 sampleClock demoOpened).code? = some 1 ∧
    inodeSizeAndData demoWritten 5 = some (169, 10) ∧
    dataBlocks demoWritten 5 = some [10] ∧
    (tfs_writeFile sampleErrno 3 [97, 98, 99] 3 sampleClock demoWritten).code? = some 1 ∧
    inodeSizeAndData demoRewritten 5 = some (3, 11) ∧
    blockTag demoRewritten 10 = some FREE_BLOCK_TYPE ∧
    (readBlock demoRewritten.activeDisk 10 demoRewritten).map
      (fun b => readInt b FREE_NEXT_BLOCK_OFFSET) = some 11 ∧
    freeHead demoRewritten = some 12 ∧
    freeBlocks demoRewritten =
      some [12, 13, 14, 15, 16, 17, 18, 19, 20, 21, 22, 23, 24, 25, 26, 27, 28, 29, 30, 31, 32,
        33, 34, 35, 36, 37, 38, 39] ∧
    (∀ l, freeBlocks demoRewritten = some l → (10 : Int) ∉ l) := by
  refine ⟨by decide!, by decide!, by decide!, by decide!, by decide!, by decide!, by decide!,
    by decide!, by decide!, by decide!, ?_⟩
  intro l hl
  have h : freeBlocks demoRewritten =
      some [12, 13, 14, 15, 16, 17, 18, 19, 20, 21, 22, 23, 24, 25, 26, 27, 28, 29, 30, 31, 32,
        33, 34, 35, 36, 37, 38, 39] := by decide!
  rw [h] at hl
  have hl2 := Option.some.inj hl
  subst hl2
  decide

set_option maxRecDepth 100000 in
/-- C17, the code at the failing input: the file of descriptor 0 on the four-block
volume holds the two bytes `hi` and its file pointer is 0.  `tfs_seek(0, -1)`
returns -1 and leaves the file pointer at -1, which is not in `[0, 2)`;
`tfs_readByte(0)` then returns 1 instead of a negative code, delivers a byte (byte
5 of the data block, the last byte of its next pointer) and moves the file pointer
to 0. -/
theorem tfs_readByte_accepts_negative_pointer :
    inodeSizeAndData smallVolumeFull 2 = some (2, 3) ∧
    filePointerOf smallVolumeFull 0 = some 0 ∧
    (tfs_seek sampleErrno 0 (-1) smallVolumeFull).code? = some (-1) ∧
    filePointerOf (stateOf (tfs_seek sampleErrno 0 (-1) smallVolumeFull)) 0 = some (-1) ∧
    (tfs_readByte sampleErrno 0 sampleClock
      (stateOf (tfs_seek sampleErrno 0 (-1) smallVolumeFull))).code? = some 1 ∧
    ((tfs_readByte sampleErrno 0 sampleClock
      (stateOf (tfs_seek sampleErrno 0 (-1) smallVolumeFull))).out?).map
      (fun o => (o.1, filePointerOf o.2 0)) = some (some 0, some 0) := by
  decide!

/-! ## End of file, `tfs_seek`, `tfs_rename` with a long name -/

theorem tableGet_setFilePointer_ne (s : State) (fd fd1 : Int) (p : Int) (hfd : 0 ≤ fd)
    (hne : fd1 ≠ fd) :
    tableGet (setFilePointer s fd p).fileDescriptorTable fd1 =
      tableGet s.fileDescriptorTable fd1 := by
  unfold setFilePointer tableGet
  cases ht : s.fileDescriptorTable with
  | none => rfl
  | some t =>
    simp only [Option.map_some']
    by_cases h1 : fd1 < 0
    · rw [if_pos h1, if_pos h1]
    · rw [if_neg h1, if_neg h1, List.getElem?_set_ne]
      omega

/-- C16: when a volume is mounted, descriptor `fd` is open and its file pointer is
greater than or equal to the file size stored in its inode, `tfs_readByte` returns
the negative code `BLOCK_READ_ERROR`, stores no byte, and the state after the call
is the state before it (the file pointer and every disk block are unchanged). -/
theorem tfs_readByte_end_of_file (e : Errno) (he : e.Negative) (fd : Int) (clock : Nat → Nat)
    (s : State) (en : fileDescriptorTableEntry) (ib : Block)
    (hact : s.activeDisk ≠ 0)
    (hfd : tableGet s.fileDescriptorTable fd = some (some en))
    (hib : readBlock s.activeDisk en.inodeNumber s = some ib)
    (hp : en.filePointer ≥ readInt ib INODE_FILE_SIZE_OFFSET) :
    tfs_readByte e fd clock s = .ret e.BLOCK_READ_ERROR (none, s) ∧ e.BLOCK_READ_ERROR < 0 := by
  refine ⟨?_, he.2.2.2.2.2.2.2.2.2.2.1⟩
  unfold tfs_readByte
  rw [if_neg hact, hfd]
  simp only
  rw [hib]
  simp only
  unfold readByteAt
  simp only
  rw [if_pos hp]

set_option maxRecDepth 100000 in
theorem tfs_readByte_end_of_file_witness :
    tfs_readByte sampleErrno 0 sampleClock (stateOf (tfs_seek sampleErrno 0 5 smallVolumeFull)) =
      .ret sampleErrno.BLOCK_READ_ERROR (none, stateOf (tfs_seek sampleErrno 0 5 smallVolumeFull)) ∧
    sampleErrno.BLOCK_READ_ERROR < 0 :=
  tfs_readByte_end_of_file sampleErrno (by decide) 0 sampleClock
    (stateOf (tfs_seek sampleErrno 0 5 smallVolumeFull)) { inodeNumber := 2, filePointer := 5 }
    ((readBlock 2 2 smallVolumeFull).getD []) (by decide!) (by decide!) (by decide!) (by decide!)

/-- C18: when a volume is mounted and descriptor `fd` is open with file pointer
`p`, `tfs_seek(fd, d)` returns `p + d` and sets the file pointer to `p + d`, for
every offset `d` for which `p + d` is an `int` (no comparison with the file size is
made); the descriptor stays bound to its inode, no other descriptor changes, and
no host file, so no disk block, changes. -/
theorem tfs_seek_relative (e : Errno) (fd d : Int) (s : State) (en : fileDescriptorTableEntry)
    (hact : s.activeDisk ≠ 0)
    (hfd : tableGet s.fileDescriptorTable fd = some (some en))
    (h1 : -2147483648 ≤ en.filePointer + d) (h2 : en.filePointer + d < 2147483648) :
    ∃ s1, tfs_seek e fd d s = .ret (en.filePointer + d) s1 ∧
      tableGet s1.fileDescriptorTable fd =
        some (some { inodeNumber := en.inodeNumber, filePointer := en.filePointer + d }) ∧
      (∀ fd1, fd1 ≠ fd → tableGet s1.fileDescriptorTable fd1 =
        tableGet s.fileDescriptorTable fd1) ∧
      s1.files = s.files ∧ s1.diskListHead = s.diskListHead ∧
      s1.activeDisk = s.activeDisk ∧ s1.maxNumberOfFiles = s.maxNumberOfFiles ∧
      (∀ a b, readBlock a b s1 = readBlock a b s) := by
  obtain ⟨l, _, hfd0, _⟩ := tableGet_some _ _ _ hfd
  refine ⟨setFilePointer s fd (en.filePointer + d), ?_, ?_, ?_, rfl, rfl, rfl, rfl, ?_⟩
  · unfold tfs_seek
    rw [if_neg hact, hfd]
    simp only
    rw [wrap32_of_range _ h1 h2]
  · exact tableGet_setFilePointer s fd en _ hfd
  · intro fd1 hne
    exact tableGet_setFilePointer_ne s fd fd1 _ hfd0 hne
  · intro a b
    exact readBlock_setFilePointer a b s fd _

set_option maxRecDepth 100000 in
theorem tfs_seek_relative_witness :
    ∃ s1, tfs_seek sampleErrno 0 11 (stateOf (tfs_seek sampleErrno 0 1 smallVolumeFull)) =
        .ret ((1 : Int) + 11) s1 ∧
      tableGet s1.fileDescriptorTable 0 =
        some (some { inodeNumber := 2, filePointer := (1 : Int) + 11 }) ∧
      (∀ fd1, fd1 ≠ 0 → tableGet s1.fileDescriptorTable fd1 =
        tableGet (stateOf (tfs_seek sampleErrno 0 1 smallVolumeFull)).fileDescriptorTable fd1) ∧
      s1.files = (stateOf (tfs_seek sampleErrno 0 1 smallVolumeFull)).files ∧
      s1.diskListHead = (stateOf (tfs_seek sampleErrno 0 1 smallVolumeFull)).diskListHead ∧
      s1.activeDisk = (stateOf (tfs_seek sampleErrno 0 1 smallVolumeFull)).activeDisk ∧
      s1.maxNumberOfFiles = (stateOf (tfs_seek sampleErrno 0 1 smallVolumeFull)).maxNumberOfFiles ∧
      (∀ a b, readBlock a b s1 =
        readBlock a b (stateOf (tfs_seek sampleErrno 0 1 smallVolumeFull))) :=
  tfs_seek_relative sampleErrno 0 11 (stateOf (tfs_seek sampleErrno 0 1 smallVolumeFull))
    { inodeNumber := 2, filePointer := 1 } (by decide!) (by decide!) (by decide) (by decide)

/-- C19: for every descriptor and every new name of 9 characters or more,
`tfs_rename` returns the negative code `FILE_RENAME_ERROR` and the state after the
call is the state before it, so the inode block (name slot and timestamps) and
every other disk block are unchanged. -/
theorem tfs_rename_long_name (e : Errno) (he : e.Negative) (fd : Int) (newName : List Nat)
    (clock : Nat → Nat) (s : State) (hlen : 9 ≤ strlen newName) :
    tfs_rename e fd newName clock s = .ret e.FILE_RENAME_ERROR s ∧ e.FILE_RENAME_ERROR < 0 := by
  refine ⟨?_, he.2.2.2.2.2.2.2.2.1⟩
  unfold tfs_rename
  rw [if_pos (by unfold MAX_FILE_NAME_SIZE; exact hlen)]

theorem tfs_rename_long_name_witness :
    strlen mainfileTxt = 12 ∧
    tfs_rename sampleErrno 1 mainfileTxt sampleClock demoOpened =
      .ret sampleErrno.FILE_RENAME_ERROR demoOpened ∧ sampleErrno.FILE_RENAME_ERROR < 0 :=
  ⟨by decide, tfs_rename_long_name sampleErrno (by decide) 1 mainfileTxt sampleClock demoOpened
    (by decide)⟩

/-! ## `tfs_rename` with a short name and the listing of `tfs_readdir` -/

theorem cstr_length_lt_of_mem (x : List Nat) (h : (0 : Nat) ∈ x) :
    (cstr x).length < x.length := by
  unfold cstr
  induction x with
  | nil => exact absurd h (by simp)
  | cons a x ih =>
    by_cases ha : a = 0
    · subst ha
      simp [List.takeWhile]
    · have hx : (0 : Nat) ∈ x := by
        rcases List.mem_cons.mp h with h0 | h0
        · exact absurd h0.symm ha
        · exact h0
      have := ih hx
      have hne : (a != 0) = true := by simpa using ha
      rw [List.takeWhile_cons, hne]
      simp only [if_true, List.length_cons]
      omega

theorem cstr_no_zero (n : List Nat) : ∀ a ∈ cstr n, (a != 0) = true := by
  intro a ha
  unfold cstr at ha
  exact @List.mem_takeWhile_imp Nat (fun c : Nat => c != 0) n a ha

theorem cstr_padded (n : List Nat) (k : Nat) :
    cstr (cstr n ++ List.replicate (k + 1) 0) = cstr n := by
  have h := @List.takeWhile_append_of_pos Nat (fun c : Nat => c != 0) (cstr n)
    (List.replicate (k + 1) 0) (cstr_no_zero n)
  unfold cstr at h ⊢
  rw [h]
  simp [List.replicate_succ, List.takeWhile]

theorem mem_zero_padded (n : List Nat) (k : Nat) :
    (0 : Nat) ∈ cstr n ++ List.replicate (k + 1) 0 := by
  simp [List.replicate_succ]

/-- The inode block `tfs_rename` writes, field by field. -/
theorem renamed_fields (ib : Block) (name : List Nat) (clock : Nat → Nat)
    (hlen : ib.length = 256) (h8 : strlen name ≤ 8) :
    (memcpy (memcpy (memsetZero ib 14 9) 14 (cstr name)) 48 (getTimestamp clock)).length = 256 ∧
    nameSlot (memcpy (memcpy (memsetZero ib 14 9) 14 (cstr name)) 48 (getTimestamp clock)) =
      cstr name ++ List.replicate (9 - strlen name) 0 ∧
    slice (memcpy (memcpy (memsetZero ib 14 9) 14 (cstr name)) 48 (getTimestamp clock)) 48 25 =
      getTimestamp clock ∧
    slice (memcpy (memcpy (memsetZero ib 14 9) 14 (cstr name)) 48 (getTimestamp clock)) 0 14 =
      slice ib 0 14 ∧
    slice (memcpy (memcpy (memsetZero ib 14 9) 14 (cstr name)) 48 (getTimestamp clock)) 23 25 =
      slice ib 23 25 ∧
    slice (memcpy (memcpy (memsetZero ib 14 9) 14 (cstr name)) 48 (getTimestamp clock)) 73 183 =
      slice ib 73 183 ∧
    readInt (memcpy (memcpy (memsetZero ib 14 9) 14 (cstr name)) 48 (getTimestamp clock)) 2 =
      readInt ib 2 ∧
    readInt (memcpy (memcpy (memsetZero ib 14 9) 14 (cstr name)) 48 (getTimestamp clock)) 6 =
      readInt ib 6 ∧
    readInt (memcpy (memcpy (memsetZero ib 14 9) 14 (cstr name)) 48 (getTimestamp clock)) 10 =
      readInt ib 10 := by
  have hs : (cstr name).length ≤ 8 := h8
  have lz : (memsetZero ib 14 9).length = 256 := by
    rw [length_memsetZero _ _ _ (by omega), hlen]
  have ln : (memcpy (memsetZero ib 14 9) 14 (cstr name)).length = 256 :=
    length_named ib name hlen (by omega)
  have lt := length_getTimestamp clock
  have hz : ∀ off n, off + n ≤ 14 ∨ 23 ≤ off →
      slice (memsetZero ib 14 9) off n = slice ib off n := by
    intro off n h
    unfold memsetZero
    exact slice_memcpy_disjoint ib 14 _ off n (by omega) (by
      rw [List.length_replicate]; omega)
  have hzr : ∀ off, off + 4 ≤ 14 → readInt (memsetZero ib 14 9) off = readInt ib off := by
    intro off h
    unfold memsetZero
    exact readInt_memcpy_disjoint ib 14 _ off (by omega) (Or.inl h)
  refine ⟨?_, ?_, ?_, ?_, ?_, ?_, ?_, ?_, ?_⟩
  · rw [length_memcpy _ _ _ (by omega), ln]
  · unfold nameSlot INODE_FILE_NAME_OFFSET MAX_FILE_NAME_SIZE
    rw [slice_memcpy_disjoint _ 48 _ 14 9 (by omega) (by omega)]
    exact slice_named ib name hlen (by omega)
  · have := slice_memcpy_same (memcpy (memsetZero ib 14 9) 14 (cstr name)) 48
      (getTimestamp clock) (by omega)
    rw [lt] at this
    exact this
  · rw [slice_memcpy_disjoint _ 48 _ 0 14 (by omega) (by omega),
      slice_memcpy_disjoint _ 14 _ 0 14 (by omega) (by omega), hz 0 14 (by omega)]
  · rw [slice_memcpy_disjoint _ 48 _ 23 25 (by omega) (by omega),
      slice_memcpy_disjoint _ 14 _ 23 25 (by omega) (by omega), hz 23 25 (by omega)]
  · rw [slice_memcpy_disjoint _ 48 _ 73 183 (by omega) (by omega),
      slice_memcpy_disjoint _ 14 _ 73 183 (by omega) (by omega), hz 73 183 (by omega)]
  · rw [readInt_memcpy_disjoint _ 48 _ 2 (by omega) (by omega),
      readInt_memcpy_disjoint _ 14 _ 2 (by omega) (by omega), hzr 2 (by omega)]
  · rw [readInt_memcpy_disjoint _ 48 _ 6 (by omega) (by omega),
      readInt_memcpy_disjoint _ 14 _ 6 (by omega) (by omega), hzr 6 (by omega)]
  · rw [readInt_memcpy_disjoint _ 48 _ 10 (by omega) (by omega),
      readInt_memcpy_disjoint _ 14 _ 10 (by omega) (by omega), hzr 10 (by omega)]

/-- What `tfs_rename` does for a name of at most 8 characters on an open
descriptor whose inode block can be read. -/
theorem tfs_rename_ok (e : Errno) (fd : Int) (newName : List Nat) (clock : Nat → Nat)
    (s : State) (en : fileDescriptorTableEntry) (ib : Block)
    (hact : s.activeDisk ≠ 0)
    (hfd : tableGet s.fileDescriptorTable fd = some (some en))
    (hib : readBlock s.activeDisk en.inodeNumber s = some ib)
    (hlen : strlen newName ≤ 8) :
    tfs_rename e fd newName clock s =
      .ret 1 (writeBlock s.activeDisk en.inodeNumber
        (memcpy (memcpy (memsetZero ib 14 9) 14 (cstr newName)) 48 (getTimestamp clock)) s).2 := by
  unfold tfs_rename
  rw [if_neg (by unfold MAX_FILE_NAME_SIZE; omega), if_neg hact, hfd]
  simp only
  rw [hib]
  simp only
  rw [if_neg (by rw [writeBlock_fst_of_read _ _ _ _ _ hib]; decide)]
  rfl

theorem inodeChain_update (s s1 : State) (i : Int) (ib ib1 : Block)
    (hact : s1.activeDisk = s.activeDisk)
    (hrd : ∀ b, readBlock s.activeDisk b s1 =
      if b = i then some ib1 else readBlock s.activeDisk b s)
    (hib : readBlock s.activeDisk i s = some ib)
    (hnext : readInt ib1 INODE_NEXT_INODE_OFFSET = readInt ib INODE_NEXT_INODE_OFFSET) :
    ∀ (fuel : Nat) (j : Int) (l : List (Int × Block)), inodeChain s fuel j = some l →
      inodeChain s1 fuel j = some (l.map (fun p => if p.1 = i then (p.1, ib1) else p)) := by
  intro fuel
  induction fuel with
  | zero => intro j l h; exact absurd h (by simp [inodeChain])
  | succ fuel ih =>
    intro j l h
    unfold inodeChain at h ⊢
    by_cases hj : j = 0
    · rw [if_pos hj] at h ⊢
      have := Option.some.inj h
      subst this
      rfl
    · rw [if_neg hj] at h ⊢
      rw [hact, hrd]
      by_cases hji : j = i
      · subst hji
        rw [if_pos rfl]
        rw [hib] at h
        simp only [Option.map_eq_some'] at h ⊢
        obtain ⟨l0, hl0, hl⟩ := h
        subst hl
        rw [hnext]
        exact ⟨_, ih _ _ hl0, by simp⟩
      · rw [if_neg hji]
        cases hb : readBlock s.activeDisk j s with
        | none => rw [hb] at h; exact absurd h (by simp)
        | some b =>
          rw [hb] at h
          simp only [Option.map_eq_some'] at h ⊢
          obtain ⟨l0, hl0, hl⟩ := h
          subst hl
          exact ⟨_, ih _ _ hl0, by simp [hji]⟩

theorem readdirLoop_of_chain (e : Errno) (s : State) :
    ∀ (fuel : Nat) (j : Int) (l : List (Int × Block)) (printed : List (List Nat)),
      inodeChain s fuel j = some l → (∀ p ∈ l, (0 : Nat) ∈ nameSlot p.2) →
      readdirLoop e s fuel j printed =
        .ret 1 (printed ++ l.map (fun p => cstr (nameSlot p.2))) := by
  intro fuel
  induction fuel with
  | zero => intro j l printed h; exact absurd h (by simp [inodeChain])
  | succ fuel ih =>
    intro j l printed h hz
    unfold inodeChain at h
    unfold readdirLoop
    by_cases hj : j = 0
    · rw [if_pos hj] at h ⊢
      have := Option.some.inj h
      subst this
      simp
    · rw [if_neg hj] at h ⊢
      cases hb : readBlock s.activeDisk j s with
      | none => rw [hb] at h; exact absurd h (by simp)
      | some b =>
        rw [hb] at h
        simp only [Option.map_eq_some'] at h
        obtain ⟨l0, hl0, hl⟩ := h
        subst hl
        simp only
        have h0 : (0 : Nat) ∈ nameSlot b := hz (j, b) (by simp)
        have hlt := cstr_length_lt_of_mem _ h0
        unfold nameSlot at hlt
        rw [if_pos hlt, ih _ l0 _ hl0 (fun p hp => hz p (by simp [hp]))]
        simp [nameSlot]

set_option maxRecDepth 100000 in
/-- C20: on a mounted volume, for an open descriptor whose inode block can be read
and has 256 bytes, and a new name of at most 8 characters, `tfs_rename` returns 1
and rewrites only the file's inode block: its 9-byte name slot becomes the name
followed by zero bytes and its modified timestamp the time of the call, while the
bytes in front of the name slot (tag, magic, next inode, size, data head), the
created timestamp and everything from the accessed timestamp on are unchanged.
The inode list visits the same blocks in the same order, so, when every name slot
of the list holds a terminator, `tfs_readdir` prints the new name where the old
one stood and the other names as before.  In the demo, after
`tfs_rename(fd2, "main.c")` the listing shows `main.c` in place of `file2`. -/
theorem tfs_rename_short_name (e : Errno) (fd : Int) (newName : List Nat) (clock : Nat → Nat)
    (s : State) (en : fileDescriptorTableEntry) (ib : Block) (l : List (Int × Block))
    (hact : s.activeDisk ≠ 0)
    (hfd : tableGet s.fileDescriptorTable fd = some (some en))
    (hib : readBlock s.activeDisk en.inodeNumber s = some ib) (hibl : ib.length = 256)
    (hlen : strlen newName ≤ 8)
    (hl : inodeList s = some l)
    (hz : ∀ p ∈ l, (0 : Nat) ∈ nameSlot p.2) :
    (∃ s1 ib1, tfs_rename e fd newName clock s = .ret 1 s1 ∧
      s1.fileDescriptorTable = s.fileDescriptorTable ∧ s1.activeDisk = s.activeDisk ∧
      readBlock s.activeDisk en.inodeNumber s1 = some ib1 ∧
      (∀ b, b ≠ en.inodeNumber → readBlock s.activeDisk b s1 = readBlock s.activeDisk b s) ∧
      ib1.length = 256 ∧
      nameSlot ib1 = cstr newName ++ List.replicate (9 - strlen newName) 0 ∧
      slice ib1 INODE_MOD_TIME_STAMP_OFFSET 25 = getTimestamp clock ∧
      slice ib1 0 INODE_FILE_NAME_OFFSET = slice ib 0 INODE_FILE_NAME_OFFSET ∧
      readInt ib1 INODE_NEXT_INODE_OFFSET = readInt ib INODE_NEXT_INODE_OFFSET ∧
      readInt ib1 INODE_FILE_SIZE_OFFSET = readInt ib INODE_FILE_SIZE_OFFSET ∧
      readInt ib1 INODE_DATA_BLOCK_OFFSET = readInt ib INODE_DATA_BLOCK_OFFSET ∧
      slice ib1 INODE_CR8_TIME_STAMP_OFFSET 25 = slice ib INODE_CR8_TIME_STAMP_OFFSET 25 ∧
      slice ib1 INODE_ACC_TIME_STAMP_OFFSET 183 = slice ib INODE_ACC_TIME_STAMP_OFFSET 183 ∧
      inodeList s1 = some (l.map (fun p => if p.1 = en.inodeNumber then (p.1, ib1) else p)) ∧
      tfs_readdir e s = .ret 1 (l.map (fun p => cstr (nameSlot p.2))) ∧
      tfs_readdir e s1 = .ret 1
        (l.map (fun p => if p.1 = en.inodeNumber then cstr newName else cstr (nameSlot p.2)))) ∧
    (tfs_readdir sampleErrno demoOpened = .ret 1
        [[102, 105, 108, 101, 56], [102, 105, 108, 101, 55], [102, 105, 108, 101, 54],
         [102, 105, 108, 101, 53], [102, 105, 108, 101, 52], [102, 105, 108, 101, 51],
         [102, 105, 108, 101, 50], [102, 105, 108, 101, 49]] ∧
      (tfs_rename sampleErrno 1 mainC sampleClock demoOpened).code? = some 1 ∧
      tfs_readdir sampleErrno (stateOf (tfs_rename sampleErrno 1 mainC sampleClock demoOpened)) =
        .ret 1
        [[102, 105, 108, 101, 56], [102, 105, 108, 101, 55], [102, 105, 108, 101, 54],
         [102, 105, 108, 101, 53], [102, 105, 108, 101, 52], [102, 105, 108, 101, 51],
         [109, 97, 105, 110, 46, 99], [102, 105, 108, 101, 49]]) := by
  refine ⟨?_, by decide!, by decide!, by decide!⟩
  obtain ⟨fl, fname, fmod, fhead, fcr8, facc, fnext, fsize, fdata⟩ :=
    renamed_fields ib newName clock hibl hlen
  generalize hib1 : memcpy (memcpy (memsetZero ib 14 9) 14 (cstr newName)) 48
    (getTimestamp clock) = ib1 at fl fname fmod fhead fnext fsize fdata fcr8 facc
  have hren := tfs_rename_ok e fd newName clock s en ib hact hfd hib hlen
  rw [hib1] at hren
  have hrd := fun b => readBlock_writeBlock s.activeDisk en.inodeNumber b s ib ib1 hib
  have hblocks := diskBlocks_writeBlock s.activeDisk en.inodeNumber ib1 s s.activeDisk
  have hact1 := writeBlock_activeDisk s.activeDisk en.inodeNumber ib1 s
  have htab1 := writeBlock_table s.activeDisk en.inodeNumber ib1 s
  generalize (writeBlock s.activeDisk en.inodeNumber ib1 s).2 = s1 at hren hrd hblocks hact1 htab1
  -- the superblock, before and after
  unfold inodeList at hl
  cases hsb : readBlock s.activeDisk SUPER_BLOCK s with
  | none => rw [hsb] at hl; exact absurd hl (by simp)
  | some sb =>
    rw [hsb] at hl
    simp only at hl
    have hchain1 := inodeChain_update s s1 en.inodeNumber ib ib1 hact1 hrd hib fnext _ _ _ hl
    have hsb1 : ∃ sb1, readBlock s.activeDisk SUPER_BLOCK s1 = some sb1 ∧
        readInt sb1 IB_OFFSET = readInt sb IB_OFFSET := by
      rw [hrd]
      by_cases h0 : SUPER_BLOCK = en.inodeNumber
      · rw [if_pos h0]
        refine ⟨ib1, rfl, ?_⟩
        rw [← h0, hsb] at hib
        have := Option.some.inj hib
        subst this
        exact fsize
      · rw [if_neg h0]
        exact ⟨sb, hsb, rfl⟩
    obtain ⟨sb1, hsb1, hib6⟩ := hsb1
    have hlist1 : inodeList s1 =
        some (l.map (fun p => if p.1 = en.inodeNumber then (p.1, ib1) else p)) := by
      unfold inodeList
      rw [hact1, hsb1]
      simp only
      rw [hblocks, hib6]
      exact hchain1
    have hk : 9 - strlen newName = (8 - strlen newName) + 1 := by omega
    have hz1 : ∀ p ∈ l.map (fun p => if p.1 = en.inodeNumber then (p.1, ib1) else p),
        (0 : Nat) ∈ nameSlot p.2 := by
      intro p hp
      obtain ⟨q, hq, hqp⟩ := List.mem_map.mp hp
      by_cases hqi : q.1 = en.inodeNumber
      · rw [if_pos hqi] at hqp
        subst hqp
        simp only
        rw [fname, hk]
        exact mem_zero_padded newName _
      · rw [if_neg hqi] at hqp
        subst hqp
        exact hz q hq
    refine ⟨s1, ib1, hren, htab1, hact1, ?_, ?_, fl, fname, fmod, fhead, fnext, fsize, fdata,
      fcr8, facc, hlist1, ?_, ?_⟩
    · rw [hrd, if_pos rfl]
    · intro b hb
      rw [hrd, if_neg hb]
    · unfold tfs_readdir
      rw [if_neg hact, hsb]
      simp only
      rw [readdirLoop_of_chain e s _ _ l [] hl hz]
      simp
    · unfold tfs_readdir
      rw [hact1, if_neg hact, hsb1]
      simp only
      rw [hblocks, hib6, readdirLoop_of_chain e s1 _ _ _ [] hchain1 hz1]
      simp only [List.nil_append, List.map_map, Outcome.ret.injEq, true_and]
      apply List.map_congr_left
      intro p _
      simp only [Function.comp]
      by_cases hpi : p.1 = en.inodeNumber
      · rw [if_pos hpi, if_pos hpi]
        simp only
        rw [fname, hk]
        exact cstr_padded newName _
      · rw [if_neg hpi, if_neg hpi]

set_option maxRecDepth 100000 in
theorem tfs_rename_short_name_witness :
    ∃ s1 ib1, tfs_rename sampleErrno 1 mainC sampleClock demoOpened = .ret 1 s1 ∧
      readBlock demoOpened.activeDisk 3 s1 = some ib1 ∧
      nameSlot ib1 = cstr mainC ++ List.replicate (9 - strlen mainC) 0 ∧
      slice ib1 INODE_MOD_TIME_STAMP_OFFSET 25 = getTimestamp sampleClock ∧
      tfs_readdir sampleErrno s1 = .ret 1
        (((inodeList demoOpened).getD []).map
          (fun p => if p.1 = 3 then cstr mainC else cstr (nameSlot p.2))) := by
  obtain ⟨s1, ib1, h1, _, _, h4, _, _, h7, h8, _, _, _, _, _, _, _, _, h17⟩ :=
    (tfs_rename_short_name sampleErrno 1 mainC sampleClock demoOpened
      { inodeNumber := 3, filePointer := 0 } ((readBlock 2 3 demoOpened).getD [])
      ((inodeList demoOpened).getD []) (by decide!) (by decide!) (by decide!) (by decide!)
      (by decide!) (by decide!) (by decide!)).1
  exact ⟨s1, ib1, h1, h4, h7, h8, h17⟩

/-! ## What `tfs_readFileInfo` does -/

set_option maxRecDepth 100000 in
/-- C21, counterexample: on the four-block volume the file `a` was opened at the
time `sampleClock` shows.  A call `tfs_readFileInfo(0)` made at the later time
`laterClock` shows returns 1 and prints the inode's values, but the state after
the call is the state before it: the accessed-timestamp slot of the inode still
holds the time of the open, not the time of the call. -/
theorem tfs_readFileInfo_keeps_accessed_time :
    (tfs_readFileInfo sampleErrno 0 smallVolumeA).code? = some 1 ∧
    ((tfs_readFileInfo sampleErrno 0 smallVolumeA).out?).map
      (fun o => accessedSlot o.2 2) = some (some (getTimestamp sampleClock)) ∧
    getTimestamp sampleClock ≠ getTimestamp laterClock ∧
    ((tfs_readFileInfo sampleErrno 0 smallVolumeA).out?).map
      (fun o => accessedSlot o.2 2) ≠ some (some (getTimestamp laterClock)) := by
  decide!

/-- C21 (as the code has it): for an open descriptor whose inode block can be
read and holds a terminated name and terminated timestamps, `tfs_readFileInfo`
returns 1, prints the name, the size and the three timestamps the inode stores,
and writes nothing: the state after the call is the state before it, so the
accessed timestamp on disk is the one the inode had. -/
theorem tfs_readFileInfo_reads_only (e : Errno) (fd : Int) (s : State)
    (en : fileDescriptorTableEntry) (ib : Block)
    (hfd : tableGet s.fileDescriptorTable fd = some (some en))
    (hib : readBlock s.activeDisk en.inodeNumber s = some ib)
    (hn : (0 : Nat) ∈ nameSlot ib)
    (hc : (0 : Nat) ∈ slice ib INODE_CR8_TIME_STAMP_OFFSET TIMESTAMP_BUFFER_SIZE)
    (hm : (0 : Nat) ∈ slice ib INODE_MOD_TIME_STAMP_OFFSET TIMESTAMP_BUFFER_SIZE)
    (ha : (0 : Nat) ∈ slice ib INODE_ACC_TIME_STAMP_OFFSET TIMESTAMP_BUFFER_SIZE) :
    tfs_readFileInfo e fd s =
      .ret 1 (some { fileName := cstr (nameSlot ib),
                     fileSize := readInt ib INODE_FILE_SIZE_OFFSET,
                     created := cstr (slice ib INODE_CR8_TIME_STAMP_OFFSET TIMESTAMP_BUFFER_SIZE),
                     modified := cstr (slice ib INODE_MOD_TIME_STAMP_OFFSET TIMESTAMP_BUFFER_SIZE),
                     accessed := cstr (slice ib INODE_ACC_TIME_STAMP_OFFSET TIMESTAMP_BUFFER_SIZE) },
        s) := by
  have p : ∀ buf : List Nat, (0 : Nat) ∈ buf → printedString buf = some (cstr buf) := by
    intro buf h
    unfold printedString
    rw [if_pos (cstr_length_lt_of_mem buf h)]
  unfold tfs_readFileInfo
  rw [hfd]
  simp only
  rw [hib]
  simp only
  unfold nameSlot at hn
  rw [p _ hn, p _ hc, p _ hm, p _ ha]
  rfl

set_option maxRecDepth 100000 in
theorem tfs_readFileInfo_reads_only_witness :
    ∃ info, tfs_readFileInfo sampleErrno 0 smallVolumeA = .ret 1 (some info, smallVolumeA) ∧
      info.fileName = [97] ∧ info.fileSize = 0 :=
  ⟨_, tfs_readFileInfo_reads_only sampleErrno 0 smallVolumeA { inodeNumber := 2, filePointer := 0 }
    ((readBlock 2 2 smallVolumeA).getD []) (by decide!) (by decide!) (by decide!) (by decide!)
    (by decide!) (by decide!), by decide!, by decide!⟩

/-! ## The first write to a file (`tfs_writeFile`) -/

theorem freeChain_facts (s : State) : ∀ (fuel : Nat) (i : Int) (l : List (Int × Block)),
    freeChain s fuel i = some l →
    i = (l.map Prod.fst).getD 0 0 ∧
    ∀ j, j < l.length →
      (l.map Prod.fst).getD j 0 ≠ 0 ∧
      ∃ b, l[j]? = some ((l.map Prod.fst).getD j 0, b) ∧
        readBlock s.activeDisk ((l.map Prod.fst).getD j 0) s = some b ∧
        readInt b FREE_NEXT_BLOCK_OFFSET = (l.map Prod.fst).getD (j + 1) 0 := by
  intro fuel
  induction fuel with
  | zero => intro i l h; exact absurd h (by simp [freeChain])
  | succ fuel ih =>
    intro i l h
    unfold freeChain at h
    by_cases hi : i = 0
    · rw [if_pos hi] at h
      have := Option.some.inj h
      subst this
      exact ⟨by simp [hi], fun j hj => absurd hj (by simp)⟩
    · rw [if_neg hi] at h
      cases hb : readBlock s.activeDisk i s with
      | none => rw [hb] at h; exact absurd h (by simp)
      | some b =>
        rw [hb] at h
        simp only [Option.map_eq_some'] at h
        obtain ⟨l0, hl0, hl⟩ := h
        subst hl
        obtain ⟨hhead, hrest⟩ := ih _ _ hl0
        refine ⟨by simp, ?_⟩
        intro j hj
        cases j with
        | zero =>
          refine ⟨by simpa using hi, b, by simp, by simpa using hb, ?_⟩
          simp only [List.map_cons, zero_add, List.getD_cons_succ]
          exact hhead
        | succ j =>
          obtain ⟨h1, b1, h2, h3, h4⟩ := hrest j (by simpa using hj)
          refine ⟨by simpa using h1, b1, by simpa using h2, by simpa using h3, ?_⟩
          simpa using h4

theorem chain_injective (s : State) (a : Int) (fl : List Int)
    (hnz : ∀ j, j < fl.length → fl.getD j 0 ≠ 0)
    (hnext : ∀ j, j < fl.length → ∃ b, readBlock a (fl.getD j 0) s = some b ∧
      readInt b FREE_NEXT_BLOCK_OFFSET = fl.getD (j + 1) 0) :
    ∀ i j, i < fl.length → j < fl.length → fl.getD i 0 = fl.getD j 0 → i = j := by
  have key : ∀ d i j, i < j → j + d = fl.length → fl.getD i 0 ≠ fl.getD j 0 := by
    intro d
    induction d with
    | zero =>
      intro i j hij hj hcon
      -- j = fl.length
      have h0 : fl.getD j 0 = 0 := by
        rw [List.getD_eq_getElem?_getD, List.getElem?_eq_none (by omega)]
        rfl
      exact hnz i (by omega) (hcon.trans h0)
    | succ d ih =>
      intro i j hij hj hcon
      obtain ⟨bi, hbi, hni⟩ := hnext i (by omega)
      obtain ⟨bj, hbj, hnj⟩ := hnext j (by omega)
      rw [hcon, hbj] at hbi
      have hb := Option.some.inj hbi
      subst hb
      exact ih (i + 1) (j + 1) (by omega) (by omega) (hni.symm.trans hnj)
  intro i j hi hj heq
  by_contra hne
  rcases Nat.lt_or_gt_of_ne hne with h | h
  · exact key (fl.length - j) i j h (by omega) heq
  · exact key (fl.length - i) j i h (by omega) heq.symm

theorem dataBlock_header (b0 : Block) (B : List Nat) (p w : Nat) (hlen : b0.length = 256) :
    (memcpy (setByte b0 BLOCK_NUMBER_OFFSET DATA_BLOCK_TYPE) DATA_BLOCK_DATA_OFFSET
      (slice B p w)).getD BLOCK_NUMBER_OFFSET 0 = DATA_BLOCK_TYPE ∧
    (memcpy (setByte b0 BLOCK_NUMBER_OFFSET DATA_BLOCK_TYPE) DATA_BLOCK_DATA_OFFSET
      (slice B p w)).getD MAGIC_NUMBER_OFFSET 0 = b0.getD MAGIC_NUMBER_OFFSET 0 := by
  have hl1 : (setByte b0 BLOCK_NUMBER_OFFSET DATA_BLOCK_TYPE).length = 256 := by
    rw [length_setByte, hlen]
  unfold BLOCK_NUMBER_OFFSET at hl1 ⊢
  unfold DATA_BLOCK_DATA_OFFSET MAGIC_NUMBER_OFFSET
  refine ⟨?_, ?_⟩
  · rw [getD_memcpy_disjoint _ _ _ _ (by omega) (by omega), getD_setByte,
      if_pos ⟨rfl, by omega⟩]
  · rw [getD_memcpy_disjoint _ _ _ _ (by omega) (by omega), getD_setByte,
      if_neg (by omega)]

/-- The allocation loop of `tfs_writeFile` on a free list `fl` of distinct,
non-zero block numbers: started on block `fl[j]` with `r` blocks to go, it turns
the blocks `fl[j], ..., fl[n - 1]` into the data blocks of the file and leaves the
loop with `freeBlock = fl[n]` (0 when the list is used up). -/
theorem allocLoop_chain (e : Errno) (B : List Nat) (a : Int) (fl : List Int) (n : Nat)
    (hn : n ≤ fl.length)
    (hnz : ∀ j, j < fl.length → fl.getD j 0 ≠ 0)
    (hinj : ∀ i j, i < fl.length → j < fl.length → fl.getD i 0 = fl.getD j 0 → i = j)
    (hL1 : B.length ≤ 250 * n) (hL0 : 250 * n < B.length + 250) :
    ∀ (r j : Nat) (s : State), j + r = n → s.activeDisk = a →
      (∀ q, j ≤ q → q < fl.length → ∃ b, readBlock a (fl.getD q 0) s = some b ∧
        b.length = 256 ∧ b.getD MAGIC_NUMBER_OFFSET 0 = MAGIC_NUMBER ∧
        readInt b FREE_NEXT_BLOCK_OFFSET = fl.getD (q + 1) 0) →
      (∀ q, q < j → DataBlockIs a s B fl n q) →
      ∃ s1, allocLoop e B r (fl.getD j 0) (min (250 * j) B.length)
          (Int.ofNat (B.length - 250 * j)) s = .done (fl.getD n 0) 0 0 s1 ∧
        s1.activeDisk = a ∧ s1.fileDescriptorTable = s.fileDescriptorTable ∧
        (∀ b : Int, (∀ q, j ≤ q → q < n → b ≠ fl.getD q 0) →
          readBlock a b s1 = readBlock a b s) ∧
        (∀ q, q < n → DataBlockIs a s1 B fl n q) := by
  intro r
  induction r with
  | zero =>
    intro j s hj ha _ hdata
    have hjn : j = n := by omega
    subst hjn
    refine ⟨s, ?_, ha, rfl, fun _ _ => rfl, hdata⟩
    unfold allocLoop
    have : B.length - 250 * j = 0 := by omega
    rw [this]
    rfl
  | succ r ih =>
    intro j s hj ha hfree hdata
    have hjl : j < fl.length := by omega
    obtain ⟨b0, hb0, hlen0, hmagic0, hnext0⟩ := hfree j (le_refl _) hjl
    have hposrem : 250 * j < B.length := by omega
    generalize hw : min 250 (B.length - 250 * j) = w
    have hw250 : w ≤ 250 := by omega
    have hwrem : w ≤ B.length - 250 * j := by omega
    have hwbs : (if Int.ofNat (B.length - 250 * j) ≥ 250 then (250 : Int)
        else Int.ofNat (B.length - 250 * j)) = Int.ofNat w := by
      simp only [Int.ofNat_eq_coe]
      split_ifs <;> omega
    have hmin : min (250 * j) B.length = 250 * j := by omega
    obtain ⟨dl, dnext, dpay⟩ := dataBlock_fields b0 B (250 * j) w hlen0 hw250 (by omega)
    obtain ⟨dtag, dmagic⟩ := dataBlock_header b0 B (250 * j) w hlen0
    generalize hbuf2 : memcpy (setByte b0 BLOCK_NUMBER_OFFSET DATA_BLOCK_TYPE)
      DATA_BLOCK_DATA_OFFSET (slice B (250 * j) w) = buf2 at dl dnext dpay dtag dmagic
    generalize hbuf3 : (if r = 0 then writeInt buf2 DATA_NEXT_BLOCK_OFFSET 0 else buf2) = buf3
    have hl3 : buf3.length = 256 := by
      rw [← hbuf3]
      split_ifs
      · rw [length_writeInt _ _ _ (by unfold DATA_NEXT_BLOCK_OFFSET; omega), dl]
      · exact dl
    have hget3 : ∀ x, x < 2 ∨ 6 ≤ x → buf3.getD x 0 = buf2.getD x 0 := by
      intro x hx
      rw [← hbuf3]
      by_cases hr : r = 0
      · rw [if_pos hr]
        unfold DATA_NEXT_BLOCK_OFFSET
        exact getD_writeInt_disjoint _ _ _ _ (by omega) (by omega)
      · rw [if_neg hr]
    have hnext3 : readInt buf3 DATA_NEXT_BLOCK_OFFSET =
        (if j + 1 = n then 0 else fl.getD (j + 1) 0) := by
      rw [← hbuf3]
      unfold DATA_NEXT_BLOCK_OFFSET
      by_cases hr : r = 0
      · rw [if_pos hr, if_pos (by omega), readInt_writeInt_same _ _ _ (by omega)]
        rfl
      · rw [if_neg hr, if_neg (by omega), dnext]
        unfold FREE_NEXT_BLOCK_OFFSET at hnext0
        exact hnext0
    have hwr := writeBlock_fst_of_read a (fl.getD j 0) s b0 buf3 hb0
    have hrd := fun b1 => readBlock_writeBlock a (fl.getD j 0) b1 s b0 buf3 hb0
    generalize hs2 : (writeBlock a (fl.getD j 0) buf3 s).2 = s2 at hrd
    have hs2a : s2.activeDisk = a := by rw [← hs2, writeBlock_activeDisk, ha]
    have hfree2 : ∀ q, j + 1 ≤ q → q < fl.length → ∃ b, readBlock a (fl.getD q 0) s2 = some b ∧
        b.length = 256 ∧ b.getD MAGIC_NUMBER_OFFSET 0 = MAGIC_NUMBER ∧
        readInt b FREE_NEXT_BLOCK_OFFSET = fl.getD (q + 1) 0 := by
      intro q hq hql
      obtain ⟨b, hb, hrest⟩ := hfree q (by omega) hql
      refine ⟨b, ?_, hrest⟩
      rw [hrd, if_neg (fun h => by have := hinj q j hql hjl h; omega), hb]
    have hdata2 : ∀ q, q < j + 1 → DataBlockIs a s2 B fl n q := by
      intro q hq
      by_cases hqj : q = j
      · subst hqj
        refine ⟨buf3, ?_, hl3, ?_, ?_, hnext3, ?_⟩
        · rw [hrd, if_pos rfl]
        · unfold BLOCK_NUMBER_OFFSET at dtag ⊢
          rw [hget3 0 (by omega), dtag]
        · unfold MAGIC_NUMBER_OFFSET at dmagic hmagic0 ⊢
          rw [hget3 1 (by omega), dmagic, hmagic0]
        · intro x hx hxb
          unfold DATA_BLOCK_DATA_OFFSET
          rw [hget3 (6 + x) (by omega)]
          exact dpay x (by omega)
      · obtain ⟨b, hb, hrest⟩ := hdata q (by omega)
        refine ⟨b, ?_, hrest⟩
        rw [hrd, if_neg (fun h => by have := hinj q j (by omega) hjl h; omega), hb]
    obtain ⟨s1, hloop, h1a, h1t, h1f, h1data⟩ := ih (j + 1) s2 (by omega) hs2a hfree2 hdata2
    refine ⟨s1, ?_, h1a, ?_, ?_, h1data⟩
    · unfold allocLoop
      rw [ha, hb0]
      simp only
      rw [hwbs]
      have hchk : ¬ (Int.ofNat w < 0 ∨
          Int.ofNat B.length < Int.ofNat (min (250 * j) B.length) + Int.ofNat w) := by
        rw [hmin]
        simp only [Int.ofNat_eq_coe]
        omega
      rw [if_neg hchk, hmin]
      simp only [Int.ofNat_eq_coe, Int.toNat_ofNat]
      rw [hbuf2]
      unfold FREE_NEXT_BLOCK_OFFSET at hnext0 ⊢
      rw [dnext, hnext0, hbuf3, hs2, if_neg (by rw [hwr]; decide)]
      have hnobreak : ¬ (fl.getD (j + 1) 0 = 0 ∧ r ≠ 0) := by
        intro hcon
        obtain ⟨h0, hr⟩ := hcon
        exact hnz (j + 1) (by omega) h0
      rw [if_neg hnobreak]
      have e1 : 250 * j + w = min (250 * (j + 1)) B.length := by omega
      have e2 : ((B.length - 250 * j : Nat) : Int) - (w : Int) =
          ((B.length - 250 * (j + 1) : Nat) : Int) := by
        omega
      rw [e1]
      simp only [Int.ofNat_eq_coe] at hloop ⊢
      rw [e2]
      exact hloop
    · rw [h1t, ← hs2, writeBlock_table]
    · intro b hb
      rw [h1f b (fun q hq1 hq2 => hb q (by omega) hq2), hrd,
        if_neg (hb j (le_refl _) (by omega))]

/-- C28: on a mounted volume whose superblock and free-list blocks have 256 bytes
and the magic byte, with free list `f1, ..., fm` (the list `l` the walk from the
superblock's free-list head yields), for an open descriptor whose inode block has
256 bytes, records size 0 and is not on the free list, and a buffer `B` with
`n = ⌈|B| / 250⌉`, `1 ≤ n ≤ m`: `tfs_writeFile(fd, B, |B|)` returns 1; the inode then
records size `|B|`, data head `f1` and the time of the call as modified timestamp;
the blocks `f1, ..., fn` are typed data with the magic byte, each pointing to the
next and the last to 0, and hold the bytes of `B`, 250 per block; the superblock's
free-list head is `f(n+1)`, or 0 when `n = m`; the file pointer is 0. -/
theorem tfs_writeFile_first_write (e : Errno) (fd : Int) (B : List Nat) (clock : Nat → Nat)
    (s : State) (en : fileDescriptorTableEntry) (sb ib : Block) (l : List (Int × Block))
    (n : Nat)
    (hact : s.activeDisk ≠ 0)
    (hfd : tableGet s.fileDescriptorTable fd = some (some en))
    (hsb : readBlock s.activeDisk SUPER_BLOCK s = some sb) (hsbl : sb.length = 256)
    (hib : readBlock s.activeDisk en.inodeNumber s = some ib) (hibl : ib.length = 256)
    (hsize : readInt ib INODE_FILE_SIZE_OFFSET = 0)
    (hfl : freeList s = some l)
    (hwf : ∀ p ∈ l, p.2.length = 256 ∧ p.2.getD MAGIC_NUMBER_OFFSET 0 = MAGIC_NUMBER)
    (hino : en.inodeNumber ≠ 0 ∧ ∀ p ∈ l, p.1 ≠ en.inodeNumber)
    (hn1 : 1 ≤ n) (hnm : n ≤ l.length)
    (hL1 : B.length ≤ 250 * n) (hL0 : 250 * n < B.length + 250)
    (hint : B.length < 2147483648) :
    ∃ s1 ib1 sb1,
      tfs_writeFile e fd B (Int.ofNat B.length) clock s = .ret 1 s1 ∧
      s1.activeDisk = s.activeDisk ∧
      readBlock s.activeDisk en.inodeNumber s1 = some ib1 ∧
      readInt ib1 INODE_FILE_SIZE_OFFSET = Int.ofNat B.length ∧
      readInt ib1 INODE_DATA_BLOCK_OFFSET = (l.map Prod.fst).getD 0 0 ∧
      slice ib1 INODE_MOD_TIME_STAMP_OFFSET 25 = getTimestamp clock ∧
      (∀ q, q < n → DataBlockIs s.activeDisk s1 B (l.map Prod.fst) n q) ∧
      readBlock s.activeDisk SUPER_BLOCK s1 = some sb1 ∧
      readInt sb1 FB_OFFSET = (l.map Prod.fst).getD n 0 ∧
      tableGet s1.fileDescriptorTable fd =
        some (some { inodeNumber := en.inodeNumber, filePointer := 0 }) := by
  -- the free list, block by block
  unfold freeList at hfl
  rw [hsb] at hfl
  simp only at hfl
  obtain ⟨hhead, hfacts⟩ := freeChain_facts s _ _ l hfl
  generalize hflq : l.map Prod.fst = fl at hhead hfacts
  have hlen : fl.length = l.length := by rw [← hflq, List.length_map]
  have hnz : ∀ j, j < fl.length → fl.getD j 0 ≠ 0 := fun j hj => (hfacts j (by omega)).1
  have hblk : ∀ q, q < fl.length → ∃ b, readBlock s.activeDisk (fl.getD q 0) s = some b ∧
      b.length = 256 ∧ b.getD MAGIC_NUMBER_OFFSET 0 = MAGIC_NUMBER ∧
      readInt b FREE_NEXT_BLOCK_OFFSET = fl.getD (q + 1) 0 := by
    intro q hq
    obtain ⟨_, b, hmem, hrd, hnx⟩ := hfacts q (by omega)
    obtain ⟨w1, w2⟩ := hwf _ (List.getElem?_mem hmem)
    exact ⟨b, hrd, w1, w2, hnx⟩
  have hinj := chain_injective s s.activeDisk fl hnz
    (fun j hj => by obtain ⟨b, h1, _, _, h4⟩ := hblk j hj; exact ⟨b, h1, h4⟩)
  have hnoti : ∀ q, q < fl.length → fl.getD q 0 ≠ en.inodeNumber := by
    intro q hq
    obtain ⟨_, b, hmem, _, _⟩ := hfacts q (by omega)
    exact hino.2 _ (List.getElem?_mem hmem)
  -- the inode number as a natural number
  obtain ⟨_, _, _, hi0, _, _, _, _⟩ := readBlock_some _ _ _ _ hib
  obtain ⟨i, hi⟩ : ∃ i : Nat, en.inodeNumber = Int.ofNat i := ⟨en.inodeNumber.toNat, by
    simp only [Int.ofNat_eq_coe]
    omega⟩
  have hipos : 0 < i := by
    have := hino.1
    rw [hi] at this
    simp only [Int.ofNat_eq_coe] at this
    omega
  -- the loop
  obtain ⟨s1, hloop, h1a, h1t, h1f, h1data⟩ :=
    allocLoop_chain e B s.activeDisk fl n (by omega) hnz hinj hL1 hL0 n 0 s (by omega) rfl
      (fun q _ hq => hblk q hq) (fun q hq => absurd hq (by omega))
  have hsb1 : readBlock s.activeDisk SUPER_BLOCK s1 = some sb := by
    rw [h1f SUPER_BLOCK (fun q _ hq => (hnz q (by omega)).symm), hsb]
  have hib1 : readBlock s.activeDisk (Int.ofNat i) s1 = some ib := by
    rw [← hi, h1f en.inodeNumber (fun q _ hq => (hnoti q (by omega)).symm), hib]
  obtain ⟨s3, hfin, h3a, h3t, h3rd⟩ := writeFinish_spec e fd (Int.ofNat B.length) clock i sb ib
    (readInt sb FB_OFFSET) (fl.getD n 0) s1 s.activeDisk h1a hipos hsb1 hib1
  have hfd1 : tableGet s1.fileDescriptorTable fd = some (some en) := by rw [h1t]; exact hfd
  -- the head of the free list is a block number
  obtain ⟨bh, hbh, _⟩ := hblk 0 (by omega)
  obtain ⟨_, _, _, hh0, _, _, _, _⟩ := readBlock_some _ _ _ _ hbh
  rw [← hhead] at hh0
  obtain ⟨fl6, fr6, fr10⟩ := writeFinish_fields ib (Int.ofNat B.length - 0) (readInt sb FB_OFFSET)
    clock hibl (by simp) (by simp only [Int.ofNat_eq_coe]; omega) hh0 (readInt_range _ _).2
  obtain ⟨m, hm, hm1, hm0⟩ := blocksNeeded_spec B.length
  have hmn : m = n := by omega
  subst hmn
  refine ⟨s3, memcpy (writeInt (writeInt ib INODE_FILE_SIZE_OFFSET (Int.ofNat B.length - 0))
    INODE_DATA_BLOCK_OFFSET (readInt sb FB_OFFSET)) INODE_MOD_TIME_STAMP_OFFSET
    (getTimestamp clock), writeInt sb FB_OFFSET (fl.getD m 0), ?_, h3a.trans rfl, ?_, ?_, ?_, ?_,
    ?_, ?_, ?_, ?_⟩
  · simp only [Nat.mul_zero, Nat.zero_min, Nat.sub_zero] at hloop
    rw [← hhead] at hloop
    generalize Int.ofNat B.length = L at hm hloop hfin ⊢
    unfold tfs_writeFile
    rw [if_neg hact, hfd]
    simp only
    rw [hsb]
    simp only
    rw [hib]
    simp only
    unfold writeBody
    simp only
    rw [hsize, hm]
    simp only [ne_eq, not_true_eq_false, if_false]
    unfold writeAlloc
    simp only
    rw [if_neg (by simp)]
    simp only [Int.ofNat_eq_coe, Int.toNat_ofNat]
    simp only [Int.ofNat_eq_coe] at hloop hfin ⊢
    rw [hloop]
    simp only
    rw [hi]
    exact hfin
  · rw [hi, h3rd, if_pos rfl]
  · rw [fr6]
    simp
  · rw [fr10, hhead]
  · unfold INODE_MOD_TIME_STAMP_OFFSET
    have := slice_memcpy_same (writeInt (writeInt ib INODE_FILE_SIZE_OFFSET
      (Int.ofNat B.length - 0)) INODE_DATA_BLOCK_OFFSET (readInt sb FB_OFFSET)) 48
      (getTimestamp clock) (by
        rw [length_writeInt _ _ _ (by
          rw [length_writeInt _ _ _ (by unfold INODE_FILE_SIZE_OFFSET; omega)]
          unfold INODE_DATA_BLOCK_OFFSET
          omega),
          length_writeInt _ _ _ (by unfold INODE_FILE_SIZE_OFFSET; omega)]
        omega)
    rw [length_getTimestamp] at this
    exact this
  · intro q hq
    obtain ⟨b, hb, hrest⟩ := h1data q hq
    refine ⟨b, ?_, hrest⟩
    have hq1 : fl.getD q 0 ≠ Int.ofNat i := by
      rw [← hi]
      exact hnoti q (by omega)
    rw [h3rd, if_neg hq1, if_neg (show ¬ fl.getD q 0 = SUPER_BLOCK from hnz q (by omega)), hb]
  · rw [h3rd, if_neg (by
      simp only [SUPER_BLOCK, Int.ofNat_eq_coe]
      omega), if_pos rfl]
  · unfold FB_OFFSET
    rw [readInt_writeInt_same _ _ _ (by omega)]
    by_cases hml : m < fl.length
    · obtain ⟨bm, hbm, _⟩ := hblk m hml
      obtain ⟨_, _, _, g0, _, _, _, _⟩ := readBlock_some _ _ _ _ hbm
      obtain ⟨bp, _, _, _, hnx⟩ := hblk (m - 1) (by omega)
      have e1 : m - 1 + 1 = m := by omega
      rw [e1] at hnx
      rw [← hnx]
      exact wrap32_of_range _ (readInt_range _ _).1 (readInt_range _ _).2
    · have h0 : fl.getD m 0 = 0 := by
        rw [List.getD_eq_getElem?_getD, List.getElem?_eq_none (by omega)]
        rfl
      rw [h0]
      rfl
  · rw [h3t]
    exact tableGet_setFilePointer s1 fd en 0 hfd1

set_option maxRecDepth 100000 in
theorem tfs_writeFile_first_write_witness :
    (freeList fiveVolumeA).map (fun l => l.map Prod.fst) = some [3, 4] ∧
    ∃ s1 ib1 sb1,
      tfs_writeFile sampleErrno 0 (List.replicate 251 120)
        (Int.ofNat (List.replicate 251 120).length) sampleClock fiveVolumeA = .ret 1 s1 ∧
      s1.activeDisk = fiveVolumeA.activeDisk ∧
      readBlock fiveVolumeA.activeDisk 2 s1 = some ib1 ∧
      readInt ib1 INODE_FILE_SIZE_OFFSET = Int.ofNat (List.replicate 251 120).length ∧
      readInt ib1 INODE_DATA_BLOCK_OFFSET =
        (((freeList fiveVolumeA).getD []).map Prod.fst).getD 0 0 ∧
      slice ib1 INODE_MOD_TIME_STAMP_OFFSET 25 = getTimestamp sampleClock ∧
      (∀ q, q < 2 → DataBlockIs fiveVolumeA.activeDisk s1 (List.replicate 251 120)
        (((freeList fiveVolumeA).getD []).map Prod.fst) 2 q) ∧
      readBlock fiveVolumeA.activeDisk SUPER_BLOCK s1 = some sb1 ∧
      readInt sb1 FB_OFFSET = (((freeList fiveVolumeA).getD []).map Prod.fst).getD 2 0 ∧
      tableGet s1.fileDescriptorTable 0 = some (some { inodeNumber := 2, filePointer := 0 }) :=
  ⟨by decide!,
    tfs_writeFile_first_write sampleErrno 0 (List.replicate 251 120) sampleClock fiveVolumeA
      { inodeNumber := 2, filePointer := 0 }
      ((readBlock fiveVolumeA.activeDisk SUPER_BLOCK fiveVolumeA).getD [])
      ((readBlock fiveVolumeA.activeDisk 2 fiveVolumeA).getD [])
      ((freeList fiveVolumeA).getD []) 2
      (by decide!) (by decide!) (by decide!) (by decide!) (by decide!) (by decide!) (by decide!)
      (by decide!) (by decide!) (by decide!) (by decide!) (by decide!) (by decide!) (by decide!)
      (by decide!)⟩

/-! ## Lists, descriptors and the block device at the failing inputs -/

set_option maxRecDepth 100000 in
/-- C23, the code at the failing input: on the four-block volume with the file `a`
open (inode 2, free list 3), `tfs_writeFile(0, buffer, 0)` returns 1 and records
the free-list head 3 as data head of the file; `tfs_deleteFile(0)` then returns 1
after freeing block 3 as a data block while it is the head of the free list.  The
free list now starts at block 2, whose next pointer is 3, and the next pointer of
block 3 is 3: the list has a cycle and never reaches 0. -/
theorem tfs_deleteFile_after_empty_write_makes_cycle :
    freeBlocks smallVolumeA = some [3] ∧
    (tfs_writeFile sampleErrno 0 [] 0 sampleClock smallVolumeA).code? = some 1 ∧
    inodeSizeAndData smallVolumeZero 2 = some (0, 3) ∧
    (tfs_deleteFile sampleErrno 0 smallVolumeZero).code? = some 1 ∧
    freeHead smallVolumeZeroDeleted = some 2 ∧
    nextOf smallVolumeZeroDeleted 2 = some 3 ∧
    nextOf smallVolumeZeroDeleted 3 = some 3 ∧
    freeBlocks smallVolumeZeroDeleted = none := by
  decide!

set_option maxRecDepth 100000 in
/-- C24, the code at the failing input: on the five-block volume, after
`tfs_openFile("a")` = 0, `tfs_writeFile(0, buffer, 0)`, `tfs_openFile("b")` = 1 and
`tfs_deleteFile(0)`, descriptor 1 is bound to block 3 and block 3 is on the free
list (2, 3, 4).  `tfs_writeFile(1, "hi", 2)` takes block 2 and
`tfs_openFile("d")` then takes block 3 for the new inode and returns descriptor
0: the two occupied slots of the table hold the same inode block number 3. -/
theorem tfs_openFile_binds_inode_twice :
    openInodes fiveVolumeShared = [3] ∧
    freeBlocks fiveVolumeShared = some [2, 3, 4] ∧
    (tfs_writeFile sampleErrno 1 [104, 105] 2 sampleClock fiveVolumeShared).code? = some 1 ∧
    (tfs_openFile sampleErrno [100] sampleClock
      (stateOf (tfs_writeFile sampleErrno 1 [104, 105] 2 sampleClock fiveVolumeShared))).code?
      = some 0 ∧
    fiveVolumeTwice.fileDescriptorTable =
      some [some { inodeNumber := 3, filePointer := 0 },
            some { inodeNumber := 3, filePointer := 0 }] := by
  decide!

set_option maxRecDepth 100000 in
/-- C25, the code at the failing input: the superblock of the four-block volume
records a maximum of 1 file.  After `tfs_openFile("a")` and `tfs_closeFile(0)`,
`tfs_openFile("b")` creates a second file: it returns descriptor 0 and the inode
list holds 2 inodes, `b` in block 3 and `a` in block 2. -/
theorem tfs_openFile_exceeds_max_files :
    maxFilesOf smallVolumeA = some 1 ∧
    inodeNames smallVolumeA = some [(2, [97])] ∧
    (tfs_closeFile sampleErrno 0 smallVolumeA).code? = some 1 ∧
    (tfs_openFile sampleErrno [98] sampleClock
      (stateOf (tfs_closeFile sampleErrno 0 smallVolumeA))).code? = some 0 ∧
    inodeNames smallVolumeTwoFiles = some [(3, [98]), (2, [97])] ∧
    maxFilesOf smallVolumeTwoFiles = some 1 ∧
    inodeCount smallVolumeTwoFiles = 2 := by
  decide!

/-- C26, the code at the failing input: the file `e.dsk` exists and has length 0.
`openDisk("e.dsk", 0)` returns handle 1, not -1, and registers a disk of 0
bytes. -/
theorem openDisk_accepts_empty_file :
    (emptyFileHost.files "e.dsk").map HostFile.size = some 0 ∧
    (openDisk "e.dsk" 0 emptyFileHost).1 = 1 ∧
    (openDisk "e.dsk" 0 emptyFileHost).2.diskListHead =
      [{ diskNumber := 1, nBytes := 0, filename := "e.dsk", readable := true }] := by
  decide

set_option maxRecDepth 100000 in
/-- C27, the code at the failing input: `openDisk("t.dsk", 1024)` returns handle 1
for a disk of 1024 bytes, which it opens with `fopen(filename, "w")`.
`writeBlock(1, 0, block)` returns 0, and the `readBlock(1, 0, buffer)` that
follows returns -1 although `0 ≤ 0 < 1024 / 256`: the stream cannot be read. -/
theorem readBlock_fails_on_created_disk :
    (openDisk "t.dsk" 1024 freshProcess).1 = 1 ∧
    (openDisk "t.dsk" 1024 freshProcess).2.diskListHead =
      [{ diskNumber := 1, nBytes := 1024, filename := "t.dsk", readable := false }] ∧
    (writeBlock 1 0 (mkfsSuperBlock 1) (openDisk "t.dsk" 1024 freshProcess).2).1 = 0 ∧
    readBlock 1 0 (writeBlock 1 0 (mkfsSuperBlock 1) (openDisk "t.dsk" 1024 freshProcess).2).2
      = none ∧
    (0 : Int) < 1024 / 256 := by
  decide!

set_option maxRecDepth 100000 in
/-- C29, the code at the failing input: on the five-block volume the file `a`
holds 13 bytes in its one data block, block 3.  `tfs_writeFile(0, buffer, 250)`
returns 1 and puts the new data in block 4, but deallocates nothing
(`13 / 250 + (250 % 250 > 0)` is 0): block 3 is still typed data (tag 3), still
holds the old 13 bytes, and is not on the free list, which is empty. -/
theorem tfs_writeFile_keeps_old_block :
    inodeSizeAndData fiveVolumeThirteen 2 = some (13, 3) ∧
    dataBlocks fiveVolumeThirteen 2 = some [3] ∧
    (tfs_writeFile sampleErrno 0 (List.replicate 250 121) 250 sampleClock
      fiveVolumeThirteen).code? = some 1 ∧
    inodeSizeAndData fiveVolumeRewritten 2 = some (250, 4) ∧
    blockTag fiveVolumeRewritten 3 = some DATA_BLOCK_TYPE ∧
    (readBlock fiveVolumeRewritten.activeDisk 3 fiveVolumeRewritten).map
      (fun b => slice b DATA_BLOCK_DATA_OFFSET 13) = some (List.replicate 13 120) ∧
    freeBlocks fiveVolumeRewritten = some [] := by
  decide!

set_option maxRecDepth 100000 in
/-- C30, the code at the failing input: on the four-block volume with the file `a`
open (inode 2, no data) the free list is block 3.  `tfs_writeFile(0, buffer, 0)`
returns 1 and the inode then records size 0 and data head 3, not 0: the inode
references block 3, which is still the head of the free list. -/
theorem tfs_writeFile_size_zero_sets_data_head :
    inodeSizeAndData smallVolumeA 2 = some (0, 0) ∧
    freeBlocks smallVolumeA = some [3] ∧
    (tfs_writeFile sampleErrno 0 [] 0 sampleClock smallVolumeA).code? = some 1 ∧
    inodeSizeAndData smallVolumeZero 2 = some (0, 3) ∧
    freeHead smallVolumeZero = some 3 ∧
    freeBlocks smallVolumeZero = some [3] := by
  decide!

/-! ## Lists of blocks linked through a next field -/

theorem linked_congr (a : Int) (s s1 : State) (off : Nat) (P : Block → Prop) :
    ∀ (l : List Int) (h : Int),
      (∀ y ∈ l, ∀ b, readBlock a y s = some b → b.length = 256 → P b →
        ∃ b1, readBlock a y s1 = some b1 ∧ b1.length = 256 ∧ P b1 ∧
          readInt b1 off = readInt b off) →
      Linked a s off P h l → Linked a s1 off P h l := by
  intro l
  induction l with
  | nil => intro h _ hl; exact hl
  | cons x l ih =>
    intro h hc hl
    obtain ⟨hx, hx0, b, hb, hlen, hP, hrest⟩ := hl
    obtain ⟨b1, hb1, hlen1, hP1, hnx⟩ := hc x (List.mem_cons_self _ _) b hb hlen hP
    refine ⟨hx, hx0, b1, hb1, hlen1, hP1, ?_⟩
    rw [hnx]
    exact ih _ (fun y hy => hc y (List.mem_cons_of_mem _ hy)) hrest

theorem linked_frame (a : Int) (s s1 : State) (off : Nat) (P : Block → Prop)
    (l : List Int) (h : Int)
    (hf : ∀ y ∈ l, readBlock a y s1 = readBlock a y s)
    (hl : Linked a s off P h l) : Linked a s1 off P h l :=
  linked_congr a s s1 off P l h
    (fun y hy b hb hlen hP => ⟨b, by rw [hf y hy, hb], hlen, hP, rfl⟩) hl

theorem linked_mem (a : Int) (s : State) (off : Nat) (P : Block → Prop) :
    ∀ (l : List Int) (h : Int), Linked a s off P h l → ∀ x ∈ l,
      x ≠ 0 ∧ ∃ b, readBlock a x s = some b ∧ b.length = 256 ∧ P b := by
  intro l
  induction l with
  | nil => intro h _ x hx; exact absurd hx (by simp)
  | cons y l ih =>
    intro h hl x hx
    obtain ⟨_, hy0, b, hb, hlen, hP, hrest⟩ := hl
    rcases List.mem_cons.mp hx with hxy | hxl
    · subst hxy
      exact ⟨hy0, b, hb, hlen, hP⟩
    · exact ih _ hrest x hxl

theorem linked_head (a : Int) (s : State) (off : Nat) (P : Block → Prop)
    (l : List Int) (h : Int) (hl : Linked a s off P h l) : h = l.headD 0 := by
  cases l with
  | nil => exact hl
  | cons x l => exact hl.1

theorem linked_range (a : Int) (s : State) (off : Nat) (P : Block → Prop) :
    ∀ (l : List Int) (h : Int), -2147483648 ≤ h → h < 2147483648 → Linked a s off P h l →
      ∀ x ∈ l, -2147483648 ≤ x ∧ x < 2147483648 := by
  intro l
  induction l with
  | nil => intro h _ _ _ x hx; exact absurd hx (by simp)
  | cons y l ih =>
    intro h h1 h2 hl x hx
    obtain ⟨hy, _, b, _, _, _, hrest⟩ := hl
    rcases List.mem_cons.mp hx with hxy | hxl
    · subst hxy
      subst hy
      exact ⟨h1, h2⟩
    · exact ih _ (readInt_range _ _).1 (readInt_range _ _).2 hrest x hxl

theorem freeChain_of_linked (s : State) (P : Block → Prop) :
    ∀ (l : List Int) (h : Int) (fuel : Nat), l.length < fuel →
      Linked s.activeDisk s FREE_NEXT_BLOCK_OFFSET P h l →
      ∃ r, freeChain s fuel h = some r ∧ r.map Prod.fst = l := by
  intro l
  induction l with
  | nil =>
    intro h fuel hf hl
    obtain ⟨k, rfl⟩ : ∃ k, fuel = k + 1 := ⟨fuel - 1, by simp only [List.length_nil] at hf; omega⟩
    have h0 : h = 0 := hl
    subst h0
    exact ⟨[], by simp [freeChain], rfl⟩
  | cons x l ih =>
    intro h fuel hf hl
    simp only [List.length_cons] at hf
    obtain ⟨k, rfl⟩ : ∃ k, fuel = k + 1 := ⟨fuel - 1, by omega⟩
    obtain ⟨hx, hx0, b, hb, _, _, hrest⟩ := hl
    subst hx
    obtain ⟨r, hr, hmap⟩ := ih _ k (by omega) hrest
    refine ⟨(h, b) :: r, ?_, by simp [hmap]⟩
    unfold freeChain
    rw [if_neg hx0, hb]
    simp only
    rw [hr]
    rfl

theorem inodeChain_of_linked (s : State) (P : Block → Prop) :
    ∀ (l : List Int) (h : Int) (fuel : Nat), l.length < fuel →
      Linked s.activeDisk s INODE_NEXT_INODE_OFFSET P h l →
      ∃ r, inodeChain s fuel h = some r ∧ r.map Prod.fst = l := by
  intro l
  induction l with
  | nil =>
    intro h fuel hf hl
    obtain ⟨k, rfl⟩ : ∃ k, fuel = k + 1 := ⟨fuel - 1, by simp only [List.length_nil] at hf; omega⟩
    have h0 : h = 0 := hl
    subst h0
    exact ⟨[], by simp [inodeChain], rfl⟩
  | cons x l ih =>
    intro h fuel hf hl
    simp only [List.length_cons] at hf
    obtain ⟨k, rfl⟩ : ∃ k, fuel = k + 1 := ⟨fuel - 1, by omega⟩
    obtain ⟨hx, hx0, b, hb, _, _, hrest⟩ := hl
    subst hx
    obtain ⟨r, hr, hmap⟩ := ih _ k (by omega) hrest
    refine ⟨(h, b) :: r, ?_, by simp [hmap]⟩
    unfold inodeChain
    rw [if_neg hx0, hb]
    simp only
    rw [hr]
    rfl

theorem linked_of_frees (a : Int) (n : Nat) (s : State) :
    ∀ (m i : Nat), i + m = n → 1 ≤ i →
      (∀ j, i ≤ j → j < n → FreeAt a n s j) →
      Linked a s FREE_NEXT_BLOCK_OFFSET (fun _ => True)
        (if i < n then Int.ofNat i else 0) ((List.range' i m).map Int.ofNat) := by
  intro m
  induction m with
  | zero =>
    intro i him _ _
    rw [if_neg (by omega)]
    rfl
  | succ m ih =>
    intro i him hi hfree
    rw [if_pos (by omega)]
    obtain ⟨b, hb, hlen, hnext⟩ := hfree i (le_refl _) (by omega)
    simp only [List.range'_succ, List.map_cons]
    refine ⟨rfl, by simp only [Int.ofNat_eq_coe]; omega, b, hb, hlen, trivial, ?_⟩
    rw [hnext]
    exact ih (i + 1) (by omega) (by omega) (fun j hj hjn => hfree j (by omega) hjn)

theorem getElem?_set_some (t : List (Option fileDescriptorTableEntry)) (k i : Nat)
    (v : Option fileDescriptorTableEntry) (x : fileDescriptorTableEntry)
    (h : (t.set k v)[i]? = some (some x)) :
    (i ≠ k ∧ t[i]? = some (some x)) ∨ (i = k ∧ v = some x) := by
  rw [List.getElem?_set] at h
  by_cases hik : k = i
  · rw [if_pos hik] at h
    split at h
    · exact Or.inr ⟨hik.symm, Option.some.inj h⟩
    · exact absurd h (by simp)
  · rw [if_neg hik] at h
    exact Or.inl ⟨fun hc => hik hc.symm, h⟩

theorem searchInode_found_linked (name : List Nat) (s : State) (P : Block → Prop) :
    ∀ (l : List Int) (h : Int) (fuel : Nat) (i : Int) (buf : Block), h ≠ 0 →
      Linked s.activeDisk s INODE_NEXT_INODE_OFFSET P h l →
      searchInode name s fuel h = .found i buf →
      i ∈ l ∧ readBlock s.activeDisk i s = some buf := by
  intro l
  induction l with
  | nil =>
    intro h fuel i buf h0 hl _
    exact absurd hl h0
  | cons x l ih =>
    intro h fuel i buf h0 hl hs
    obtain ⟨hx, _, b, hb, _, _, hrest⟩ := hl
    subst hx
    cases fuel with
    | zero => exact absurd hs (by simp [searchInode])
    | succ fuel =>
      unfold searchInode at hs
      rw [hb] at hs
      simp only at hs
      cases hcmp : strcmpSlot (slice b INODE_FILE_NAME_OFFSET MAX_FILE_NAME_SIZE) name with
      | none =>
        rw [hcmp] at hs
        exact absurd hs (by simp)
      | some r =>
        rw [hcmp] at hs
        cases r with
        | true =>
          simp only [Search.found.injEq] at hs
          obtain ⟨hi, hbuf⟩ := hs
          subst hi
          subst hbuf
          exact ⟨List.mem_cons_self _ _, hb⟩
        | false =>
          simp only at hs
          split at hs
          · exact absurd hs (by simp)
          · rename_i hlow
            obtain ⟨hm, hr⟩ := ih _ fuel i buf (readInt_ne_zero_of_low b _ hlow) hrest hs
            exact ⟨List.mem_cons_of_mem _ hm, hr⟩

theorem alreadyOpen_false (t : List (Option fileDescriptorTableEntry)) (m x : Int)
    (hm : m = Int.ofNat t.length) (h : alreadyOpen (some t) m x = some false) :
    ∀ (i : Nat) (en : fileDescriptorTableEntry), t[i]? = some (some en) →
      en.inodeNumber ≠ x := by
  intro i en hi heq
  unfold alreadyOpen at h
  simp only [Option.getD_some] at h
  have htake : List.take m.toNat t = t := by
    rw [hm]
    simp only [Int.ofNat_eq_coe, Int.toNat_ofNat]
    exact List.take_length t
  rw [htake] at h
  split at h
  · exact absurd h (by simp)
  · rename_i hany
    apply hany
    rw [List.any_eq_true]
    exact ⟨some en, List.getElem?_mem hi, by simp [heq]⟩

theorem readInt_memcpy_slice (sb b : Block) (off off1 : Nat) (h : off ≤ sb.length)
    (h1 : off1 + 4 ≤ b.length) :
    readInt (memcpy sb off (slice b off1 4)) off = readInt b off1 := by
  apply readInt_congr
  intro i hi
  have hl : (slice b off1 4).length = 4 := length_slice b off1 4 h1
  rw [getD_memcpy sb off _ (off + i) h, hl, if_neg (by omega), if_pos (by omega)]
  have e1 : off + i - off = i := by omega
  rw [e1, getD_slice b off1 4 i hi]

/-- The blocks after `deallocateBlock(x)` on a readable block: block `x` is a free
block that points to the former head of the free list, and the superblock points
to `x`. -/
theorem deallocateBlock_reads (e : Errno) (a x : Int) (s : State) (bx sb : Block)
    (hact : s.activeDisk = a) (hx : readBlock a x s = some bx)
    (hsb : readBlock a SUPER_BLOCK s = some sb) (hx0 : x ≠ 0) :
    (∀ b, readBlock a b (deallocateBlock e x s).2 =
      if b = x then
        some (writeInt (setByte (setByte zeroBlock BLOCK_NUMBER_OFFSET FREE_BLOCK_TYPE)
          MAGIC_NUMBER_OFFSET MAGIC_NUMBER) FREE_NEXT_BLOCK_OFFSET (readInt sb FB_OFFSET))
      else if b = SUPER_BLOCK then some (writeInt sb FB_OFFSET x)
      else readBlock a b s) ∧
    diskBlocks (deallocateBlock e x s).2 a = diskBlocks s a := by
  have hw1 := writeBlock_fst_of_read a SUPER_BLOCK s sb (writeInt sb FB_OFFSET x) hsb
  have hx1 : readBlock a x (writeBlock a SUPER_BLOCK (writeInt sb FB_OFFSET x) s).2 = some bx := by
    rw [readBlock_writeBlock_ne _ _ _ _ sb _ hsb (show x ≠ SUPER_BLOCK from hx0), hx]
  have hw2 := writeBlock_fst_of_read a x _ bx
    (writeInt (setByte (setByte zeroBlock BLOCK_NUMBER_OFFSET FREE_BLOCK_TYPE)
      MAGIC_NUMBER_OFFSET MAGIC_NUMBER) FREE_NEXT_BLOCK_OFFSET (readInt sb FB_OFFSET)) hx1
  have hst : (deallocateBlock e x s).2 =
      (writeBlock a x (writeInt (setByte (setByte zeroBlock BLOCK_NUMBER_OFFSET FREE_BLOCK_TYPE)
        MAGIC_NUMBER_OFFSET MAGIC_NUMBER) FREE_NEXT_BLOCK_OFFSET (readInt sb FB_OFFSET))
        (writeBlock a SUPER_BLOCK (writeInt sb FB_OFFSET x) s).2).2 := by
    unfold deallocateBlock
    rw [hact, hx]
    simp only
    rw [hsb]
    simp only
    rw [if_neg (by rw [hw1]; decide), if_neg (by rw [hw2]; decide)]
  rw [hst]
  constructor
  · intro b
    rw [readBlock_writeBlock _ _ _ _ bx _ hx1, readBlock_writeBlock _ _ _ _ sb _ hsb]
  · rw [diskBlocks_writeBlock, diskBlocks_writeBlock]

theorem linked_unlink (a : Int) (s s1 : State) (off : Nat) (P : Block → Prop) (x y : Int)
    (xb yb1 : Block) (post : List Int)
    (hrd : ∀ b, readBlock a b s1 = if b = y then some yb1 else readBlock a b s)
    (hxb : readBlock a x s = some xb) (hlen : yb1.length = 256) (hP : P yb1)
    (hnext : readInt yb1 off = readInt xb off) :
    ∀ (front : List Int) (h : Int), (front ++ y :: x :: post).Nodup →
      Linked a s off P h (front ++ y :: x :: post) →
      Linked a s1 off P h (front ++ y :: post) := by
  intro front
  induction front with
  | nil =>
    intro h hnd hl
    simp only [List.nil_append] at hnd hl ⊢
    obtain ⟨hy, hy0, yb, _, _, _, hrest⟩ := hl
    obtain ⟨_, _, xb0, hxb0, _, _, hpost⟩ := hrest
    have hsame : xb0 = xb := by
      rw [hxb] at hxb0
      exact (Option.some.inj hxb0).symm
    subst hsame
    refine ⟨hy, hy0, yb1, by rw [hrd, if_pos rfl], hlen, hP, ?_⟩
    rw [hnext]
    refine linked_frame _ _ _ _ _ _ _ (fun z hz => ?_) hpost
    have hyz : z ≠ y := by
      intro hc
      subst hc
      exact (List.nodup_cons.mp hnd).1 (List.mem_cons_of_mem _ hz)
    rw [hrd, if_neg hyz]
  | cons f front ih =>
    intro h hnd hl
    simp only [List.cons_append] at hnd hl ⊢
    obtain ⟨hf, hf0, fb, hfb, hfl, hfP, hrest⟩ := hl
    have hfy : f ≠ y := by
      intro hc
      subst hc
      exact (List.nodup_cons.mp hnd).1 (List.mem_append_right _ (List.mem_cons_self _ _))
    refine ⟨hf, hf0, fb, by rw [hrd, if_neg hfy, hfb], hfl, hfP, ?_⟩
    exact ih _ (List.nodup_cons.mp hnd).2 hrest

theorem findPrevious_linked (s : State) (P : Block → Prop) (x : Int) (post : List Int) :
    ∀ (mid : List Int) (c : Int) (cb : Block) (fuel : Nat),
      mid.length ≤ fuel → x ∉ mid →
      Linked s.activeDisk s INODE_NEXT_INODE_OFFSET P (readInt cb INODE_NEXT_INODE_OFFSET)
        (mid ++ x :: post) →
      readBlock s.activeDisk c s = some cb →
      ∃ y yb front, findPrevious s x fuel c cb (readInt cb INODE_NEXT_INODE_OFFSET) =
          .reached y yb ∧
        readBlock s.activeDisk y s = some yb ∧ c :: mid = front ++ [y] := by
  intro mid
  induction mid with
  | nil =>
    intro c cb fuel _ _ hl hcb
    have hx : readInt cb INODE_NEXT_INODE_OFFSET = x := hl.1
    refine ⟨c, cb, [], ?_, hcb, rfl⟩
    cases fuel with
    | zero =>
      unfold findPrevious
      rw [if_pos hx]
    | succ fuel =>
      unfold findPrevious
      rw [if_pos hx]
  | cons m mid ih =>
    intro c cb fuel hfuel hxm hl hcb
    simp only [List.length_cons] at hfuel
    obtain ⟨k, rfl⟩ : ∃ k, fuel = k + 1 := ⟨fuel - 1, by omega⟩
    simp only [List.cons_append] at hl
    obtain ⟨hm, _, mb, hmb, _, _, hrest⟩ := hl
    have hne : readInt cb INODE_NEXT_INODE_OFFSET ≠ x := by
      rw [hm]
      intro hc
      exact hxm (hc ▸ List.mem_cons_self _ _)
    obtain ⟨y, yb, front, hfind, hy, hfront⟩ := ih m mb k (by omega)
      (fun hc => hxm (List.mem_cons_of_mem _ hc)) hrest hmb
    refine ⟨y, yb, c :: front, ?_, hy, by rw [List.cons_append, ← hfront]⟩
    unfold findPrevious
    rw [if_neg hne, hm, hmb]
    exact hfind

/-! ## The volume `tfs_mkfs` writes, a full descriptor table, a failed mount -/

set_option maxRecDepth 100000 in
/-- C36, the code at the failing input: on the four-block volume the descriptor
table has one slot (`maxFiles = 1`), occupied after `tfs_openFile("a")`.
`tfs_openFile("b")` then writes the superblock and the new inode and searches an
empty slot with `while (fileDescriptorTable[i] != NULL) i++`: the search reads
`fileDescriptorTable[1]`, outside the allocation, so the call has no defined
result instead of failing with a negative code. -/
theorem tfs_openFile_runs_past_full_table :
    smallVolumeA.maxNumberOfFiles = 1 ∧
    smallVolumeA.fileDescriptorTable = some [some { inodeNumber := 2, filePointer := 0 }] ∧
    firstEmpty [some { inodeNumber := 2, filePointer := 0 }] = none ∧
    tfs_openFile sampleErrno [98] sampleClock smallVolumeA = .undefined :=
  ⟨by decide!, by decide!, by decide!, rfl⟩

set_option maxRecDepth 100000 in
/-- C37, the code at the failing input: no disk is mounted and the file `e.dsk`
exists and is empty.  `tfs_mount("e.dsk")` returns the negative mount error because
block 0 cannot be read, but leaves `activeDisk = 1`, the handle `openDisk` gave.
After `tfs_mkfs("t.dsk", 1024)` has made a valid volume, `tfs_mount("t.dsk")`
returns the mount error as well: a disk counts as already mounted. -/
theorem tfs_mount_failure_leaves_active_disk :
    emptyFileHost.activeDisk = 0 ∧
    (tfs_mount sampleErrno "e.dsk" emptyFileHost).code? = some sampleErrno.FS_MOUNT_ERROR ∧
    sampleErrno.FS_MOUNT_ERROR < 0 ∧
    emptyMountFailed.activeDisk = 1 ∧
    (tfs_mkfs sampleErrno "t.dsk" 1024 emptyMountFailed).1 = 1 ∧
    (tfs_mount sampleErrno "t.dsk" (tfs_mkfs sampleErrno "t.dsk" 1024 emptyMountFailed).2).code?
      = some sampleErrno.FS_MOUNT_ERROR ∧
    (tfs_mount sampleErrno "t.dsk" (tfs_mkfs sampleErrno "t.dsk" 1024 freshProcess).2).code?
      = some 2 := by
  decide!

theorem tfs_mkfs_success (e : Errno) (he : e.Negative) (filename : String) (nBytes : Int)
    (s s1 : State) (h : tfs_mkfs e filename nBytes s = (1, s1)) :
    1024 ≤ nBytes ∧ nBytes ≤ 2147483647 ∧ s1 = afterMkfs s filename nBytes := by
  have hcases := tfs_mkfs_cases e filename nBytes s
  rw [h] at hcases
  rcases hcases with hbad | ⟨h1, h2, hc, hcr⟩
  · have := he.1
    simp only at hbad
    omega
  · have hok := tfs_mkfs_ok e filename nBytes s hc h1 h2 hcr
    rw [h] at hok
    simp only [Prod.mk.injEq, true_and] at hok
    exact ⟨h1, h2, hok⟩

theorem files_afterMkfs (s : State) (filename : String) (nBytes : Int) :
    (afterMkfs s filename nBytes).files filename = some (mkfsImage nBytes) := by
  simp [afterMkfs]

theorem length_mkfsImage (nBytes : Int) (h1 : 1024 ≤ nBytes) :
    (mkfsImage nBytes).blocks.length = (nBytes / 256).toNat := by
  unfold mkfsImage
  simp only [List.length_cons, List.length_map, List.length_range]
  omega

theorem getD_mkfsBlock (T i : Int) (j : Nat) :
    (mkfsBlock T i).getD j 0 =
      if j = 0 then (if i < T then 4 else 0)
      else if j = 1 then MAGIC_NUMBER
      else if j < 6 then (mkfsBlock T i).getD j 0
      else 0 := by
  have hl : (setByte (setByte zeroBlock BLOCK_NUMBER_OFFSET (if i < T then 4 else 0))
      MAGIC_NUMBER_OFFSET MAGIC_NUMBER).length = 256 := by
    rw [length_setByte, length_setByte, length_zeroBlock]
  have hz : zeroBlock.length = 256 := length_zeroBlock
  by_cases h0 : j = 0
  · subst h0
    rw [if_pos rfl]
    unfold mkfsBlock
    rw [getD_writeInt_disjoint _ _ _ _ (by omega) (by omega)]
    unfold MAGIC_NUMBER_OFFSET BLOCK_NUMBER_OFFSET
    rw [getD_setByte, if_neg (by omega), getD_setByte, if_pos (by omega)]
  · rw [if_neg h0]
    by_cases h1 : j = 1
    · subst h1
      rw [if_pos rfl]
      unfold mkfsBlock
      rw [getD_writeInt_disjoint _ _ _ _ (by omega) (by omega)]
      unfold MAGIC_NUMBER_OFFSET BLOCK_NUMBER_OFFSET
      rw [getD_setByte, if_pos (by rw [length_setByte]; omega)]
    · rw [if_neg h1]
      by_cases h6 : j < 6
      · rw [if_pos h6]
      · rw [if_neg h6]
        unfold mkfsBlock
        rw [getD_writeInt_disjoint _ _ _ _ (by omega) (by omega)]
        unfold MAGIC_NUMBER_OFFSET BLOCK_NUMBER_OFFSET
        rw [getD_setByte, if_neg (by omega), getD_setByte, if_neg (by omega), getD_zeroBlock]

theorem fileChain_mkfsImage (nBytes : Int) (h1 : 1024 ≤ nBytes) (h2 : nBytes ≤ 2147483647) :
    ∀ (m i fuel : Nat), i + m = (nBytes / 256).toNat → 2 ≤ i → m < fuel →
      fileChain (mkfsImage nBytes) fuel
        (if i < (nBytes / 256).toNat then Int.ofNat i else 0) =
      some ((List.range' i m).map Int.ofNat) := by
  intro m
  induction m with
  | zero =>
    intro i fuel him _ hfuel
    obtain ⟨k, rfl⟩ : ∃ k, fuel = k + 1 := ⟨fuel - 1, by omega⟩
    rw [if_neg (by omega)]
    simp [fileChain]
  | succ m ih =>
    intro i fuel him hi hfuel
    obtain ⟨k, rfl⟩ : ∃ k, fuel = k + 1 := ⟨fuel - 1, by omega⟩
    rw [if_pos (by omega)]
    unfold fileChain
    rw [if_neg (by simp only [Int.ofNat_eq_coe]; omega),
      if_neg (by simp only [Int.ofNat_eq_coe]; omega)]
    simp only [Int.ofNat_eq_coe, Int.toNat_ofNat]
    rw [getElem?_mkfsImage nBytes i h1 (by omega) (by simp only [Int.ofNat_eq_coe]; omega)]
    simp only
    rw [readInt_mkfsBlock _ _ (by simp) (by omega)]
    have hnext : (if Int.ofNat i < nBytes / 256 - 1 then Int.ofNat i + 1 else 0) =
        (if i + 1 < (nBytes / 256).toNat then Int.ofNat (i + 1) else 0) := by
      simp only [Int.ofNat_eq_coe]
      split_ifs <;> omega
    rw [hnext, ih (i + 1) k (by omega) (by omega) (by omega)]
    simp [List.range'_succ]

/-- C33: when `tfs_mkfs` returns 1 for a volume of `n = nBytes / 256` blocks, the
backing file holds `n` blocks; every block `i` with `1 ≤ i ≤ n - 1` stores at offset
2 the value `i + 1` when `i < n - 1` and 0 when `i = n - 1`, and its bytes 6 to 255
are zero; the walk along the next fields from the free-list head of the
superblock visits 2, 3, ..., `n - 1` in this order and stops at 0. -/
theorem tfs_mkfs_chains_free_blocks (e : Errno) (he : e.Negative) (filename : String)
    (nBytes : Int) (s s1 : State) (h : tfs_mkfs e filename nBytes s = (1, s1)) :
    ∃ f, s1.files filename = some f ∧ f.blocks.length = (nBytes / 256).toNat ∧
      (∀ i : Nat, 1 ≤ i → i + 1 ≤ (nBytes / 256).toNat →
        ∃ b, f.blocks[i]? = some b ∧ b.length = 256 ∧
          readInt b 2 = (if i + 1 < (nBytes / 256).toNat then Int.ofNat (i + 1) else 0) ∧
          ∀ j, 6 ≤ j → j < 256 → b.getD j 0 = 0) ∧
      fileFreeList f = some ((List.range' 2 ((nBytes / 256).toNat - 2)).map Int.ofNat) := by
  obtain ⟨h1, h2, hs1⟩ := tfs_mkfs_success e he filename nBytes s s1 h
  subst hs1
  refine ⟨mkfsImage nBytes, files_afterMkfs _ _ _, length_mkfsImage nBytes h1, ?_, ?_⟩
  · intro i hi1 hi2
    refine ⟨mkfsBlock (nBytes / 256 - 1) (Int.ofNat i),
      getElem?_mkfsImage nBytes i h1 hi1 (by simp only [Int.ofNat_eq_coe]; omega),
      length_mkfsBlock _ _, ?_, ?_⟩
    · have := readInt_mkfsBlock (nBytes / 256 - 1) (Int.ofNat i) (by simp) (by omega)
      unfold FREE_NEXT_BLOCK_OFFSET at this
      rw [this]
      simp only [Int.ofNat_eq_coe]
      split_ifs <;> omega
    · intro j hj6 _
      rw [getD_mkfsBlock, if_neg (by omega), if_neg (by omega), if_neg (by omega)]
  · unfold fileFreeList
    have hsb : (mkfsImage nBytes).blocks[0]? = some (mkfsSuperBlock ((nBytes / 256 - 1) / 2)) := by
      simp [mkfsImage]
    rw [hsb]
    simp only
    obtain ⟨r1, _, _⟩ := readInt_mkfsSuperBlock ((nBytes / 256 - 1) / 2) (by omega) (by omega)
    rw [r1, length_mkfsImage nBytes h1]
    have hchain := fileChain_mkfsImage nBytes h1 h2 ((nBytes / 256).toNat - 2) 2
      ((nBytes / 256).toNat + 1) (by omega) (by omega) (by omega)
    rw [if_pos (by omega)] at hchain
    exact hchain

set_option maxRecDepth 100000 in
theorem tfs_mkfs_chains_free_blocks_witness :
    ∃ f, (afterMkfs freshProcess "t.dsk" 1280).files "t.dsk" = some f ∧
      f.blocks.length = ((1280 : Int) / 256).toNat ∧
      (∀ i : Nat, 1 ≤ i → i + 1 ≤ ((1280 : Int) / 256).toNat →
        ∃ b, f.blocks[i]? = some b ∧ b.length = 256 ∧
          readInt b 2 = (if i + 1 < ((1280 : Int) / 256).toNat then Int.ofNat (i + 1) else 0) ∧
          ∀ j, 6 ≤ j → j < 256 → b.getD j 0 = 0) ∧
      fileFreeList f = some ((List.range' 2 (((1280 : Int) / 256).toNat - 2)).map Int.ofNat) :=
  tfs_mkfs_chains_free_blocks sampleErrno (by decide) "t.dsk" 1280 freshProcess
    (afterMkfs freshProcess "t.dsk" 1280)
    (tfs_mkfs_ok sampleErrno "t.dsk" 1280 freshProcess (by decide) (by decide) (by decide) rfl)

set_option maxRecDepth 100000 in
/-- C34, counterexample: `tfs_mkfs("t.dsk", 1024)` returns 1 for a volume of
`n = 4` blocks, and block `n - 1 = 3` of the backing file carries the type tag 0 at
offset 0, not 4. -/
theorem tfs_mkfs_tags_last_block_zero :
    (tfs_mkfs sampleErrno "t.dsk" 1024 freshProcess).1 = 1 ∧
    (1024 : Int) / 256 - 1 = 3 ∧
    (((tfs_mkfs sampleErrno "t.dsk" 1024 freshProcess).2.files "t.dsk").bind
      (fun f => f.blocks[3]?)).map (fun b => b.getD BLOCK_NUMBER_OFFSET 0) = some 0 := by
  decide!

/-- C34 (as the code has it): when `tfs_mkfs` returns 1 for a volume of
`n = nBytes / 256` blocks, every block `i` of the backing file with
`1 ≤ i ≤ n - 2` carries the type tag 4 at offset 0 and the magic byte 0x44 at
offset 1, and the last block, `i = n - 1`, which the loop marks differently,
carries the type tag 0 at offset 0. -/
theorem tfs_mkfs_tags_blocks (e : Errno) (he : e.Negative) (filename : String)
    (nBytes : Int) (s s1 : State) (h : tfs_mkfs e filename nBytes s = (1, s1)) :
    ∃ f, s1.files filename = some f ∧
      (∀ i : Nat, 1 ≤ i → i + 1 < (nBytes / 256).toNat →
        ∃ b, f.blocks[i]? = some b ∧
          b.getD BLOCK_NUMBER_OFFSET 0 = 4 ∧ b.getD MAGIC_NUMBER_OFFSET 0 = 0x44) ∧
      ∃ b, f.blocks[(nBytes / 256).toNat - 1]? = some b ∧
        b.getD BLOCK_NUMBER_OFFSET 0 = 0 := by
  obtain ⟨h1, h2, hs1⟩ := tfs_mkfs_success e he filename nBytes s s1 h
  subst hs1
  refine ⟨mkfsImage nBytes, files_afterMkfs _ _ _, ?_, ?_⟩
  · intro i hi1 hi2
    refine ⟨mkfsBlock (nBytes / 256 - 1) (Int.ofNat i),
      getElem?_mkfsImage nBytes i h1 hi1 (by simp only [Int.ofNat_eq_coe]; omega), ?_, ?_⟩
    · unfold BLOCK_NUMBER_OFFSET
      rw [getD_mkfsBlock, if_pos rfl]
      simp only [Int.ofNat_eq_coe]
      split_ifs <;> omega
    · unfold MAGIC_NUMBER_OFFSET
      rw [getD_mkfsBlock, if_neg (by omega), if_pos rfl]
      rfl
  · refine ⟨mkfsBlock (nBytes / 256 - 1) (Int.ofNat ((nBytes / 256).toNat - 1)),
      getElem?_mkfsImage nBytes _ h1 (by omega) (by simp only [Int.ofNat_eq_coe]; omega), ?_⟩
    unfold BLOCK_NUMBER_OFFSET
    rw [getD_mkfsBlock, if_pos rfl]
    simp only [Int.ofNat_eq_coe]
    split_ifs <;> omega

set_option maxRecDepth 100000 in
theorem tfs_mkfs_tags_blocks_witness :
    ∃ f, (afterMkfs freshProcess "t.dsk" 1280).files "t.dsk" = some f ∧
      (∀ i : Nat, 1 ≤ i → i + 1 < ((1280 : Int) / 256).toNat →
        ∃ b, f.blocks[i]? = some b ∧
          b.getD BLOCK_NUMBER_OFFSET 0 = 4 ∧ b.getD MAGIC_NUMBER_OFFSET 0 = 0x44) ∧
      ∃ b, f.blocks[((1280 : Int) / 256).toNat - 1]? = some b ∧
        b.getD BLOCK_NUMBER_OFFSET 0 = 0 :=
  tfs_mkfs_tags_blocks sampleErrno (by decide) "t.dsk" 1280 freshProcess
    (afterMkfs freshProcess "t.dsk" 1280)
    (tfs_mkfs_ok sampleErrno "t.dsk" 1280 freshProcess (by decide) (by decide) (by decide) rfl)

/-- C35, the code at the failing input: a fresh process has no open disk.
`tfs_mkfs("t.dsk", 1024)` returns 1 and the registry then holds handle 1, the disk
the call opened on `t.dsk` and has not closed: the registry is not what it was
before the call. -/
theorem tfs_mkfs_leaves_handle_registered :
    freshProcess.diskListHead = [] ∧
    (tfs_mkfs sampleErrno "t.dsk" 1024 freshProcess).1 = 1 ∧
    (tfs_mkfs sampleErrno "t.dsk" 1024 freshProcess).2.diskListHead =
      [{ diskNumber := 1, nBytes := 1024, filename := "t.dsk", readable := false }] ∧
    (tfs_mkfs sampleErrno "t.dsk" 1024 freshProcess).2.diskListHead ≠
      freshProcess.diskListHead := by
  rw [tfs_mkfs_ok sampleErrno "t.dsk" 1024 freshProcess (by decide) (by decide) (by decide) rfl]
  decide

/-! ## What `tfs_deleteFile` does to the inode list and the free list -/

theorem blocksSized_spec (s : State) (a : Int) (h : blocksSized s a = true) :
    ∀ b blk, readBlock a b s = some blk → blk.length = 256 := by
  intro b blk hrd
  obtain ⟨d, f, hd, _, _, _, hf, hget⟩ := readBlock_some a b s blk hrd
  unfold blocksSized at h
  rw [hd] at h
  simp only at h
  rw [hf] at h
  simp only [List.all_eq_true, decide_eq_true_eq] at h
  exact h blk (List.getElem?_mem hget)

theorem linked_of_freeChain (s : State)
    (hsz : ∀ b blk, readBlock s.activeDisk b s = some blk → blk.length = 256) :
    ∀ (fuel : Nat) (h : Int) (r : List (Int × Block)), freeChain s fuel h = some r →
      Linked s.activeDisk s FREE_NEXT_BLOCK_OFFSET (fun _ => True) h (r.map Prod.fst) := by
  intro fuel
  induction fuel with
  | zero => intro h r hc; exact absurd hc (by simp [freeChain])
  | succ fuel ih =>
    intro h r hc
    unfold freeChain at hc
    by_cases h0 : h = 0
    · rw [if_pos h0] at hc
      simp only [Option.some.injEq] at hc
      subst hc
      exact h0
    · rw [if_neg h0] at hc
      cases hrd : readBlock s.activeDisk h s with
      | none =>
        rw [hrd] at hc
        exact absurd hc (by simp)
      | some b =>
        rw [hrd] at hc
        simp only [Option.map_eq_some'] at hc
        obtain ⟨r1, hr1, hr⟩ := hc
        subst hr
        exact ⟨rfl, h0, b, hrd, hsz h b hrd, trivial, ih _ r1 hr1⟩

theorem linked_of_inodeChain (s : State)
    (hsz : ∀ b blk, readBlock s.activeDisk b s = some blk → blk.length = 256) :
    ∀ (fuel : Nat) (h : Int) (r : List (Int × Block)), inodeChain s fuel h = some r →
      Linked s.activeDisk s INODE_NEXT_INODE_OFFSET (fun _ => True) h (r.map Prod.fst) := by
  intro fuel
  induction fuel with
  | zero => intro h r hc; exact absurd hc (by simp [inodeChain])
  | succ fuel ih =>
    intro h r hc
    unfold inodeChain at hc
    by_cases h0 : h = 0
    · rw [if_pos h0] at hc
      simp only [Option.some.injEq] at hc
      subst hc
      exact h0
    · rw [if_neg h0] at hc
      cases hrd : readBlock s.activeDisk h s with
      | none =>
        rw [hrd] at hc
        exact absurd hc (by simp)
      | some b =>
        rw [hrd] at hc
        simp only [Option.map_eq_some'] at hc
        obtain ⟨r1, hr1, hr⟩ := hc
        subst hr
        exact ⟨rfl, h0, b, hrd, hsz h b hrd, trivial, ih _ r1 hr1⟩

theorem linked_of_dataChain (s : State)
    (hsz : ∀ b blk, readBlock s.activeDisk b s = some blk → blk.length = 256) :
    ∀ (fuel : Nat) (h : Int) (r : List Int), dataChain s fuel h = some r →
      Linked s.activeDisk s DATA_NEXT_BLOCK_OFFSET (fun _ => True) h r := by
  intro fuel
  induction fuel with
  | zero => intro h r hc; exact absurd hc (by simp [dataChain])
  | succ fuel ih =>
    intro h r hc
    unfold dataChain at hc
    by_cases h0 : h = 0
    · rw [if_pos h0] at hc
      simp only [Option.some.injEq] at hc
      subst hc
      exact h0
    · rw [if_neg h0] at hc
      cases hrd : readBlock s.activeDisk h s with
      | none =>
        rw [hrd] at hc
        exact absurd hc (by simp)
      | some b =>
        rw [hrd] at hc
        simp only [Option.map_eq_some'] at hc
        obtain ⟨r1, hr1, hr⟩ := hc
        subst hr
        exact ⟨rfl, h0, b, hrd, hsz h b hrd, trivial, ih _ r1 hr1⟩

/-- Distinct readable blocks other than block 0 are fewer than the disk has
blocks. -/
theorem length_lt_diskBlocks (s : State) (a : Int) (l : List Int) (hnd : l.Nodup)
    (h : ∀ x ∈ l, x ≠ 0 ∧ ∃ b, readBlock a x s = some b) :
    l.length < diskBlocks s a ∨ l = [] := by
  cases l with
  | nil => exact Or.inr rfl
  | cons x0 l0 =>
    left
    obtain ⟨_, b0, hb0⟩ := h x0 (List.mem_cons_self _ _)
    obtain ⟨d, _, hd, _, _, _, _, _⟩ := readBlock_some a x0 s b0 hb0
    have hN : diskBlocks s a = (Int.tdiv d.nBytes 256).toNat := by
      unfold diskBlocks
      rw [hd]
    have hrange : ∀ x ∈ x0 :: l0, 0 < x ∧ x < Int.tdiv d.nBytes 256 := by
      intro x hx
      obtain ⟨hx0, b, hb⟩ := h x hx
      obtain ⟨d1, _, hd1, h0, h1, _, _, _⟩ := readBlock_some a x s b hb
      rw [hd] at hd1
      simp only [Option.some.injEq] at hd1
      subst hd1
      exact ⟨by omega, h1⟩
    have hx0 := hrange x0 (List.mem_cons_self _ _)
    generalize x0 :: l0 = l at hnd hrange
    rw [hN]
    have hinj : ∀ x ∈ l, ∀ y ∈ l, Int.toNat x = Int.toNat y → x = y := by
      intro x hx y hy hxy
      have := (hrange x hx).1
      have := (hrange y hy).1
      omega
    have hnd2 : (l.map Int.toNat).Nodup := List.Nodup.map_on hinj hnd
    have hsub : (l.map Int.toNat).toFinset ⊆ Finset.Ico 1 (Int.tdiv d.nBytes 256).toNat := by
      intro v hv
      rw [List.mem_toFinset, List.mem_map] at hv
      obtain ⟨x, hx, rfl⟩ := hv
      have := hrange x hx
      rw [Finset.mem_Ico]
      omega
    have hcard := Finset.card_le_card hsub
    rw [List.toFinset_card_of_nodup hnd2, List.length_map, Nat.card_Ico] at hcard
    omega

theorem freedBlock_fields (next : Int) :
    (freedBlock next).length = 256 ∧ (freedBlock next).getD 0 0 = 4 ∧
    (freedBlock next).getD 1 0 = 0x44 ∧
    readInt (freedBlock next) FREE_NEXT_BLOCK_OFFSET = wrap32 next ∧
    ∀ j, 6 ≤ j → (freedBlock next).getD j 0 = 0 := by
  have hl : (setByte (setByte zeroBlock BLOCK_NUMBER_OFFSET FREE_BLOCK_TYPE)
      MAGIC_NUMBER_OFFSET MAGIC_NUMBER).length = 256 := by
    rw [length_setByte, length_setByte, length_zeroBlock]
  have hz : zeroBlock.length = 256 := length_zeroBlock
  unfold freedBlock FREE_NEXT_BLOCK_OFFSET
  refine ⟨?_, ?_, ?_, ?_, ?_⟩
  · rw [length_writeInt _ _ _ (by omega), hl]
  · rw [getD_writeInt_disjoint _ _ _ _ (by omega) (by omega)]
    unfold MAGIC_NUMBER_OFFSET BLOCK_NUMBER_OFFSET
    rw [getD_setByte, if_neg (by omega), getD_setByte, if_pos (by omega)]
    rfl
  · rw [getD_writeInt_disjoint _ _ _ _ (by omega) (by omega)]
    unfold MAGIC_NUMBER_OFFSET BLOCK_NUMBER_OFFSET
    rw [getD_setByte, if_pos (by rw [length_setByte]; omega)]
    rfl
  · rw [readInt_writeInt_same _ _ _ (by omega)]
  · intro j hj
    rw [getD_writeInt_disjoint _ _ _ _ (by omega) (by omega)]
    unfold MAGIC_NUMBER_OFFSET BLOCK_NUMBER_OFFSET
    rw [getD_setByte, if_neg (by omega), getD_setByte, if_neg (by omega), getD_zeroBlock]

/-- The loop of `tfs_deleteFile` over a data chain `dl` that ends at 0 and shares
no block with the free list `fl`: it ends, and the free list is then the chain in
reverse order followed by `fl`. -/
theorem freeData_linked (e : Errno) (a : Int) :
    ∀ (dl : List Int) (p : Int) (fuel : Nat) (s : State) (sb : Block) (fl : List Int),
      s.activeDisk = a → dl ≠ [] → dl.length ≤ fuel →
      readBlock a SUPER_BLOCK s = some sb → sb.length = 256 →
      Linked a s DATA_NEXT_BLOCK_OFFSET (fun _ => True) p dl →
      Linked a s FREE_NEXT_BLOCK_OFFSET (fun _ => True) (readInt sb FB_OFFSET) fl →
      (dl ++ fl).Nodup → (∀ d ∈ dl, -2147483648 ≤ d ∧ d < 2147483648) →
      ∃ s1 sb1, freeData e fuel p s = .done s1 ∧
        s1.activeDisk = a ∧ s1.fileDescriptorTable = s.fileDescriptorTable ∧
        s1.maxNumberOfFiles = s.maxNumberOfFiles ∧ diskBlocks s1 a = diskBlocks s a ∧
        readBlock a SUPER_BLOCK s1 = some sb1 ∧ sb1.length = 256 ∧
        readInt sb1 IB_OFFSET = readInt sb IB_OFFSET ∧
        Linked a s1 FREE_NEXT_BLOCK_OFFSET (fun _ => True) (readInt sb1 FB_OFFSET)
          (dl.reverse ++ fl) ∧
        (∀ d ∈ dl, ∃ nx, readBlock a d s1 = some (freedBlock nx)) ∧
        (∀ b, b ≠ 0 → b ∉ dl → readBlock a b s1 = readBlock a b s) := by
  intro dl
  induction dl with
  | nil => intro p fuel s sb fl _ hne; exact absurd rfl hne
  | cons d rest ih =>
    intro p fuel s sb fl hact _ hfuel hsb hsbl hdata hfree hnd hrange
    simp only [List.length_cons] at hfuel
    obtain ⟨k, rfl⟩ : ∃ k, fuel = k + 1 := ⟨fuel - 1, by omega⟩
    obtain ⟨hp, hd0, db, hdb, _, _, hrest⟩ := hdata
    subst hp
    obtain ⟨g1, g2, g3⟩ := deallocateBlock_globals e p s
    obtain ⟨hrd, hblocks⟩ := deallocateBlock_reads e a p s db sb hact hdb hsb hd0
    have hpr := hrange p (List.mem_cons_self _ _)
    have hnd1 : (p :: (rest ++ fl)).Nodup := hnd
    have hpnot : p ∉ rest ++ fl := (List.nodup_cons.mp hnd1).1
    have hsb1 : readBlock a SUPER_BLOCK (deallocateBlock e p s).2 =
        some (writeInt sb FB_OFFSET p) := by
      rw [hrd, if_neg (fun hc : SUPER_BLOCK = p => hd0 hc.symm), if_pos rfl]
    have hsb1l : (writeInt sb FB_OFFSET p).length = 256 := by
      unfold FB_OFFSET
      rw [length_writeInt _ _ _ (by omega), hsbl]
    have hib1 : readInt (writeInt sb FB_OFFSET p) IB_OFFSET = readInt sb IB_OFFSET := by
      unfold FB_OFFSET IB_OFFSET
      exact readInt_writeInt_disjoint _ _ _ _ (by omega) (by omega)
    have hfb1 : readInt (writeInt sb FB_OFFSET p) FB_OFFSET = p := by
      unfold FB_OFFSET
      rw [readInt_writeInt_same _ _ _ (by omega), wrap32_of_range _ hpr.1 hpr.2]
    have hpblk : readBlock a p (deallocateBlock e p s).2 =
        some (freedBlock (readInt sb FB_OFFSET)) := by
      rw [hrd, if_pos rfl]
      rfl
    have hframe : ∀ b, b ≠ 0 → b ≠ p →
        readBlock a b (deallocateBlock e p s).2 = readBlock a b s := by
      intro b hb0 hbp
      rw [hrd, if_neg hbp, if_neg (show ¬ b = SUPER_BLOCK from hb0)]
    have hfree1 : Linked a (deallocateBlock e p s).2 FREE_NEXT_BLOCK_OFFSET (fun _ => True)
        (readInt (writeInt sb FB_OFFSET p) FB_OFFSET) (p :: fl) := by
      rw [hfb1]
      obtain ⟨fl256, _, _, fnx, _⟩ := freedBlock_fields (readInt sb FB_OFFSET)
      refine ⟨rfl, hd0, _, hpblk, fl256, trivial, ?_⟩
      rw [fnx, wrap32_of_range _ (readInt_range _ _).1 (readInt_range _ _).2]
      refine linked_frame _ _ _ _ _ _ _ (fun y hy => ?_) hfree
      exact hframe y (linked_mem _ _ _ _ fl _ hfree y hy).1
        (fun hc : y = p => hpnot (List.mem_append_right _ (hc ▸ hy)))
    unfold freeData
    rw [hact, hdb]
    simp only
    by_cases hnext : readInt db DATA_NEXT_BLOCK_OFFSET = 0
    · rw [if_pos hnext]
      have hrest0 : rest = [] := by
        cases rest with
        | nil => rfl
        | cons y r =>
          obtain ⟨hy, hy0, _⟩ := hrest
          exact absurd (hy.symm.trans hnext) hy0
      subst hrest0
      refine ⟨_, writeInt sb FB_OFFSET p, rfl, g2.trans hact, g1, g3, hblocks, hsb1, hsb1l,
        hib1, hfree1, ?_, ?_⟩
      · intro d hd
        rw [List.mem_singleton] at hd
        subst hd
        exact ⟨_, hpblk⟩
      · intro b hb0 hb
        exact hframe b hb0 (fun hc => hb (hc ▸ List.mem_singleton_self _))
    · rw [if_neg hnext]
      have hrestne : rest ≠ [] := by
        intro hc
        subst hc
        exact hnext hrest
      have hdata1 : Linked a (deallocateBlock e p s).2 DATA_NEXT_BLOCK_OFFSET (fun _ => True)
          (readInt db DATA_NEXT_BLOCK_OFFSET) rest := by
        refine linked_frame _ _ _ _ _ _ _ (fun y hy => ?_) hrest
        exact hframe y (linked_mem _ _ _ _ rest _ hrest y hy).1
          (fun hc : y = p => hpnot (List.mem_append_left _ (hc ▸ hy)))
      obtain ⟨s1, sb1, hrun, r1, r2, r3, r4, r5, r6, r7, r8, r9, r10⟩ :=
        ih (readInt db DATA_NEXT_BLOCK_OFFSET) k (deallocateBlock e p s).2
          (writeInt sb FB_OFFSET p) (p :: fl) (g2.trans hact) hrestne (by omega) hsb1 hsb1l
          hdata1 hfree1 (List.nodup_middle.mpr hnd1)
          (fun d hd => hrange d (List.mem_cons_of_mem _ hd))
      have hpnr : p ∉ rest := fun hc => hpnot (List.mem_append_left _ hc)
      refine ⟨s1, sb1, hrun, r1, r2.trans g1, r3.trans g3, r4.trans hblocks, r5, r6,
        r7.trans hib1, ?_, ?_, ?_⟩
      · have e1 : (p :: rest).reverse ++ fl = rest.reverse ++ p :: fl := by
          rw [List.reverse_cons, List.append_assoc]
          rfl
        rw [e1]
        exact r8
      · intro d hd
        rcases List.mem_cons.mp hd with hdp | hdr
        · subst hdp
          exact ⟨_, by rw [r10 d hd0 hpnr, hpblk]⟩
        · exact r9 d hdr
      · intro b hb0 hb
        have hbp : b ≠ p := fun hc => hb (hc ▸ List.mem_cons_self _ _)
        have hbr : b ∉ rest := fun hc => hb (List.mem_cons_of_mem _ hc)
        rw [r10 b hb0 hbr, hframe b hb0 hbp]

/-- The second half of `tfs_deleteFile` for an inode `x` whose data chain `dl`
ends at 0 and shares no block with the free list `fl`: it returns 1, the free list
is then `x`, the chain in reverse order, and `fl`, and the descriptor is closed. -/
theorem deleteData_spec (e : Errno) (fd x : Int) (s : State) (a : Int)
    (fl dl : List Int) (t : List (Option fileDescriptorTableEntry))
    (en : fileDescriptorTableEntry) (sb xb : Block)
    (hact : s.activeDisk = a) (hane : a ≠ 0)
    (hsb : readBlock a SUPER_BLOCK s = some sb) (hsbl : sb.length = 256)
    (hfree : Linked a s FREE_NEXT_BLOCK_OFFSET (fun _ => True) (readInt sb FB_OFFSET) fl)
    (hxb : readBlock a x s = some xb)
    (hdata : Linked a s DATA_NEXT_BLOCK_OFFSET (fun _ => True)
      (readInt xb INODE_DATA_BLOCK_OFFSET) dl)
    (hx0 : x ≠ 0) (hxr : -2147483648 ≤ x ∧ x < 2147483648)
    (hnd : (x :: (dl ++ fl)).Nodup)
    (hfuel : dl.length ≤ 2 * diskBlocks s a + 2)
    (ht : s.fileDescriptorTable = some t) (hmax : s.maxNumberOfFiles = Int.ofNat t.length)
    (hen : tableGet (some t) fd = some (some en)) :
    ∃ s1 sb1, deleteData e fd x s = .ret 1 s1 ∧
      s1.activeDisk = a ∧ diskBlocks s1 a = diskBlocks s a ∧
      s1.maxNumberOfFiles = s.maxNumberOfFiles ∧
      s1.fileDescriptorTable = some (t.set fd.toNat none) ∧
      readBlock a SUPER_BLOCK s1 = some sb1 ∧ sb1.length = 256 ∧
      readInt sb1 IB_OFFSET = readInt sb IB_OFFSET ∧ readInt sb1 FB_OFFSET = x ∧
      Linked a s1 FREE_NEXT_BLOCK_OFFSET (fun _ => True) x (x :: (dl.reverse ++ fl)) ∧
      (∀ d ∈ x :: dl, ∃ nx, readBlock a d s1 = some (freedBlock nx)) ∧
      (∀ b, b ≠ 0 → b ∉ x :: dl → readBlock a b s1 = readBlock a b s) := by
  have hdr := linked_range _ _ _ _ dl _ (readInt_range _ _).1 (readInt_range _ _).2 hdata
  have hxnot : x ∉ dl ++ fl := (List.nodup_cons.mp hnd).1
  have hnd2 : (dl ++ fl).Nodup := (List.nodup_cons.mp hnd).2
  -- the data blocks
  have hloop : ∃ sD sbD,
      (if readInt xb INODE_DATA_BLOCK_OFFSET ≠ 0 then
        freeData e (2 * diskBlocks s s.activeDisk + 2) (readInt xb INODE_DATA_BLOCK_OFFSET) s
       else Freed.done s) = .done sD ∧
      sD.activeDisk = a ∧ sD.fileDescriptorTable = s.fileDescriptorTable ∧
      sD.maxNumberOfFiles = s.maxNumberOfFiles ∧ diskBlocks sD a = diskBlocks s a ∧
      readBlock a SUPER_BLOCK sD = some sbD ∧ sbD.length = 256 ∧
      readInt sbD IB_OFFSET = readInt sb IB_OFFSET ∧
      Linked a sD FREE_NEXT_BLOCK_OFFSET (fun _ => True) (readInt sbD FB_OFFSET)
        (dl.reverse ++ fl) ∧
      (∀ d ∈ dl, ∃ nx, readBlock a d sD = some (freedBlock nx)) ∧
      (∀ b, b ≠ 0 → b ∉ dl → readBlock a b sD = readBlock a b s) := by
    cases dl with
    | nil =>
      have h0 : readInt xb INODE_DATA_BLOCK_OFFSET = 0 := hdata
      rw [h0]
      simp only [ne_eq, not_true_eq_false, if_false]
      exact ⟨s, sb, rfl, hact, rfl, rfl, rfl, hsb, hsbl, rfl, hfree,
        fun d hd => absurd hd (by simp), fun b _ _ => rfl⟩
    | cons d rest =>
      have hne : readInt xb INODE_DATA_BLOCK_OFFSET ≠ 0 := by
        rw [hdata.1]
        exact hdata.2.1
      rw [if_pos hne, hact]
      exact freeData_linked e a (d :: rest) _ _ s sb fl hact (by simp) hfuel hsb hsbl hdata
        hfree hnd2 hdr
  obtain ⟨sD, sbD, hD, d1, d2, d3, d4, d5, d6, d7, d8, d9, d10⟩ := hloop
  -- the inode block
  have hxD : readBlock a x sD = some xb := by
    rw [d10 x hx0 (fun hc => hxnot (List.mem_append_left _ hc)), hxb]
  obtain ⟨g1, g2, g3⟩ := deallocateBlock_globals e x sD
  obtain ⟨hrd, hdb⟩ := deallocateBlock_reads e a x sD xb sbD d1 hxD d5 hx0
  obtain ⟨l, hl, hfd0, hget⟩ := tableGet_some _ _ _ hen
  simp only [Option.some.injEq] at hl
  subst hl
  have hfdlt : fd.toNat < t.length := by
    by_contra hc
    rw [List.getElem?_eq_none (by omega)] at hget
    exact absurd hget (by simp)
  have hclose := tfs_closeFile_ok e fd (deallocateBlock e x sD).2 t en
    (by rw [g2, d1]; exact hane) (by rw [g1, d2, ht]) hen
    (by rw [g3, d3, hmax]; simp only [Int.ofNat_eq_coe]; omega)
  have hrdF : ∀ b, readBlock a b
      { (deallocateBlock e x sD).2 with fileDescriptorTable := some (t.set fd.toNat none) } =
      readBlock a b (deallocateBlock e x sD).2 :=
    fun b => readBlock_congr _ _ _ _ rfl rfl
  have hframe : ∀ y, y ≠ 0 → y ≠ x →
      readBlock a y
        { (deallocateBlock e x sD).2 with fileDescriptorTable := some (t.set fd.toNat none) } =
      readBlock a y sD := by
    intro y hy0 hyx
    rw [hrdF, hrd, if_neg hyx, if_neg (show ¬ y = SUPER_BLOCK from hy0)]
  have hxblk : readBlock a x
      { (deallocateBlock e x sD).2 with fileDescriptorTable := some (t.set fd.toNat none) } =
      some (freedBlock (readInt sbD FB_OFFSET)) := by
    rw [hrdF, hrd, if_pos rfl]
    rfl
  have hfbx : readInt (writeInt sbD FB_OFFSET x) FB_OFFSET = x := by
    unfold FB_OFFSET
    rw [readInt_writeInt_same _ _ _ (by omega), wrap32_of_range _ hxr.1 hxr.2]
  refine ⟨{ (deallocateBlock e x sD).2 with
      fileDescriptorTable := some (t.set fd.toNat none) },
    writeInt sbD FB_OFFSET x, ?_, ?_, ?_, ?_, rfl, ?_, ?_, ?_, hfbx, ?_, ?_, ?_⟩
  · unfold deleteData
    rw [hact, hxb]
    simp only
    rw [hact] at hD
    rw [hD]
    simp only
    rw [hclose]
  · show (deallocateBlock e x sD).2.activeDisk = a
    rw [g2, d1]
  · show diskBlocks (deallocateBlock e x sD).2 a = diskBlocks s a
    rw [hdb, d4]
  · show (deallocateBlock e x sD).2.maxNumberOfFiles = s.maxNumberOfFiles
    rw [g3, d3]
  · rw [hrdF, hrd, if_neg (fun hc : SUPER_BLOCK = x => hx0 hc.symm), if_pos rfl]
  · unfold FB_OFFSET
    rw [length_writeInt _ _ _ (by omega), d6]
  · have : readInt (writeInt sbD FB_OFFSET x) IB_OFFSET = readInt sbD IB_OFFSET := by
      unfold FB_OFFSET IB_OFFSET
      exact readInt_writeInt_disjoint _ _ _ _ (by omega) (by omega)
    rw [this, d7]
  · obtain ⟨fl256, _, _, fnx, _⟩ := freedBlock_fields (readInt sbD FB_OFFSET)
    refine ⟨rfl, hx0, _, hxblk, fl256, trivial, ?_⟩
    rw [fnx, wrap32_of_range _ (readInt_range _ _).1 (readInt_range _ _).2]
    refine linked_frame _ _ _ _ _ _ _ (fun y hy => ?_) d8
    refine hframe y (linked_mem _ _ _ _ _ _ d8 y hy).1 (fun hc : y = x => hxnot ?_)
    subst hc
    rcases List.mem_append.mp hy with h1 | h2
    · exact List.mem_append_left _ (List.mem_reverse.mp h1)
    · exact List.mem_append_right _ h2
  · intro d hd
    rcases List.mem_cons.mp hd with hdx | hdl
    · subst hdx
      exact ⟨_, hxblk⟩
    · have hd0 : d ≠ 0 := (linked_mem _ _ _ _ dl _ hdata d hdl).1
      have hdx : d ≠ x := fun hc => hxnot (List.mem_append_left _ (hc ▸ hdl))
      obtain ⟨nx, hnx⟩ := d9 d hdl
      exact ⟨nx, by rw [hframe d hd0 hdx, hnx]⟩
  · intro b hb0 hb
    have hbx : b ≠ x := fun hc => hb (hc ▸ List.mem_cons_self _ _)
    have hbd : b ∉ dl := fun hc => hb (List.mem_cons_of_mem _ hc)
    rw [hframe b hb0 hbx, d10 b hb0 hbd]

theorem nodup_parts (fl il dl : List Int) (h : (fl ++ il ++ dl).Nodup) :
    fl.Nodup ∧ il.Nodup ∧ dl.Nodup ∧ (∀ z, z ∈ fl → z ∈ il → False) ∧
    (∀ z, z ∈ fl → z ∈ dl → False) ∧ (∀ z, z ∈ il → z ∈ dl → False) := by
  obtain ⟨h1, h2, h3⟩ := List.nodup_append.mp h
  obtain ⟨h4, h5, h6⟩ := List.nodup_append.mp h1
  exact ⟨h4, h5, h2, fun z a b => h6 a b, fun z a b => h3 (List.mem_append_left _ a) b,
    fun z a b => h3 (List.mem_append_right _ a) b⟩

/-- What `tfs_deleteFile(fd)` does on a mounted volume whose free list is `fl`,
whose inode list is `pre`, the inode `x` of the descriptor, `post`, and on which
the data chain of `x` is `dl`, all blocks different. -/
theorem tfs_deleteFile_spec (e : Errno) (fd : Int) (s : State) (a : Int)
    (fl pre post dl : List Int) (t : List (Option fileDescriptorTableEntry))
    (en : fileDescriptorTableEntry) (sb xb : Block)
    (hact : s.activeDisk = a) (hane : a ≠ 0)
    (hsb : readBlock a SUPER_BLOCK s = some sb) (hsbl : sb.length = 256)
    (hfree : Linked a s FREE_NEXT_BLOCK_OFFSET (fun _ => True) (readInt sb FB_OFFSET) fl)
    (hino : Linked a s INODE_NEXT_INODE_OFFSET (fun _ => True) (readInt sb IB_OFFSET)
      (pre ++ en.inodeNumber :: post))
    (hxb : readBlock a en.inodeNumber s = some xb)
    (hdata : Linked a s DATA_NEXT_BLOCK_OFFSET (fun _ => True)
      (readInt xb INODE_DATA_BLOCK_OFFSET) dl)
    (hnd : (fl ++ (pre ++ en.inodeNumber :: post) ++ dl).Nodup)
    (ht : s.fileDescriptorTable = some t) (hmax : s.maxNumberOfFiles = Int.ofNat t.length)
    (hen : tableGet (some t) fd = some (some en)) :
    ∃ s1 sb1, tfs_deleteFile e fd s = .ret 1 s1 ∧
      s1.activeDisk = a ∧ diskBlocks s1 a = diskBlocks s a ∧
      s1.maxNumberOfFiles = s.maxNumberOfFiles ∧
      s1.fileDescriptorTable = some (t.set fd.toNat none) ∧
      readBlock a SUPER_BLOCK s1 = some sb1 ∧ sb1.length = 256 ∧
      readInt sb1 FB_OFFSET = en.inodeNumber ∧
      readInt sb1 IB_OFFSET =
        (if pre = [] then readInt xb INODE_NEXT_INODE_OFFSET else readInt sb IB_OFFSET) ∧
      Linked a s1 FREE_NEXT_BLOCK_OFFSET (fun _ => True) en.inodeNumber
        (en.inodeNumber :: (dl.reverse ++ fl)) ∧
      Linked a s1 INODE_NEXT_INODE_OFFSET (fun _ => True) (readInt sb1 IB_OFFSET)
        (pre ++ post) ∧
      (∀ d ∈ en.inodeNumber :: dl, ∃ nx, readBlock a d s1 = some (freedBlock nx)) ∧
      (∀ b, b ≠ 0 → b ∉ en.inodeNumber :: dl → pre.getLast? ≠ some b →
        readBlock a b s1 = readBlock a b s) ∧
      (∀ y yb, pre.getLast? = some y → readBlock a y s = some yb →
        readBlock a y s1 =
          some (writeInt yb INODE_NEXT_INODE_OFFSET (readInt xb INODE_NEXT_INODE_OFFSET))) := by
  obtain ⟨x, hxdef⟩ : ∃ x, x = en.inodeNumber := ⟨_, rfl⟩
  rw [← hxdef] at hino hxb hnd ⊢
  obtain ⟨nfl, nil1, ndl, dfi, dfd, did⟩ := nodup_parts _ _ _ hnd
  have hxil : x ∈ pre ++ x :: post := List.mem_append_right _ (List.mem_cons_self _ _)
  have hxr := linked_range _ _ _ _ _ _ (readInt_range _ _).1 (readInt_range _ _).2 hino x hxil
  obtain ⟨hx0, _⟩ := linked_mem _ _ _ _ _ _ hino x hxil
  have hxfl : x ∉ fl := fun hc => dfi x hc hxil
  have hxdl : x ∉ dl := fun hc => did x hxil hc
  have hndx : (x :: (dl ++ fl)).Nodup := by
    refine List.nodup_cons.mpr ⟨fun hc => ?_, List.nodup_append.mpr ⟨ndl, nfl, ?_⟩⟩
    · rcases List.mem_append.mp hc with h1 | h1
      · exact hxdl h1
      · exact hxfl h1
    · intro z hz1 hz2
      exact dfd z hz2 hz1
  -- the three lists together are shorter than the disk
  have hreadable : ∀ z ∈ fl ++ (pre ++ x :: post) ++ dl,
      z ≠ 0 ∧ ∃ b, readBlock a z s = some b := by
    intro z hz
    rcases List.mem_append.mp hz with h1 | h1
    · rcases List.mem_append.mp h1 with h2 | h2
      · obtain ⟨z0, b, hb, _⟩ := linked_mem _ _ _ _ _ _ hfree z h2
        exact ⟨z0, b, hb⟩
      · obtain ⟨z0, b, hb, _⟩ := linked_mem _ _ _ _ _ _ hino z h2
        exact ⟨z0, b, hb⟩
    · obtain ⟨z0, b, hb, _⟩ := linked_mem _ _ _ _ _ _ hdata z h1
      exact ⟨z0, b, hb⟩
  have hlen : (fl ++ (pre ++ x :: post) ++ dl).length < diskBlocks s a := by
    rcases length_lt_diskBlocks s a _ hnd hreadable with h1 | h1
    · exact h1
    · have := congrArg List.length h1
      simp only [List.length_append, List.length_cons, List.length_nil] at this
      omega
  simp only [List.length_append, List.length_cons] at hlen
  obtain ⟨l, hl, hfd0, hget⟩ := tableGet_some _ _ _ hen
  simp only [Option.some.injEq] at hl
  subst hl
  cases pre with
  | nil =>
    simp only [List.nil_append] at hino hnd hxil ⊢
    obtain ⟨hhead, _, xb0, hxb0, hxbl, _, hpost⟩ := hino
    have hsame : xb0 = xb := by
      rw [hxb] at hxb0
      exact (Option.some.inj hxb0).symm
    subst hsame
    generalize hsup : memcpy sb IB_OFFSET (slice xb0 INODE_NEXT_INODE_OFFSET 4) = super1
    have hw := writeBlock_fst_of_read a SUPER_BLOCK s sb super1 hsb
    have hrd : ∀ b, readBlock a b (writeBlock a SUPER_BLOCK super1 s).2 =
        if b = SUPER_BLOCK then some super1 else readBlock a b s :=
      fun b => readBlock_writeBlock _ _ _ _ sb _ hsb
    have hframe : ∀ y, y ≠ 0 →
        readBlock a y (writeBlock a SUPER_BLOCK super1 s).2 = readBlock a y s := by
      intro y hy0
      rw [hrd, if_neg (show ¬ y = SUPER_BLOCK from hy0)]
    have hsl : (slice xb0 INODE_NEXT_INODE_OFFSET 4).length = 4 :=
      length_slice _ _ _ (by unfold INODE_NEXT_INODE_OFFSET; omega)
    have hsupl : super1.length = 256 := by
      rw [← hsup]
      unfold IB_OFFSET
      rw [length_memcpy _ _ _ (by omega), hsbl]
    have hsupfb : readInt super1 FB_OFFSET = readInt sb FB_OFFSET := by
      rw [← hsup]
      unfold FB_OFFSET IB_OFFSET
      exact readInt_memcpy_disjoint _ _ _ _ (by omega) (by omega)
    have hsupib : readInt super1 IB_OFFSET = readInt xb0 INODE_NEXT_INODE_OFFSET := by
      rw [← hsup]
      unfold IB_OFFSET INODE_NEXT_INODE_OFFSET
      exact readInt_memcpy_slice _ _ _ _ (by omega) (by omega)
    obtain ⟨s1, sb1, hrun, r1, r2, r3, r4, r5, r6, r7, r8, r9, r10, r11⟩ :=
      deleteData_spec e fd x (writeBlock a SUPER_BLOCK super1 s).2 a fl dl t en super1 xb0
        ((writeBlock_activeDisk _ _ _ _).trans hact) hane (by rw [hrd, if_pos rfl]) hsupl
        (by
          rw [hsupfb]
          exact linked_frame _ _ _ _ _ _ _
            (fun y hy => hframe y (linked_mem _ _ _ _ fl _ hfree y hy).1) hfree)
        (by rw [hframe x hx0, hxb])
        (linked_frame _ _ _ _ _ _ _
          (fun y hy => hframe y (linked_mem _ _ _ _ dl _ hdata y hy).1) hdata)
        hx0 hxr hndx (by rw [diskBlocks_writeBlock]; omega)
        ((writeBlock_table _ _ _ _).trans ht) ((writeBlock_maxFiles _ _ _ _).trans hmax) hen
    have hib1 : readInt sb1 IB_OFFSET = readInt xb0 INODE_NEXT_INODE_OFFSET := r7.trans hsupib
    refine ⟨s1, sb1, ?_, r1, r2.trans (diskBlocks_writeBlock _ _ _ _ _),
      r3.trans (writeBlock_maxFiles _ _ _ _), r4, r5, r6, r8, ?_, ?_, ?_, ?_, ?_, ?_⟩
    · unfold tfs_deleteFile
      rw [ht, hen]
      simp only
      rw [hact, hsb]
      simp only
      rw [hhead, ← hxdef, hxb]
      simp only
      rw [if_pos trivial, hsup, if_neg (by rw [hw]; decide)]
      exact hrun
    · rw [if_pos trivial]
      exact hib1
    · exact r9
    · rw [hib1]
      refine linked_frame _ _ _ _ _ _ _ (fun y hy => ?_) hpost
      have hy0 := (linked_mem _ _ _ _ post _ hpost y hy).1
      have hyil : y ∈ x :: post := List.mem_cons_of_mem _ hy
      have hyx : y ≠ x := by
        intro hc
        subst hc
        exact (List.nodup_cons.mp nil1).1 hy
      rw [r11 y hy0 (fun hc => by
        rcases List.mem_cons.mp hc with h1 | h1
        · exact hyx h1
        · exact did y hyil h1), hframe y hy0]
    · exact r10
    · intro b hb0 hb _
      rw [r11 b hb0 hb, hframe b hb0]
    · intro y yb hlast _
      exact absurd hlast (by simp)
  | cons c0 mid =>
    simp only [List.cons_append] at hino hnd hxil nil1 hlen ⊢
    obtain ⟨hhead, hc0, cb0, hcb0, hcb0l, _, hrest⟩ := hino
    have hc0x : c0 ≠ x := by
      intro hc
      subst hc
      exact (List.nodup_cons.mp nil1).1 (List.mem_append_right _ (List.mem_cons_self _ _))
    have hxmid : x ∉ mid := by
      intro hm
      have h2 := (List.nodup_cons.mp nil1).2
      exact (List.nodup_append.mp h2).2.2 hm (List.mem_cons_self _ _)
    subst hact
    obtain ⟨y, yb, front, hfind, hy, hfront⟩ := findPrevious_linked s _ x post mid c0 cb0
      (diskBlocks s s.activeDisk + 1) (by
        simp only [List.length_cons, List.length_append] at hlen
        omega) hxmid hrest hcb0
    have hil : c0 :: (mid ++ x :: post) = front ++ y :: x :: post := by
      rw [← List.cons_append, hfront, List.append_assoc]
      rfl
    have hinoF : Linked s.activeDisk s INODE_NEXT_INODE_OFFSET (fun _ => True)
        (readInt sb IB_OFFSET) (front ++ y :: x :: post) := by
      rw [← hil]
      exact ⟨hhead, hc0, cb0, hcb0, hcb0l, trivial, hrest⟩
    have hndF : (front ++ y :: x :: post).Nodup := by
      rw [← hil]
      exact nil1
    have hyil : y ∈ c0 :: (mid ++ x :: post) := by
      rw [hil]
      exact List.mem_append_right _ (List.mem_cons_self _ _)
    obtain ⟨hy0, yb0, hyb0, hybl, _⟩ := linked_mem _ _ _ _ _ _ hinoF y (by
      rw [← hil]
      exact hyil)
    have hsame : yb0 = yb := by
      rw [hy] at hyb0
      exact (Option.some.inj hyb0).symm
    subst hsame
    have hyx : x ≠ y := by
      intro hxy
      subst hxy
      have h2 := (List.nodup_append.mp hndF).2.1
      exact (List.nodup_cons.mp h2).1 (List.mem_cons_self _ _)
    have hyfl : y ∉ fl := fun hm => dfi y hm hyil
    have hydl : y ∉ dl := fun hm => did y hyil hm
    generalize hbuf : writeInt yb0 INODE_NEXT_INODE_OFFSET
      (readInt xb INODE_NEXT_INODE_OFFSET) = buf
    have hw := writeBlock_fst_of_read s.activeDisk y s yb0 buf hy
    have hrd : ∀ b, readBlock s.activeDisk b (writeBlock s.activeDisk y buf s).2 =
        if b = y then some buf else readBlock s.activeDisk b s :=
      fun b => readBlock_writeBlock _ _ _ _ yb0 _ hy
    have hbufl : buf.length = 256 := by
      rw [← hbuf]
      unfold INODE_NEXT_INODE_OFFSET
      rw [length_writeInt _ _ _ (by omega), hybl]
    have hbufn : readInt buf INODE_NEXT_INODE_OFFSET =
        readInt xb INODE_NEXT_INODE_OFFSET := by
      rw [← hbuf]
      unfold INODE_NEXT_INODE_OFFSET
      rw [readInt_writeInt_same _ _ _ (by omega),
        wrap32_of_range _ (readInt_range _ _).1 (readInt_range _ _).2]
    have hpre : c0 :: mid = front ++ [y] := hfront
    obtain ⟨s1, sb1, hrun, r1, r2, r3, r4, r5, r6, r7, r8, r9, r10, r11⟩ :=
      deleteData_spec e fd x (writeBlock s.activeDisk y buf s).2 s.activeDisk fl dl t en sb xb
        (writeBlock_activeDisk _ _ _ _) hane
        (by rw [hrd, if_neg (fun hc : SUPER_BLOCK = y => hy0 hc.symm), hsb]) hsbl
        (linked_frame _ _ _ _ _ _ _ (fun z hz => by
          rw [hrd, if_neg (fun hc : z = y => hyfl (hc ▸ hz))]) hfree)
        (by rw [hrd, if_neg hyx, hxb])
        (linked_frame _ _ _ _ _ _ _ (fun z hz => by
          rw [hrd, if_neg (fun hc : z = y => hydl (hc ▸ hz))]) hdata)
        hx0 hxr hndx (by rw [diskBlocks_writeBlock]; omega)
        ((writeBlock_table _ _ _ _).trans ht) ((writeBlock_maxFiles _ _ _ _).trans hmax) hen
    have hinoU : Linked s.activeDisk (writeBlock s.activeDisk y buf s).2
        INODE_NEXT_INODE_OFFSET (fun _ => True) (readInt sb IB_OFFSET) (front ++ y :: post) :=
      linked_unlink _ s _ _ _ x y xb buf post hrd hxb hbufl trivial hbufn front _ hndF hinoF
    have hpp : c0 :: (mid ++ post) = front ++ y :: post := by
      rw [← List.cons_append, hfront, List.append_assoc]
      rfl
    have hlast : (c0 :: mid).getLast? = some y := by
      rw [hfront]
      exact List.getLast?_concat _
    have hnotfreed : ∀ z ∈ front ++ y :: post, z ∉ x :: dl := by
      intro z hz hc
      have hzil : z ∈ c0 :: (mid ++ x :: post) := by
        rw [hil]
        rcases List.mem_append.mp hz with h1 | h1
        · exact List.mem_append_left _ h1
        · rcases List.mem_cons.mp h1 with h2 | h2
          · exact List.mem_append_right _ (h2 ▸ List.mem_cons_self _ _)
          · exact List.mem_append_right _
              (List.mem_cons_of_mem _ (List.mem_cons_of_mem _ h2))
      rcases List.mem_cons.mp hc with h1 | h1
      · subst h1
        obtain ⟨_, nrest, dis⟩ := List.nodup_append.mp hndF
        rcases List.mem_append.mp hz with h2 | h2
        · exact dis h2 (List.mem_cons_of_mem _ (List.mem_cons_self _ _))
        · rcases List.mem_cons.mp h2 with h3 | h3
          · exact hyx h3
          · exact (List.nodup_cons.mp (List.nodup_cons.mp nrest).2).1 h3
      · exact did z hzil h1
    refine ⟨s1, sb1, ?_, r1, r2.trans (diskBlocks_writeBlock _ _ _ _ _),
      r3.trans (writeBlock_maxFiles _ _ _ _), r4, r5, r6, r8, ?_, ?_, ?_, ?_, ?_, ?_⟩
    · unfold tfs_deleteFile
      rw [ht, hen]
      simp only
      rw [hsb]
      simp only
      rw [hhead, hcb0]
      simp only
      rw [← hxdef, if_neg hc0x]
      unfold deleteUnlink
      simp only
      rw [hfind]
      simp only
      rw [hxb]
      simp only
      rw [hbuf, if_neg (by rw [hw]; decide)]
      exact hrun
    · rw [if_neg (List.cons_ne_nil _ _), r7]
    · exact r9
    · rw [r7, hpp]
      refine linked_frame _ _ _ _ _ _ _ (fun z hz => ?_) hinoU
      exact r11 z (linked_mem _ _ _ _ _ _ hinoU z hz).1 (hnotfreed z hz)
    · exact r10
    · intro b hb0 hb hbl
      rw [r11 b hb0 hb, hrd, if_neg (fun hc : b = y => hbl (hc ▸ hlast))]
    · intro y1 yb1 hl1 hyb1
      rw [hlast] at hl1
      simp only [Option.some.injEq] at hl1
      subst hl1
      have : yb1 = yb0 := by
        rw [hy] at hyb1
        exact (Option.some.inj hyb1).symm
      subst this
      rw [r11 y hy0 (hnotfreed y (List.mem_append_right _ (List.mem_cons_self _ _))), hrd,
        if_pos rfl, hbuf]

theorem lists_linked (s : State) (fl il dl : List Int) (x : Int)
    (hsized : blocksSized s s.activeDisk = true)
    (hfree : freeBlocks s = some fl) (hinodes : inodeBlocks s = some il)
    (hdata : dataBlocks s x = some dl) :
    ∃ sb xb, readBlock s.activeDisk SUPER_BLOCK s = some sb ∧ sb.length = 256 ∧
      Linked s.activeDisk s FREE_NEXT_BLOCK_OFFSET (fun _ => True) (readInt sb FB_OFFSET) fl ∧
      Linked s.activeDisk s INODE_NEXT_INODE_OFFSET (fun _ => True) (readInt sb IB_OFFSET) il ∧
      readBlock s.activeDisk x s = some xb ∧
      Linked s.activeDisk s DATA_NEXT_BLOCK_OFFSET (fun _ => True)
        (readInt xb INODE_DATA_BLOCK_OFFSET) dl := by
  have hsz := blocksSized_spec s s.activeDisk hsized
  unfold freeBlocks freeList at hfree
  unfold inodeBlocks inodeList at hinodes
  unfold dataBlocks at hdata
  cases hsb : readBlock s.activeDisk SUPER_BLOCK s with
  | none =>
    rw [hsb] at hfree
    exact absurd hfree (by simp)
  | some sb =>
    rw [hsb] at hfree hinodes
    simp only [Option.map_eq_some'] at hfree hinodes
    obtain ⟨r, hr, hrm⟩ := hfree
    obtain ⟨r1, hr1, hrm1⟩ := hinodes
    cases hxb : readBlock s.activeDisk x s with
    | none =>
      rw [hxb] at hdata
      exact absurd hdata (by simp)
    | some xb =>
      rw [hxb] at hdata
      simp only at hdata
      refine ⟨sb, xb, rfl, hsz _ _ hsb, ?_, ?_, rfl, linked_of_dataChain s hsz _ _ _ hdata⟩
      · rw [← hrm]
        exact linked_of_freeChain s hsz _ _ _ hr
      · rw [← hrm1]
        exact linked_of_inodeChain s hsz _ _ _ hr1

theorem inodeBlocks_of_linked (s : State) (a : Int) (sb : Block) (il : List Int)
    (hact : s.activeDisk = a) (hsb : readBlock a SUPER_BLOCK s = some sb)
    (hnd : il.Nodup)
    (hino : Linked a s INODE_NEXT_INODE_OFFSET (fun _ => True) (readInt sb IB_OFFSET) il) :
    inodeBlocks s = some il := by
  subst hact
  have hlen : il.length < diskBlocks s s.activeDisk + 1 := by
    rcases length_lt_diskBlocks s s.activeDisk il hnd (fun z hz => by
      obtain ⟨z0, b, hb, _⟩ := linked_mem _ _ _ _ _ _ hino z hz
      exact ⟨z0, b, hb⟩) with h1 | h1
    · omega
    · rw [h1]
      simp
  obtain ⟨r, hr, hmap⟩ := inodeChain_of_linked s _ il _ _ hlen hino
  unfold inodeBlocks inodeList
  rw [hsb]
  simp only
  rw [hr]
  simp only [Option.map_some', Option.some.injEq]
  exact hmap

theorem freeBlocks_of_linked (s : State) (a : Int) (sb : Block) (fl : List Int)
    (hact : s.activeDisk = a) (hsb : readBlock a SUPER_BLOCK s = some sb)
    (hnd : fl.Nodup)
    (hfree : Linked a s FREE_NEXT_BLOCK_OFFSET (fun _ => True) (readInt sb FB_OFFSET) fl) :
    freeBlocks s = some fl := by
  subst hact
  have hlen : fl.length < diskBlocks s s.activeDisk + 1 := by
    rcases length_lt_diskBlocks s s.activeDisk fl hnd (fun z hz => by
      obtain ⟨z0, b, hb, _⟩ := linked_mem _ _ _ _ _ _ hfree z hz
      exact ⟨z0, b, hb⟩) with h1 | h1
    · omega
    · rw [h1]
      simp
  obtain ⟨r, hr, hmap⟩ := freeChain_of_linked s _ fl _ _ hlen hfree
  unfold freeBlocks freeList
  rw [hsb]
  simp only
  rw [hr]
  simp only [Option.map_some', Option.some.injEq]
  exact hmap

/-- C31: on a mounted volume whose blocks have 256 bytes, with free list `fl`,
inode list `pre, n, post` and data chain `dl` of the inode `n`, all blocks
different, for a descriptor `fd` bound to `n`: `tfs_deleteFile(fd)` returns 1 and
the inode list afterwards is `pre, post`, in the same order.  If `n` was the head
(`pre` is empty) the inode-list head of the superblock is then the next field of
`n`; otherwise the head stays, and the only inode block of the list that changes
is the predecessor of `n`, whose next field becomes the next field of `n`. -/
theorem tfs_deleteFile_splices_inode (e : Errno) (fd : Int) (s : State)
    (t : List (Option fileDescriptorTableEntry)) (en : fileDescriptorTableEntry)
    (fl pre post dl : List Int)
    (hact : s.activeDisk ≠ 0)
    (hsized : blocksSized s s.activeDisk = true)
    (ht : s.fileDescriptorTable = some t) (hmax : s.maxNumberOfFiles = Int.ofNat t.length)
    (hfd : tableGet (some t) fd = some (some en))
    (hfree : freeBlocks s = some fl)
    (hinodes : inodeBlocks s = some (pre ++ en.inodeNumber :: post))
    (hdata : dataBlocks s en.inodeNumber = some dl)
    (hnd : (fl ++ (pre ++ en.inodeNumber :: post) ++ dl).Nodup) :
    ∃ s1 xb, tfs_deleteFile e fd s = .ret 1 s1 ∧ s1.activeDisk = s.activeDisk ∧
      readBlock s.activeDisk en.inodeNumber s = some xb ∧
      inodeBlocks s1 = some (pre ++ post) ∧
      inodeHead s1 =
        (if pre = [] then some (readInt xb INODE_NEXT_INODE_OFFSET) else inodeHead s) ∧
      ∀ y ∈ pre ++ post, ∃ yb, readBlock s.activeDisk y s = some yb ∧
        readBlock s.activeDisk y s1 =
          some (if pre.getLast? = some y then
                  writeInt yb INODE_NEXT_INODE_OFFSET (readInt xb INODE_NEXT_INODE_OFFSET)
                else yb) := by
  obtain ⟨sb, xb, hsb, hsbl, lfree, lino, hxb, ldata⟩ :=
    lists_linked s fl _ dl en.inodeNumber hsized hfree hinodes hdata
  obtain ⟨s1, sb1, hrun, r1, _, _, _, r5, _, _, r8, _, r10, _, r12, r13⟩ :=
    tfs_deleteFile_spec e fd s s.activeDisk fl pre post dl t en sb xb rfl hact hsb hsbl lfree
      lino hxb ldata hnd ht hmax hfd
  obtain ⟨_, nil1, _, _, _, did⟩ := nodup_parts _ _ _ hnd
  have hndpp : (pre ++ post).Nodup := (List.nodup_cons.mp (List.nodup_middle.mp nil1)).2
  have hxnot : en.inodeNumber ∉ pre ++ post := (List.nodup_cons.mp (List.nodup_middle.mp nil1)).1
  refine ⟨s1, xb, hrun, r1, hxb, inodeBlocks_of_linked s1 _ sb1 _ r1 r5 hndpp r10, ?_, ?_⟩
  · unfold inodeHead
    rw [r1, r5, hsb]
    simp only [Option.map_some']
    rw [r8]
    split_ifs <;> rfl
  · intro y hy
    have hyil : y ∈ pre ++ en.inodeNumber :: post := by
      rcases List.mem_append.mp hy with h1 | h1
      · exact List.mem_append_left _ h1
      · exact List.mem_append_right _ (List.mem_cons_of_mem _ h1)
    obtain ⟨hy0, yb, hyb, _⟩ := linked_mem _ _ _ _ _ _ lino y hyil
    refine ⟨yb, hyb, ?_⟩
    by_cases hlast : pre.getLast? = some y
    · rw [if_pos hlast]
      exact r13 y yb hlast hyb
    · rw [if_neg hlast, r12 y hy0 (fun hc => by
        rcases List.mem_cons.mp hc with h1 | h1
        · exact hxnot (h1 ▸ hy)
        · exact did y hyil h1) hlast, hyb]

theorem firstEmpty_of_empty_slot : ∀ (t : List (Option fileDescriptorTableEntry)) (k : Nat),
    t[k]? = some none → ∃ fd, firstEmpty t = some fd := by
  intro t
  induction t with
  | nil => intro k h; exact absurd h (by simp)
  | cons a t ih =>
    intro k h
    cases a with
    | none => exact ⟨0, rfl⟩
    | some en =>
      cases k with
      | zero => exact absurd h (by simp)
      | succ j =>
        obtain ⟨fd, hfd⟩ := ih j (by simpa using h)
        exact ⟨fd + 1, by simp [firstEmpty, hfd]⟩

/-- C32: on a mounted volume whose blocks have 256 bytes, with free list `fl`,
inode list `pre, n, post` and data chain `dl = d1, ..., dk` of the inode `n`, all
blocks different, for a descriptor `fd` bound to `n`: `tfs_deleteFile(fd)` returns
1; the free list is then `n, dk, ..., d1` followed by `fl`; each of the blocks
`n, d1, ..., dk` has 256 bytes, type tag 4, magic byte 0x44 and zero bytes from
offset 6 on; slot `fd` is empty; and a `tfs_openFile` that follows with a name no
inode of the list stores returns a descriptor bound to block `n`, which is then an
inode and the head of the inode list. -/
theorem tfs_deleteFile_frees_blocks (e : Errno) (fd : Int) (s : State)
    (t : List (Option fileDescriptorTableEntry)) (en : fileDescriptorTableEntry)
    (fl pre post dl : List Int)
    (hact : s.activeDisk ≠ 0)
    (hsized : blocksSized s s.activeDisk = true)
    (ht : s.fileDescriptorTable = some t) (hmax : s.maxNumberOfFiles = Int.ofNat t.length)
    (hfd : tableGet (some t) fd = some (some en))
    (hfree : freeBlocks s = some fl)
    (hinodes : inodeBlocks s = some (pre ++ en.inodeNumber :: post))
    (hdata : dataBlocks s en.inodeNumber = some dl)
    (hnd : (fl ++ (pre ++ en.inodeNumber :: post) ++ dl).Nodup) :
    ∃ s1, tfs_deleteFile e fd s = .ret 1 s1 ∧ s1.activeDisk = s.activeDisk ∧
      freeBlocks s1 = some (en.inodeNumber :: (dl.reverse ++ fl)) ∧
      (∀ d ∈ en.inodeNumber :: dl, ∃ b, readBlock s.activeDisk d s1 = some b ∧
        b.length = 256 ∧ b.getD BLOCK_NUMBER_OFFSET 0 = FREE_BLOCK_TYPE ∧
        b.getD MAGIC_NUMBER_OFFSET 0 = 0x44 ∧ ∀ j, 6 ≤ j → j < 256 → b.getD j 0 = 0) ∧
      tableGet s1.fileDescriptorTable fd = some none ∧
      ∀ (name : List Nat) (clock : Nat → Nat) (l1 : List (Int × Block)),
        inodeList s1 = some l1 →
        (∀ p ∈ l1, strcmpSlot (nameSlot p.2) name = some false) →
        INODE_FILE_NAME_OFFSET + strlen name ≤ BLOCKSIZE →
        ∃ fd1 s2, tfs_openFile e name clock s1 = .ret (Int.ofNat fd1) s2 ∧
          tableGet s2.fileDescriptorTable (Int.ofNat fd1) =
            some (some { inodeNumber := en.inodeNumber, filePointer := 0 }) ∧
          blockTag s2 en.inodeNumber = some INODE_BLOCK_TYPE ∧
          inodeHead s2 = some en.inodeNumber := by
  obtain ⟨sb, xb, hsb, hsbl, lfree, lino, hxb, ldata⟩ :=
    lists_linked s fl _ dl en.inodeNumber hsized hfree hinodes hdata
  obtain ⟨s1, sb1, hrun, r1, _, r3, r4, r5, r6, r7, _, r9, _, r11, _, _⟩ :=
    tfs_deleteFile_spec e fd s s.activeDisk fl pre post dl t en sb xb rfl hact hsb hsbl lfree
      lino hxb ldata hnd ht hmax hfd
  obtain ⟨nfl, nil1, ndl, dfi, dfd, did⟩ := nodup_parts _ _ _ hnd
  have hxil : en.inodeNumber ∈ pre ++ en.inodeNumber :: post :=
    List.mem_append_right _ (List.mem_cons_self _ _)
  obtain ⟨hx0, _⟩ := linked_mem _ _ _ _ _ _ lino _ hxil
  have hndx : (en.inodeNumber :: (dl.reverse ++ fl)).Nodup := by
    refine List.nodup_cons.mpr ⟨fun hc => ?_, List.nodup_append.mpr
      ⟨List.nodup_reverse.mpr ndl, nfl, ?_⟩⟩
    · rcases List.mem_append.mp hc with h1 | h1
      · exact did _ hxil (List.mem_reverse.mp h1)
      · exact dfi _ h1 hxil
    · intro z hz1 hz2
      exact dfd z hz2 (List.mem_reverse.mp hz1)
  obtain ⟨l, hl, hfd0, hget⟩ := tableGet_some _ _ _ hfd
  simp only [Option.some.injEq] at hl
  subst hl
  have hfdlt : fd.toNat < t.length := by
    by_contra hc
    rw [List.getElem?_eq_none (by omega)] at hget
    exact absurd hget (by simp)
  have hslot : (t.set fd.toNat none)[fd.toNat]? = some none := by
    rw [List.getElem?_set, if_pos rfl, if_pos hfdlt]
  have hfb : Linked s.activeDisk s1 FREE_NEXT_BLOCK_OFFSET (fun _ => True)
      (readInt sb1 FB_OFFSET) (en.inodeNumber :: (dl.reverse ++ fl)) := by
    rw [r7]
    exact r9
  refine ⟨s1, hrun, r1, freeBlocks_of_linked s1 _ sb1 _ r1 r5 hndx hfb, ?_, ?_, ?_⟩
  · intro d hd
    obtain ⟨nx, hnx⟩ := r11 d hd
    obtain ⟨f1, f2, f3, _, f5⟩ := freedBlock_fields nx
    exact ⟨freedBlock nx, hnx, f1, f2, f3, fun j hj _ => f5 j hj⟩
  · rw [r4]
    unfold tableGet
    simp only
    rw [if_neg (by omega), hslot]
  · intro name clock l1 hl1 hnot hname
    obtain ⟨nx, hnx⟩ := r11 en.inodeNumber (List.mem_cons_self _ _)
    obtain ⟨f1, _⟩ := freedBlock_fields nx
    have hsb1 : readBlock s1.activeDisk SUPER_BLOCK s1 = some sb1 := by rw [r1, r5]
    have hf : readInt sb1 FB_OFFSET ≠ 0 := by rw [r7]; exact hx0
    have hfb1 : readBlock s1.activeDisk (readInt sb1 FB_OFFSET) s1 = some (freedBlock nx) := by
      rw [r1, r7, hnx]
    obtain ⟨fd1, hfd1⟩ := firstEmpty_of_empty_slot _ _ hslot
    obtain ⟨hfd1a, _⟩ := firstEmpty_spec _ _ hfd1
    have hfd1lt : fd1 < (t.set fd.toNat none).length := by
      by_contra hc
      rw [List.getElem?_eq_none (by omega)] at hfd1a
      exact absurd hfd1a (by simp)
    obtain ⟨ha, _, _, htab, hrd⟩ := createdState_reads s1 sb1 (freedBlock nx) name clock
      (t.set fd.toNat none) fd1 hsb1 hf hfb1
    unfold BLOCKSIZE INODE_FILE_NAME_OFFSET at hname
    obtain ⟨_, n0, _, _, _, _⟩ := newInode_fields (freedBlock nx) (readInt sb1 IB_OFFSET) name
      clock f1 (by omega)
    refine ⟨fd1, createdState s1 sb1 (freedBlock nx) name clock (t.set fd.toNat none) fd1,
      ?_, ?_, ?_, ?_⟩
    · rw [tfs_openFile_eq_openCreate e name clock s1 sb1 l1 hsb1 hl1 hnot,
        openCreate_cases e name clock s1 sb1 (freedBlock nx) _ hsb1 r6 hf hfb1 r4,
        if_neg (by unfold BLOCKSIZE INODE_FILE_NAME_OFFSET; omega), hfd1]
    · rw [htab, r7]
      unfold tableGet
      simp only
      rw [if_neg (by simp), List.getElem?_set]
      simp only [Int.ofNat_eq_coe, Int.toNat_ofNat, if_true]
      rw [if_pos hfd1lt]
    · unfold blockTag
      rw [ha, hrd, if_pos (by rw [r7])]
      simp only [Option.map_some', Option.some.injEq]
      unfold BLOCK_NUMBER_OFFSET
      exact n0
    · unfold inodeHead
      rw [ha, hrd, if_neg (by rw [r7]; exact fun hc : SUPER_BLOCK = _ => hx0 hc.symm),
        if_pos rfl]
      simp only [Option.map_some', Option.some.injEq]
      unfold createdSuper
      unfold FB_OFFSET IB_OFFSET
      rw [readInt_writeInt_same _ _ _ (by rw [length_writeInt _ _ _ (by omega)]; omega),
        wrap32_of_range _ (readInt_range _ _).1 (readInt_range _ _).2]
      exact r7

set_option maxRecDepth 100000 in
theorem tfs_deleteFile_splices_inode_witness :
    ∃ s1 xb, tfs_deleteFile sampleErrno 3 demoTwoBlocks = .ret 1 s1 ∧
      s1.activeDisk = demoTwoBlocks.activeDisk ∧
      readBlock demoTwoBlocks.activeDisk 5 demoTwoBlocks = some xb ∧
      inodeBlocks s1 = some ([9, 8, 7, 6] ++ [4, 3, 2]) ∧
      inodeHead s1 =
        (if ([9, 8, 7, 6] : List Int) = [] then some (readInt xb INODE_NEXT_INODE_OFFSET)
         else inodeHead demoTwoBlocks) ∧
      ∀ y ∈ ([9, 8, 7, 6] : List Int) ++ [4, 3, 2],
        ∃ yb, readBlock demoTwoBlocks.activeDisk y demoTwoBlocks = some yb ∧
          readBlock demoTwoBlocks.activeDisk y s1 =
            some (if ([9, 8, 7, 6] : List Int).getLast? = some y then
                    writeInt yb INODE_NEXT_INODE_OFFSET (readInt xb INODE_NEXT_INODE_OFFSET)
                  else yb) :=
  tfs_deleteFile_splices_inode sampleErrno 3 demoTwoBlocks
    (demoTwoBlocks.fileDescriptorTable.getD []) { inodeNumber := 5, filePointer := 0 }
    ((List.range' 12 28).map Int.ofNat) [9, 8, 7, 6] [4, 3, 2] [10, 11]
    (by decide!) (by decide!) (by decide!) (by decide!) (by decide!) (by decide!) (by decide!)
    (by decide!) (by decide!)

set_option maxRecDepth 100000 in
theorem tfs_deleteFile_frees_blocks_witness :
    ∃ s1, tfs_deleteFile sampleErrno 3 demoTwoBlocks = .ret 1 s1 ∧
      s1.activeDisk = demoTwoBlocks.activeDisk ∧
      freeBlocks s1 =
        some (5 :: (([10, 11] : List Int).reverse ++ (List.range' 12 28).map Int.ofNat)) ∧
      (∀ d ∈ (5 :: [10, 11] : List Int),
        ∃ b, readBlock demoTwoBlocks.activeDisk d s1 = some b ∧
        b.length = 256 ∧ b.getD BLOCK_NUMBER_OFFSET 0 = FREE_BLOCK_TYPE ∧
        b.getD MAGIC_NUMBER_OFFSET 0 = 0x44 ∧ ∀ j, 6 ≤ j → j < 256 → b.getD j 0 = 0) ∧
      tableGet s1.fileDescriptorTable 3 = some none ∧
      ∀ (name : List Nat) (clock : Nat → Nat) (l1 : List (Int × Block)),
        inodeList s1 = some l1 →
        (∀ p ∈ l1, strcmpSlot (nameSlot p.2) name = some false) →
        INODE_FILE_NAME_OFFSET + strlen name ≤ BLOCKSIZE →
        ∃ fd1 s2, tfs_openFile sampleErrno name clock s1 = .ret (Int.ofNat fd1) s2 ∧
          tableGet s2.fileDescriptorTable (Int.ofNat fd1) =
            some (some { inodeNumber := 5, filePointer := 0 }) ∧
          blockTag s2 5 = some INODE_BLOCK_TYPE ∧
          inodeHead s2 = some 5 :=
  tfs_deleteFile_frees_blocks sampleErrno 3 demoTwoBlocks
    (demoTwoBlocks.fileDescriptorTable.getD []) { inodeNumber := 5, filePointer := 0 }
    ((List.range' 12 28).map Int.ofNat) [9, 8, 7, 6] [4, 3, 2] [10, 11]
    (by decide!) (by decide!) (by decide!) (by decide!) (by decide!) (by decide!) (by decide!)
    (by decide!) (by decide!)

/-! ## Conservation of blocks under open, close, write, delete and rename -/

theorem linked_index (a : Int) (s : State) (off : Nat) (P : Block → Prop) :
    ∀ (l : List Int) (h : Int), Linked a s off P h l →
      h = l.getD 0 0 ∧
      ∀ j, j < l.length → l.getD j 0 ≠ 0 ∧
        ∃ b, readBlock a (l.getD j 0) s = some b ∧ b.length = 256 ∧
          readInt b off = l.getD (j + 1) 0 := by
  intro l
  induction l with
  | nil =>
    intro h hl
    exact ⟨hl, fun j hj => absurd hj (by simp)⟩
  | cons x l ih =>
    intro h hl
    obtain ⟨hx, hx0, b, hb, hlen, _, hrest⟩ := hl
    obtain ⟨hhead, hfacts⟩ := ih _ hrest
    refine ⟨by simpa using hx, ?_⟩
    intro j hj
    cases j with
    | zero =>
      refine ⟨by simpa using hx0, b, by simpa using hb, hlen, ?_⟩
      simpa using hhead
    | succ j =>
      obtain ⟨h1, b1, h2, h3, h4⟩ := hfacts j (by simpa using hj)
      exact ⟨by simpa using h1, b1, by simpa using h2, h3, by simpa using h4⟩

theorem linked_drop (a : Int) (s : State) (off : Nat) (P : Block → Prop) :
    ∀ (n : Nat) (l : List Int) (h : Int), Linked a s off P h l →
      Linked a s off P ((l.drop n).headD 0) (l.drop n) := by
  intro n
  induction n with
  | zero =>
    intro l h hl
    rw [List.drop_zero, ← linked_head _ _ _ _ _ _ hl]
    exact hl
  | succ n ih =>
    intro l h hl
    cases l with
    | nil => exact rfl
    | cons x l =>
      obtain ⟨_, _, b, _, _, _, hrest⟩ := hl
      exact ih l _ hrest

theorem linked_take (a : Int) (s1 : State) (off : Nat) :
    ∀ (l : List Int) (k : Nat), k ≤ l.length →
      (∀ q, q < k → l.getD q 0 ≠ 0 ∧ ∃ b, readBlock a (l.getD q 0) s1 = some b ∧
        b.length = 256 ∧ readInt b off = (if q + 1 = k then 0 else l.getD (q + 1) 0)) →
      Linked a s1 off (fun _ => True) ((l.take k).headD 0) (l.take k) := by
  intro l
  induction l with
  | nil =>
    intro k _ _
    simp only [List.take_nil]
    exact rfl
  | cons x l ih =>
    intro k hk hq
    cases k with
    | zero => exact rfl
    | succ k =>
      simp only [List.take_succ_cons, List.headD_cons]
      obtain ⟨hx0, b, hb, hlen, hnx⟩ := hq 0 (by omega)
      simp only [List.getD_cons_zero, zero_add] at hx0 hb hnx
      refine ⟨rfl, hx0, b, hb, hlen, trivial, ?_⟩
      have hrec := ih k (by simpa using hk) (fun q hqk => by
        obtain ⟨h1, b1, h2, h3, h4⟩ := hq (q + 1) (by omega)
        simp only [List.getD_cons_succ] at h1 h2 h4
        refine ⟨h1, b1, h2, h3, ?_⟩
        rw [h4]
        by_cases hc : q + 1 = k
        · rw [if_pos hc, if_pos (by omega)]
        · rw [if_neg hc, if_neg (by omega)])
      have hhd : readInt b off = (l.take k).headD 0 := by
        rw [hnx]
        cases k with
        | zero => simp
        | succ k =>
          rw [if_neg (by omega)]
          cases l with
          | nil => simp at hk
          | cons y l => simp
      rw [hhd]
      exact hrec

theorem dataChain_of_linked (s : State) (P : Block → Prop) :
    ∀ (l : List Int) (h : Int) (fuel : Nat), l.length < fuel →
      Linked s.activeDisk s DATA_NEXT_BLOCK_OFFSET P h l →
      dataChain s fuel h = some l := by
  intro l
  induction l with
  | nil =>
    intro h fuel hf hl
    obtain ⟨k, rfl⟩ : ∃ k, fuel = k + 1 := ⟨fuel - 1, by simp only [List.length_nil] at hf; omega⟩
    have h0 : h = 0 := hl
    subst h0
    simp [dataChain]
  | cons x l ih =>
    intro h fuel hf hl
    simp only [List.length_cons] at hf
    obtain ⟨k, rfl⟩ : ∃ k, fuel = k + 1 := ⟨fuel - 1, by omega⟩
    obtain ⟨hx, hx0, b, hb, _, _, hrest⟩ := hl
    subst hx
    unfold dataChain
    rw [if_neg hx0, hb]
    simp only
    rw [ih _ k (by omega) hrest]
    rfl

/-- The allocation loop of `tfs_writeFile` on a free list `fl` of distinct,
non-zero block numbers, whatever the free blocks hold besides their next field:
started on block `fl[j]` with `r` blocks to go, it rewrites the blocks
`fl[j], ..., fl[n - 1]`, each pointing to the next and the last to 0, leaves every
other block as it was, and leaves the loop with `freeBlock = fl[n]`. -/
theorem allocLoop_linked (e : Errno) (B : List Nat) (a : Int) (fl : List Int) (n : Nat)
    (hn : n ≤ fl.length)
    (hnz : ∀ j, j < fl.length → fl.getD j 0 ≠ 0)
    (hinj : ∀ i j, i < fl.length → j < fl.length → fl.getD i 0 = fl.getD j 0 → i = j)
    (hL1 : B.length ≤ 250 * n) (hL0 : 250 * n < B.length + 250) :
    ∀ (r j : Nat) (s : State), j + r = n → s.activeDisk = a →
      (∀ q, j ≤ q → q < fl.length → ∃ b, readBlock a (fl.getD q 0) s = some b ∧
        b.length = 256 ∧ readInt b FREE_NEXT_BLOCK_OFFSET = fl.getD (q + 1) 0) →
      (∀ q, q < j → ∃ b, readBlock a (fl.getD q 0) s = some b ∧ b.length = 256 ∧
        readInt b DATA_NEXT_BLOCK_OFFSET = (if q + 1 = n then 0 else fl.getD (q + 1) 0)) →
      ∃ s1, allocLoop e B r (fl.getD j 0) (min (250 * j) B.length)
          (Int.ofNat (B.length - 250 * j)) s = .done (fl.getD n 0) 0 0 s1 ∧
        s1.activeDisk = a ∧ s1.fileDescriptorTable = s.fileDescriptorTable ∧
        s1.maxNumberOfFiles = s.maxNumberOfFiles ∧ diskBlocks s1 a = diskBlocks s a ∧
        (∀ b : Int, (∀ q, j ≤ q → q < n → b ≠ fl.getD q 0) →
          readBlock a b s1 = readBlock a b s) ∧
        (∀ q, q < n → ∃ b, readBlock a (fl.getD q 0) s1 = some b ∧ b.length = 256 ∧
          readInt b DATA_NEXT_BLOCK_OFFSET = (if q + 1 = n then 0 else fl.getD (q + 1) 0)) := by
  intro r
  induction r with
  | zero =>
    intro j s hj ha _ hdata
    have hjn : j = n := by omega
    subst hjn
    refine ⟨s, ?_, ha, rfl, rfl, rfl, fun _ _ => rfl, hdata⟩
    unfold allocLoop
    have : B.length - 250 * j = 0 := by omega
    rw [this]
    rfl
  | succ r ih =>
    intro j s hj ha hfree hdata
    have hjl : j < fl.length := by omega
    obtain ⟨b0, hb0, hlen0, hnext0⟩ := hfree j (le_refl _) hjl
    have hposrem : 250 * j < B.length := by omega
    generalize hw : min 250 (B.length - 250 * j) = w
    have hw250 : w ≤ 250 := by omega
    have hwrem : w ≤ B.length - 250 * j := by omega
    have hwbs : (if Int.ofNat (B.length - 250 * j) ≥ 250 then (250 : Int)
        else Int.ofNat (B.length - 250 * j)) = Int.ofNat w := by
      simp only [Int.ofNat_eq_coe]
      split_ifs <;> omega
    have hmin : min (250 * j) B.length = 250 * j := by omega
    obtain ⟨dl, dnext, _⟩ := dataBlock_fields b0 B (250 * j) w hlen0 hw250 (by omega)
    generalize hbuf2 : memcpy (setByte b0 BLOCK_NUMBER_OFFSET DATA_BLOCK_TYPE)
      DATA_BLOCK_DATA_OFFSET (slice B (250 * j) w) = buf2 at dl dnext
    generalize hbuf3 : (if r = 0 then writeInt buf2 DATA_NEXT_BLOCK_OFFSET 0 else buf2) = buf3
    have hl3 : buf3.length = 256 := by
      rw [← hbuf3]
      split_ifs
      · rw [length_writeInt _ _ _ (by unfold DATA_NEXT_BLOCK_OFFSET; omega), dl]
      · exact dl
    have hnext3 : readInt buf3 DATA_NEXT_BLOCK_OFFSET =
        (if j + 1 = n then 0 else fl.getD (j + 1) 0) := by
      rw [← hbuf3]
      unfold DATA_NEXT_BLOCK_OFFSET
      by_cases hr : r = 0
      · rw [if_pos hr, if_pos (by omega), readInt_writeInt_same _ _ _ (by omega)]
        rfl
      · rw [if_neg hr, if_neg (by omega), dnext]
        unfold FREE_NEXT_BLOCK_OFFSET at hnext0
        exact hnext0
    have hwr := writeBlock_fst_of_read a (fl.getD j 0) s b0 buf3 hb0
    have hrd := fun b1 => readBlock_writeBlock a (fl.getD j 0) b1 s b0 buf3 hb0
    have hmx2 := writeBlock_maxFiles a (fl.getD j 0) buf3 s
    have hdb2 := diskBlocks_writeBlock a (fl.getD j 0) buf3 s a
    generalize hs2 : (writeBlock a (fl.getD j 0) buf3 s).2 = s2 at hrd hmx2 hdb2
    have hs2a : s2.activeDisk = a := by rw [← hs2, writeBlock_activeDisk, ha]
    have hfree2 : ∀ q, j + 1 ≤ q → q < fl.length → ∃ b, readBlock a (fl.getD q 0) s2 = some b ∧
        b.length = 256 ∧ readInt b FREE_NEXT_BLOCK_OFFSET = fl.getD (q + 1) 0 := by
      intro q hq hql
      obtain ⟨b, hb, hrest⟩ := hfree q (by omega) hql
      refine ⟨b, ?_, hrest⟩
      rw [hrd, if_neg (fun h => by have := hinj q j hql hjl h; omega), hb]
    have hdata2 : ∀ q, q < j + 1 → ∃ b, readBlock a (fl.getD q 0) s2 = some b ∧
        b.length = 256 ∧
        readInt b DATA_NEXT_BLOCK_OFFSET = (if q + 1 = n then 0 else fl.getD (q + 1) 0) := by
      intro q hq
      by_cases hqj : q = j
      · subst hqj
        exact ⟨buf3, by rw [hrd, if_pos rfl], hl3, hnext3⟩
      · obtain ⟨b, hb, hrest⟩ := hdata q (by omega)
        refine ⟨b, ?_, hrest⟩
        rw [hrd, if_neg (fun h => by have := hinj q j (by omega) hjl h; omega), hb]
    obtain ⟨s1, hloop, h1a, h1t, h1m, h1d, h1f, h1data⟩ :=
      ih (j + 1) s2 (by omega) hs2a hfree2 hdata2
    refine ⟨s1, ?_, h1a, ?_, ?_, ?_, ?_, h1data⟩
    · unfold allocLoop
      rw [ha, hb0]
      simp only
      rw [hwbs]
      have hchk : ¬ (Int.ofNat w < 0 ∨
          Int.ofNat B.length < Int.ofNat (min (250 * j) B.length) + Int.ofNat w) := by
        rw [hmin]
        simp only [Int.ofNat_eq_coe]
        omega
      rw [if_neg hchk, hmin]
      simp only [Int.ofNat_eq_coe, Int.toNat_ofNat]
      rw [hbuf2]
      unfold FREE_NEXT_BLOCK_OFFSET at hnext0 ⊢
      rw [dnext, hnext0, hbuf3, hs2, if_neg (by rw [hwr]; decide)]
      have hnobreak : ¬ (fl.getD (j + 1) 0 = 0 ∧ r ≠ 0) := by
        intro hcon
        obtain ⟨h0, hr⟩ := hcon
        exact hnz (j + 1) (by omega) h0
      rw [if_neg hnobreak]
      have e1 : 250 * j + w = min (250 * (j + 1)) B.length := by omega
      have e2 : ((B.length - 250 * j : Nat) : Int) - (w : Int) =
          ((B.length - 250 * (j + 1) : Nat) : Int) := by
        omega
      rw [e1]
      simp only [Int.ofNat_eq_coe] at hloop ⊢
      rw [e2]
      exact hloop
    · rw [h1t, ← hs2, writeBlock_table]
    · rw [h1m, hmx2]
    · rw [h1d, hdb2]
    · intro b hb
      rw [h1f b (fun q hq1 hq2 => hb q (by omega) hq2), hrd,
        if_neg (hb j (le_refl _) (by omega))]

theorem writeFinish_globals (e : Errno) (fd : Int) (L : Int) (clock : Nat → Nat)
    (i : Int) (sb ib : Block) (head fb : Int) (k : Nat) (r : Int) (s1 s3 : State) (c : Int)
    (h : writeFinish e fd L clock i sb ib head fb k r s1 = .ret c s3) :
    s3.maxNumberOfFiles = s1.maxNumberOfFiles ∧ s3.diskListHead = s1.diskListHead := by
  unfold writeFinish at h
  simp only at h
  split at h
  · simp only [Outcome.ret.injEq] at h
    rw [← h.2]
    exact ⟨writeBlock_maxFiles _ _ _ _, writeBlock_diskList _ _ _ _⟩
  · split at h
    · simp only [Outcome.ret.injEq] at h
      rw [← h.2]
      exact ⟨by rw [writeBlock_maxFiles, writeBlock_maxFiles],
        by rw [writeBlock_diskList, writeBlock_diskList]⟩
    · have h3 : s3 = setFilePointer (writeBlock s1.activeDisk i
          (memcpy (writeInt (writeInt ib INODE_FILE_SIZE_OFFSET (L - r))
            INODE_DATA_BLOCK_OFFSET head) INODE_MOD_TIME_STAMP_OFFSET (getTimestamp clock))
          (writeBlock s1.activeDisk SUPER_BLOCK (writeInt sb FB_OFFSET fb) s1).2).2 fd 0 := by
        split at h
        · simp only [Outcome.ret.injEq] at h
          exact h.2.symm
        · simp only [Outcome.ret.injEq] at h
          exact h.2.symm
      rw [h3]
      refine ⟨?_, ?_⟩
      · show (writeBlock _ _ _ _).2.maxNumberOfFiles = _
        rw [writeBlock_maxFiles, writeBlock_maxFiles]
      · show (writeBlock _ _ _ _).2.diskListHead = _
        rw [writeBlock_diskList, writeBlock_diskList]

theorem getD_of_nodup (fl : List Int) (hnd : fl.Nodup) :
    ∀ i j, i < fl.length → j < fl.length → fl.getD i 0 = fl.getD j 0 → i = j := by
  intro i j hi hj h
  rw [List.getD_eq_getElem _ _ hi, List.getD_eq_getElem _ _ hj] at h
  exact (List.Nodup.getElem_inj_iff hnd).mp h

theorem headD_drop (l : List Int) (n : Nat) : (l.drop n).headD 0 = l.getD n 0 := by
  rw [List.headD_eq_head?_getD, List.head?_drop, List.getD_eq_getElem?_getD]

theorem headD_take (l : List Int) (n : Nat) (hn : 1 ≤ n) : (l.take n).headD 0 = l.getD 0 0 := by
  cases l with
  | nil => simp
  | cons x l =>
    obtain ⟨k, rfl⟩ : ∃ k, n = k + 1 := ⟨n - 1, by omega⟩
    simp

theorem mem_take_getD (l : List Int) (n : Nat) (hn : n ≤ l.length) (b : Int)
    (h : b ∉ l.take n) : ∀ q, q < n → b ≠ l.getD q 0 := by
  intro q hq hc
  apply h
  rw [hc, List.getD_eq_getElem _ _ (by omega)]
  rw [List.mem_take_iff_getElem]
  exact ⟨q, by omega, rfl⟩

theorem writeFinish_any (e : Errno) (fd : Int) (L : Int) (clock : Nat → Nat) (i : Nat)
    (sb0 sb ib : Block) (head fb : Int) (k : Nat) (r : Int) (s1 : State) (a : Int)
    (ha : s1.activeDisk = a) (hi : 0 < i)
    (hsb : readBlock a SUPER_BLOCK s1 = some sb0)
    (hib : readBlock a (Int.ofNat i) s1 = some ib) :
    ∃ c s3, writeFinish e fd L clock (Int.ofNat i) sb ib head fb k r s1 = .ret c s3 ∧
      s3.activeDisk = a ∧
      s3.fileDescriptorTable = (setFilePointer s1 fd 0).fileDescriptorTable ∧
      ∀ b, readBlock a b s3 =
        if b = Int.ofNat i then
          some (memcpy (writeInt (writeInt ib INODE_FILE_SIZE_OFFSET (L - r))
            INODE_DATA_BLOCK_OFFSET head) INODE_MOD_TIME_STAMP_OFFSET (getTimestamp clock))
        else if b = SUPER_BLOCK then some (writeInt sb FB_OFFSET fb)
        else readBlock a b s1 := by
  have hw1 := writeBlock_fst_of_read a SUPER_BLOCK s1 sb0 (writeInt sb FB_OFFSET fb) hsb
  have hrd1 := fun b => readBlock_writeBlock a SUPER_BLOCK b s1 sb0 (writeInt sb FB_OFFSET fb) hsb
  generalize hs2 : (writeBlock a SUPER_BLOCK (writeInt sb FB_OFFSET fb) s1).2 = s2 at hrd1
  have hib2 : readBlock a (Int.ofNat i) s2 = some ib := by
    rw [hrd1, if_neg (by simp only [SUPER_BLOCK, Int.ofNat_eq_coe]; omega), hib]
  generalize hinode : memcpy (writeInt (writeInt ib INODE_FILE_SIZE_OFFSET (L - r))
    INODE_DATA_BLOCK_OFFSET head) INODE_MOD_TIME_STAMP_OFFSET (getTimestamp clock) = inode2
  have hw2 := writeBlock_fst_of_read a (Int.ofNat i) s2 ib inode2 hib2
  have hrd2 := fun b => readBlock_writeBlock a (Int.ofNat i) b s2 ib inode2 hib2
  generalize hs3 : (writeBlock a (Int.ofNat i) inode2 s2).2 = s3 at hrd2
  have hs2a : s2.activeDisk = a := by rw [← hs2, writeBlock_activeDisk, ha]
  refine ⟨if 0 < k then e.FILE_WRITE_ERROR else 1, setFilePointer s3 fd 0, ?_, ?_, ?_, ?_⟩
  · unfold writeFinish
    simp only
    rw [ha, hs2, if_neg (by rw [hw1]; decide), hinode, hs3, if_neg (by rw [hw2]; decide)]
    split_ifs <;> rfl
  · show s3.activeDisk = a
    rw [← hs3, writeBlock_activeDisk, hs2a]
  · unfold setFilePointer
    simp only
    rw [← hs3, writeBlock_table, ← hs2, writeBlock_table]
  · intro b
    rw [readBlock_setFilePointer, hrd2, hrd1]

/-- The allocation loop of `tfs_writeFile` on a free list `fl` that is not empty
and shorter than the `n` blocks the write needs: started on block `fl[j]`, it
rewrites the blocks `fl[j], ...` to the end of the list, 250 bytes each, keeps
their next fields, and leaves the loop through the `break` with `freeBlock = 0`. -/
theorem allocLoop_short (e : Errno) (B : List Nat) (a : Int) (fl : List Int) (n : Nat)
    (hmn : fl.length < n)
    (hnz : ∀ j, j < fl.length → fl.getD j 0 ≠ 0)
    (hinj : ∀ i j, i < fl.length → j < fl.length → fl.getD i 0 = fl.getD j 0 → i = j)
    (hL0 : 250 * n < B.length + 250) :
    ∀ (r j : Nat) (s : State), j + r + 1 = fl.length → s.activeDisk = a →
      (∀ q, j ≤ q → q < fl.length → ∃ b, readBlock a (fl.getD q 0) s = some b ∧
        b.length = 256 ∧ readInt b FREE_NEXT_BLOCK_OFFSET = fl.getD (q + 1) 0) →
      (∀ q, q < j → ∃ b, readBlock a (fl.getD q 0) s = some b ∧ b.length = 256 ∧
        readInt b DATA_NEXT_BLOCK_OFFSET = fl.getD (q + 1) 0) →
      ∃ s1, allocLoop e B (n - j) (fl.getD j 0) (250 * j)
          (Int.ofNat (B.length - 250 * j)) s =
            .done 0 (n - fl.length) (Int.ofNat (B.length - 250 * fl.length)) s1 ∧
        s1.activeDisk = a ∧ s1.fileDescriptorTable = s.fileDescriptorTable ∧
        s1.maxNumberOfFiles = s.maxNumberOfFiles ∧ diskBlocks s1 a = diskBlocks s a ∧
        (∀ b : Int, (∀ q, j ≤ q → q < fl.length → b ≠ fl.getD q 0) →
          readBlock a b s1 = readBlock a b s) ∧
        (∀ q, q < fl.length → ∃ b, readBlock a (fl.getD q 0) s1 = some b ∧ b.length = 256 ∧
          readInt b DATA_NEXT_BLOCK_OFFSET = fl.getD (q + 1) 0) := by
  intro r
  induction r with
  | zero =>
    intro j s hj ha hfree hdata
    have hjl : j < fl.length := by omega
    obtain ⟨b0, hb0, hlen0, hnext0⟩ := hfree j (le_refl _) hjl
    obtain ⟨k, hk⟩ : ∃ k, n - j = k + 1 := ⟨n - j - 1, by omega⟩
    have hwbs : (if Int.ofNat (B.length - 250 * j) ≥ 250 then (250 : Int)
        else Int.ofNat (B.length - 250 * j)) = 250 := by
      simp only [Int.ofNat_eq_coe]
      split_ifs <;> omega
    obtain ⟨dl, dnext, _⟩ := dataBlock_fields b0 B (250 * j) 250 hlen0 (le_refl _) (by omega)
    generalize hbuf2 : memcpy (setByte b0 BLOCK_NUMBER_OFFSET DATA_BLOCK_TYPE)
      DATA_BLOCK_DATA_OFFSET (slice B (250 * j) 250) = buf2 at dl dnext
    have hwr := writeBlock_fst_of_read a (fl.getD j 0) s b0 buf2 hb0
    have hrd := fun b1 => readBlock_writeBlock a (fl.getD j 0) b1 s b0 buf2 hb0
    have hmx2 := writeBlock_maxFiles a (fl.getD j 0) buf2 s
    have hdb2 := diskBlocks_writeBlock a (fl.getD j 0) buf2 s a
    have htb2 := writeBlock_table a (fl.getD j 0) buf2 s
    generalize hs2 : (writeBlock a (fl.getD j 0) buf2 s).2 = s2 at hrd hmx2 hdb2 htb2
    have hs2a : s2.activeDisk = a := by rw [← hs2, writeBlock_activeDisk, ha]
    have hend : fl.getD (j + 1) 0 = 0 := by
      rw [List.getD_eq_getElem?_getD, List.getElem?_eq_none (by omega)]
      rfl
    refine ⟨s2, ?_, hs2a, htb2, hmx2, hdb2, ?_, ?_⟩
    · rw [hk]
      unfold allocLoop
      rw [ha, hb0]
      simp only
      rw [hwbs]
      have hchk : ¬ ((250 : Int) < 0 ∨
          Int.ofNat B.length < Int.ofNat (250 * j) + 250) := by
        simp only [Int.ofNat_eq_coe]
        omega
      rw [if_neg hchk]
      have h250 : (250 : Int).toNat = 250 := rfl
      rw [h250, hbuf2]
      unfold FREE_NEXT_BLOCK_OFFSET at hnext0 ⊢
      rw [dnext, hnext0, hend, if_neg (show ¬ k = 0 by omega), hs2,
        if_neg (by rw [hwr]; decide),
        if_pos ⟨rfl, by omega⟩]
      have e1 : k = n - fl.length := by omega
      have e2 : Int.ofNat (B.length - 250 * j) - 250 =
          Int.ofNat (B.length - 250 * fl.length) := by
        simp only [Int.ofNat_eq_coe]
        omega
      rw [e1, e2]
    · intro b hb
      rw [hrd, if_neg (hb j (le_refl _) hjl)]
    · intro q hq
      by_cases hqj : q = j
      · subst hqj
        refine ⟨buf2, by rw [hrd, if_pos rfl], dl, ?_⟩
        unfold DATA_NEXT_BLOCK_OFFSET
        rw [dnext]
        unfold FREE_NEXT_BLOCK_OFFSET at hnext0
        exact hnext0
      · obtain ⟨b, hb, hrest⟩ := hdata q (by omega)
        refine ⟨b, ?_, hrest⟩
        rw [hrd, if_neg (fun h => hqj (hinj q j hq hjl h)), hb]
  | succ r ih =>
    intro j s hj ha hfree hdata
    have hjl : j < fl.length := by omega
    obtain ⟨b0, hb0, hlen0, hnext0⟩ := hfree j (le_refl _) hjl
    obtain ⟨k, hk⟩ : ∃ k, n - j = k + 1 := ⟨n - j - 1, by omega⟩
    have hwbs : (if Int.ofNat (B.length - 250 * j) ≥ 250 then (250 : Int)
        else Int.ofNat (B.length - 250 * j)) = 250 := by
      simp only [Int.ofNat_eq_coe]
      split_ifs <;> omega
    obtain ⟨dl, dnext, _⟩ := dataBlock_fields b0 B (250 * j) 250 hlen0 (le_refl _) (by omega)
    generalize hbuf2 : memcpy (setByte b0 BLOCK_NUMBER_OFFSET DATA_BLOCK_TYPE)
      DATA_BLOCK_DATA_OFFSET (slice B (250 * j) 250) = buf2 at dl dnext
    have hwr := writeBlock_fst_of_read a (fl.getD j 0) s b0 buf2 hb0
    have hrd := fun b1 => readBlock_writeBlock a (fl.getD j 0) b1 s b0 buf2 hb0
    have hmx2 := writeBlock_maxFiles a (fl.getD j 0) buf2 s
    have hdb2 := diskBlocks_writeBlock a (fl.getD j 0) buf2 s a
    have htb2 := writeBlock_table a (fl.getD j 0) buf2 s
    generalize hs2 : (writeBlock a (fl.getD j 0) buf2 s).2 = s2 at hrd hmx2 hdb2 htb2
    have hs2a : s2.activeDisk = a := by rw [← hs2, writeBlock_activeDisk, ha]
    have hfree2 : ∀ q, j + 1 ≤ q → q < fl.length → ∃ b, readBlock a (fl.getD q 0) s2 = some b ∧
        b.length = 256 ∧ readInt b FREE_NEXT_BLOCK_OFFSET = fl.getD (q + 1) 0 := by
      intro q hq hql
      obtain ⟨b, hb, hrest⟩ := hfree q (by omega) hql
      refine ⟨b, ?_, hrest⟩
      rw [hrd, if_neg (fun h => by have := hinj q j hql hjl h; omega), hb]
    have hdata2 : ∀ q, q < j + 1 → ∃ b, readBlock a (fl.getD q 0) s2 = some b ∧
        b.length = 256 ∧ readInt b DATA_NEXT_BLOCK_OFFSET = fl.getD (q + 1) 0 := by
      intro q hq
      by_cases hqj : q = j
      · subst hqj
        refine ⟨buf2, by rw [hrd, if_pos rfl], dl, ?_⟩
        unfold DATA_NEXT_BLOCK_OFFSET
        rw [dnext]
        unfold FREE_NEXT_BLOCK_OFFSET at hnext0
        exact hnext0
      · obtain ⟨b, hb, hrest⟩ := hdata q (by omega)
        refine ⟨b, ?_, hrest⟩
        rw [hrd, if_neg (fun h => by have := hinj q j (by omega) hjl h; omega), hb]
    obtain ⟨s1, hloop, h1a, h1t, h1m, h1d, h1f, h1data⟩ :=
      ih (j + 1) s2 (by omega) hs2a hfree2 hdata2
    refine ⟨s1, ?_, h1a, ?_, ?_, ?_, ?_, h1data⟩
    · rw [hk]
      unfold allocLoop
      rw [ha, hb0]
      simp only
      rw [hwbs]
      have hchk : ¬ ((250 : Int) < 0 ∨
          Int.ofNat B.length < Int.ofNat (250 * j) + 250) := by
        simp only [Int.ofNat_eq_coe]
        omega
      rw [if_neg hchk]
      have h250 : (250 : Int).toNat = 250 := rfl
      rw [h250, hbuf2]
      unfold FREE_NEXT_BLOCK_OFFSET at hnext0 ⊢
      rw [dnext, hnext0, if_neg (show ¬ k = 0 by omega), hs2, if_neg (by rw [hwr]; decide)]
      have hnobreak : ¬ (fl.getD (j + 1) 0 = 0 ∧ k ≠ 0) := by
        intro hcon
        exact hnz (j + 1) (by omega) hcon.1
      rw [if_neg hnobreak]
      have e1 : k = n - (j + 1) := by omega
      have e2 : Int.ofNat (B.length - 250 * j) - 250 =
          Int.ofNat (B.length - 250 * (j + 1)) := by
        simp only [Int.ofNat_eq_coe]
        omega
      have e3 : 250 * j + 250 = 250 * (j + 1) := by omega
      rw [e1, e2, e3]
      exact hloop
    · rw [h1t, htb2]
    · rw [h1m, hmx2]
    · rw [h1d, hdb2]
    · intro b hb
      rw [h1f b (fun q hq1 hq2 => hb q (by omega) hq2), hrd,
        if_neg (hb j (le_refl _) (by omega))]

/-- The allocation loop of `tfs_writeFile` entered with the free-list head of the
superblock, for a write of at least one byte that needs `n` blocks, whatever the
length of the free list `fl`: the loop ends, the first `n` blocks of `fl` (all of
them when `fl` is shorter) then form a chain in that order, `freeBlock` is the
head of the rest of `fl`, fewer bytes remain than were to be written, and no
block besides block 0 and those of the chain has changed. -/
theorem allocLoop_any (e : Errno) (B : List Nat) (a : Int) (fl : List Int) (n : Nat)
    (s : State) (sb : Block)
    (hact : s.activeDisk = a)
    (hsb : readBlock a SUPER_BLOCK s = some sb) (hsbl : sb.length = 256)
    (hfree : Linked a s FREE_NEXT_BLOCK_OFFSET (fun _ => True) (readInt sb FB_OFFSET) fl)
    (hnd : fl.Nodup) (hn1 : 1 ≤ n)
    (hL1 : B.length ≤ 250 * n) (hL0 : 250 * n < B.length + 250) :
    ∃ fb k r s1, allocLoop e B n (readInt sb FB_OFFSET) 0 (Int.ofNat B.length) s =
        .done fb k r s1 ∧
      fb = (fl.drop n).headD 0 ∧ 0 ≤ r ∧ r < Int.ofNat B.length ∧
      s1.activeDisk = a ∧ s1.fileDescriptorTable = s.fileDescriptorTable ∧
      s1.maxNumberOfFiles = s.maxNumberOfFiles ∧ diskBlocks s1 a = diskBlocks s a ∧
      (∃ sb0, readBlock a SUPER_BLOCK s1 = some sb0) ∧
      (∀ b, b ≠ 0 → b ∉ fl.take n → readBlock a b s1 = readBlock a b s) ∧
      Linked a s1 DATA_NEXT_BLOCK_OFFSET (fun _ => True) ((fl.take n).headD 0) (fl.take n) := by
  obtain ⟨hhead, hfacts⟩ := linked_index _ _ _ _ fl _ hfree
  have hnz : ∀ j, j < fl.length → fl.getD j 0 ≠ 0 := fun j hj => (hfacts j hj).1
  have hblk : ∀ q, q < fl.length → ∃ b, readBlock a (fl.getD q 0) s = some b ∧
      b.length = 256 ∧ readInt b FREE_NEXT_BLOCK_OFFSET = fl.getD (q + 1) 0 :=
    fun q hq => (hfacts q hq).2
  have hinj := getD_of_nodup fl hnd
  have hLpos : 1 ≤ B.length := by omega
  by_cases hA : n ≤ fl.length
  · -- enough free blocks
    obtain ⟨s1, hloop, h1a, h1t, h1m, h1d, h1f, h1data⟩ :=
      allocLoop_linked e B a fl n hA hnz hinj hL1 hL0 n 0 s (by omega) hact
        (fun q _ hq => hblk q hq) (fun q hq => absurd hq (by omega))
    simp only [Nat.mul_zero, Nat.zero_min, Nat.sub_zero] at hloop
    rw [← hhead] at hloop
    refine ⟨fl.getD n 0, 0, 0, s1, hloop, (headD_drop fl n).symm, le_refl _, ?_, h1a, h1t, h1m,
      h1d, ⟨sb, ?_⟩, ?_, ?_⟩
    · simp only [Int.ofNat_eq_coe]
      omega
    · rw [h1f SUPER_BLOCK (fun q _ hq => (hnz q (by omega)).symm), hsb]
    · intro b _ hbt
      exact h1f b (fun q _ hq => mem_take_getD fl n hA b hbt q hq)
    · exact linked_take a s1 DATA_NEXT_BLOCK_OFFSET fl n hA
        (fun q hq => ⟨hnz q (by omega), h1data q hq⟩)
  · by_cases hC : fl.length = 0
    · -- the free list is empty: the loop takes block 0 for a free block
      have hfl : fl = [] := List.length_eq_zero.mp hC
      subst hfl
      have hfb0 : readInt sb FB_OFFSET = 0 := hfree
      obtain ⟨k, hk⟩ : ∃ k, n = k + 1 := ⟨n - 1, by omega⟩
      subst hk
      generalize hw : min 250 B.length = w
      have hw250 : w ≤ 250 := by omega
      have hwbs : (if Int.ofNat B.length ≥ 250 then (250 : Int)
          else Int.ofNat B.length) = Int.ofNat w := by
        simp only [Int.ofNat_eq_coe]
        split_ifs <;> omega
      obtain ⟨dl, dnext, _⟩ := dataBlock_fields sb B 0 w hsbl hw250 (by omega)
      generalize hbuf2 : memcpy (setByte sb BLOCK_NUMBER_OFFSET DATA_BLOCK_TYPE)
        DATA_BLOCK_DATA_OFFSET (slice B 0 w) = buf2 at dl dnext
      generalize hbuf3 : (if k = 0 then writeInt buf2 DATA_NEXT_BLOCK_OFFSET 0 else buf2) = buf3
      have hwr := writeBlock_fst_of_read a SUPER_BLOCK s sb buf3 hsb
      have hrd := fun b1 => readBlock_writeBlock a SUPER_BLOCK b1 s sb buf3 hsb
      have hmx2 := writeBlock_maxFiles a SUPER_BLOCK buf3 s
      have hdb2 := diskBlocks_writeBlock a SUPER_BLOCK buf3 s a
      have htb2 := writeBlock_table a SUPER_BLOCK buf3 s
      generalize hs2 : (writeBlock a SUPER_BLOCK buf3 s).2 = s2 at hrd hmx2 hdb2 htb2
      have hs2a : s2.activeDisk = a := by rw [← hs2, writeBlock_activeDisk, hact]
      have hnx : readInt buf2 FREE_NEXT_BLOCK_OFFSET = 0 := by
        unfold FREE_NEXT_BLOCK_OFFSET
        rw [dnext]
        exact hfb0
      refine ⟨0, k, Int.ofNat B.length - Int.ofNat w, s2, ?_, rfl, ?_, ?_, hs2a, htb2, hmx2,
        hdb2, ⟨buf3, by rw [hrd, if_pos rfl]⟩, ?_, rfl⟩
      · rw [hfb0]
        unfold allocLoop
        rw [hact]
        have hsb' : readBlock a 0 s = some sb := hsb
        rw [hsb']
        simp only
        rw [hwbs]
        have hchk : ¬ (Int.ofNat w < 0 ∨
            Int.ofNat B.length < Int.ofNat 0 + Int.ofNat w) := by
          simp only [Int.ofNat_eq_coe]
          omega
        rw [if_neg hchk]
        simp only [Int.ofNat_eq_coe, Int.toNat_ofNat]
        rw [hbuf2, hnx, hbuf3]
        have hs2' : (writeBlock a 0 buf3 s).2 = s2 := hs2
        have hwr' : (writeBlock a 0 buf3 s).1 = 0 := hwr
        rw [hs2', if_neg (by rw [hwr']; decide)]
        by_cases hk0 : k = 0
        · rw [if_neg (fun hc : (0 : Int) = 0 ∧ k ≠ 0 => hc.2 hk0)]
          subst hk0
          unfold allocLoop
          rfl
        · rw [if_pos ⟨rfl, hk0⟩]
      · simp only [Int.ofNat_eq_coe]
        omega
      · simp only [Int.ofNat_eq_coe]
        omega
      · intro b hb0 _
        rw [hrd, if_neg (show ¬ b = SUPER_BLOCK from hb0)]
    · -- the free list is shorter than the write needs
      have hmn : fl.length < n := by omega
      obtain ⟨s1, hloop, h1a, h1t, h1m, h1d, h1f, h1data⟩ :=
        allocLoop_short e B a fl n hmn hnz hinj hL0 (fl.length - 1) 0 s (by omega) hact
          (fun q _ hq => hblk q hq) (fun q hq => absurd hq (by omega))
      simp only [Nat.mul_zero, Nat.sub_zero] at hloop
      rw [← hhead] at hloop
      have htake : fl.take n = fl := List.take_of_length_le (by omega)
      have hdrop : fl.drop n = [] := List.drop_of_length_le (by omega)
      refine ⟨0, n - fl.length, Int.ofNat (B.length - 250 * fl.length), s1, hloop, ?_, ?_, ?_,
        h1a, h1t, h1m, h1d, ⟨sb, ?_⟩, ?_, ?_⟩
      · rw [hdrop]
        rfl
      · simp only [Int.ofNat_eq_coe]
        omega
      · simp only [Int.ofNat_eq_coe]
        omega
      · rw [h1f SUPER_BLOCK (fun q _ hq => (hnz q (by omega)).symm), hsb]
      · intro b _ hbt
        rw [htake] at hbt
        exact h1f b (fun q _ hq hc => hbt (by
          rw [hc, List.getD_eq_getElem _ _ hq]
          exact List.getElem_mem _))
      · have := linked_take a s1 DATA_NEXT_BLOCK_OFFSET fl fl.length (le_refl _)
          (fun q hq => by
            refine ⟨hnz q hq, ?_⟩
            obtain ⟨b, hb, hbl, hbn⟩ := h1data q hq
            refine ⟨b, hb, hbl, ?_⟩
            rw [hbn]
            by_cases hlast : q + 1 = fl.length
            · rw [if_pos hlast, List.getD_eq_getElem?_getD, List.getElem?_eq_none (by omega)]
              rfl
            · rw [if_neg hlast])
        rw [List.take_length] at this
        rw [htake]
        exact this

/-- The first write to a file in terms of lists: with free list `fl`, an open
descriptor whose inode is not on the free list and records size 0, and a buffer
`B` of at least one byte that needs `n` blocks, `tfs_writeFile` returns, makes the
first `n` free blocks (all of them when the list is shorter) the data chain of
the file, in order, leaves the rest of the free list as the free list, records a
size other than 0, and changes no other block besides the superblock and the
inode. -/
theorem tfs_writeFile_first_any (e : Errno) (fd : Int) (B : List Nat) (clock : Nat → Nat)
    (s : State) (a : Int) (en : fileDescriptorTableEntry) (sb ib : Block) (fl : List Int)
    (n : Nat)
    (hact : s.activeDisk = a) (hane : a ≠ 0)
    (hfd : tableGet s.fileDescriptorTable fd = some (some en))
    (hsb : readBlock a SUPER_BLOCK s = some sb) (hsbl : sb.length = 256)
    (hib : readBlock a en.inodeNumber s = some ib) (hibl : ib.length = 256)
    (hsize : readInt ib INODE_FILE_SIZE_OFFSET = 0)
    (hfree : Linked a s FREE_NEXT_BLOCK_OFFSET (fun _ => True) (readInt sb FB_OFFSET) fl)
    (hnd : fl.Nodup) (hx0 : en.inodeNumber ≠ 0) (hxfl : en.inodeNumber ∉ fl)
    (hn1 : 1 ≤ n)
    (hL1 : B.length ≤ 250 * n) (hL0 : 250 * n < B.length + 250)
    (hint : B.length < 2147483648) :
    ∃ c s1 ib1 sb1,
      tfs_writeFile e fd B (Int.ofNat B.length) clock s = .ret c s1 ∧
      s1.activeDisk = a ∧ s1.maxNumberOfFiles = s.maxNumberOfFiles ∧
      diskBlocks s1 a = diskBlocks s a ∧
      s1.fileDescriptorTable = (setFilePointer s fd 0).fileDescriptorTable ∧
      readBlock a SUPER_BLOCK s1 = some sb1 ∧ sb1.length = 256 ∧
      readInt sb1 FB_OFFSET = (fl.drop n).headD 0 ∧
      readInt sb1 IB_OFFSET = readInt sb IB_OFFSET ∧
      readBlock a en.inodeNumber s1 = some ib1 ∧ ib1.length = 256 ∧
      readInt ib1 INODE_NEXT_INODE_OFFSET = readInt ib INODE_NEXT_INODE_OFFSET ∧
      readInt ib1 INODE_FILE_SIZE_OFFSET ≠ 0 ∧
      readInt ib1 INODE_DATA_BLOCK_OFFSET = (fl.take n).headD 0 ∧
      Linked a s1 DATA_NEXT_BLOCK_OFFSET (fun _ => True) ((fl.take n).headD 0) (fl.take n) ∧
      (∀ b, b ≠ 0 → b ≠ en.inodeNumber → b ∉ fl.take n →
        readBlock a b s1 = readBlock a b s) := by
  subst hact
  obtain ⟨hhead, hfacts⟩ := linked_index _ _ _ _ fl _ hfree
  have hrange := linked_range _ _ _ _ fl _ (readInt_range _ _).1 (readInt_range _ _).2 hfree
  -- the inode number as a natural number
  obtain ⟨_, _, _, hi0, _, _, _, _⟩ := readBlock_some _ _ _ _ hib
  obtain ⟨i, hi⟩ : ∃ i : Nat, en.inodeNumber = Int.ofNat i := ⟨en.inodeNumber.toNat, by
    simp only [Int.ofNat_eq_coe]
    omega⟩
  have hipos : 0 < i := by
    have := hx0
    rw [hi] at this
    simp only [Int.ofNat_eq_coe] at this
    omega
  -- the loop
  obtain ⟨fb, k, r, s1, hloop, hfb, hr0, hrL, h1a, h1t, h1m, h1d, ⟨sb0, hsb0⟩, h1f, h1lk⟩ :=
    allocLoop_any e B s.activeDisk fl n s sb rfl hsb hsbl hfree hnd hn1 hL1 hL0
  have hxtake : en.inodeNumber ∉ fl.take n := fun hc => hxfl (List.mem_of_mem_take hc)
  have hib1 : readBlock s.activeDisk (Int.ofNat i) s1 = some ib := by
    rw [← hi, h1f en.inodeNumber hx0 hxtake, hib]
  obtain ⟨c, s3, hfin, h3a, h3t, h3rd⟩ := writeFinish_any e fd (Int.ofNat B.length) clock i sb0
    sb ib (readInt sb FB_OFFSET) fb k r s1 s.activeDisk h1a hipos hsb0 hib1
  obtain ⟨h3m, h3d⟩ := writeFinish_globals _ _ _ _ _ _ _ _ _ _ _ _ _ _ hfin
  -- the head of the free list is a block number or 0
  have hh0 : 0 ≤ readInt sb FB_OFFSET := by
    cases fl with
    | nil =>
      have : readInt sb FB_OFFSET = 0 := hfree
      omega
    | cons f fl1 =>
      obtain ⟨_, bh, hbh, _⟩ := hfacts 0 (by simp)
      obtain ⟨_, _, _, g0, _, _, _, _⟩ := readBlock_some _ _ _ _ hbh
      rw [hhead]
      exact g0
  obtain ⟨fl6, fr6, fr10⟩ := writeFinish_fields ib (Int.ofNat B.length - r) (readInt sb FB_OFFSET)
    clock hibl (by omega) (by simp only [Int.ofNat_eq_coe] at hrL ⊢; omega) hh0
    (readInt_range _ _).2
  obtain ⟨m, hm, hm1, hm0⟩ := blocksNeeded_spec B.length
  have hmn : m = n := by omega
  subst hmn
  have htk : (fl.take m).headD 0 = readInt sb FB_OFFSET := by
    rw [headD_take _ _ hn1, hhead]
  have hfbr : -2147483648 ≤ fb ∧ fb < 2147483648 := by
    rw [hfb, headD_drop]
    by_cases hml : m < fl.length
    · rw [List.getD_eq_getElem _ _ hml]
      exact hrange _ (List.getElem_mem _)
    · rw [List.getD_eq_getElem?_getD, List.getElem?_eq_none (by omega)]
      exact ⟨by decide, by decide⟩
  refine ⟨c, s3, memcpy (writeInt (writeInt ib INODE_FILE_SIZE_OFFSET (Int.ofNat B.length - r))
    INODE_DATA_BLOCK_OFFSET (readInt sb FB_OFFSET)) INODE_MOD_TIME_STAMP_OFFSET
    (getTimestamp clock), writeInt sb FB_OFFSET fb, ?_, h3a, ?_, ?_, ?_, ?_, ?_, ?_,
    ?_, ?_, fl6, ?_, ?_, ?_, ?_, ?_⟩
  · generalize Int.ofNat B.length = L at hm hloop hfin ⊢
    unfold tfs_writeFile
    rw [if_neg hane, hfd]
    simp only
    rw [hsb]
    simp only
    rw [hib]
    simp only
    unfold writeBody
    simp only
    rw [hsize, hm]
    simp only [ne_eq, not_true_eq_false, if_false]
    unfold writeAlloc
    simp only
    rw [if_neg (by simp)]
    simp only [Int.ofNat_eq_coe, Int.toNat_ofNat]
    simp only [Int.ofNat_eq_coe] at hloop hfin ⊢
    rw [hloop]
    simp only
    rw [hi]
    exact hfin
  · rw [h3m, h1m]
  · unfold diskBlocks
    rw [h3d]
    exact h1d
  · rw [h3t]
    unfold setFilePointer
    simp only
    rw [h1t]
  · rw [h3rd, if_neg (by
      simp only [SUPER_BLOCK, Int.ofNat_eq_coe]
      omega), if_pos rfl]
  · rw [length_writeInt _ _ _ (by unfold FB_OFFSET; omega), hsbl]
  · unfold FB_OFFSET
    rw [readInt_writeInt_same _ _ _ (by omega), ← hfb]
    exact wrap32_of_range _ hfbr.1 hfbr.2
  · unfold FB_OFFSET IB_OFFSET
    rw [readInt_writeInt_disjoint _ _ _ _ (by omega) (by omega)]
  · rw [hi, h3rd, if_pos rfl]
  · unfold INODE_NEXT_INODE_OFFSET INODE_FILE_SIZE_OFFSET INODE_DATA_BLOCK_OFFSET
      INODE_MOD_TIME_STAMP_OFFSET
    have l1 : (writeInt ib 6 (Int.ofNat B.length - r)).length = 256 := by
      rw [length_writeInt _ _ _ (by omega), hibl]
    have l2 : (writeInt (writeInt ib 6 (Int.ofNat B.length - r)) 10
        (readInt sb FB_OFFSET)).length = 256 := by
      rw [length_writeInt _ _ _ (by omega), l1]
    rw [readInt_memcpy_disjoint _ _ _ _ (by omega) (by omega),
      readInt_writeInt_disjoint _ _ _ _ (by omega) (by omega),
      readInt_writeInt_disjoint _ _ _ _ (by omega) (by omega)]
  · rw [fr6]
    omega
  · rw [fr10, htk]
  · refine linked_frame _ _ _ _ _ _ _ (fun y hy => ?_) h1lk
    have hyfl : y ∈ fl := List.mem_of_mem_take hy
    have hy0 : y ≠ 0 := (linked_mem _ _ _ _ _ _ hfree y hyfl).1
    have hyx : y ≠ Int.ofNat i := by
      rw [← hi]
      exact fun hc => hxfl (hc ▸ hyfl)
    rw [h3rd, if_neg hyx, if_neg (show ¬ y = SUPER_BLOCK from hy0)]
  · intro b hb0 hbx hbt
    rw [h3rd, if_neg (by rw [← hi]; exact hbx), if_neg (show ¬ b = SUPER_BLOCK from hb0)]
    exact h1f b hb0 hbt

theorem mem_chains (fs : List (Int × List Int)) (p : Int × List Int) (hp : p ∈ fs)
    (y : Int) (hy : y ∈ p.2) : y ∈ (fs.map Prod.snd).flatten :=
  List.mem_flatten.mpr ⟨p.2, List.mem_map_of_mem _ hp, hy⟩

theorem length_le_chains : ∀ (fs : List (Int × List Int)) (p : Int × List Int), p ∈ fs →
    p.2.length ≤ (fs.map Prod.snd).flatten.length := by
  intro fs
  induction fs with
  | nil => intro p hp; exact absurd hp (by simp)
  | cons q fs ih =>
    intro p hp
    simp only [List.map_cons, List.flatten_cons, List.length_append]
    rcases List.mem_cons.mp hp with h | h
    · subst h
      omega
    · have := ih p h
      omega

theorem countBlocks_of_chains (s : State) : ∀ (fs : List (Int × List Int))
    (r : List (Int × Block)), r.map Prod.fst = fs.map Prod.fst →
    (∀ p ∈ fs, dataBlocks s p.1 = some p.2) →
    countBlocks s r = some (fs.length + (fs.map Prod.snd).flatten.length) := by
  intro fs
  induction fs with
  | nil =>
    intro r hr _
    cases r with
    | nil => rfl
    | cons q r => simp at hr
  | cons p fs ih =>
    intro r hr hd
    cases r with
    | nil => simp at hr
    | cons q r =>
      simp only [List.map_cons, List.cons.injEq] at hr
      unfold countBlocks
      rw [hr.1, hd p (List.mem_cons_self _ _),
        ih r hr.2 (fun p1 hp1 => hd p1 (List.mem_cons_of_mem _ hp1))]
      simp only [List.length_cons, List.map_cons, List.flatten_cons, List.length_append,
        Option.some.injEq]
      omega

/-- On a volume of the shape `VolInv` the walks from the superblock find the
lists: `fl.length` free blocks, and one inode block for each file together with
the blocks of its data chain. -/
theorem volInv_counts (a : Int) (n : Nat) (fl : List Int) (fs : List (Int × List Int))
    (s : State) (hinv : VolInv a n fl fs s) :
    freeCount s = some fl.length ∧
    usedBlocks s = some (fs.length + (fs.map Prod.snd).flatten.length) := by
  obtain ⟨sb, hsb, _, hfree, hino⟩ := hinv.super
  have hcount := hinv.count
  have hdata := hinv.data
  have hact := hinv.active
  subst hact
  obtain ⟨r, hr, hmap⟩ := freeChain_of_linked s _ fl _ (diskBlocks s s.activeDisk + 1)
    (by rw [hinv.blocks]; omega) hfree
  obtain ⟨r1, hr1, hmap1⟩ := inodeChain_of_linked s _ (fs.map Prod.fst) _
    (diskBlocks s s.activeDisk + 1) (by rw [hinv.blocks, List.length_map]; omega) hino
  constructor
  · unfold freeCount freeList
    rw [hsb]
    simp only
    rw [hr]
    simp only [Option.map_some', Option.some.injEq]
    rw [← hmap, List.length_map]
  · unfold usedBlocks inodeList
    rw [hsb]
    simp only
    rw [hr1]
    simp only [Option.some_bind]
    refine countBlocks_of_chains s fs r1 hmap1 ?_
    intro p hp
    obtain ⟨xb, hxb, hlk, _⟩ := hdata p hp
    unfold dataBlocks
    rw [hxb]
    simp only
    refine dataChain_of_linked s _ p.2 _ _ ?_ hlk
    have := length_le_chains fs p hp
    rw [hinv.blocks]
    omega

theorem volInv_freshVolume (s0 : State) (path : String) (nBytes : Int)
    (hc : 0 ≤ s0.diskCounter) (h1 : 1024 ≤ nBytes) (h2 : nBytes ≤ MAX_BYTES) :
    VolInv (s0.diskCounter + 1) (nBytes / 256).toNat
      ((List.range' 2 ((nBytes / 256).toNat - 2)).map Int.ofNat) []
      (freshVolume s0 path nBytes) := by
  have hinv := openInv_freshVolume s0 path nBytes hc h1 h2
  have hM : MAX_BYTES = 2147483647 := rfl
  rw [hM] at h2
  obtain ⟨sb, hsb, hsbl, hfb, hib⟩ := hinv.super
  refine ⟨hinv.active, hinv.active_ne, hinv.blocks, ?_, ?_, ?_, ?_, ?_⟩
  · refine ⟨sb, hsb, hsbl, ?_, ?_⟩
    · rw [hfb]
      exact linked_of_frees _ _ _ _ 2 (by omega) (by omega)
        (fun j hj hjn => hinv.frees j (by omega) hjn)
    · rw [hib, if_pos rfl]
      rfl
  · intro p hp
    exact absurd hp (by simp)
  · simp only [List.map_nil, List.flatten_nil, List.append_nil]
    refine List.Nodup.map ?_ (List.nodup_range' _ _)
    intro x y hxy
    simp only [Int.ofNat_eq_coe] at hxy
    omega
  · simp only [List.length_map, List.length_range', List.length_nil, List.map_nil,
      List.flatten_nil]
    omega
  · refine ⟨List.replicate ((nBytes / 256 - 1) / 2).toNat none, rfl, ?_, ?_, ?_⟩
    · show (nBytes / 256 - 1) / 2 = _
      simp only [List.length_replicate, Int.ofNat_eq_coe]
      omega
    · intro i en hen
      rw [List.getElem?_replicate] at hen
      split at hen <;> simp at hen
    · intro i j en1 en2 hen
      rw [List.getElem?_replicate] at hen
      split at hen <;> simp at hen

/-- The shape `VolInv` carries over to a state in which one inode block of the
list has been rewritten with the same next-inode field, size and data head, the
other blocks read as before, and the table is again bound to different inodes of
the list. -/
theorem volInv_update (a : Int) (n : Nat) (fl : List Int) (fs : List (Int × List Int))
    (s s1 : State) (x : Int)
    (bx1 : Block) (hinv : VolInv a n fl fs s) (hx : x ∈ fs.map Prod.fst)
    (hact : s1.activeDisk = s.activeDisk) (hblocks : diskBlocks s1 a = diskBlocks s a)
    (hrd : ∀ b, readBlock a b s1 = if b = x then some bx1 else readBlock a b s)
    (hlen : bx1.length = 256)
    (hnext : ∀ bx, readBlock a x s = some bx →
      readInt bx1 INODE_NEXT_INODE_OFFSET = readInt bx INODE_NEXT_INODE_OFFSET ∧
      readInt bx1 INODE_FILE_SIZE_OFFSET = readInt bx INODE_FILE_SIZE_OFFSET ∧
      readInt bx1 INODE_DATA_BLOCK_OFFSET = readInt bx INODE_DATA_BLOCK_OFFSET)
    (htable : ∃ t, s1.fileDescriptorTable = some t ∧ s1.maxNumberOfFiles = Int.ofNat t.length ∧
      (∀ (i : Nat) (en : fileDescriptorTableEntry), t[i]? = some (some en) →
        en.inodeNumber ∈ fs.map Prod.fst) ∧
      ∀ (i j : Nat) (en1 en2 : fileDescriptorTableEntry),
        t[i]? = some (some en1) → t[j]? = some (some en2) →
        en1.inodeNumber = en2.inodeNumber → i = j) :
    VolInv a n fl fs s1 := by
  obtain ⟨sb, hsb, hsbl, hfree, hino⟩ := hinv.super
  obtain ⟨_, _, _, hfi, hfj, hij⟩ := nodup_parts _ _ _ hinv.nodup
  have hx0 : x ≠ 0 := (linked_mem _ _ _ _ _ _ hino x hx).1
  have hxfl : x ∉ fl := fun hc => hfi x hc hx
  refine ⟨hact.trans hinv.active, hinv.active_ne, hblocks.trans hinv.blocks, ?_, ?_, hinv.nodup,
    hinv.count, htable⟩
  · refine ⟨sb, ?_, hsbl, ?_, ?_⟩
    · rw [hrd, if_neg (fun hc : SUPER_BLOCK = x => hx0 hc.symm), hsb]
    · refine linked_frame _ _ _ _ _ _ _ (fun y hy => ?_) hfree
      rw [hrd, if_neg (fun hc : y = x => hxfl (hc ▸ hy))]
    · refine linked_congr _ _ _ _ _ _ _ (fun y _ b hb hbl hP => ?_) hino
      by_cases hyx : y = x
      · subst hyx
        obtain ⟨n1, _, _⟩ := hnext b hb
        exact ⟨bx1, by rw [hrd, if_pos rfl], hlen, trivial, n1⟩
      · exact ⟨b, by rw [hrd, if_neg hyx, hb], hbl, hP, rfl⟩
  · intro p hp
    obtain ⟨xb, hxb, hlk, hsz⟩ := hinv.data p hp
    have hfr : Linked a s1 DATA_NEXT_BLOCK_OFFSET (fun _ => True)
        (readInt xb INODE_DATA_BLOCK_OFFSET) p.2 := by
      refine linked_frame _ _ _ _ _ _ _ (fun y hy => ?_) hlk
      rw [hrd, if_neg (fun hc : y = x => hij x hx (hc ▸ mem_chains fs p hp y hy))]
    by_cases hpx : p.1 = x
    · obtain ⟨_, n6, n10⟩ := hnext xb (hpx ▸ hxb)
      refine ⟨bx1, by rw [hrd, if_pos hpx], ?_, ?_⟩
      · rw [n10]
        exact hfr
      · rw [n6]
        exact hsz
    · exact ⟨xb, by rw [hrd, if_neg hpx, hxb], hfr, hsz⟩

/-- The shape `VolInv` depends on the blocks, the registry and the descriptor
table only. -/
theorem volInv_transfer (a : Int) (n : Nat) (fl : List Int) (fs : List (Int × List Int))
    (s s1 : State)
    (hinv : VolInv a n fl fs s)
    (hact : s1.activeDisk = s.activeDisk) (hblocks : diskBlocks s1 a = diskBlocks s a)
    (hrd : ∀ b, readBlock a b s1 = readBlock a b s)
    (htable : ∃ t, s1.fileDescriptorTable = some t ∧ s1.maxNumberOfFiles = Int.ofNat t.length ∧
      (∀ (i : Nat) (en : fileDescriptorTableEntry), t[i]? = some (some en) →
        en.inodeNumber ∈ fs.map Prod.fst) ∧
      ∀ (i j : Nat) (en1 en2 : fileDescriptorTableEntry),
        t[i]? = some (some en1) → t[j]? = some (some en2) →
        en1.inodeNumber = en2.inodeNumber → i = j) :
    VolInv a n fl fs s1 := by
  obtain ⟨sb, hsb, hsbl, hfree, hino⟩ := hinv.super
  refine ⟨hact.trans hinv.active, hinv.active_ne, hblocks.trans hinv.blocks, ?_, ?_, hinv.nodup,
    hinv.count, htable⟩
  · exact ⟨sb, by rw [hrd, hsb], hsbl, linked_frame _ _ _ _ _ _ _ (fun y _ => hrd y) hfree,
      linked_frame _ _ _ _ _ _ _ (fun y _ => hrd y) hino⟩
  · intro p hp
    obtain ⟨xb, hxb, hlk, hsz⟩ := hinv.data p hp
    exact ⟨xb, by rw [hrd, hxb], linked_frame _ _ _ _ _ _ _ (fun y _ => hrd y) hlk, hsz⟩

theorem tfs_closeFile_volInv (e : Errno) (fd : Int) (s s1 : State) (c : Int) (a : Int)
    (n : Nat) (fl : List Int) (fs : List (Int × List Int)) (hinv : VolInv a n fl fs s)
    (h : tfs_closeFile e fd s = .ret c s1) : VolInv a n fl fs s1 := by
  unfold tfs_closeFile at h
  split at h
  · exact absurd h (by simp)
  · simp only [Outcome.ret.injEq] at h
    rw [← h.2]
    exact hinv
  · split at h
    · simp only [Outcome.ret.injEq] at h
      rw [← h.2]
      exact hinv
    · split at h
      · simp only [Outcome.ret.injEq] at h
        rw [← h.2]
        exact hinv
      · simp only [Outcome.ret.injEq] at h
        rw [← h.2]
        obtain ⟨t, ht, hmax, hmem, hdist⟩ := hinv.table
        refine volInv_transfer a n fl fs s _ hinv rfl rfl
          (fun b => readBlock_congr _ _ _ _ rfl rfl) ⟨t.set fd.toNat none, ?_, ?_, ?_, ?_⟩
        · simp only [ht, Option.map_some']
        · simp only [List.length_set]
          exact hmax
        · intro i en hen
          rcases getElem?_set_some _ _ _ _ _ hen with ⟨_, hold⟩ | ⟨_, hnew⟩
          · exact hmem i en hold
          · exact absurd hnew (by simp)
        · intro i j en1 en2 h1 h2 heq
          rcases getElem?_set_some _ _ _ _ _ h1 with ⟨_, hold1⟩ | ⟨_, hnew⟩
          · rcases getElem?_set_some _ _ _ _ _ h2 with ⟨_, hold2⟩ | ⟨_, hnew⟩
            · exact hdist i j en1 en2 hold1 hold2 heq
            · exact absurd hnew (by simp)
          · exact absurd hnew (by simp)

theorem tfs_rename_volInv (e : Errno) (fd : Int) (newName : List Nat) (clock : Nat → Nat)
    (s s1 : State) (c : Int) (a : Int) (n : Nat) (fl : List Int) (fs : List (Int × List Int))
    (hinv : VolInv a n fl fs s)
    (h : tfs_rename e fd newName clock s = .ret c s1) : VolInv a n fl fs s1 := by
  unfold tfs_rename at h
  split at h
  · simp only [Outcome.ret.injEq] at h
    rw [← h.2]
    exact hinv
  · rename_i hlong
    split at h
    · simp only [Outcome.ret.injEq] at h
      rw [← h.2]
      exact hinv
    · split at h
      · exact absurd h (by simp)
      · simp only [Outcome.ret.injEq] at h
        rw [← h.2]
        exact hinv
      · rename_i en hen
        simp only at h
        split at h
        · simp only [Outcome.ret.injEq] at h
          rw [← h.2]
          exact hinv
        · rename_i ib hib
          rw [hinv.active] at hib h
          obtain ⟨t, ht, hmax, hmem, hdist⟩ := hinv.table
          rw [ht] at hen
          obtain ⟨l, hl, hfd0, hget⟩ := tableGet_some _ _ _ hen
          simp only [Option.some.injEq] at hl
          subst hl
          have hx : en.inodeNumber ∈ fs.map Prod.fst := hmem _ en hget
          obtain ⟨sb, _, _, _, hino⟩ := hinv.super
          obtain ⟨_, b0, hb0, hb0l, _⟩ := linked_mem _ _ _ _ _ _ hino _ hx
          have hsame : b0 = ib := by
            rw [hib] at hb0
            exact (Option.some.inj hb0).symm
          subst hsame
          have h8 : strlen newName ≤ 8 := by
            unfold MAX_FILE_NAME_SIZE at hlong
            omega
          obtain ⟨rl, _, _, _, _, _, r2, r6, r10⟩ := renamed_fields b0 newName clock hb0l h8
          generalize hbuf : memcpy (memcpy (memsetZero b0 INODE_FILE_NAME_OFFSET
            MAX_FILE_NAME_SIZE) INODE_FILE_NAME_OFFSET (cstr newName))
            INODE_MOD_TIME_STAMP_OFFSET (getTimestamp clock) = buf at h
          have hbuf2 : buf = memcpy (memcpy (memsetZero b0 14 9) 14 (cstr newName)) 48
              (getTimestamp clock) := hbuf.symm
          have hs1 : s1 = (writeBlock a en.inodeNumber buf s).2 := by
            split at h
            · simp only [Outcome.ret.injEq] at h
              exact h.2.symm
            · simp only [Outcome.ret.injEq] at h
              exact h.2.symm
          rw [hs1]
          refine volInv_update a n fl fs s _ en.inodeNumber buf hinv hx
            (writeBlock_activeDisk _ _ _ _) (diskBlocks_writeBlock _ _ _ _ _)
            (fun b => readBlock_writeBlock _ _ _ _ b0 _ hib) ?_ ?_ ?_
          · rw [hbuf2]
            exact rl
          · intro bx hbx
            have : bx = b0 := by
              rw [hib] at hbx
              exact (Option.some.inj hbx).symm
            subst this
            rw [hbuf2]
            exact ⟨r2, r6, r10⟩
          · refine ⟨t, ?_, ?_, hmem, hdist⟩
            · rw [writeBlock_table, ht]
            · rw [writeBlock_maxFiles, hmax]

theorem openExisting_volInv (e : Errno) (clock : Nat → Nat) (s s1 : State) (a : Int)
    (n : Nat) (fl : List Int) (fs : List (Int × List Int)) (hinv : VolInv a n fl fs s) (x : Int) (buf : Block)
    (c : Int) (hx : x ∈ fs.map Prod.fst) (hbuf : readBlock a x s = some buf)
    (h : openExisting e clock x buf s = .ret c s1) : VolInv a n fl fs s1 := by
  unfold openExisting at h
  obtain ⟨t, ht, hmax, hmem, hdist⟩ := hinv.table
  cases hao : alreadyOpen s.fileDescriptorTable s.maxNumberOfFiles x with
  | none =>
    rw [hao] at h
    exact absurd h (by simp)
  | some r =>
    rw [hao] at h
    cases r with
    | true =>
      simp only [Outcome.ret.injEq] at h
      rw [← h.2]
      exact hinv
    | false =>
      simp only at h
      rw [ht] at h hao
      simp only at h
      have hnot := alreadyOpen_false t _ x hmax hao
      cases hfe : firstEmpty t with
      | none =>
        rw [hfe] at h
        exact absurd h (by simp)
      | some fd =>
        rw [hfe] at h
        simp only at h
        generalize htab : (some (t.set fd (some { inodeNumber := x, filePointer := 0 }))
          : Option (List (Option fileDescriptorTableEntry))) = tab at h
        generalize hs1 : ({ s with fileDescriptorTable := tab } : State) = sT at h
        have hTa : sT.activeDisk = a := by rw [← hs1]; exact hinv.active
        have hrdT : ∀ b, readBlock a b sT = readBlock a b s := by
          intro b
          rw [← hs1]
          exact readBlock_congr _ _ _ _ rfl rfl
        generalize hbuf1 : memcpy (memsetZero buf INODE_ACC_TIME_STAMP_OFFSET TIMESTAMP_BUFFER_SIZE)
          INODE_ACC_TIME_STAMP_OFFSET (getTimestamp clock) = buf1 at h
        obtain ⟨sb, _, _, _, hino⟩ := hinv.super
        obtain ⟨_, b0, hb0, hlen0, _⟩ := linked_mem _ _ _ _ _ _ hino x hx
        have hb0buf : b0 = buf := by
          rw [hbuf] at hb0
          exact (Option.some.inj hb0).symm
        subst hb0buf
        have hs1eq : s1 = (writeBlock a x buf1 sT).2 := by
          rw [hinv.active] at h
          split at h
          · simp only [Outcome.ret.injEq] at h
            exact h.2.symm
          · simp only [Outcome.ret.injEq] at h
            exact h.2.symm
        have hrdx : readBlock a x sT = some b0 := by rw [hrdT, hbuf]
        rw [hs1eq]
        refine volInv_update a n fl fs s _ x buf1 hinv hx ?_ ?_ ?_ ?_ ?_ ?_
        · rw [writeBlock_activeDisk, ← hs1]
        · rw [diskBlocks_writeBlock, ← hs1]
          rfl
        · intro b
          rw [readBlock_writeBlock _ _ _ _ b0 _ hrdx, hrdT]
        · rw [← hbuf1]
          exact length_stamp b0 clock hlen0
        · intro bx hbx
          have : bx = b0 := by
            rw [hbuf] at hbx
            exact (Option.some.inj hbx).symm
          subst this
          rw [← hbuf1]
          exact ⟨by rw [INODE_NEXT_INODE_OFFSET, readInt_stamp bx clock 2 hlen0 (by omega)],
            by rw [INODE_FILE_SIZE_OFFSET, readInt_stamp bx clock 6 hlen0 (by omega)],
            by rw [INODE_DATA_BLOCK_OFFSET, readInt_stamp bx clock 10 hlen0 (by omega)]⟩
        · refine ⟨t.set fd (some { inodeNumber := x, filePointer := 0 }), ?_, ?_, ?_, ?_⟩
          · rw [writeBlock_table, ← hs1, ← htab]
          · rw [writeBlock_maxFiles, ← hs1, List.length_set]
            exact hmax
          · intro i en hen
            rcases getElem?_set_some _ _ _ _ _ hen with ⟨_, hold⟩ | ⟨_, hnew⟩
            · exact hmem i en hold
            · simp only [Option.some.injEq] at hnew
              subst hnew
              exact hx
          · intro i j en1 en2 h1 h2 heq
            rcases getElem?_set_some _ _ _ _ _ h1 with ⟨_, hold1⟩ | ⟨hi, hnew1⟩
            · rcases getElem?_set_some _ _ _ _ _ h2 with ⟨_, hold2⟩ | ⟨_, hnew2⟩
              · exact hdist i j en1 en2 hold1 hold2 heq
              · simp only [Option.some.injEq] at hnew2
                subst hnew2
                exact absurd heq (hnot i en1 hold1)
            · simp only [Option.some.injEq] at hnew1
              subst hnew1
              rcases getElem?_set_some _ _ _ _ _ h2 with ⟨_, hold2⟩ | ⟨hj, _⟩
              · exact absurd heq.symm (hnot j en2 hold2)
              · rw [hi, hj]

theorem openCreate_volInv (e : Errno) (name : List Nat) (clock : Nat → Nat) (s s1 : State)
    (a : Int) (n : Nat) (fl : List Int) (fs : List (Int × List Int))
    (hinv : VolInv a n fl fs s) (sb : Block) (c : Int)
    (hsb : readBlock a SUPER_BLOCK s = some sb)
    (h : openCreate e name clock sb s = .ret c s1) :
    ∃ fl1 fs1, VolInv a n fl1 fs1 s1 := by
  obtain ⟨sb0, hsb0, hsbl, hfree, hino⟩ := hinv.super
  have hsame : sb0 = sb := by
    rw [hsb] at hsb0
    exact (Option.some.inj hsb0).symm
  subst hsame
  cases fl with
  | nil =>
    have hfree0 : readInt sb0 FB_OFFSET = 0 := hfree
    unfold openCreate at h
    simp only at h
    rw [if_pos hfree0] at h
    simp only [Outcome.ret.injEq] at h
    rw [← h.2]
    exact ⟨[], fs, hinv⟩
  | cons f fl1 =>
    obtain ⟨hf, hf0, fb, hfb, hfbl, _, hrest⟩ := hfree
    have hfne : readInt sb0 FB_OFFSET ≠ 0 := by rw [hf]; exact hf0
    obtain ⟨t, ht, hmax, hmem, hdist⟩ := hinv.table
    have hsbA : readBlock s.activeDisk SUPER_BLOCK s = some sb0 := by rw [hinv.active, hsb]
    have hfbA : readBlock s.activeDisk (readInt sb0 FB_OFFSET) s = some fb := by
      rw [hinv.active, hf, hfb]
    rw [openCreate_cases e name clock s sb0 fb t hsbA hsbl hfne hfbA ht] at h
    by_cases hbig : BLOCKSIZE < INODE_FILE_NAME_OFFSET + strlen name
    · rw [if_pos hbig] at h
      exact absurd h (by simp)
    · rw [if_neg hbig] at h
      cases hfe : firstEmpty t with
      | none =>
        rw [hfe] at h
        exact absurd h (by simp)
      | some fd =>
        rw [hfe] at h
        simp only [Outcome.ret.injEq] at h
        obtain ⟨_, hs1⟩ := h
        subst hs1
        obtain ⟨ha, hmx, hdl, htab, hrd⟩ :=
          createdState_reads s sb0 fb name clock t fd hsbA hfne hfbA
        rw [hinv.active, hf] at hrd
        unfold BLOCKSIZE INODE_FILE_NAME_OFFSET at hbig
        obtain ⟨nl, _, _, nr2, nr6, nr10⟩ :=
          newInode_fields fb (readInt sb0 IB_OFFSET) name clock hfbl (by omega)
        have hwrap : wrap32 (readInt sb0 IB_OFFSET) = readInt sb0 IB_OFFSET :=
          wrap32_of_range _ (readInt_range _ _).1 (readInt_range _ _).2
        have hnd : (f :: (fl1 ++ (fs.map Prod.fst ++ (fs.map Prod.snd).flatten))).Nodup := by
          have := hinv.nodup
          simpa [List.append_assoc] using this
        have hfnot : f ∉ fl1 ++ (fs.map Prod.fst ++ (fs.map Prod.snd).flatten) :=
          (List.nodup_cons.mp hnd).1
        have hframe : ∀ y, y ≠ 0 → y ≠ f →
            readBlock a y (createdState s sb0 fb name clock t fd) = readBlock a y s := by
          intro y hy0 hyf
          rw [hrd, if_neg hyf, if_neg (show ¬ y = SUPER_BLOCK from hy0)]
        refine ⟨fl1, (f, []) :: fs, ?_, hinv.active_ne, ?_, ?_, ?_, ?_, ?_, ?_⟩
        · rw [ha, hinv.active]
        · unfold diskBlocks
          rw [hdl]
          exact hinv.blocks
        · refine ⟨createdSuper sb0 fb, ?_, ?_, ?_, ?_⟩
          · rw [hrd, if_neg (fun hc : SUPER_BLOCK = f => hf0 hc.symm), if_pos rfl]
          · unfold createdSuper FB_OFFSET IB_OFFSET
            rw [length_writeInt _ _ _ (by rw [length_writeInt _ _ _ (by omega)]; omega),
              length_writeInt _ _ _ (by omega), hsbl]
          · have hfbhead : readInt (createdSuper sb0 fb) FB_OFFSET =
                readInt fb FREE_NEXT_BLOCK_OFFSET := by
              unfold createdSuper
              unfold FB_OFFSET IB_OFFSET FREE_NEXT_BLOCK_OFFSET
              rw [readInt_writeInt_disjoint _ _ _ _
                (by rw [length_writeInt _ _ _ (by omega)]; omega) (by omega),
                readInt_writeInt_same _ _ _ (by omega),
                wrap32_of_range _ (readInt_range _ _).1 (readInt_range _ _).2]
            rw [hfbhead]
            refine linked_frame _ _ _ _ _ _ _ (fun y hy => ?_) hrest
            exact hframe y (linked_mem _ _ _ _ fl1 _ hrest y hy).1
              (fun hc => hfnot (List.mem_append_left _ (hc ▸ hy)))
          · have hibhead : readInt (createdSuper sb0 fb) IB_OFFSET = f := by
              unfold createdSuper
              unfold FB_OFFSET IB_OFFSET
              rw [readInt_writeInt_same _ _ _
                (by rw [length_writeInt _ _ _ (by omega)]; omega),
                wrap32_of_range _ (readInt_range _ _).1 (readInt_range _ _).2]
              exact hf
            rw [hibhead]
            simp only [List.map_cons]
            refine ⟨rfl, hf0, newInode fb (readInt sb0 IB_OFFSET) name clock, ?_, nl, trivial, ?_⟩
            · rw [hrd, if_pos rfl]
            · rw [nr2, hwrap]
              refine linked_frame _ _ _ _ _ _ _ (fun y hy => ?_) hino
              exact hframe y (linked_mem _ _ _ _ _ _ hino y hy).1
                (fun hc => hfnot (List.mem_append_right _ (List.mem_append_left _ (hc ▸ hy))))
        · intro p hp
          rcases List.mem_cons.mp hp with hpf | hpfs
          · subst hpf
            refine ⟨newInode fb (readInt sb0 IB_OFFSET) name clock, by rw [hrd, if_pos rfl], ?_,
              fun _ => rfl⟩
            rw [nr10]
            exact rfl
          · obtain ⟨xb, hxb, hlk, hsz⟩ := hinv.data p hpfs
            have hp1 : p.1 ∈ fs.map Prod.fst := List.mem_map_of_mem _ hpfs
            refine ⟨xb, ?_, ?_, hsz⟩
            · rw [hframe p.1 (linked_mem _ _ _ _ _ _ hino p.1 hp1).1
                (fun hc => hfnot (List.mem_append_right _ (List.mem_append_left _ (hc ▸ hp1)))),
                hxb]
            · refine linked_frame _ _ _ _ _ _ _ (fun y hy => ?_) hlk
              exact hframe y (linked_mem _ _ _ _ _ _ hlk y hy).1
                (fun hc => hfnot (List.mem_append_right _ (List.mem_append_right _
                  (hc ▸ mem_chains fs p hpfs y hy))))
        · have hperm : List.Perm (fl1 ++ List.map Prod.fst ((f, []) :: fs) ++
              (List.map Prod.snd ((f, []) :: fs)).flatten)
              (f :: fl1 ++ List.map Prod.fst fs ++ (List.map Prod.snd fs).flatten) := by
            rw [List.perm_iff_count]
            intro z
            simp only [List.count_append, List.count_cons, List.map_cons, List.flatten_cons,
              List.nil_append, List.cons_append]
            omega
          exact hperm.nodup_iff.mpr hinv.nodup
        · have := hinv.count
          simp only [List.length_cons, List.map_cons, List.flatten_cons, List.nil_append]
            at this ⊢
          omega
        · refine ⟨_, htab, ?_, ?_, ?_⟩
          · rw [hmx, List.length_set]
            exact hmax
          · intro i en hen
            rcases getElem?_set_some _ _ _ _ _ hen with ⟨_, hold⟩ | ⟨_, hnew⟩
            · exact List.mem_cons_of_mem _ (hmem i en hold)
            · simp only [Option.some.injEq] at hnew
              subst hnew
              rw [hf]
              exact List.mem_cons_self _ _
          · intro i j en1 en2 h1 h2 heq
            rcases getElem?_set_some _ _ _ _ _ h1 with ⟨_, hold1⟩ | ⟨hi, hnew1⟩
            · rcases getElem?_set_some _ _ _ _ _ h2 with ⟨_, hold2⟩ | ⟨_, hnew2⟩
              · exact hdist i j en1 en2 hold1 hold2 heq
              · simp only [Option.some.injEq] at hnew2
                subst hnew2
                simp only at heq
                rw [hf] at heq
                exact absurd (hmem i en1 hold1) (fun hc => hfnot (List.mem_append_right _
                  (List.mem_append_left _ (heq ▸ hc))))
            · simp only [Option.some.injEq] at hnew1
              subst hnew1
              rcases getElem?_set_some _ _ _ _ _ h2 with ⟨_, hold2⟩ | ⟨hj, _⟩
              · simp only at heq
                rw [hf] at heq
                exact absurd (hmem j en2 hold2) (fun hc => hfnot (List.mem_append_right _
                  (List.mem_append_left _ (heq.symm ▸ hc))))
              · rw [hi, hj]

theorem tfs_openFile_volInv (e : Errno) (name : List Nat) (clock : Nat → Nat) (s s1 : State)
    (a : Int) (n : Nat) (fl : List Int) (fs : List (Int × List Int)) (hinv : VolInv a n fl fs s) (c : Int)
    (h : tfs_openFile e name clock s = .ret c s1) :
    ∃ fl1 fs1, VolInv a n fl1 fs1 s1 := by
  obtain ⟨sb, hsb, _, _, hino⟩ := hinv.super
  have hact := hinv.active
  unfold tfs_openFile at h
  rw [hact, hsb] at h
  simp only at h
  split at h
  · rename_i hhead
    split at h
    · rename_i i buf hfound
      subst hact
      obtain ⟨hm, hr⟩ := searchInode_found_linked name s _ _ _ _ i buf hhead hino hfound
      exact ⟨fl, fs, openExisting_volInv e clock s s1 _ n fl fs hinv i buf c hm hr h⟩
    · simp only [Outcome.ret.injEq] at h
      rw [← h.2]
      exact ⟨fl, fs, hinv⟩
    · exact absurd h (by simp)
    · exact absurd h (by simp)
    · exact openCreate_volInv e name clock s s1 a n fl fs hinv sb c hsb h
  · exact openCreate_volInv e name clock s s1 a n fl fs hinv sb c hsb h

theorem mem_split_fst (fs : List (Int × List Int)) (x : Int) (hx : x ∈ fs.map Prod.fst) :
    ∃ pre dl post, fs = pre ++ (x, dl) :: post := by
  obtain ⟨p, hp, hpx⟩ := List.mem_map.mp hx
  obtain ⟨pre, post, hsplit⟩ := List.append_of_mem hp
  refine ⟨pre, p.2, post, ?_⟩
  rw [hsplit, ← hpx]

theorem mem_without (pre post : List Int) (x z : Int) (h : z ∈ pre ++ x :: post)
    (hne : z ≠ x) : z ∈ pre ++ post := by
  rcases List.mem_append.mp h with h1 | h1
  · exact List.mem_append_left _ h1
  · rcases List.mem_cons.mp h1 with h2 | h2
    · exact absurd h2 hne
    · exact List.mem_append_right _ h2

theorem tfs_deleteFile_volInv (e : Errno) (fd : Int) (s s1 : State) (c : Int) (a : Int)
    (n : Nat) (fl : List Int) (fs : List (Int × List Int)) (hinv : VolInv a n fl fs s)
    (h : tfs_deleteFile e fd s = .ret c s1) : ∃ fl1 fs1, VolInv a n fl1 fs1 s1 := by
  obtain ⟨t, ht, hmax, hmem, hdist⟩ := hinv.table
  obtain ⟨sb, hsb, hsbl, hfree, hino⟩ := hinv.super
  cases htg : tableGet s.fileDescriptorTable fd with
  | none =>
    unfold tfs_deleteFile at h
    rw [htg] at h
    exact absurd h (by simp)
  | some slot =>
    cases slot with
    | none =>
      unfold tfs_deleteFile at h
      rw [htg] at h
      simp only [Outcome.ret.injEq] at h
      rw [← h.2]
      exact ⟨fl, fs, hinv⟩
    | some en =>
      obtain ⟨l, hl, hfd0, hget⟩ := tableGet_some _ _ _ htg
      rw [ht] at hl
      simp only [Option.some.injEq] at hl
      subst hl
      have hx : en.inodeNumber ∈ fs.map Prod.fst := hmem _ en hget
      obtain ⟨pre, dl, post, hsplit⟩ := mem_split_fst fs _ hx
      subst hsplit
      have hpmem : (en.inodeNumber, dl) ∈ pre ++ (en.inodeNumber, dl) :: post :=
        List.mem_append_right _ (List.mem_cons_self _ _)
      obtain ⟨xb, hxb, hdl, _⟩ := hinv.data _ hpmem
      simp only at hxb hdl
      have hnodup := hinv.nodup
      simp only [List.map_append, List.map_cons, List.flatten_append, List.flatten_cons]
        at hnodup hino
      have hperm : List.Perm
          (fl ++ (pre.map Prod.fst ++ en.inodeNumber :: post.map Prod.fst) ++
            ((pre.map Prod.snd).flatten ++ (dl ++ (post.map Prod.snd).flatten)))
          ((fl ++ (pre.map Prod.fst ++ en.inodeNumber :: post.map Prod.fst) ++ dl) ++
            ((pre.map Prod.snd).flatten ++ (post.map Prod.snd).flatten)) := by
        rw [List.perm_iff_count]
        intro z
        simp only [List.count_append, List.count_cons]
        omega
      have hnd2 := hperm.nodup_iff.mp hnodup
      have hnd : (fl ++ (pre.map Prod.fst ++ en.inodeNumber :: post.map Prod.fst) ++ dl).Nodup :=
        List.Nodup.of_append_left hnd2
      have htg2 : tableGet (some t) fd = some (some en) := by rw [← ht]; exact htg
      obtain ⟨s2, sb1, hdel, h2a, h2d, h2m, h2t, hsb1, hsb1l, hfb1, hib1, hfree1, hino1, _,
        hframe, hprev⟩ :=
        tfs_deleteFile_spec e fd s a fl (pre.map Prod.fst) (post.map Prod.fst) dl t en sb xb
          hinv.active hinv.active_ne hsb hsbl hfree hino hxb hdl hnd ht hmax htg2
      rw [hdel] at h
      simp only [Outcome.ret.injEq] at h
      obtain ⟨_, hs⟩ := h
      subst hs
      -- the blocks that are neither freed nor the inode in front keep their content
      have hdisj := (List.nodup_append.mp hnd2).2.2
      have hnot : ∀ z, z ∈ (pre.map Prod.snd).flatten ++ (post.map Prod.snd).flatten →
          z ∉ fl ++ (pre.map Prod.fst ++ en.inodeNumber :: post.map Prod.fst) ++ dl :=
        fun z hz hc => hdisj hc hz
      obtain ⟨_, hndil, _, _, _, hildl⟩ := nodup_parts _ _ _ hnd
      have hxpre : en.inodeNumber ∉ pre.map Prod.fst ++ post.map Prod.fst := by
        intro hc
        have := List.nodup_middle.mp hndil
        exact (List.nodup_cons.mp this).1 hc
      have hchain : ∀ p ∈ pre ++ post, ∀ y ∈ p.2,
          readBlock a y s2 = readBlock a y s := by
        intro p hp y hy
        have hyJ : y ∈ (pre.map Prod.snd).flatten ++ (post.map Prod.snd).flatten := by
          rw [← List.flatten_append, ← List.map_append]
          exact mem_chains _ p hp y hy
        have hyn := hnot y hyJ
        have hpfs : p ∈ pre ++ (en.inodeNumber, dl) :: post := by
          rcases List.mem_append.mp hp with h1 | h1
          · exact List.mem_append_left _ h1
          · exact List.mem_append_right _ (List.mem_cons_of_mem _ h1)
        obtain ⟨_, _, hlk, _⟩ := hinv.data p hpfs
        refine hframe y (linked_mem _ _ _ _ _ _ hlk y hy).1 ?_ ?_
        · intro hc
          rcases List.mem_cons.mp hc with h1 | h1
          · exact hyn (List.mem_append_left _ (List.mem_append_right _
              (List.mem_append_right _ (h1 ▸ List.mem_cons_self _ _))))
          · exact hyn (List.mem_append_right _ h1)
        · intro hc
          have hlast : y ∈ pre.map Prod.fst := List.mem_of_mem_getLast? hc
          exact hyn (List.mem_append_left _ (List.mem_append_right _
            (List.mem_append_left _ hlast)))
      refine ⟨en.inodeNumber :: (dl.reverse ++ fl), pre ++ post, h2a, hinv.active_ne,
        h2d.trans hinv.blocks, ?_, ?_, ?_, ?_, ?_⟩
      · refine ⟨sb1, hsb1, hsb1l, ?_, ?_⟩
        · rw [hfb1]
          exact hfree1
        · rw [List.map_append]
          exact hino1
      · intro p hp
        have hpfs : p ∈ pre ++ (en.inodeNumber, dl) :: post := by
          rcases List.mem_append.mp hp with h1 | h1
          · exact List.mem_append_left _ h1
          · exact List.mem_append_right _ (List.mem_cons_of_mem _ h1)
        obtain ⟨pb, hpb, hlk, hsz⟩ := hinv.data p hpfs
        have hp1 : p.1 ∈ pre.map Prod.fst ++ post.map Prod.fst := by
          rw [← List.map_append]
          exact List.mem_map_of_mem _ hp
        have hp1x : p.1 ≠ en.inodeNumber := fun hc => hxpre (hc ▸ hp1)
        have hp1il : p.1 ∈ pre.map Prod.fst ++ en.inodeNumber :: post.map Prod.fst := by
          rcases List.mem_append.mp hp1 with h1 | h1
          · exact List.mem_append_left _ h1
          · exact List.mem_append_right _ (List.mem_cons_of_mem _ h1)
        have hp10 : p.1 ≠ 0 := (linked_mem _ _ _ _ _ _ hino p.1 hp1il).1
        obtain ⟨_, pb0, hpb0, hpbl, _⟩ := linked_mem _ _ _ _ _ _ hino p.1 hp1il
        have hsame : pb0 = pb := by
          rw [hpb] at hpb0
          exact (Option.some.inj hpb0).symm
        subst hsame
        have hlk2 : Linked a s2 DATA_NEXT_BLOCK_OFFSET (fun _ => True)
            (readInt pb0 INODE_DATA_BLOCK_OFFSET) p.2 :=
          linked_frame _ _ _ _ _ _ _ (fun y hy => hchain p hp y hy) hlk
        by_cases hlast : (pre.map Prod.fst).getLast? = some p.1
        · refine ⟨writeInt pb0 INODE_NEXT_INODE_OFFSET (readInt xb INODE_NEXT_INODE_OFFSET),
            hprev p.1 pb0 hlast hpb, ?_, ?_⟩
          · unfold INODE_NEXT_INODE_OFFSET INODE_DATA_BLOCK_OFFSET
            rw [readInt_writeInt_disjoint _ _ _ _ (by omega) (by omega)]
            exact hlk2
          · unfold INODE_NEXT_INODE_OFFSET INODE_FILE_SIZE_OFFSET
            rw [readInt_writeInt_disjoint _ _ _ _ (by omega) (by omega)]
            exact hsz
        · refine ⟨pb0, ?_, hlk2, hsz⟩
          rw [hframe p.1 hp10 ?_ hlast, hpb]
          intro hc
          rcases List.mem_cons.mp hc with h1 | h1
          · exact hp1x h1
          · exact hildl p.1 hp1il h1
      · have hperm2 : List.Perm
            (en.inodeNumber :: (dl.reverse ++ fl) ++ List.map Prod.fst (pre ++ post) ++
              (List.map Prod.snd (pre ++ post)).flatten)
            (fl ++ (pre.map Prod.fst ++ en.inodeNumber :: post.map Prod.fst) ++
              ((pre.map Prod.snd).flatten ++ (dl ++ (post.map Prod.snd).flatten))) := by
          rw [List.perm_iff_count]
          intro z
          simp only [List.count_append, List.count_cons, List.map_append, List.flatten_append,
            List.count_reverse, List.cons_append]
          omega
        exact hperm2.nodup_iff.mpr hnodup
      · have := hinv.count
        simp only [List.length_cons, List.length_append, List.map_append, List.map_cons,
          List.flatten_append, List.flatten_cons, List.length_reverse] at this ⊢
        omega
      · refine ⟨t.set fd.toNat none, h2t, ?_, ?_, ?_⟩
        · rw [h2m, List.length_set]
          exact hmax
        · intro i en1 hen1
          rcases getElem?_set_some _ _ _ _ _ hen1 with ⟨hne, hold⟩ | ⟨_, hnew⟩
          · have hm1 := hmem i en1 hold
            simp only [List.map_append, List.map_cons] at hm1 ⊢
            refine mem_without _ _ _ _ hm1 ?_
            intro hc
            exact hne (hdist i fd.toNat en1 en hold hget hc)
          · exact absurd hnew (by simp)
        · intro i j en1 en2 h1 h2 heq
          rcases getElem?_set_some _ _ _ _ _ h1 with ⟨_, hold1⟩ | ⟨_, hnew⟩
          · rcases getElem?_set_some _ _ _ _ _ h2 with ⟨_, hold2⟩ | ⟨_, hnew⟩
            · exact hdist i j en1 en2 hold1 hold2 heq
            · exact absurd hnew (by simp)
          · exact absurd hnew (by simp)

theorem table_setFilePointer (t : List (Option fileDescriptorTableEntry)) (k i : Nat) (p : Int)
    (en1 : fileDescriptorTableEntry)
    (h : (t.set k ((t.getD k none).map (fun en => { en with filePointer := p })))[i]? =
      some (some en1)) :
    ∃ en0, t[i]? = some (some en0) ∧ en0.inodeNumber = en1.inodeNumber := by
  rcases getElem?_set_some _ _ _ _ _ h with ⟨_, hold⟩ | ⟨hik, hnew⟩
  · exact ⟨en1, hold, rfl⟩
  · subst hik
    rw [List.getD_eq_getElem?_getD] at hnew
    cases hti : t[i]? with
    | none =>
      rw [hti] at hnew
      exact absurd hnew (by simp)
    | some slot =>
      rw [hti] at hnew
      cases slot with
      | none => exact absurd hnew (by simp)
      | some en0 =>
        simp only [Option.getD_some, Option.map_some', Option.some.injEq] at hnew
        exact ⟨en0, rfl, by rw [← hnew]⟩

theorem take_drop_disjoint (fl : List Int) (n : Nat) (hnd : fl.Nodup) (y : Int)
    (h1 : y ∈ fl.take n) (h2 : y ∈ fl.drop n) : False := by
  have h := hnd
  rw [← List.take_append_drop n fl] at h
  exact (List.nodup_append.mp h).2.2 h1 h2

theorem tfs_writeFile_volInv (e : Errno) (fd : Int) (B : List Nat) (clock : Nat → Nat)
    (s s1 : State) (c : Int) (a : Int) (n : Nat) (fl : List Int) (fs : List (Int × List Int))
    (hinv : VolInv a n fl fs s) (hadm : admittedWrite s fd B.length = true)
    (h : tfs_writeFile e fd B (Int.ofNat B.length) clock s = .ret c s1) :
    ∃ fl1 fs1, VolInv a n fl1 fs1 s1 := by
  obtain ⟨t, ht, hmax, hmem, hdist⟩ := hinv.table
  obtain ⟨sb, hsb, hsbl, hfree, hino⟩ := hinv.super
  have hane : s.activeDisk ≠ 0 := by rw [hinv.active]; exact hinv.active_ne
  unfold admittedWrite at hadm
  cases htg : tableGet s.fileDescriptorTable fd with
  | none =>
    rw [htg] at hadm
    exact absurd hadm (by simp)
  | some slot =>
    cases slot with
    | none =>
      unfold tfs_writeFile at h
      rw [if_neg hane, htg] at h
      simp only [Outcome.ret.injEq] at h
      rw [← h.2]
      exact ⟨fl, fs, hinv⟩
    | some en =>
      rw [htg] at hadm
      simp only at hadm
      obtain ⟨l, hl, hfd0, hget⟩ := tableGet_some _ _ _ htg
      rw [ht] at hl
      simp only [Option.some.injEq] at hl
      subst hl
      have hx : en.inodeNumber ∈ fs.map Prod.fst := hmem _ en hget
      obtain ⟨pre, dl, post, hsplit⟩ := mem_split_fst fs _ hx
      subst hsplit
      have hpmem : (en.inodeNumber, dl) ∈ pre ++ (en.inodeNumber, dl) :: post :=
        List.mem_append_right _ (List.mem_cons_self _ _)
      obtain ⟨xb, hxb, hdl, hsz⟩ := hinv.data _ hpmem
      simp only at hxb hdl hsz
      obtain ⟨hx0, xb0, hxb0, hxbl, _⟩ := linked_mem _ _ _ _ _ _ hino _ hx
      have hsame : xb0 = xb := by
        rw [hxb] at hxb0
        exact (Option.some.inj hxb0).symm
      subst hsame
      have hisd : inodeSizeAndData s en.inodeNumber =
          some (readInt xb0 INODE_FILE_SIZE_OFFSET, readInt xb0 INODE_DATA_BLOCK_OFFSET) := by
        unfold inodeSizeAndData
        rw [hinv.active, hxb]
        rfl
      rw [hisd] at hadm
      simp only [decide_eq_true_eq] at hadm
      obtain ⟨hsize, hL1, hL2⟩ := hadm
      have hdnil : dl = [] := hsz hsize
      subst hdnil
      have hnodup := hinv.nodup
      simp only [List.map_append, List.map_cons, List.flatten_append, List.flatten_cons,
        List.nil_append] at hnodup hino
      obtain ⟨hndfl, hndil, hndJ, hfi, hfj, hij⟩ := nodup_parts _ _ _ hnodup
      have hxfl : en.inodeNumber ∉ fl := fun hc => hfi _ hc
        (List.mem_append_right _ (List.mem_cons_self _ _))
      generalize hm : (B.length + 249) / 250 = m
      obtain ⟨c1, s2, ib1, sb1, hwr, h2a, h2m, h2d, h2t, hsb1, hsb1l, hfb1, hib1, hxb1, hib1l,
        hnx1, hsz1, hdh1, hlk1, hframe⟩ :=
        tfs_writeFile_first_any e fd B clock s a en sb xb0 fl m hinv.active hinv.active_ne htg
          hsb hsbl hxb hxbl hsize hfree hndfl hx0 hxfl (by omega) (by omega) (by omega)
          (by omega)
      rw [hwr] at h
      simp only [Outcome.ret.injEq] at h
      obtain ⟨_, hs⟩ := h
      subst hs
      have hxpre : en.inodeNumber ∉ pre.map Prod.fst ++ post.map Prod.fst := by
        intro hc
        have := List.nodup_middle.mp hndil
        exact (List.nodup_cons.mp this).1 hc
      have hpfs : ∀ p, p ∈ pre ++ post → p ∈ pre ++ (en.inodeNumber, ([] : List Int)) :: post := by
        intro p hp
        rcases List.mem_append.mp hp with h1 | h1
        · exact List.mem_append_left _ h1
        · exact List.mem_append_right _ (List.mem_cons_of_mem _ h1)
      refine ⟨fl.drop m, pre ++ (en.inodeNumber, fl.take m) :: post, h2a, hinv.active_ne,
        h2d.trans hinv.blocks, ?_, ?_, ?_, ?_, ?_⟩
      · refine ⟨sb1, hsb1, hsb1l, ?_, ?_⟩
        · rw [hfb1]
          refine linked_frame _ _ _ _ _ _ _ (fun y hy => ?_) (linked_drop _ _ _ _ m fl _ hfree)
          have hyfl : y ∈ fl := List.mem_of_mem_drop hy
          exact hframe y (linked_mem _ _ _ _ _ _ hfree y hyfl).1
            (fun hc => hxfl (hc ▸ hyfl))
            (fun hc => take_drop_disjoint fl m hndfl y hc hy)
        · rw [hib1]
          simp only [List.map_append, List.map_cons]
          refine linked_congr _ _ _ _ _ _ _ (fun y hy b hb hbl hP => ?_) hino
          by_cases hyx : y = en.inodeNumber
          · subst hyx
            have hbx : b = xb0 := by
              rw [hxb] at hb
              exact (Option.some.inj hb).symm
            subst hbx
            exact ⟨ib1, hxb1, hib1l, trivial, hnx1⟩
          · refine ⟨b, ?_, hbl, hP, rfl⟩
            rw [hframe y (linked_mem _ _ _ _ _ _ hino y hy).1 hyx
              (fun hc => hfi y (List.mem_of_mem_take hc) hy), hb]
      · intro p hp
        have hcases : p = (en.inodeNumber, fl.take m) ∨ p ∈ pre ++ post := by
          rcases List.mem_append.mp hp with h1 | h1
          · exact Or.inr (List.mem_append_left _ h1)
          · rcases List.mem_cons.mp h1 with h2 | h2
            · exact Or.inl h2
            · exact Or.inr (List.mem_append_right _ h2)
        rcases hcases with hpx | hpo
        · subst hpx
          refine ⟨ib1, hxb1, ?_, ?_⟩
          · rw [hdh1]
            exact hlk1
          · intro h0
            exact absurd h0 hsz1
        · obtain ⟨pb, hpb, hlk, hszp⟩ := hinv.data p (hpfs p hpo)
          have hp1 : p.1 ∈ pre.map Prod.fst ++ post.map Prod.fst := by
            rw [← List.map_append]
            exact List.mem_map_of_mem _ hpo
          have hp1x : p.1 ≠ en.inodeNumber := fun hc => hxpre (hc ▸ hp1)
          have hp1il : p.1 ∈ pre.map Prod.fst ++ en.inodeNumber :: post.map Prod.fst := by
            rcases List.mem_append.mp hp1 with h1 | h1
            · exact List.mem_append_left _ h1
            · exact List.mem_append_right _ (List.mem_cons_of_mem _ h1)
          refine ⟨pb, ?_, ?_, hszp⟩
          · rw [hframe p.1 (linked_mem _ _ _ _ _ _ hino p.1 hp1il).1 hp1x
              (fun hc => hfi p.1 (List.mem_of_mem_take hc) hp1il), hpb]
          · refine linked_frame _ _ _ _ _ _ _ (fun y hy => ?_) hlk
            have hyJ : y ∈ (pre.map Prod.snd).flatten ++ (post.map Prod.snd).flatten := by
              rw [← List.flatten_append, ← List.map_append]
              exact mem_chains _ p hpo y hy
            exact hframe y (linked_mem _ _ _ _ _ _ hlk y hy).1
              (fun hc => hij y (hc ▸ (List.mem_append_right _ (List.mem_cons_self _ _))) hyJ)
              (fun hc => hfj y (List.mem_of_mem_take hc) hyJ)
      · have hperm2 : List.Perm
            (fl.drop m ++ List.map Prod.fst (pre ++ (en.inodeNumber, fl.take m) :: post) ++
              (List.map Prod.snd (pre ++ (en.inodeNumber, fl.take m) :: post)).flatten)
            (fl.take m ++ fl.drop m ++
              (pre.map Prod.fst ++ en.inodeNumber :: post.map Prod.fst) ++
              ((pre.map Prod.snd).flatten ++ (post.map Prod.snd).flatten)) := by
          rw [List.perm_iff_count]
          intro z
          simp only [List.count_append, List.count_cons, List.map_append, List.map_cons,
            List.flatten_append, List.flatten_cons]
          omega
        rw [List.take_append_drop] at hperm2
        exact hperm2.nodup_iff.mpr hnodup
      · have := hinv.count
        simp only [List.length_cons, List.length_append, List.map_append, List.map_cons,
          List.flatten_append, List.flatten_cons, List.length_nil, List.length_take,
          List.length_drop] at this ⊢
        omega
      · unfold setFilePointer at h2t
        simp only at h2t
        rw [ht] at h2t
        simp only [Option.map_some'] at h2t
        refine ⟨_, h2t, ?_, ?_, ?_⟩
        · rw [h2m, List.length_set]
          exact hmax
        · intro i en1 hen1
          obtain ⟨en0, h0, he0⟩ := table_setFilePointer _ _ _ _ _ hen1
          have := hmem i en0 h0
          rw [he0] at this
          simpa [List.map_append, List.map_cons] using this
        · intro i j en1 en2 h1 h2 heq
          obtain ⟨e1, g1, q1⟩ := table_setFilePointer _ _ _ _ _ h1
          obtain ⟨e2, g2, q2⟩ := table_setFilePointer _ _ _ _ _ h2
          exact hdist i j e1 e2 g1 g2 (by rw [q1, q2, heq])

theorem runCalls_volInv (e : Errno) (a : Int) (n : Nat) :
    ∀ (calls : List Call) (s s1 : State) (fl : List Int) (fs : List (Int × List Int)),
      VolInv a n fl fs s → runCalls e calls s = some s1 →
      ∃ fl1 fs1, VolInv a n fl1 fs1 s1 := by
  intro calls
  induction calls with
  | nil =>
    intro s s1 fl fs hinv h
    simp only [runCalls, Option.some.injEq] at h
    rw [← h]
    exact ⟨fl, fs, hinv⟩
  | cons call calls ih =>
    intro s s1 fl fs hinv h
    unfold runCalls at h
    by_cases hadm : admitted call s = true
    · rw [if_pos hadm] at h
      cases hcall : runCall e call s with
      | undefined =>
        rw [hcall] at h
        exact absurd h (by simp)
      | diverge =>
        rw [hcall] at h
        exact absurd h (by simp)
      | ret c s2 =>
        rw [hcall] at h
        simp only at h
        have hstep : ∃ fl2 fs2, VolInv a n fl2 fs2 s2 := by
          cases call with
          | openFile name clock => exact tfs_openFile_volInv e name clock s s2 a n fl fs hinv c hcall
          | closeFile fd => exact ⟨fl, fs, tfs_closeFile_volInv e fd s s2 c a n fl fs hinv hcall⟩
          | writeFile fd buffer clock =>
            exact tfs_writeFile_volInv e fd buffer clock s s2 c a n fl fs hinv hadm hcall
          | deleteFile fd => exact tfs_deleteFile_volInv e fd s s2 c a n fl fs hinv hcall
          | rename fd newName clock =>
            exact ⟨fl, fs, tfs_rename_volInv e fd newName clock s s2 c a n fl fs hinv hcall⟩
        obtain ⟨fl2, fs2, hinv2⟩ := hstep
        exact ih s2 s1 fl2 fs2 hinv2 h
    · rw [if_neg hadm] at h
      exact absurd h (by simp)

/-- C22 (as the code has it): `tfs_mkfs` keeps block 1 off both lists.  In every
state reached from a successful `tfs_mkfs` and `tfs_mount` by a sequence of
`tfs_openFile`, `tfs_closeFile`, `tfs_writeFile`, `tfs_deleteFile` and `tfs_rename`
calls that return (the empty sequence included), in which every `tfs_writeFile` on
an open descriptor is the first write to its file and has a size of at least 1,
the number of blocks reachable from the free-list head of the superblock, plus
the number of inode and data blocks reachable through the inode list, plus two,
for the superblock and block 1, equals the number of blocks `nBytes / 256`. -/
theorem free_list_conservation (e : Errno) (he : e.Negative) (path : String) (nBytes : Int)
    (s0 sA sB s : State) (d : Int) (calls : List Call)
    (hact : s0.activeDisk = 0)
    (hmk : tfs_mkfs e path nBytes s0 = (1, sA))
    (hmt : tfs_mount e path sA = .ret d sB)
    (hrun : runCalls e calls sB = some s) :
    ∃ f u, freeCount s = some f ∧ usedBlocks s = some u ∧
      Int.ofNat (f + u + 2) = nBytes / 256 := by
  have hcases := tfs_mkfs_cases e path nBytes s0
  rw [hmk] at hcases
  rcases hcases with hbad | ⟨h1, h2, hc, hcr⟩
  · have := he.1
    simp only at hbad
    omega
  · have hok := tfs_mkfs_ok e path nBytes s0 hc h1 h2 hcr
    rw [hmk] at hok
    simp only [Prod.mk.injEq, true_and] at hok
    subst hok
    rw [tfs_mount_after_mkfs e path nBytes s0 hc hact h1 h2] at hmt
    simp only [Outcome.ret.injEq] at hmt
    obtain ⟨_, hsB⟩ := hmt
    subst hsB
    obtain ⟨fl, fs, hinv⟩ := runCalls_volInv e _ _ calls _ s _ _
      (volInv_freshVolume s0 path nBytes hc h1 h2) hrun
    obtain ⟨hf, hu⟩ := volInv_counts _ _ fl fs s hinv
    refine ⟨fl.length, fs.length + (fs.map Prod.snd).flatten.length, hf, hu, ?_⟩
    have := hinv.count
    simp only [Int.ofNat_eq_coe]
    omega

set_option maxRecDepth 100000 in
theorem free_list_conservation_witness :
    runCalls sampleErrno sampleCalls fiveVolume = some fiveVolumeCalls ∧
    dataBlocks fiveVolumeCalls 2 = some [4] ∧
    ∃ f u, freeCount fiveVolumeCalls = some f ∧ usedBlocks fiveVolumeCalls = some u ∧
      Int.ofNat (f + u + 2) = 1280 / 256 :=
  ⟨rfl, by decide!,
    free_list_conservation sampleErrno (by decide) "t.dsk" 1280 freshProcess
      (afterMkfs freshProcess "t.dsk" 1280) fiveVolume fiveVolumeCalls 2 sampleCalls rfl
      (tfs_mkfs_ok sampleErrno "t.dsk" 1280 freshProcess (by decide) (by decide) (by decide) rfl)
      (tfs_mount_after_mkfs sampleErrno "t.dsk" 1280 freshProcess (by decide) rfl (by decide)
        (by decide))
      rfl⟩

set_option maxRecDepth 100000 in
/-- C22, counterexample: `tfs_mkfs("t.dsk", 1024)` returns 1 and `tfs_mount` returns
handle 2; the volume has `1024 / 256 = 4` blocks.  In the state right after the two
calls the free list holds the blocks 2 and 3 and the inode list is empty, so the
free blocks, the blocks reachable through inodes and the superblock are 3 blocks:
block 1 is on neither list. -/
theorem free_list_misses_block_one :
    (tfs_mkfs sampleErrno "t.dsk" 1024 freshProcess).1 = 1 ∧
    (tfs_mount sampleErrno "t.dsk"
      (tfs_mkfs sampleErrno "t.dsk" 1024 freshProcess).2).code? = some 2 ∧
    freeBlocks (stateOf (tfs_mount sampleErrno "t.dsk"
      (tfs_mkfs sampleErrno "t.dsk" 1024 freshProcess).2)) = some [2, 3] ∧
    freeCount (stateOf (tfs_mount sampleErrno "t.dsk"
      (tfs_mkfs sampleErrno "t.dsk" 1024 freshProcess).2)) = some 2 ∧
    usedBlocks (stateOf (tfs_mount sampleErrno "t.dsk"
      (tfs_mkfs sampleErrno "t.dsk" 1024 freshProcess).2)) = some 0 ∧
    (2 + 0 + 1 : Int) ≠ 1024 / 256 := by
  decide!

end TinyFS
